import Mathlib

/-!
# DynamicTrafficEngine: request evaluation

A shallow embedding of the Go packages `evaluation`, `modelfeature`,
`repository` and `task` (`RequestEvaluator.go`, `RuleBasedModelEvaluator.go`,
`ModelResult.go`, `ModelConfiguration.go`, `ConfigurationHandler.go`,
`ExperimentConfiguration.go`, `TrafficAllocator.go`, `LocalCache.go`,
`TaskInitializer.go`) together with the facts proved about them.

Conventions of the embedding

* A Go `map[K]V` is an association list with one entry per key. `range` over a
  map visits the entries in list order; a statement proved for every list
  therefore covers every order an iteration can take.
* A Go call that can panic returns an `Outcome`; the deferred `recover` of
  `RequestEvaluator.Evaluate` is the only place where a panic is caught.
* A Go result pair `(value, error)` is either a Lean pair whose second
  component is `Option Error` (interface methods, which may return anything)
  or an `Except Error` value (functions of the repository that return a nil
  value together with every error). An error carries the fixed text of its
  message; operands formatted with `%v` are left out.
* `float32` is modelled by its IEEE-754 binary32 encoding: a sign bit and the
  31 bits of exponent and fraction read as a natural number.
* A pointer that the repository never leaves nil is modelled by its target; a
  pointer or interface value that may be nil is an `Option`.
* Interface methods are functions of their arguments: a collaborator gives the
  same answer whenever it is asked during one evaluation.
* A `uint32` or `uint64` is a natural number; sums and left shifts are reduced
  modulo 2^32 or 2^64 where the Go operation is.
* A method that writes the fields of its receiver returns the receiver after the
  call next to its results. Locks are omitted: a method runs alone.
* A loader returns, next to the receiver and its results, the calls it made to
  its collaborators, in order.
* A cache of `ristretto` is a map from keys to items, each with its time to
  live; whether the cache takes an item it is given is an answer of the library.
  No clock runs: an item stays until it is replaced or its cache is cleared.
* An `int` or `int64` is an integer; a product or an increment that can leave
  the 64 bits is reduced to them with `wrapInt64`.
* A loop that Go does not bound runs for a given number of iterations (fuel).
* Logging is omitted.
-/

namespace DynamicTrafficEngine

/-! ## Go runtime -/

/-- Result of running Go code that may panic. -/
inductive Outcome (α : Type) where
  | ok (value : α)
  | panic
deriving Repr, DecidableEq

/-- Text carried by a Go `error` value. -/
abbrev Error := String

/-- The `int64` that holds the low 64 bits of an integer: the result of an `int64`
operation whose exact value is `n`. -/
def wrapInt64 (n : Int) : Int :=
  (n + 9223372036854775808) % 18446744073709551616 - 9223372036854775808

/-- Go `time.Duration`: a number of nanoseconds. -/
abbrev Duration := Int

/-- Go map, kept as an association list with one entry per key. -/
abbrev GoMap (κ ν : Type) := List (κ × ν)

namespace GoMap

/-- Map index expression `m[k]` in its two-result form. -/
def get? {κ ν : Type} [DecidableEq κ] : GoMap κ ν → κ → Option ν
  | [], _ => none
  | (k, v) :: rest, key => if k = key then some v else get? rest key

/-- Map assignment `m[k] = v`: replaces the entry in place or adds one. -/
def set {κ ν : Type} [DecidableEq κ] : GoMap κ ν → κ → ν → GoMap κ ν
  | [], key, value => [(key, value)]
  | (k, v) :: rest, key, value =>
    if k = key then (k, value) :: rest else (k, v) :: set rest key value

/-- Keys in iteration order. -/
def keys {κ ν : Type} (m : GoMap κ ν) : List κ := m.map Prod.fst

end GoMap

/-! ## float32 -/

/-- IEEE-754 binary32 value: the sign bit and the remaining 31 bits (biased
exponent and fraction) as a natural number. -/
structure Float32 where
  sign : Bool
  mag : Nat
deriving Repr, DecidableEq

namespace Float32

/-- Encoding of +Inf without its sign bit. -/
def infMag : Nat := 0x7F800000

/-- Positive zero, the literal `0.0`. -/
def zero : Float32 := ⟨false, 0⟩

/-- The literal `1.0`. -/
def one : Float32 := ⟨false, 0x3F800000⟩

/-- Largest finite value, `math.MaxFloat32`. -/
def maxFloat32 : Float32 := ⟨false, 0x7F7FFFFF⟩

/-- Positive infinity. -/
def posInf : Float32 := ⟨false, infMag⟩

/-- The NaN that `math.NaN()` yields after narrowing to binary32. -/
def canonicalNaN : Float32 := ⟨false, 0x7FC00000⟩

/-- Unary minus flips the sign bit. -/
def neg (x : Float32) : Float32 := ⟨!x.sign, x.mag⟩

def isNaN (x : Float32) : Bool := decide (infMag < x.mag)

def isInf (x : Float32) : Bool := decide (x.mag = infMag)

def isPosInf (x : Float32) : Bool := !x.sign && decide (x.mag = infMag)

/-- Order-preserving integer image of a value that is not NaN; both zeros map
to 0. -/
def key (x : Float32) : Int := if x.sign then -(x.mag : Int) else (x.mag : Int)

/-- Go `x > y`. -/
def gt (x y : Float32) : Bool := !x.isNaN && !y.isNaN && decide (y.key < x.key)

/-- Go `x >= y`. -/
def ge (x y : Float32) : Bool := !x.isNaN && !y.isNaN && decide (y.key ≤ x.key)

/-- Go `x == y`. -/
def eq (x y : Float32) : Bool := !x.isNaN && !y.isNaN && decide (x.key = y.key)

/-- Go `x <= y`. -/
def le (x y : Float32) : Bool := !x.isNaN && !y.isNaN && decide (x.key ≤ y.key)

/-- Position of the leading one bit of a magnitude below 256. -/
def leadingBit (a : Nat) : Nat :=
  ((List.range 7).filter (fun k => decide (2 ^ (k + 1) ≤ a))).length

/-- Conversion of an `int8` to floating point (exact: at most 8 significant
bits). -/
def ofInt8 (n : Int) : Float32 :=
  if n = 0 then zero
  else
    let a := n.natAbs
    let e := leadingBit a
    ⟨decide (n < 0), (127 + e) * 2 ^ 23 + (a - 2 ^ e) * 2 ^ (23 - e)⟩

/-- Go `math.Max`, applied to two binary32 values widened to float64 and
narrowed back; widening is exact and keeps the order, and the result is one of
the arguments, +Inf or NaN. -/
def mathMax (x y : Float32) : Float32 :=
  if x.isPosInf || y.isPosInf then posInf
  else if x.isNaN || y.isNaN then canonicalNaN
  else if x.eq zero && x.eq y then (if x.sign then y else x)
  else if x.gt y then x
  else y

end Float32

/-! ## Strings -/

/-- Go `strings.TrimPrefix(field, "$.")` on the characters of the field. -/
def trimDollarDot : List Char → List Char
  | '$' :: '.' :: rest => rest
  | cs => cs

/-- Whether the second list of characters begins the first. -/
def hasPrefix : List Char → List Char → Bool
  | _, [] => true
  | [], _ :: _ => false
  | c :: cs, p :: ps => if c = p then hasPrefix cs ps else false

/-- Go `strings.HasPrefix(s, start)`. -/
def stringsHasPrefix (s start : String) : Bool := hasPrefix s.toList start.toList

/-- Go `strings.TrimPrefix(s, start)`. -/
def stringsTrimPrefix (s start : String) : String :=
  if stringsHasPrefix s start then String.mk (s.toList.drop start.length) else s

/-- Go `strings.ReplaceAll(s, "[", ".[")`. -/
def dotBeforeBracket : List Char → List Char
  | [] => []
  | c :: rest => if c = '[' then '.' :: '[' :: dotBeforeBracket rest else c :: dotBeforeBracket rest

/-- Go `strings.Split(s, ".")`: the pieces between dots, at least one piece. -/
def splitDots : List Char → List (List Char)
  | [] => [[]]
  | c :: rest =>
    if c = '.' then [] :: splitDots rest
    else
      match splitDots rest with
      | [] => [[c]]
      | piece :: pieces => (c :: piece) :: pieces

/-- Go `strings.Join(pieces, ".")`. -/
def joinDots : List (List Char) → List Char
  | [] => []
  | [piece] => piece
  | piece :: next :: pieces => piece ++ '.' :: joinDots (next :: pieces)

/-- Go `strings.ReplaceAll(s, ".[", "[")`. -/
def dropDotBeforeBracket : List Char → List Char
  | [] => []
  | '.' :: '[' :: rest => '[' :: dropDotBeforeBracket rest
  | c :: rest => c :: dropDotBeforeBracket rest

/-- Go `strings.Join(values, sep)` on strings. -/
def stringsJoin (sep : String) : List String → String
  | [] => ""
  | [value] => value
  | value :: next :: values => value ++ sep ++ stringsJoin sep (next :: values)

/-- Byte-wise `<` on strings, the order in which `encoding/json` writes the
keys of a map. -/
def bytesLt : List Char → List Char → Bool
  | _, [] => false
  | [], _ :: _ => true
  | a :: as, b :: bs =>
    if a.toNat < b.toNat then true
    else if b.toNat < a.toNat then false
    else bytesLt as bs

/-! ## Data model (package `interfaces`) -/

structure Treatment where
  TreatmentCode : String
  Weight : Nat
deriving Repr, DecidableEq

structure ExperimentDefinition where
  Name : String
  Type_ : String
  Treatments : List Treatment
  StartTimeUTC : Int
  EndTimeUTC : Int
deriving Repr, DecidableEq

structure ExperimentConfiguration where
  Type_ : String
  ExperimentDefinitionByName : GoMap String ExperimentDefinition
  ModelToExperiment : GoMap String String
deriving Repr, DecidableEq

structure FeatureConfiguration where
  Name : String
  Fields : List String
  Transformations : List String
  Mapping : GoMap String String
  MappingDefaultValue : String
deriving Repr, DecidableEq

structure ModelDefinition where
  Identifier : String
  Name : String
  Dsp : String
  Version : String
  Type_ : String
  FeatureExtractorType : String
  Features : List FeatureConfiguration
deriving Repr, DecidableEq

structure ModelConfiguration where
  ModelDefinitionByIdentifier : GoMap String ModelDefinition
deriving Repr, DecidableEq

/-- A feature of a model; `Configuration` is the target of the Go pointer,
which the repository never leaves nil. -/
structure ModelFeature where
  Configuration : FeatureConfiguration
  Values : List String
deriving Repr, DecidableEq

structure ModelResult where
  Value : Float32
  Key : String
deriving Repr, DecidableEq

def ModelEvaluationStatusSuccess : String := "SUCCESS"

def ModelEvaluationStatusError : String := "ERROR"

def ModelEvaluationStatusTimeout : String := "TIMEOUT"

structure AggregatedModelEvaluationResult where
  ExperimentName : String
  ExperimentType : String
  TreatmentCode : String
  TreatmentCodeInInt : Int
  Score : Float32
  ScoreWithTreatment : Float32
  AggregationType : String
deriving Repr, DecidableEq

/-- Per-request allocation snapshot (`modelfeature.TrafficAllocationContext`). -/
structure TrafficAllocationContext where
  experimentArrangement : GoMap String String
  experimentDefinitionByName : GoMap String ExperimentDefinition
  modelToExperiment : GoMap String String
  modelsByExperiment : GoMap String (List String)
deriving Repr, DecidableEq

/-- Output of one model evaluation; `C` is the type of the context copy it
carries. -/
structure ModelEvaluatorOutputOf (C : Type) where
  Context : C
  Status : String
  ModelResult : ModelResult
  ModelDefinition : ModelDefinition
  ModelFeatures : List ModelFeature

/-- Request-scoped context (`interfaces.Context`). -/
structure Context where
  RequestId : String
  OpenRtbRequest : String
  OpenRtbRequestId : String
  TrafficAllocationContext : Option TrafficAllocationContext
  ModelEvaluatorOutputs : List (ModelEvaluatorOutputOf Context)
  AggregatedModelEvaluationResult : Option AggregatedModelEvaluationResult
  Errors : List String
  DebugMessages : List String

abbrev ModelEvaluatorOutput := ModelEvaluatorOutputOf Context

structure ModelEvaluatorInput where
  Context : Context
  OpenRtbRequest : String
  ModelDefinition : ModelDefinition
  FeatureFieldValueMap : GoMap String String

/-- Go `interfaces.NewContext()`: every field at its zero value. -/
def NewContext : Context :=
  { RequestId := "", OpenRtbRequest := "", OpenRtbRequestId := "",
    TrafficAllocationContext := none, ModelEvaluatorOutputs := [],
    AggregatedModelEvaluationResult := none, Errors := [], DebugMessages := [] }

def Context.AddError (c : Context) (error : String) : Context :=
  { c with Errors := c.Errors ++ [error] }

def Context.AddDebug (c : Context) (message : String) : Context :=
  { c with DebugMessages := c.DebugMessages ++ [message] }

/-! ## Allocation snapshot (`TrafficAllocator.go`) -/

def TreatmentGroupT : String := "T"

def ExperimentTypeSoftFilter : String := "soft-filter"

namespace TrafficAllocationContext

def GetModelIdentifiers (t : TrafficAllocationContext) : List String :=
  t.modelToExperiment.keys

def GetExperimentArrangement (t : TrafficAllocationContext) : GoMap String String :=
  t.experimentArrangement

def GetTreatmentCode (t : TrafficAllocationContext) (experimentName : String) : String :=
  match t.experimentArrangement.get? experimentName with
  | some code => code
  | none => ""

/-- Indexing the arrangement with an absent name yields the empty string,
which differs from `TreatmentGroupT`. -/
def GetTreatmentCodeInInt (t : TrafficAllocationContext) (experimentName : String) : Int :=
  if (t.experimentArrangement.get? experimentName).getD "" = TreatmentGroupT then 0 else 1

/-- First definition, in iteration order, whose type matches. -/
def GetExperimentDefinitionByType (t : TrafficAllocationContext) (experimentType : String) :
    Except Error ExperimentDefinition :=
  match t.experimentDefinitionByName.find? (fun e => decide (e.2.Type_ = experimentType)) with
  | some e => .ok e.2
  | none => .error ("ExperimentDefinition with type [" ++ experimentType ++ "] not found")

def GetModelsByExperiment (t : TrafficAllocationContext) : GoMap String (List String) :=
  t.modelsByExperiment

end TrafficAllocationContext

/-! ## Library routines -/

/-- An open `*os.File`: its name and what `Stat()` reports, the text
`ModTime().String()` or the error. -/
structure File where
  Name : String
  ModTime : Except Error String

/-- A record that `encoding/csv` reads: it has one or more fields, the first column
and the other columns. -/
structure CsvRecord where
  first : String
  others : List String
deriving Repr, DecidableEq

/-- Routines of the Go ecosystem that the repository calls and does not
define. -/
structure Library where
  /-- Decimal text `encoding/json` writes for a finite `float32`
  (`strconv.AppendFloat` with the shortest round-trip precision). -/
  formatFloat32 : Float32 → String
  /-- Go `jsonparser.EachKey(data, callback, paths...)`: the sequence of
  `(idx, value)` pairs the callback is invoked with, in order. -/
  EachKey : String → List (List String) → Outcome (List (Nat × String))
  /-- Text of the identifier `uuid.New()` hands out for the call. -/
  uuidNew : String
  /-- Whether `Cache.SetWithTTL` of `ristretto`, for the named cache and the key,
  takes the item it is given; an item it drops is not stored and the call returns
  false. -/
  cacheSet : String → String → Bool
  /-- Go `os.Open(name)`. -/
  osOpen : String → Except Error File
  /-- Go `filepath.Join(dir, name)`. -/
  filepathJoin : String → String → String
  /-- Go `json.Unmarshal` into an `interfaces.ModelConfiguration`. -/
  unmarshalModelConfiguration : String → Except Error ModelConfiguration
  /-- Go `json.Unmarshal` into an `interfaces.ExperimentConfiguration`. -/
  unmarshalExperimentConfiguration : String → Except Error ExperimentConfiguration
  /-- What the calls `reader.Read()` on `csv.NewReader` over the data return, in
  order, before `io.EOF`: a record or a parse error each. -/
  csvRead : String → List (Except Error CsvRecord)
  /-- What the conversion `int64(f)` gives for a `float64` whose value `f` no
  `int64` holds; Go leaves it to the implementation. -/
  int64OutOfRange : Int → Int

/-! ## Response (`RequestEvaluator.go`) -/

def ExtensionKeywordDecision : String := "decision"

def ExtensionKeywordLearning : String := "learning"

def ExtensionKeywordAmazonTest : String := "amazontest"

/-- Dynamic values the package stores in an extension mapping
(`map[string]any`): integers and `float32`. -/
inductive ExtValue where
  | int (n : Int)
  | float32 (f : Float32)
deriving Repr, DecidableEq

structure Slot where
  FilterDecision : Float32
  Ext : String
deriving Repr, DecidableEq

structure Response where
  Slots : List Slot
  Ext : String
deriving Repr, DecidableEq

structure BidRequestEvaluatorInput where
  OpenRtbRequest : String
  OpenRtbRequestMap : GoMap String String
deriving Repr, DecidableEq

structure BidRequestEvaluatorOutput where
  Response : Response
deriving Repr, DecidableEq

/-- JSON text of one value, or `none` where `json.Marshal` reports an
unsupported value (NaN and the infinities). -/
def jsonMarshalValue (lib : Library) : ExtValue → Option String
  | .int n => some (toString n)
  | .float32 f => if f.isNaN || f.isInf then none else some (lib.formatFloat32 f)

/-- Insertion into a list of members ordered by key. -/
def insertMember (e : String × ExtValue) : List (String × ExtValue) → List (String × ExtValue)
  | [] => [e]
  | m :: rest => if bytesLt e.1.toList m.1.toList then e :: m :: rest else m :: insertMember e rest

/-- Members of a JSON object in the order `json.Marshal` writes them. -/
def sortMembers (entries : GoMap String ExtValue) : List (String × ExtValue) :=
  entries.foldr insertMember []

/-- JSON text of the members of an object, or `none` if a value is
unsupported. A key is written between quotes as it stands. -/
def jsonMarshalMembers (lib : Library) : List (String × ExtValue) → Option (List String)
  | [] => some []
  | (k, v) :: rest =>
    match jsonMarshalValue lib v, jsonMarshalMembers lib rest with
    | some text, some texts => some (("\"" ++ k ++ "\":" ++ text) :: texts)
    | _, _ => none

/-- Go `buildExtension`: the mapping is copied under the key `amazontest` and
the root is marshalled; the marshalling error is dropped, which leaves the
empty string. -/
def buildExtension (lib : Library) (extensionMapping : GoMap String ExtValue) : String :=
  let dsp : GoMap String ExtValue := extensionMapping.foldl (fun d e => d.set e.1 e.2) []
  match jsonMarshalMembers lib (sortMembers dsp) with
  | some members =>
    "\x7b\"" ++ ExtensionKeywordAmazonTest ++ "\":\x7b" ++ stringsJoin "," members ++ "\x7d\x7d"
  | none => ""

def DefaultFilterRecommendation : Float32 := Float32.one

def DefaultLearning : Int := 0

def DefaultResponse (lib : Library) : Response :=
  { Slots := [{ FilterDecision := DefaultFilterRecommendation,
                Ext := buildExtension lib
                  [(ExtensionKeywordDecision, .float32 DefaultFilterRecommendation)] }],
    Ext := buildExtension lib [(ExtensionKeywordLearning, .int DefaultLearning)] }

/-- Go `buildSlots`; dereferencing a nil aggregated result panics. -/
def buildSlots (lib : Library) (context : Context) : Outcome (List Slot) :=
  match context.AggregatedModelEvaluationResult with
  | none => .panic
  | some aggregatedModelEvaluationResult =>
    .ok [{ FilterDecision := aggregatedModelEvaluationResult.ScoreWithTreatment,
           Ext := buildExtension lib
             [(ExtensionKeywordDecision, .float32 aggregatedModelEvaluationResult.Score)] }]

/-- Go `RequestEvaluator.buildResponse`. -/
def buildResponse (lib : Library) (context : Context) : Outcome Response :=
  match context.AggregatedModelEvaluationResult with
  | none => .panic
  | some aggregatedModelEvaluationResult =>
    match buildSlots lib context with
    | .panic => .panic
    | .ok slots =>
      .ok { Slots := slots,
            Ext := buildExtension lib
              [(ExtensionKeywordLearning, .int aggregatedModelEvaluationResult.TreatmentCodeInInt)] }

/-! ## Collaborators of the request evaluator -/

/-- The part of `interfaces.TrafficAllocatorInterface` the evaluator calls. The
snapshot is an interface value and may be nil. -/
structure TrafficAllocatorInterface where
  GetTrafficAllocationContext : Outcome (Option TrafficAllocationContext)

/-- Go `interfaces.ModelEvaluator`: an output pointer and an error. -/
structure ModelEvaluator where
  Evaluate : ModelEvaluatorInput → Outcome (Option ModelEvaluatorOutput × Option Error)

/-- The part of `interfaces.ModelConfigurationHandlerInterface` the evaluator
calls. -/
structure ModelConfigurationHandlerInterface where
  Provide : Outcome (Option ModelConfiguration × Option Error)
  GetAllUniqueFeatureFields : Outcome (List String × Option Error)

structure RequestEvaluator where
  sspIdentifier : String
  trafficAllocator : TrafficAllocatorInterface
  modelEvaluator : ModelEvaluator
  modelConfigurationHandler : ModelConfigurationHandlerInterface

/-! ## Local cache (`repository/LocalCache.go`) -/

/-- Dynamic values the package stores in a cache (`any`): model results,
file fingerprints and the two configurations. -/
inductive CacheValue where
  | float32 (v : Float32)
  | string (s : String)
  | modelConfiguration (c : ModelConfiguration)
  | experimentConfiguration (c : ExperimentConfiguration)
deriving Repr, DecidableEq

/-- Go `defaultTTL`, 70 minutes. -/
def defaultTTL : Duration := 4200000000000

/-- What a cache keeps under a key: the value, and the time to live it was set with
(0: the key never expires). The embedding has no clock: an item stays until it is
overwritten or its cache is cleared. -/
structure CacheItem where
  Value : CacheValue
  TTL : Duration
deriving Repr, DecidableEq

/-- Contents of the registry of named caches at one moment. -/
structure LocalCacheFactory where
  localCacheMap : GoMap String (GoMap String CacheItem)
deriving Repr, DecidableEq

def CacheNameConfiguration : String := "Configuration"

def CacheKeyModel : String := "Model"

def CacheNameFileIdentifier : String := "FileIdentifier"

def CacheKeyModelConfigurationFileIdentifier : String := "ModelConfigurationFileIdentifier"

def CacheKeyModelResultFileIdentifier : String := "ModelResultFileIdentifier"

def CacheKeyExperiment : String := "Experiment"

def CacheKeyExperimentConfigurationFileIdentifier : String :=
  "ExperimentConfigurationFileIdentifier"

/-- Go `GetFromLocalCache`: a cache that was never registered is created
empty, so the lookup misses. -/
def LocalCacheFactory.GetFromLocalCache (t : LocalCacheFactory) (cacheName key : String) :
    Option CacheValue :=
  match t.localCacheMap.get? cacheName with
  | none => none
  | some cache =>
    match cache.get? key with
    | none => none
    | some item => some item.Value

namespace LocalCacheFactory

/-- The item a cache keeps under a key, if any. -/
def item? (t : LocalCacheFactory) (cacheName key : String) : Option CacheItem :=
  match t.localCacheMap.get? cacheName with
  | none => none
  | some cache => cache.get? key

/-- `GetOrCreateCache(cacheName)` followed by `SetWithTTL(key, value, 1, ttl)` and
`Wait()` on that cache. `ristretto` treats a negative time to live as a no-op and
returns false; otherwise the item is stored, replacing what the key held, unless the
cache drops it. -/
def SetWithTTL (lib : Library) (t : LocalCacheFactory) (cacheName key : String)
    (value : CacheValue) (ttl : Duration) : LocalCacheFactory × Bool :=
  if ttl < 0 then (t, false)
  else if lib.cacheSet cacheName key then
    ({ localCacheMap :=
         t.localCacheMap.set cacheName
           (((t.localCacheMap.get? cacheName).getD []).set key
             { Value := value, TTL := ttl }) }, true)
  else (t, false)

/-- Go `PutToLocalCache`: the registry after the call and the result. -/
def PutToLocalCache (lib : Library) (t : LocalCacheFactory) (cacheName key : String)
    (value : CacheValue) : LocalCacheFactory × Bool :=
  t.SetWithTTL lib cacheName key value defaultTTL

/-- Go `PutToLocalCacheWithTTL`; `time.Duration(ttlSeconds)*time.Second` is an
`int64` product. -/
def PutToLocalCacheWithTTL (lib : Library) (t : LocalCacheFactory) (cacheName key : String)
    (value : CacheValue) (ttlSeconds : Int) : LocalCacheFactory × Bool :=
  t.SetWithTTL lib cacheName key value (wrapInt64 (ttlSeconds * 1000000000))

/-- Go `ClearLocalCache`: the named cache, created when it was not registered, is
left empty. -/
def ClearLocalCache (t : LocalCacheFactory) (cacheName : String) : LocalCacheFactory :=
  { localCacheMap := t.localCacheMap.set cacheName [] }

/-- Go `ShouldRefresh`: the registry after the call and the result. The cached
value is an `any`; it equals the string `fileIdentifier` only when it holds that
string. The results of the two puts are not looked at. -/
def ShouldRefresh (lib : Library) (t : LocalCacheFactory)
    (fileIdentifierCacheKey fileIdentifier : String) : LocalCacheFactory × Bool :=
  let stale : Bool :=
    match t.GetFromLocalCache CacheNameFileIdentifier fileIdentifierCacheKey with
    | none => true
    | some fileIdentifierInCache => decide (fileIdentifierInCache ≠ .string fileIdentifier)
  if stale then
    if fileIdentifierCacheKey = CacheKeyModelResultFileIdentifier then
      ((t.PutToLocalCache lib CacheNameFileIdentifier fileIdentifierCacheKey
          (.string fileIdentifier)).1, stale)
    else
      ((t.PutToLocalCacheWithTTL lib CacheNameFileIdentifier fileIdentifierCacheKey
          (.string fileIdentifier) 0).1, stale)
  else (t, stale)

/-- Go `ShouldRefreshLocal`: the fingerprint is the modification time of the file;
when `Stat` fails the result is false. -/
def ShouldRefreshLocal (lib : Library) (t : LocalCacheFactory)
    (fileIdentifierCacheKey : String) (filePointer : File) : LocalCacheFactory × Bool :=
  match filePointer.ModTime with
  | .error _ => (t, false)
  | .ok fileIdentifier =>
    let stale : Bool :=
      match t.GetFromLocalCache CacheNameFileIdentifier fileIdentifierCacheKey with
      | none => true
      | some fileIdentifierInCache => decide (fileIdentifierInCache ≠ .string fileIdentifier)
    if stale then
      if fileIdentifierCacheKey = CacheKeyModelResultFileIdentifier then
        ((t.PutToLocalCache lib CacheNameFileIdentifier fileIdentifierCacheKey
            (.string fileIdentifier)).1, stale)
      else
        ((t.PutToLocalCacheWithTTL lib CacheNameFileIdentifier fileIdentifierCacheKey
            (.string fileIdentifier) 0).1, stale)
    else (t, stale)

end LocalCacheFactory

/-! ## Collaborators of the loaders (`interfaces/Repository.go`, `interfaces/Util.go`) -/

def S3Prefix : String := "s3://"

/-- Go `s3.GetObjectOutput` as far as the loaders read it: the `ETag` pointer and
the body. The body is a stream; it stands here for itself, and `ReadContent` says
what reading it yields. -/
structure GetObjectOutput where
  ETag : Option String
  Body : String
deriving Repr, DecidableEq

/-- Go `interfaces.DaoFactoryInterface`; a byte slice is a string. -/
structure DaoFactoryInterface where
  GetDataFromLocal : File → Outcome (String × Option Error)
  ReadContent : String → Outcome (String × Option Error)
  GetS3Object : String → String → Outcome (Option GetObjectOutput × Option Error)

/-- A `time.Time`, given by the two texts the loader formats it to:
`UTC().Format("2006-01-02")` and `UTC().Format("15")`. -/
structure Time where
  Date : String
  Hour : String
deriving Repr, DecidableEq

/-- Go `interfaces.TimeProvider`. -/
structure TimeProvider where
  Now : Outcome Time

/-- A call that a loader makes on one of its collaborators or on a library
routine. -/
inductive Call where
  | Now
  | GetS3Object (bucket key : String)
  | ReadContent (body : String)
  | Open (name : String)
  | GetDataFromLocal (name : String)
  | Unmarshal (data : String)
  | ShouldRefresh (fileIdentifierCacheKey fileIdentifier : String)
  | ShouldRefreshLocal (fileIdentifierCacheKey name : String)
  | PutToLocalCache (cacheName key : String) (value : CacheValue)
  | PutToLocalCacheWithTTL (cacheName key : String) (value : CacheValue) (ttlSeconds : Int)
  | ClearLocalCache (cacheName : String)
  | Load
  | Provide
  | UpdateConfiguration (experimentConfiguration : Option ExperimentConfiguration)
deriving Repr, DecidableEq

/-- What running a method of a loader leaves: the receiver after the call, the calls
it made in order, and what it returned. -/
structure Run (σ α : Type) where
  receiver : σ
  calls : List Call
  result : α

/-! ## Model configuration (`ConfigurationHandler.go`, `ModelConfiguration.go`) -/

/-- A configuration type `T`: the type assertion `value.(T)` on a cached value, the
conversion of a `T` to the `any` that is cached, and `json.Unmarshal` into a `T`. -/
class CacheTyped (T : Type) where
  assert : CacheValue → Option T
  box : T → CacheValue
  unmarshal : Library → String → Except Error T

instance : CacheTyped ModelConfiguration where
  assert
    | .modelConfiguration c => some c
    | _ => none
  box := .modelConfiguration
  unmarshal lib := lib.unmarshalModelConfiguration

instance : CacheTyped ExperimentConfiguration where
  assert
    | .experimentConfiguration c => some c
    | _ => none
  box := .experimentConfiguration
  unmarshal lib := lib.unmarshalExperimentConfiguration

/-- Go `interfaces.ConfigurationHandlerInterface[T]`, the method the evaluation
path calls: a configuration pointer and an error. -/
structure ConfigurationHandlerInterface (T : Type) where
  Provide : Outcome (Option T × Option Error)

/-- Go `ConfigurationHandler[T]`. The cache registry is the state that the methods
read and write. -/
structure ConfigurationHandler (T : Type) where
  folderPrefix : String
  sspIdentifier : String
  daoFactory : DaoFactoryInterface
  fileIdentifierCacheKey : String
  dataCacheKey : String
  configType : String
  localCacheFactory : LocalCacheFactory

def ConfigurationHandler.Provide {T : Type} [CacheTyped T] (t : ConfigurationHandler T) :
    Except Error T :=
  match t.localCacheFactory.GetFromLocalCache CacheNameConfiguration t.dataCacheKey with
  | none =>
    .error ("error getting Config from local cache [" ++ CacheNameConfiguration ++
      "] with Key [" ++ t.dataCacheKey ++ "]")
  | some config =>
    match CacheTyped.assert config with
    | some typedConfig => .ok typedConfig
    | none => .error ("retrieved config is not of type [" ++ t.configType ++ "]")

def ConfigurationHandler.buildConfigurationFileName {T : Type} (t : ConfigurationHandler T) :
    String :=
  t.sspIdentifier ++ "/configuration/" ++ t.configType ++ "/config.json"

/-- Second half of `Load`, from `if err != nil` on: the bytes are parsed and the
configuration is put into the cache `Configuration`. -/
def ConfigurationHandler.install {T : Type} [CacheTyped T] (lib : Library)
    (t : ConfigurationHandler T) (calls : List Call) (jsonData : String)
    (err : Option Error) : Run (ConfigurationHandler T) (Outcome (Bool × Option Error)) :=
  match err with
  | some err => ⟨t, calls, .ok (false, some ("error getting data: " ++ err))⟩
  | none =>
    match (CacheTyped.unmarshal lib jsonData : Except Error T) with
    | .error err =>
      ⟨t, calls ++ [.Unmarshal jsonData],
        .ok (false, some ("error unmarshaling JSON: " ++ err))⟩
    | .ok config =>
      let put := t.localCacheFactory.PutToLocalCacheWithTTL lib CacheNameConfiguration
        t.dataCacheKey (CacheTyped.box config) 0
      let calls := calls ++ [.Unmarshal jsonData,
        .PutToLocalCacheWithTTL CacheNameConfiguration t.dataCacheKey (CacheTyped.box config) 0]
      if put.2 then ⟨{ t with localCacheFactory := put.1 }, calls, .ok (true, none)⟩
      else
        ⟨{ t with localCacheFactory := put.1 }, calls,
          .ok (false, some ("error setting data to local cache [Configuration] " ++
            "with identifier [" ++ t.dataCacheKey ++ "]"))⟩

/-- Go `ConfigurationHandler[T].Load`. Reading the `ETag` of a nil output or through
a nil pointer panics. -/
def ConfigurationHandler.Load {T : Type} [CacheTyped T] (lib : Library)
    (t : ConfigurationHandler T) : Run (ConfigurationHandler T) (Outcome (Bool × Option Error)) :=
  let filename := t.buildConfigurationFileName
  if stringsHasPrefix t.folderPrefix S3Prefix then
    let s3BucketName := stringsTrimPrefix t.folderPrefix S3Prefix
    let calls := [Call.GetS3Object s3BucketName filename]
    match t.daoFactory.GetS3Object s3BucketName filename with
    | .panic => ⟨t, calls, .panic⟩
    | .ok (_, some s3Error) =>
      ⟨t, calls, .ok (false, some ("error fetching s3 file: " ++ s3Error))⟩
    | .ok (none, none) => ⟨t, calls, .panic⟩
    | .ok (some getObjectOutput, none) =>
      match getObjectOutput.ETag with
      | none => ⟨t, calls, .panic⟩
      | some eTag =>
        let refresh := t.localCacheFactory.ShouldRefresh lib t.fileIdentifierCacheKey eTag
        let calls := calls ++ [.ShouldRefresh t.fileIdentifierCacheKey eTag]
        if refresh.2 then
          let calls := calls ++ [.ReadContent getObjectOutput.Body]
          match t.daoFactory.ReadContent getObjectOutput.Body with
          | .panic => ⟨{ t with localCacheFactory := refresh.1 }, calls, .panic⟩
          | .ok (jsonData, err) =>
            ConfigurationHandler.install lib { t with localCacheFactory := refresh.1 } calls
              jsonData err
        else ⟨{ t with localCacheFactory := refresh.1 }, calls, .ok (false, none)⟩
  else
    let filePath := lib.filepathJoin t.folderPrefix filename
    let calls := [Call.Open filePath]
    match lib.osOpen filePath with
    | .error localErr => ⟨t, calls, .ok (false, some ("error opening file: " ++ localErr))⟩
    | .ok filePointer =>
      let refresh :=
        t.localCacheFactory.ShouldRefreshLocal lib t.fileIdentifierCacheKey filePointer
      let calls := calls ++ [.ShouldRefreshLocal t.fileIdentifierCacheKey filePointer.Name]
      if refresh.2 then
        let calls := calls ++ [.GetDataFromLocal filePointer.Name]
        match t.daoFactory.GetDataFromLocal filePointer with
        | .panic => ⟨{ t with localCacheFactory := refresh.1 }, calls, .panic⟩
        | .ok (jsonData, err) =>
          ConfigurationHandler.install lib { t with localCacheFactory := refresh.1 } calls
            jsonData err
      else ⟨{ t with localCacheFactory := refresh.1 }, calls, .ok (false, none)⟩

/-- A `ConfigurationHandler` seen through the interface. -/
def ConfigurationHandler.asInterface {T : Type} [CacheTyped T] (t : ConfigurationHandler T) :
    ConfigurationHandlerInterface T :=
  { Provide :=
      match t.Provide with
      | .ok config => .ok (some config, none)
      | .error err => .ok (none, some err) }

structure ModelConfigurationHandler where
  configurationHandler : ConfigurationHandlerInterface ModelConfiguration

namespace ModelConfigurationHandler

def Provide (t : ModelConfigurationHandler) : Outcome (Option ModelConfiguration × Option Error) :=
  t.configurationHandler.Provide

/-- The set `uniqueFields` after the three nested loops. -/
def collectUniqueFields (modelConfig : ModelConfiguration) : GoMap String Unit :=
  modelConfig.ModelDefinitionByIdentifier.foldl
    (fun uniqueFields entry =>
      entry.2.Features.foldl
        (fun uniqueFields feature =>
          feature.Fields.foldl (fun uniqueFields field => uniqueFields.set field ())
            uniqueFields)
        uniqueFields)
    []

def GetAllUniqueFeatureFields (t : ModelConfigurationHandler) :
    Outcome (List String × Option Error) :=
  match t.configurationHandler.Provide with
  | .panic => .panic
  | .ok (_, some err) =>
    .ok ([], some ("error getting ModelDefinition from local cache [Configuration] " ++
      "with Key [ModelConfiguration]: " ++ err))
  | .ok (none, none) => .panic
  | .ok (some modelConfig, none) => .ok ((collectUniqueFields modelConfig).keys, none)

def asInterface (t : ModelConfigurationHandler) : ModelConfigurationHandlerInterface :=
  { Provide := t.Provide, GetAllUniqueFeatureFields := t.GetAllUniqueFeatureFields }

end ModelConfigurationHandler

/-! ## Field paths -/

def convertFieldsToPaths (fields : List String) : List (List String) :=
  fields.map (fun field =>
    (splitDots (dotBeforeBracket (trimDollarDot field.toList))).map String.mk)

def convertPathsToField (paths : List String) : String :=
  "$." ++ String.mk (dropDotBeforeBracket (joinDots (paths.map String.toList)))

namespace RequestEvaluator

def setupOpenRtbRequestID (_b : RequestEvaluator) (context : Context)
    (requestFieldValueMap : GoMap String String) : Context :=
  match requestFieldValueMap.get? "$.id" with
  | some requestID => { context with OpenRtbRequestId := requestID }
  | none =>
    { context.AddDebug
        "Could not find id from OpenRtbRequest and use self generated UUID instead." with
      OpenRtbRequestId := "unknown" }

/-- Loop of `addMissingEntriesToMap`: one entry per unique feature field. -/
def addMissingEntriesLoop (openRtbRequestMap : GoMap String String) :
    List String → GoMap String String → GoMap String String
  | [], fieldValueMap => fieldValueMap
  | field :: fields, fieldValueMap =>
    match openRtbRequestMap.get? field with
    | some value => addMissingEntriesLoop openRtbRequestMap fields (fieldValueMap.set field value)
    | none => addMissingEntriesLoop openRtbRequestMap fields (fieldValueMap.set field "")

def addMissingEntriesToMap (b : RequestEvaluator) (openRtbRequestMap : GoMap String String) :
    Outcome (Except Error (GoMap String String)) :=
  match b.modelConfigurationHandler.GetAllUniqueFeatureFields with
  | .panic => .panic
  | .ok (_, some err) => .ok (.error ("fail to augment openRtbRequestMap due to " ++ err))
  | .ok (uniqueFeatureFields, none) =>
    .ok (.ok (addMissingEntriesLoop openRtbRequestMap uniqueFeatureFields []))

/-- Callback of `jsonparser.EachKey` in `parse`, run over the invocations the
library makes; `paths[idx]` panics when `idx` is out of range. -/
def parseCallbacks (paths : List (List String)) :
    List (Nat × String) → GoMap String String → Outcome (GoMap String String)
  | [], fieldValueMap => .ok fieldValueMap
  | (idx, value) :: rest, fieldValueMap =>
    match paths.get? idx with
    | none => .panic
    | some path => parseCallbacks paths rest (fieldValueMap.set (convertPathsToField path) value)

/-- Second loop of `parse`: fields the parser did not report get the empty
string. -/
def parseFillMissing : List String → GoMap String String → GoMap String String
  | [], fieldValueMap => fieldValueMap
  | field :: fields, fieldValueMap =>
    match fieldValueMap.get? field with
    | some _ => parseFillMissing fields fieldValueMap
    | none => parseFillMissing fields (fieldValueMap.set field "")

def parse (lib : Library) (b : RequestEvaluator) (openRtbRequest : String)
    (externalFields : List String) : Outcome (Except Error (GoMap String String)) :=
  match b.modelConfigurationHandler.GetAllUniqueFeatureFields with
  | .panic => .panic
  | .ok (_, some err) => .ok (.error ("fail to extract openRtbRequest due to " ++ err))
  | .ok (uniqueFeatureFields, none) =>
    let uniqueFeatureFields := uniqueFeatureFields ++ externalFields
    let paths := convertFieldsToPaths uniqueFeatureFields
    match lib.EachKey openRtbRequest paths with
    | .panic => .panic
    | .ok invocations =>
      match parseCallbacks paths invocations [] with
      | .panic => .panic
      | .ok fieldValueMap => .ok (.ok (parseFillMissing uniqueFeatureFields fieldValueMap))

/-- Loop of `getModelDefinitions` over the model identifiers of the snapshot. -/
def getModelDefinitionsLoop (modelDefinitionByIdentifier : GoMap String ModelDefinition) :
    List String → List ModelDefinition → Except Error (List ModelDefinition)
  | [], modelDefinitions => .ok modelDefinitions
  | model :: models, modelDefinitions =>
    match modelDefinitionByIdentifier.get? model with
    | none =>
      .error ("error while finding the definition of model [" ++ model ++
        "] registered in the experiment")
    | some modelDefinition =>
      getModelDefinitionsLoop modelDefinitionByIdentifier models
        (modelDefinitions ++ [modelDefinition])

/-- Go `getModelDefinitions`; returns the context as well, since the error
path appends to its error list. Dereferencing a nil configuration or calling a
method of a nil snapshot panics. -/
def getModelDefinitions (b : RequestEvaluator) (context : Context) :
    Outcome (Context × Except Error (List ModelDefinition)) :=
  match b.modelConfigurationHandler.Provide with
  | .panic => .panic
  | .ok (_, some err) =>
    .ok (context.AddError ("error while providing model configuration: " ++ err),
         .error ("error while providing model configuration: " ++ err))
  | .ok (none, none) => .panic
  | .ok (some modelConfiguration, none) =>
    match context.TrafficAllocationContext with
    | none => .panic
    | some trafficAllocationContext =>
      .ok (context, getModelDefinitionsLoop modelConfiguration.ModelDefinitionByIdentifier
        trafficAllocationContext.GetModelIdentifiers [])

/-- Loop of `aggregateModelEvaluationResultsOnMax`: running maximum over the
successful outputs of the models of the experiment. -/
def maxScoreLoop (modelsInExperiment : List String) :
    List ModelEvaluatorOutput → Float32 → Float32
  | [], maxScore => maxScore
  | output :: outputs, maxScore =>
    if output.Status = ModelEvaluationStatusSuccess ∧
        output.ModelDefinition.Identifier ∈ modelsInExperiment then
      if output.ModelResult.Value.gt maxScore then
        maxScoreLoop modelsInExperiment outputs output.ModelResult.Value
      else maxScoreLoop modelsInExperiment outputs maxScore
    else maxScoreLoop modelsInExperiment outputs maxScore

def aggregateModelEvaluationResultsOnMax (_b : RequestEvaluator) (context : Context) :
    Outcome (Except Error AggregatedModelEvaluationResult) :=
  let modelEvaluatorOutputs := context.ModelEvaluatorOutputs
  match context.TrafficAllocationContext with
  | none => .panic
  | some trafficAllocationContext =>
    match trafficAllocationContext.GetExperimentDefinitionByType ExperimentTypeSoftFilter with
    | .error err =>
      .ok (.error ("error while aggregating model evaluation results on Max due to [" ++
        err ++ "]"))
    | .ok experimentDef =>
      let experimentName := experimentDef.Name
      match trafficAllocationContext.GetModelsByExperiment.get? experimentName with
      | none =>
        .ok (.error ("error while aggregating model evaluation results on Max since no " ++
          "models in the experiment [" ++ experimentName ++ "]"))
      | some modelsInExperiment =>
        let maxScore := maxScoreLoop modelsInExperiment modelEvaluatorOutputs
          (Float32.neg Float32.maxFloat32)
        if maxScore.eq (Float32.neg Float32.maxFloat32) then
          .ok (.error ("no models have been evaluated for the experiment [" ++
            experimentName ++ "]"))
        else
          let treatmentCodeInInt := trafficAllocationContext.GetTreatmentCodeInInt experimentName
          let aggregatedScoreWithTreatment :=
            Float32.mathMax maxScore (Float32.ofInt8 treatmentCodeInInt)
          let treatmentCode := trafficAllocationContext.GetTreatmentCode experimentName
          .ok (.ok { ExperimentName := "DemandDrivenTrafficEvaluatorSoftFilter",
                     ExperimentType := "soft-filter",
                     TreatmentCode := treatmentCode,
                     TreatmentCodeInInt := treatmentCodeInInt,
                     Score := maxScore,
                     ScoreWithTreatment := aggregatedScoreWithTreatment,
                     AggregationType := "max" })

/-- Loop of `Evaluate` over the model definitions: an output is kept when the
evaluator returns no error; dereferencing a nil output panics. -/
def evaluateModels (b : RequestEvaluator) (context : Context) (openRtbRequest : String)
    (requestFieldValueMap : GoMap String String) :
    List ModelDefinition → List ModelEvaluatorOutput → Outcome (List ModelEvaluatorOutput)
  | [], modelEvaluatorOutputs => .ok modelEvaluatorOutputs
  | modelDefinition :: modelDefinitions, modelEvaluatorOutputs =>
    match b.modelEvaluator.Evaluate
        { Context := context, OpenRtbRequest := openRtbRequest,
          ModelDefinition := modelDefinition,
          FeatureFieldValueMap := requestFieldValueMap } with
    | .panic => .panic
    | .ok (_, some _) =>
      evaluateModels b context openRtbRequest requestFieldValueMap modelDefinitions
        modelEvaluatorOutputs
    | .ok (none, none) => .panic
    | .ok (some modelEvaluatorOutput, none) =>
      evaluateModels b context openRtbRequest requestFieldValueMap modelDefinitions
        (modelEvaluatorOutputs ++ [modelEvaluatorOutput])

/-- The statements of `Evaluate` from `setupOpenRtbRequestID` to the end. -/
def evaluateWithFields (lib : Library) (b : RequestEvaluator) (context : Context)
    (openRtbRequest : String) (requestFieldValueMap : GoMap String String) :
    Outcome BidRequestEvaluatorOutput :=
  let context := b.setupOpenRtbRequestID context requestFieldValueMap
  match b.getModelDefinitions context with
  | .panic => .panic
  | .ok (_, .error _) => .ok { Response := DefaultResponse lib }
  | .ok (context, .ok modelDefinitions) =>
    match b.evaluateModels context openRtbRequest requestFieldValueMap modelDefinitions [] with
    | .panic => .panic
    | .ok modelEvaluatorOutputs =>
      if modelEvaluatorOutputs.length = 0 then .ok { Response := DefaultResponse lib }
      else
        let context := { context with ModelEvaluatorOutputs := modelEvaluatorOutputs }
        match b.aggregateModelEvaluationResultsOnMax context with
        | .panic => .panic
        | .ok (.error _) => .ok { Response := DefaultResponse lib }
        | .ok (.ok aggregatedModelEvaluationResult) =>
          let context :=
            { context with
              AggregatedModelEvaluationResult := some aggregatedModelEvaluationResult }
          match buildResponse lib context with
          | .panic => .panic
          | .ok response => .ok { Response := response }

/-- The statements of `Evaluate` that run under the deferred `recover`: a
panic in them is reported as `Outcome.panic`. -/
def evaluateGuarded (lib : Library) (b : RequestEvaluator)
    (requestInput : BidRequestEvaluatorInput) : Outcome BidRequestEvaluatorOutput :=
  let openRtbRequest := requestInput.OpenRtbRequest
  let context : Context :=
    { NewContext with RequestId := lib.uuidNew, OpenRtbRequest := openRtbRequest }
  match b.trafficAllocator.GetTrafficAllocationContext with
  | .panic => .panic
  | .ok trafficAllocationContext =>
    let context := { context with TrafficAllocationContext := trafficAllocationContext }
    let externalFields := ["$.id"]
    if openRtbRequest ≠ "" then
      match b.parse lib openRtbRequest externalFields with
      | .panic => .panic
      | .ok (.error err) =>
        let _context := context.AddError
          ("fail to parse openRtbRequest due to " ++ err ++ "\n return the default response")
        .ok { Response := DefaultResponse lib }
      | .ok (.ok requestFieldValueMap) =>
        evaluateWithFields lib b context openRtbRequest requestFieldValueMap
    else if requestInput.OpenRtbRequestMap.length > 0 then
      match b.addMissingEntriesToMap requestInput.OpenRtbRequestMap with
      | .panic => .panic
      | .ok (.error err) =>
        let _context := context.AddError
          ("fail to augment openRtbRequestMap due to " ++ err ++
            "\n return the default response")
        .ok { Response := DefaultResponse lib }
      | .ok (.ok requestFieldValueMap) =>
        evaluateWithFields lib b context openRtbRequest requestFieldValueMap
    else .ok { Response := DefaultResponse lib }

/-- Go `RequestEvaluator.Evaluate`. A nil input returns before the `recover`
guard is deferred; afterwards the guard turns every panic into the default
response. -/
def Evaluate (lib : Library) (b : RequestEvaluator)
    (requestInput : Option BidRequestEvaluatorInput) : BidRequestEvaluatorOutput :=
  match requestInput with
  | none => { Response := DefaultResponse lib }
  | some requestInput =>
    match evaluateGuarded lib b requestInput with
    | .ok output => output
    | .panic => { Response := DefaultResponse lib }

end RequestEvaluator

/-! ## Transformers (`ModelConfiguration.go`, `ModelResult.go`) -/

def LowValue : String := "LowValue"

def HighValue : String := "HighValue"

def ModelTypeValue : GoMap String Float32 :=
  [(LowValue, Float32.zero), (HighValue, Float32.one)]

/-- Go type `Transformer`. -/
abbrev Transformer := ModelFeature → Except Error ModelFeature

def ExistsTransformer : Transformer := fun modelFeature =>
  let transformedValues : List String :=
    modelFeature.Values.foldl
      (fun transformedValues value =>
        if value = "" then transformedValues ++ ["0"] else transformedValues ++ ["1"])
      []
  .ok { Configuration := modelFeature.Configuration, Values := transformedValues }

/-- The loop of `GetFirstNotEmptyTransformer`: it leaves at the first value that is not
empty, and `firstNotEmpty` keeps its zero value when there is none. -/
def firstNotEmptyLoop : List String → String
  | [] => ""
  | value :: rest => if value ≠ "" then value else firstNotEmptyLoop rest

def GetFirstNotEmptyTransformer : Transformer := fun modelFeature =>
  let firstNotEmpty := firstNotEmptyLoop modelFeature.Values
  .ok { Configuration := modelFeature.Configuration, Values := [firstNotEmpty] }

def ApplyMappingsTransformer : Transformer := fun modelFeature =>
  let configuration := modelFeature.Configuration
  let mapping := configuration.Mapping
  let mappingDefaultValue := configuration.MappingDefaultValue
  let transformedValues : List String :=
    modelFeature.Values.foldl
      (fun transformedValues value =>
        match mapping.get? value with
        | some mappedValue => transformedValues ++ [mappedValue]
        | none => transformedValues ++ [mappingDefaultValue])
      []
  .ok { Configuration := configuration, Values := transformedValues }

/-- Go `ConcatenateByPairTransformer`. The loop `for i := 0; i < inputSize/2; i++`
keeps both indices `i*2` and `i*2+1` below `inputSize`, so the two reads never
leave the slice and the default of `getD` is never taken. -/
def ConcatenateByPairTransformer : Transformer := fun modelFeature =>
  let originalValues := modelFeature.Values
  let inputSize := originalValues.length
  let transformedValues : List String :=
    (List.range (inputSize / 2)).foldl
      (fun transformedValues i =>
        let first := originalValues.getD (i * 2) ""
        let second := originalValues.getD (i * 2 + 1) ""
        if first ≠ "" ∧ second ≠ "" then transformedValues ++ [first ++ "x" ++ second]
        else transformedValues)
      []
  .ok { Configuration := modelFeature.Configuration, Values := transformedValues }

def TransformerMap : GoMap String Transformer :=
  [("Exists", ExistsTransformer),
   ("GetFirstNotEmpty", GetFirstNotEmptyTransformer),
   ("ApplyMappings", ApplyMappingsTransformer),
   ("ConcatenateByPair", ConcatenateByPairTransformer)]

/-- First loop of `Transform`: resolve the transformer names. -/
def resolveTransformers : List String → List Transformer → Except Error (List Transformer)
  | [], transformers => .ok transformers
  | transformerName :: transformerNames, transformers =>
    match TransformerMap.get? transformerName with
    | none => .error ("transformer [" ++ transformerName ++ "] not found")
    | some transformer => resolveTransformers transformerNames (transformers ++ [transformer])

/-- Second loop of `Transform`: run the transformers in order. -/
def runTransformers : List Transformer → ModelFeature → Except Error ModelFeature
  | [], transformedFeature => .ok transformedFeature
  | transformer :: transformers, transformedFeature =>
    match transformer transformedFeature with
    | .error err => .error ("transformer fail to transform the feature due to error " ++ err)
    | .ok next => runTransformers transformers next

def Transform (feature : ModelFeature) : Except Error ModelFeature :=
  match resolveTransformers feature.Configuration.Transformations [] with
  | .error err => .error err
  | .ok transformers => runTransformers transformers feature

/-- First loop of `Transform` when the package variable `TransformerMap` holds the
given map. -/
def resolveTransformersIn (transformerMap : GoMap String Transformer) :
    List String → List Transformer → Except Error (List Transformer)
  | [], transformers => .ok transformers
  | transformerName :: transformerNames, transformers =>
    match transformerMap.get? transformerName with
    | none => .error ("transformer [" ++ transformerName ++ "] not found")
    | some transformer =>
      resolveTransformersIn transformerMap transformerNames (transformers ++ [transformer])

/-- Go `Transform` when the package variable `TransformerMap` holds the given map;
`Transform` is the case of the map the package starts with. -/
def TransformIn (transformerMap : GoMap String Transformer) (feature : ModelFeature) :
    Except Error ModelFeature :=
  match resolveTransformersIn transformerMap feature.Configuration.Transformations [] with
  | .error err => .error err
  | .ok transformers => runTransformers transformers feature

/-! ## Model results (`ModelResult.go`) -/

def KeyDelimiter : String := "|"

/-- Go `ModelResultHandler`. The cache registry is the state that the methods
read and write. -/
structure ModelResultHandler where
  sspIdentifier : String
  folderPrefix : String
  daoFactory : DaoFactoryInterface
  modelConfigurationHandler : ModelConfigurationHandlerInterface
  localCacheFactory : LocalCacheFactory
  timeProvider : TimeProvider

/-- Value `Load` stores for every record of a model of the given type. -/
def loadModelResultValue (modelType : String) : Float32 :=
  match ModelTypeValue.get? modelType with
  | some modelResultValue => modelResultValue
  | none => Float32.zero

/-- Every `float32` a cache holds is a value `Load` stores for some model
type. -/
def LocalCacheFactory.HoldsLoadedResults (t : LocalCacheFactory) : Prop :=
  ∀ cacheName key v, t.GetFromLocalCache cacheName key = some (.float32 v) →
    ∃ modelType, v = loadModelResultValue modelType

namespace ModelResultHandler

def BuildKey (_t : ModelResultHandler) (modelFeatures : List ModelFeature) : String :=
  let allValues := modelFeatures.foldl (fun allValues feature => allValues ++ feature.Values) []
  stringsJoin KeyDelimiter allValues

def Provide (t : ModelResultHandler) (modelIdentifier : String) (features : List ModelFeature)
    (defaultValue : Float32) : Except Error ModelResult :=
  let key := t.BuildKey features
  match t.localCacheFactory.GetFromLocalCache modelIdentifier key with
  | none => .ok { Value := defaultValue, Key := key }
  | some (.float32 result) => .ok { Value := result, Key := key }
  | some _ =>
    .error ("invalid model result type for identifier " ++ modelIdentifier ++ " and Key " ++
      key ++ ": expected float32")

/-- Go `BuildModelResultFileName`; the clock is asked for the time. -/
def BuildModelResultFileName (t : ModelResultHandler) (sspIdentifier modelIdentifier : String) :
    Outcome String :=
  match t.timeProvider.Now with
  | .panic => .panic
  | .ok now =>
    .ok (sspIdentifier ++ "/" ++ now.Date ++ "/" ++ now.Hour ++ "/" ++ modelIdentifier ++ ".csv")

/-- Inner loop of `Load` over the records of one file: a record that cannot be read
is passed over, and so is one whose put returns false. -/
def putRecordsLoop (lib : Library) (modelIdentifier : String) (modelResultValue : Float32) :
    List (Except Error CsvRecord) → LocalCacheFactory → List Call → LocalCacheFactory × List Call
  | [], localCacheFactory, calls => (localCacheFactory, calls)
  | .error _ :: rest, localCacheFactory, calls =>
    putRecordsLoop lib modelIdentifier modelResultValue rest localCacheFactory calls
  | .ok record :: rest, localCacheFactory, calls =>
    let put := localCacheFactory.PutToLocalCache lib modelIdentifier record.first
      (.float32 modelResultValue)
    putRecordsLoop lib modelIdentifier modelResultValue rest put.1
      (calls ++ [.PutToLocalCache modelIdentifier record.first (.float32 modelResultValue)])

/-- Second half of the body of the loop of `Load`, from `if repositoryError != nil`
on. The result is the error `Load` returns with, or none when the loop goes on. -/
def installRecords (lib : Library) (t : ModelResultHandler) (calls : List Call)
    (modelIdentifier : String) (modelResultValue : Float32) (modelResult : String)
    (repositoryError : Option Error) : Run ModelResultHandler (Outcome (Option Error)) :=
  match repositoryError with
  | some err => ⟨t, calls, .ok (some ("error getting data " ++ err))⟩
  | none =>
    let rows := putRecordsLoop lib modelIdentifier modelResultValue (lib.csvRead modelResult)
      (t.localCacheFactory.ClearLocalCache modelIdentifier)
      (calls ++ [.ClearLocalCache modelIdentifier])
    ⟨{ t with localCacheFactory := rows.1 }, rows.2, .ok none⟩

/-- Body of the loop of `Load` for one model. The result is the error `Load`
returns with, or none when the loop goes on to the next model. -/
def loadModel (lib : Library) (t : ModelResultHandler) (sspIdentifier modelIdentifier : String)
    (modelDefinition : ModelDefinition) : Run ModelResultHandler (Outcome (Option Error)) :=
  match t.BuildModelResultFileName sspIdentifier modelIdentifier with
  | .panic => ⟨t, [.Now], .panic⟩
  | .ok modelResultFileName =>
    let modelResultValue := loadModelResultValue modelDefinition.Type_
    if stringsHasPrefix t.folderPrefix S3Prefix then
      let s3BucketName := stringsTrimPrefix t.folderPrefix S3Prefix
      let calls := [Call.Now, .GetS3Object s3BucketName modelResultFileName]
      match t.daoFactory.GetS3Object s3BucketName modelResultFileName with
      | .panic => ⟨t, calls, .panic⟩
      | .ok (_, some _) => ⟨t, calls, .ok none⟩
      | .ok (none, none) => ⟨t, calls, .panic⟩
      | .ok (some getObjectOutput, none) =>
        match getObjectOutput.ETag with
        | none => ⟨t, calls, .panic⟩
        | some eTag =>
          let refresh :=
            t.localCacheFactory.ShouldRefresh lib CacheKeyModelResultFileIdentifier eTag
          let calls := calls ++ [.ShouldRefresh CacheKeyModelResultFileIdentifier eTag]
          if refresh.2 then
            let calls := calls ++ [.ReadContent getObjectOutput.Body]
            match t.daoFactory.ReadContent getObjectOutput.Body with
            | .panic => ⟨{ t with localCacheFactory := refresh.1 }, calls, .panic⟩
            | .ok (modelResult, repositoryError) =>
              installRecords lib { t with localCacheFactory := refresh.1 } calls
                modelIdentifier modelResultValue modelResult repositoryError
          else ⟨{ t with localCacheFactory := refresh.1 }, calls, .ok none⟩
    else
      let filePath := lib.filepathJoin t.folderPrefix modelResultFileName
      let calls := [Call.Now, .Open filePath]
      match lib.osOpen filePath with
      | .error _ => ⟨t, calls, .ok none⟩
      | .ok filePointer =>
        let refresh :=
          t.localCacheFactory.ShouldRefreshLocal lib CacheKeyModelResultFileIdentifier
            filePointer
        let calls :=
          calls ++ [.ShouldRefreshLocal CacheKeyModelResultFileIdentifier filePointer.Name]
        if refresh.2 then
          let calls := calls ++ [.GetDataFromLocal filePointer.Name]
          match t.daoFactory.GetDataFromLocal filePointer with
          | .panic => ⟨{ t with localCacheFactory := refresh.1 }, calls, .panic⟩
          | .ok (modelResult, repositoryError) =>
            installRecords lib { t with localCacheFactory := refresh.1 } calls
              modelIdentifier modelResultValue modelResult repositoryError
        else ⟨{ t with localCacheFactory := refresh.1 }, calls, .ok none⟩

/-- Loop of `Load` over the models of the configuration, in iteration order. -/
def loadLoop (lib : Library) (sspIdentifier : String) :
    List (String × ModelDefinition) → ModelResultHandler → List Call →
      Run ModelResultHandler (Outcome (Option Error))
  | [], t, calls => ⟨t, calls, .ok none⟩
  | (modelIdentifier, modelDefinition) :: rest, t, calls =>
    let step := loadModel lib t sspIdentifier modelIdentifier modelDefinition
    match step.result with
    | .ok none => loadLoop lib sspIdentifier rest step.receiver (calls ++ step.calls)
    | result => ⟨step.receiver, calls ++ step.calls, result⟩

/-- Go `ModelResultHandler.Load`: the handler after the call, the calls made and the
error returned. A nil configuration returned without an error is dereferenced. -/
def Load (lib : Library) (t : ModelResultHandler) (sspIdentifier : String) :
    Run ModelResultHandler (Outcome (Option Error)) :=
  match t.modelConfigurationHandler.Provide with
  | .panic => ⟨t, [.Provide], .panic⟩
  | .ok (_, some err) =>
    ⟨t, [.Provide], .ok (some ("fail to provide modelConfiguration: " ++ err))⟩
  | .ok (none, none) => ⟨t, [.Provide], .panic⟩
  | .ok (some modelConfiguration, none) =>
    loadLoop lib sspIdentifier modelConfiguration.ModelDefinitionByIdentifier t [.Provide]

end ModelResultHandler

/-! ## Rule-based evaluator (`RuleBasedModelEvaluator.go`) -/

def HighValueDefaultScore : Float32 := Float32.one

structure RuleBasedModelEvaluator where
  modelResultHandler : ModelResultHandler

namespace RuleBasedModelEvaluator

def getFieldsValues (_t : RuleBasedModelEvaluator) :
    List String → GoMap String String → List String → Except Error (List String)
  | [], _, fieldsValues => .ok fieldsValues
  | field :: fields, valueMap, fieldsValues =>
    match valueMap.get? field with
    | none => .error ("field [" ++ field ++ "] does not exist in valueMap")
    | some fieldValue => getFieldsValues _t fields valueMap (fieldsValues ++ [fieldValue])

/-- Loop of `getFeatures` over the feature configurations of the model. -/
def getFeaturesLoop (t : RuleBasedModelEvaluator) (featureFieldValueMap : GoMap String String) :
    List FeatureConfiguration → List ModelFeature → Except Error (List ModelFeature)
  | [], features => .ok features
  | featureConfiguration :: featureConfigurations, features =>
    match t.getFieldsValues featureConfiguration.Fields featureFieldValueMap [] with
    | .error err => .error ("error getting fields values due to the error " ++ err)
    | .ok fieldsValues =>
      match Transform { Configuration := featureConfiguration, Values := fieldsValues } with
      | .error err => .error ("error transform the modelFeature due to the error " ++ err)
      | .ok transformed =>
        getFeaturesLoop t featureFieldValueMap featureConfigurations (features ++ [transformed])

def getFeatures (t : RuleBasedModelEvaluator) (input : ModelEvaluatorInput) :
    Except Error (List ModelFeature) :=
  getFeaturesLoop t input.FeatureFieldValueMap input.ModelDefinition.Features []

/-- Go `RuleBasedModelEvaluator.Evaluate`. On an error the output carries the
status `ERROR` and zero values elsewhere. -/
def Evaluate (t : RuleBasedModelEvaluator) (input : ModelEvaluatorInput) :
    ModelEvaluatorOutput × Option Error :=
  let modelDefinition := input.ModelDefinition
  let zeroDefinition : ModelDefinition :=
    { Identifier := "", Name := "", Dsp := "", Version := "", Type_ := "",
      FeatureExtractorType := "", Features := [] }
  match t.getFeatures input with
  | .error err =>
    ({ Context := NewContext, Status := ModelEvaluationStatusError,
       ModelResult := { Value := Float32.zero, Key := "" },
       ModelDefinition := zeroDefinition, ModelFeatures := [] },
     some ("error getting modelFeatures: " ++ err))
  | .ok modelFeatures =>
    match t.modelResultHandler.Provide modelDefinition.Identifier modelFeatures
        HighValueDefaultScore with
    | .error err =>
      ({ Context := NewContext, Status := ModelEvaluationStatusError,
         ModelResult := { Value := Float32.zero, Key := "" },
         ModelDefinition := modelDefinition, ModelFeatures := modelFeatures },
       some ("error getting modelResult: " ++ err))
    | .ok modelResult =>
      ({ Context := input.Context, Status := ModelEvaluationStatusSuccess,
         ModelResult := modelResult, ModelDefinition := modelDefinition,
         ModelFeatures := modelFeatures },
       none)

/-- A `RuleBasedModelEvaluator` seen through `interfaces.ModelEvaluator`. -/
def asInterface (t : RuleBasedModelEvaluator) : ModelEvaluator :=
  { Evaluate := fun input => .ok (some (t.Evaluate input).1, (t.Evaluate input).2) }

end RuleBasedModelEvaluator

/-! ## Traffic allocator (`TrafficAllocator.go`) -/

/-- Number of values of a Go `uint32`; arithmetic on one is taken modulo it. -/
def uint32Size : Nat := 4294967296

/-- Number of values of a Go `uint64`. -/
def uint64Size : Nat := 18446744073709551616

/-- Go `NewTrafficAllocationContext`. The loop runs over `ModelToExperiment` in
iteration order and appends each model to the list of its experiment. -/
def NewTrafficAllocationContext (experimentArrangement : GoMap String String)
    (configuration : ExperimentConfiguration) : TrafficAllocationContext :=
  let modelsByExperiment : GoMap String (List String) :=
    configuration.ModelToExperiment.foldl
      (fun modelsByExperiment entry =>
        modelsByExperiment.set entry.2
          ((modelsByExperiment.get? entry.2).getD [] ++ [entry.1]))
      []
  { experimentArrangement := experimentArrangement,
    experimentDefinitionByName := configuration.ExperimentDefinitionByName,
    modelToExperiment := configuration.ModelToExperiment,
    modelsByExperiment := modelsByExperiment }

/-- Go `modelfeature.TrafficAllocator` without its lock. The configuration is a
pointer, nil until the first update; a threshold is a `uint32`, the seed a
`uint64`. -/
structure TrafficAllocator where
  experimentConfiguration : Option ExperimentConfiguration
  experimentThresholds : GoMap String (List Nat)
  seed : Nat
deriving Repr, DecidableEq

/-- Go `NewTrafficAllocator`; the two arguments are `uint64(now.Unix())` and
`uint64(now.Nanosecond())`. -/
def NewTrafficAllocator (unix nanosecond : Nat) : TrafficAllocator :=
  { experimentConfiguration := none,
    experimentThresholds := [],
    seed := (unix * 1000000000 + nanosecond) % uint64Size }

/-- First loop over the treatments of `UpdateConfiguration`:
`totalWeight += t.Weight` on a `uint32`. -/
def totalWeightLoop (treatments : List Treatment) : Nat :=
  treatments.foldl (fun totalWeight t => (totalWeight + t.Weight) % uint32Size) 0

/-- Second loop over the treatments of `UpdateConfiguration`:
`cumulativeWeight += t.Weight; thresholds[i] = cumulativeWeight`. -/
def thresholdsLoop (cumulativeWeight : Nat) : List Treatment → List Nat
  | [] => []
  | t :: rest =>
    let cumulativeWeight := (cumulativeWeight + t.Weight) % uint32Size
    cumulativeWeight :: thresholdsLoop cumulativeWeight rest

/-- Loop of `UpdateConfiguration` over the experiments, on the threshold map built
so far; it returns at the first experiment whose total weight is not 100. -/
def updateConfigurationLoop (experimentThresholds : GoMap String (List Nat)) :
    List (String × ExperimentDefinition) → GoMap String (List Nat) × Option Error
  | [] => (experimentThresholds, none)
  | (experimentName, experimentDefinition) :: rest =>
    let totalWeight := totalWeightLoop experimentDefinition.Treatments
    if totalWeight ≠ 100 then
      (experimentThresholds,
        some ("total weight must be 100, got " ++ toString totalWeight))
    else
      let thresholds := thresholdsLoop 0 experimentDefinition.Treatments
      updateConfigurationLoop (experimentThresholds.set experimentName thresholds) rest

namespace TrafficAllocator

/-- Go `UpdateConfiguration`, called with a non-nil configuration: the allocator
after the call and the error. Both fields are assigned before the loop runs. -/
def UpdateConfiguration (t : TrafficAllocator)
    (experimentConfiguration : ExperimentConfiguration) : TrafficAllocator × Option Error :=
  let result :=
    updateConfigurationLoop [] experimentConfiguration.ExperimentDefinitionByName
  ({ experimentConfiguration := some experimentConfiguration,
     experimentThresholds := result.1,
     seed := t.seed }, result.2)

/-- Go `Rand` when no other goroutine writes the seed: the compare-and-swap
succeeds at the first turn. -/
def Rand (t : TrafficAllocator) : Nat × TrafficAllocator :=
  let x := t.seed
  let x := x ^^^ ((x <<< 21) % uint64Size)
  let x := x ^^^ (x >>> 35)
  let x := x ^^^ ((x <<< 4) % uint64Size)
  ((x &&& 4294967295) % uint32Size,
    { experimentConfiguration := t.experimentConfiguration,
      experimentThresholds := t.experimentThresholds,
      seed := x })

/-- Binary search of `GetTreatmentCode`, `for i < j`, with the number of turns
bounded by `fuel`; reading `thresholds[h]` outside the slice panics. -/
def searchLoop (thresholds : List Nat) (r : Nat) : Nat → Nat → Nat → Outcome Nat
  | 0, i, _ => .ok i
  | fuel + 1, i, j =>
    if i < j then
      let h := i + (j - i) / 2
      match thresholds.get? h with
      | none => .panic
      | some threshold =>
        if r ≥ threshold then searchLoop thresholds r fuel (h + 1) j
        else searchLoop thresholds r fuel i h
    else .ok i

/-- Go `GetTreatmentCode`: the allocator after the call and the two results.
`j` starts at `len(thresholds)-1`, which is -1 for an empty slice; the loop is
then not entered, as with 0 here. Each turn brings `i` and `j` closer, so the
loop takes at most `j - i` turns and `len(thresholds)` turns are enough. -/
def GetTreatmentCode (t : TrafficAllocator) (thresholds : List Nat)
    (treatments : List Treatment) : TrafficAllocator × Outcome (String × Option Error) :=
  if treatments.length = 0 then (t, .ok ("", some "no treatments configured"))
  else
    let drawn := t.Rand
    let r := drawn.1 % 100
    match searchLoop thresholds r thresholds.length 0 (thresholds.length - 1) with
    | .panic => (drawn.2, .panic)
    | .ok i =>
      match treatments.get? i with
      | none => (drawn.2, .panic)
      | some treatment => (drawn.2, .ok (treatment.TreatmentCode, none))

/-- Loop of `GetTrafficAllocationContext` over the experiments of the stored
configuration. -/
def arrangementLoop (t : TrafficAllocator) (experimentArrangement : GoMap String String) :
    List (String × ExperimentDefinition) → TrafficAllocator × Outcome (GoMap String String)
  | [] => (t, .ok experimentArrangement)
  | (experimentName, experimentDef) :: rest =>
    match t.experimentThresholds.get? experimentName with
    | none => arrangementLoop t experimentArrangement rest
    | some thresholds =>
      let result := t.GetTreatmentCode thresholds experimentDef.Treatments
      match result.2 with
      | .panic => (result.1, .panic)
      | .ok (treatmentCode, err) =>
        match err with
        | some _ => arrangementLoop result.1 experimentArrangement rest
        | none =>
          arrangementLoop result.1 (experimentArrangement.set experimentName treatmentCode) rest

/-- Go `GetTrafficAllocationContext`: the allocator after the call and the
snapshot. Reading the experiments of a nil configuration panics. -/
def GetTrafficAllocationContext (t : TrafficAllocator) :
    TrafficAllocator × Outcome TrafficAllocationContext :=
  match t.experimentConfiguration with
  | none => (t, .panic)
  | some experimentConfiguration =>
    let result := arrangementLoop t [] experimentConfiguration.ExperimentDefinitionByName
    match result.2 with
    | .panic => (result.1, .panic)
    | .ok experimentArrangement =>
      (result.1, .ok (NewTrafficAllocationContext experimentArrangement experimentConfiguration))

/-- The allocator as the evaluator sees it. -/
def asInterface (t : TrafficAllocator) : TrafficAllocatorInterface :=
  { GetTrafficAllocationContext :=
      match t.GetTrafficAllocationContext.2 with
      | .panic => .panic
      | .ok snapshot => .ok (some snapshot) }

end TrafficAllocator

/-! ## Experiment configuration (`ExperimentConfiguration.go`) -/

/-- Go `interfaces.ConfigurationHandlerInterface[T]` with both of its methods, for
the loader that calls one after the other: `σ` is the state the implementation
keeps, and a method returns the state after the call next to its results. -/
structure ConfigurationHandlerObject (σ T : Type) where
  Load : σ → σ × Outcome (Bool × Option Error)
  Provide : σ → σ × Outcome (Option T × Option Error)

/-- The method of `interfaces.TrafficAllocatorInterface` that the loader calls, over
the state `σ` of the implementation; the argument is a pointer. -/
structure TrafficAllocatorObject (σ : Type) where
  UpdateConfiguration : σ → Option ExperimentConfiguration → σ × Outcome (Option Error)

/-- Go `ExperimentConfigurationHandler`: two interface values. -/
structure ExperimentConfigurationHandler (σ : Type) where
  ConfigurationHandler : ConfigurationHandlerObject σ ExperimentConfiguration
  TrafficAllocator : TrafficAllocatorObject σ

/-- Go `ExperimentConfigurationHandler.Load`, run from the state `s` of the two
collaborators. -/
def ExperimentConfigurationHandler.Load {σ : Type} (t : ExperimentConfigurationHandler σ)
    (s : σ) : Run σ (Outcome (Bool × Option Error)) :=
  let loaded := t.ConfigurationHandler.Load s
  match loaded.2 with
  | .panic => ⟨loaded.1, [.Load], .panic⟩
  | .ok (_, some err) =>
    ⟨loaded.1, [.Load], .ok (false, some ("failed to load experiment configuration: " ++ err))⟩
  | .ok (false, none) => ⟨loaded.1, [.Load], .ok (false, none)⟩
  | .ok (true, none) =>
    let provided := t.ConfigurationHandler.Provide loaded.1
    match provided.2 with
    | .panic => ⟨provided.1, [.Load, .Provide], .panic⟩
    | .ok (_, some provideErr) =>
      ⟨provided.1, [.Load, .Provide],
        .ok (false, some ("failed to provide experiment configuration: " ++ provideErr))⟩
    | .ok (config, none) =>
      let updated := t.TrafficAllocator.UpdateConfiguration provided.1 config
      match updated.2 with
      | .panic => ⟨updated.1, [.Load, .Provide, .UpdateConfiguration config], .panic⟩
      | .ok (some updateErr) =>
        ⟨updated.1, [.Load, .Provide, .UpdateConfiguration config],
          .ok (false, some ("failed to update traffic allocator configuration: " ++
            updateErr))⟩
      | .ok none =>
        ⟨updated.1, [.Load, .Provide, .UpdateConfiguration config], .ok (true, none)⟩

/-- The experiment handler as `Factory.go` wires it: a `ConfigurationHandler` and a
`TrafficAllocator`, whose states make up the state. Updating the allocator with a
nil configuration reads through the nil pointer. -/
def wiredExperimentConfigurationHandler (lib : Library) :
    ExperimentConfigurationHandler
      (ConfigurationHandler ExperimentConfiguration × TrafficAllocator) :=
  { ConfigurationHandler :=
      { Load := fun s => (((s.1.Load lib).receiver, s.2), (s.1.Load lib).result),
        Provide := fun s =>
          match s.1.Provide with
          | .ok config => (s, .ok (some config, none))
          | .error err => (s, .ok (none, some err)) },
    TrafficAllocator :=
      { UpdateConfiguration := fun s experimentConfiguration =>
          match experimentConfiguration with
          | none =>
            ((s.1, { experimentConfiguration := none, experimentThresholds := [],
                     seed := s.2.seed }), .panic)
          | some configuration =>
            ((s.1, (s.2.UpdateConfiguration configuration).1),
              .ok (s.2.UpdateConfiguration configuration).2) } }

/-! ## Task initializer (`task/TaskInitializer.go`)

An `int` has 64 bits. A `float64` that is the conversion of an `int64` is given by
its value, which is an integer. -/

/-- Number of low bits of a natural number that a `float64` does not keep: the
least `e`, up to the fuel, with `m / 2^e` below 2^53. -/
def excessBits : Nat → Nat → Nat
  | 0, _ => 0
  | fuel + 1, m => if m < 9007199254740992 then 0 else excessBits fuel (m / 2) + 1

/-- Go conversion `float64(n)` of an `int64`: `n` rounded to 53 significant bits,
to the nearest value and to the even one of two that are equally near. -/
def float64OfInt64 (n : Int) : Int :=
  let m := n.natAbs
  let e := excessBits 11 m
  let q := m / 2 ^ e
  let r := m % 2 ^ e
  let rounded : Nat :=
    if 2 ^ e < 2 * r ∨ (2 * r = 2 ^ e ∧ q % 2 = 1) then (q + 1) * 2 ^ e else q * 2 ^ e
  if n < 0 then -(rounded : Int) else rounded

/-- Go `math.Min` on two conversions of an `int64`: neither is a NaN, an infinity or
a negative zero, which leaves the comparison `x < y` to decide. -/
def mathMin (x y : Int) : Int :=
  if x < y then x else y

/-- Go conversion `int64(f)` of a `float64` with an integer value. -/
def int64OfFloat64 (lib : Library) (f : Int) : Int :=
  if -9223372036854775808 ≤ f ∧ f < 9223372036854775808 then f
  else wrapInt64 (lib.int64OutOfRange f)

/-- Go `calculateDelay`; `2*currentDelay` is an `int64` product. -/
def calculateDelay (lib : Library) (timesAlreadyAttempted : Int)
    (currentDelay minDelay maxDelay : Int) : Int :=
  if timesAlreadyAttempted = 1 then 0
  else if timesAlreadyAttempted = 2 then minDelay
  else
    int64OfFloat64 lib
      (mathMin (float64OfInt64 (wrapInt64 (2 * currentDelay))) (float64OfInt64 maxDelay))

/-- Go interface `Task`, as far as `submitTask` uses it: `Run` reads and writes the
state `σ` of the task and returns. -/
structure Task (σ : Type) where
  Run : σ → σ × Option Error

structure InitializerTask (σ : Type) where
  Name : String
  Task : Task σ
  MaximumAttempts : Int
  MinDelayBeforeAttemptMs : Int
  MaxDelayBeforeAttemptMs : Int

/-- What `submitTask` does that can be seen from outside: `Sleep delay` is
`time.Sleep(time.Duration(delay) * time.Millisecond)`, `Run` is `task.Task.Run()`,
and `Send result` is `i.taskResultChan <- result`. -/
inductive TaskEvent where
  | Sleep (delay : Int)
  | Run
  | Send (result : Option Error)
deriving Repr, DecidableEq

/-- Duration that `time.Sleep` is called with for a delay in milliseconds, an
`int64` product. -/
def sleepDuration (delay : Int) : Duration :=
  wrapInt64 (delay * 1000000)

/-- What a run of `submitTask` leaves: the state of the task, the events in order,
and whether `submitTask` has returned. -/
structure Submission (σ : Type) where
  state : σ
  events : List TaskEvent
  returned : Bool

/-- The `for` loop of `submitTask`, for as many iterations as the fuel allows, from
the values of `attemptCount`, `delay` and `err` at the head of an iteration. -/
def submitLoop {σ : Type} (lib : Library) (task : InitializerTask σ) :
    Nat → Int → Int → Option Error → σ → Submission σ
  | 0, _, _, _, s => { state := s, events := [], returned := false }
  | fuel + 1, attemptCount, delay, err, s =>
    let attemptCount := wrapInt64 (attemptCount + 1)
    if attemptCount > task.MaximumAttempts then
      { state := s,
        events :=
          [.Send (some ("number of retries exceeded maxAttempts [" ++
            toString task.MaximumAttempts ++ "] for task " ++ task.Name ++
            " due to error: " ++ err.getD "%!s(<nil>)"))],
        returned := true }
    else
      let delay :=
        calculateDelay lib attemptCount delay task.MinDelayBeforeAttemptMs
          task.MaxDelayBeforeAttemptMs
      let ran := task.Task.Run s
      match ran.2 with
      | none => { state := ran.1, events := [.Sleep delay, .Run, .Send none], returned := true }
      | some err =>
        let rest := submitLoop lib task fuel attemptCount delay (some err) ran.1
        { state := rest.state, events := .Sleep delay :: .Run :: rest.events,
          returned := rest.returned }

/-- Go `submitTask`, run for as many iterations of its loop as the fuel allows. -/
def submitTask {σ : Type} (lib : Library) (fuel : Nat) (_started : Int)
    (task : InitializerTask σ) (s : σ) : Submission σ :=
  submitLoop lib task fuel 0 0 none s

/-- Delay before an attempt as the retry schedule describes it: 0 before the
first, the minimum before the second, and before every later one the lesser of
twice the delay before and the maximum. The attempts are counted from 1. -/
def expectedDelay (minDelay maxDelay : Int) : Nat → Int
  | 0 => 0
  | 1 => 0
  | 2 => minDelay
  | attempt + 3 => min (2 * expectedDelay minDelay maxDelay (attempt + 2)) maxDelay

/-- Events of the given number of failed attempts, from the attempt numbered
`first` on, each after the delay of the retry schedule. -/
def expectedEvents (minDelay maxDelay : Int) : Nat → Nat → List TaskEvent
  | _, 0 => []
  | first, attempts + 1 =>
    .Sleep (expectedDelay minDelay maxDelay first) :: .Run ::
      expectedEvents minDelay maxDelay (first + 1) attempts

/-! ## Sample configuration

One model `m` with a single feature over the field `$.a`, one soft-filter
experiment `E`, and a cache in which the key `1` of model `m` holds 0.0. -/

/-- The OpenRTB request of the samples: the document `{"a":"v"}`. -/
def sampleDocument : String := "\x7b\"a\":\"v\"\x7d"

/-- Library of the samples. Its parser knows the sample document, for which it
reports the value `v` at every path `a`; in any other text it finds no key. Its CSV
reader knows one file of four lines, the second of which has a field too many. -/
def sampleLibrary : Library :=
  { formatFloat32 := fun f => if f = Float32.one then "1" else "0",
    EachKey := fun data paths =>
      if data = sampleDocument then
        .ok ((paths.enum.filter (fun path => decide (path.2 = ["a"]))).map
          (fun path => (path.1, "v")))
      else .ok [],
    uuidNew := "00000000-0000-4000-8000-000000000000",
    cacheSet := fun _ _ => true,
    osOpen := fun name => .error ("open " ++ name ++ ": no such file or directory"),
    filepathJoin := fun dir name => dir ++ "/" ++ name,
    unmarshalModelConfiguration := fun _ => .error "unexpected end of JSON input",
    unmarshalExperimentConfiguration := fun _ => .error "unexpected end of JSON input",
    csvRead := fun data =>
      if data = "1,0.1\n2,a,b\n1|x,0.3\n0,0.2\n" then
        [.ok ⟨"1", ["0.1"]⟩, .error "record on line 2: wrong number of fields",
         .ok ⟨"1|x", ["0.3"]⟩, .ok ⟨"0", ["0.2"]⟩]
      else [],
    int64OutOfRange := fun _ => -9223372036854775808 }

def sampleModelDefinition : ModelDefinition :=
  { Identifier := "m", Name := "low-value", Dsp := "adsp", Version := "v2",
    Type_ := "LowValue", FeatureExtractorType := "JsonExtractor",
    Features := [{ Name := "f", Fields := ["$.a"], Transformations := ["Exists"],
                   Mapping := [], MappingDefaultValue := "" }] }

def sampleModelConfiguration : ModelConfiguration :=
  { ModelDefinitionByIdentifier := [("m", sampleModelDefinition)] }

/-- File access object that finds no object and no file content. -/
def sampleDaoFactory : DaoFactoryInterface :=
  { GetDataFromLocal := fun _ => .ok ("", some "file already closed"),
    ReadContent := fun _ => .ok ("", some "unexpected EOF"),
    GetS3Object := fun _ _ => .ok (none, some "failed to get object from S3: NoSuchKey") }

/-- Clock that reads 2024-09-20, 00 h. -/
def sampleTimeProvider : TimeProvider :=
  { Now := .ok { Date := "2024-09-20", Hour := "00" } }

def sampleCache : LocalCacheFactory :=
  { localCacheMap :=
      [("Configuration", [("Model", ⟨.modelConfiguration sampleModelConfiguration, 0⟩)]),
       ("m", [("1", ⟨.float32 Float32.zero, defaultTTL⟩)])] }

/-- Configuration handler wired as `getModelConfigurationHandler` of
`Factory.go` wires it. -/
def sampleConfigurationHandler : ConfigurationHandler ModelConfiguration :=
  { folderPrefix := "", sspIdentifier := "ssp", daoFactory := sampleDaoFactory,
    fileIdentifierCacheKey := CacheKeyModelConfigurationFileIdentifier,
    dataCacheKey := CacheKeyModel, configType := "model", localCacheFactory := sampleCache }

def sampleModelConfigurationHandler : ModelConfigurationHandler :=
  { configurationHandler := sampleConfigurationHandler.asInterface }

/-- Snapshot in which experiment `E` is arranged to the given treatment. -/
def sampleSnapshot (code : String) : TrafficAllocationContext :=
  { experimentArrangement := [("E", code)],
    experimentDefinitionByName :=
      [("E", { Name := "E", Type_ := "soft-filter",
               Treatments := [⟨"T", 80⟩, ⟨"C", 20⟩], StartTimeUTC := 0, EndTimeUTC := 0 })],
    modelToExperiment := [("m", "E")],
    modelsByExperiment := [("E", ["m"])] }

def sampleRuleBasedModelEvaluator : RuleBasedModelEvaluator :=
  { modelResultHandler :=
      { sspIdentifier := "ssp", folderPrefix := "", daoFactory := sampleDaoFactory,
        modelConfigurationHandler := sampleModelConfigurationHandler.asInterface,
        localCacheFactory := sampleCache, timeProvider := sampleTimeProvider } }

def sampleEvaluator (code : String) : RequestEvaluator :=
  { sspIdentifier := "ssp",
    trafficAllocator := { GetTrafficAllocationContext := .ok (some (sampleSnapshot code)) },
    modelEvaluator := sampleRuleBasedModelEvaluator.asInterface,
    modelConfigurationHandler := sampleModelConfigurationHandler.asInterface }

/-- Model evaluator that fails on every input, returning a nil output. -/
def failingModelEvaluator : ModelEvaluator :=
  { Evaluate := fun _ => .ok (none, some "model evaluation error") }

/-- The sample evaluator with the failing model evaluator. -/
def failingEvaluator : RequestEvaluator :=
  { sampleEvaluator "T" with modelEvaluator := failingModelEvaluator }

/-- Text of the default response once 1.0 is written as `1`. -/
def defaultResponseText : Response :=
  { Slots := [{ FilterDecision := Float32.one,
                Ext := "\x7b\"amazontest\":\x7b\"decision\":1\x7d\x7d" }],
    Ext := "\x7b\"amazontest\":\x7b\"learning\":0\x7d\x7d" }

/-- Model evaluator that reports success with the score +Inf for every
model. -/
def infiniteScoreModelEvaluator : ModelEvaluator :=
  { Evaluate := fun input =>
      .ok (some { Context := input.Context, Status := ModelEvaluationStatusSuccess,
                  ModelResult := { Value := Float32.posInf, Key := "k" },
                  ModelDefinition := input.ModelDefinition, ModelFeatures := [] },
           none) }

/-- The sample evaluator with the model evaluator that scores +Inf. -/
def infiniteScoreEvaluator : RequestEvaluator :=
  { sampleEvaluator "T" with modelEvaluator := infiniteScoreModelEvaluator }

/-- Successful output of the sample model with the given score. -/
def sampleOutput (value : Float32) : ModelEvaluatorOutput :=
  { Context := NewContext, Status := ModelEvaluationStatusSuccess,
    ModelResult := { Value := value, Key := "1" },
    ModelDefinition := sampleModelDefinition, ModelFeatures := [] }

/-- Context holding the sample snapshot (treatment "T") and the given
outputs. -/
def sampleContext (outputs : List ModelEvaluatorOutput) : Context :=
  { NewContext with
    TrafficAllocationContext := some (sampleSnapshot "T"),
    ModelEvaluatorOutputs := outputs }

/-- Whether an output takes part in the aggregation for the given models. -/
def countsFor (models : List String) (o : ModelEvaluatorOutput) : Bool :=
  decide (o.Status = ModelEvaluationStatusSuccess ∧ o.ModelDefinition.Identifier ∈ models)

/-- The fields of an output that the aggregation and the response can depend
on: everything but the copy of the context. -/
def outputCore (o : ModelEvaluatorOutput) :
    String × ModelResult × ModelDefinition × List ModelFeature :=
  (o.Status, o.ModelResult, o.ModelDefinition, o.ModelFeatures)

/-- A feature with a mapping table, an empty value in front and a value the table
does not hold. -/
def sampleMappedFeature : ModelFeature :=
  { Configuration :=
      { Name := "deviceType", Fields := ["$.device.devicetype"],
        Transformations := ["ApplyMappings"],
        Mapping := [("1", "mobile"), ("2", "pc")], MappingDefaultValue := "other" },
    Values := ["", "2", "7", "1"] }

/-- Experiment configuration in which two models share an experiment. -/
def sampleExperimentConfiguration : ExperimentConfiguration :=
  { Type_ := "soft-filter",
    ExperimentDefinitionByName :=
      [("exp1", { Name := "exp1", Type_ := "soft-filter",
                  Treatments := [⟨"T", 30⟩, ⟨"C", 50⟩, ⟨"B", 20⟩],
                  StartTimeUTC := 0, EndTimeUTC := 0 }),
       ("exp2", { Name := "exp2", Type_ := "type2",
                  Treatments := [⟨"A", 100⟩], StartTimeUTC := 0, EndTimeUTC := 0 })],
    ModelToExperiment := [("model1", "exp1"), ("model3", "exp2"), ("model2", "exp1")] }

/-- Configuration whose only experiment has weights 60 and 60. -/
def invalidWeightConfiguration : ExperimentConfiguration :=
  { Type_ := "soft-filter",
    ExperimentDefinitionByName :=
      [("exp1", { Name := "exp1", Type_ := "soft-filter",
                  Treatments := [⟨"A", 60⟩, ⟨"B", 60⟩],
                  StartTimeUTC := 0, EndTimeUTC := 0 })],
    ModelToExperiment := [("model1", "exp1")] }

/-- Configuration whose only experiment has the weights 4294967295 and 101: their
sum is 4294967396, which a `uint32` holds as 100. -/
def wrappedWeightConfiguration : ExperimentConfiguration :=
  { Type_ := "soft-filter",
    ExperimentDefinitionByName :=
      [("exp1", { Name := "exp1", Type_ := "soft-filter",
                  Treatments := [⟨"T", 4294967295⟩, ⟨"C", 101⟩],
                  StartTimeUTC := 0, EndTimeUTC := 0 })],
    ModelToExperiment := [("model1", "exp1")] }

/-- Allocator as `NewTrafficAllocator` leaves it when the clock reads 1700000000 s
and 123456789 ns. -/
def freshAllocator : TrafficAllocator := NewTrafficAllocator 1700000000 123456789

/-- Allocator that has accepted `sampleExperimentConfiguration`. -/
def configuredAllocator : TrafficAllocator :=
  (freshAllocator.UpdateConfiguration sampleExperimentConfiguration).1

/-- Input for `sampleModelDefinition` whose field map lacks the field `$.a`. -/
def sampleInputMissingField : ModelEvaluatorInput :=
  { Context := NewContext, OpenRtbRequest := "", ModelDefinition := sampleModelDefinition,
    FeatureFieldValueMap := [] }

/-- Input for `sampleModelDefinition` in which the field `$.a` is empty: the key is
`0`, which the cache of model `m` does not hold. -/
def sampleInputCacheMiss : ModelEvaluatorInput :=
  { Context := NewContext, OpenRtbRequest := "", ModelDefinition := sampleModelDefinition,
    FeatureFieldValueMap := [("$.a", "")] }

/-- Library of the loader samples: the text `model` parses to the sample model
configuration, the text `experiment` to the sample experiment configuration. -/
def loaderLibrary : Library :=
  { sampleLibrary with
    unmarshalModelConfiguration := fun data =>
      if data = "model" then .ok sampleModelConfiguration
      else .error "unexpected end of JSON input",
    unmarshalExperimentConfiguration := fun data =>
      if data = "experiment" then .ok sampleExperimentConfiguration
      else .error "unexpected end of JSON input" }

/-- File access object of the loader samples: the bucket holds the model
configuration and one result file for each of the models `a` and `b`, each with its
own `ETag`; reading the body `rows` yields the four lines of the result file, and
reading any other body yields the text that names it. -/
def loaderDaoFactory : DaoFactoryInterface :=
  { GetDataFromLocal := fun _ => .ok ("", some "file already closed"),
    ReadContent := fun body =>
      if body = "rows" then .ok ("1,0.1\n2,a,b\n1|x,0.3\n0,0.2\n", none)
      else .ok (body, none),
    GetS3Object := fun _ key =>
      if key = "ssp/configuration/model/config.json" then
        .ok (some { ETag := some "etag-model", Body := "model" }, none)
      else if key = "ssp/2024-09-20/00/a.csv" then
        .ok (some { ETag := some "etag-a", Body := "rows" }, none)
      else if key = "ssp/2024-09-20/00/b.csv" then
        .ok (some { ETag := some "etag-b", Body := "rows" }, none)
      else .ok (none, some "failed to get object from S3: NoSuchKey") }

/-- Model configuration handler over an S3 bucket and an empty cache registry. -/
def sampleS3ConfigurationHandler : ConfigurationHandler ModelConfiguration :=
  { folderPrefix := "s3://bucket", sspIdentifier := "ssp", daoFactory := loaderDaoFactory,
    fileIdentifierCacheKey := CacheKeyModelConfigurationFileIdentifier,
    dataCacheKey := CacheKeyModel, configType := "model",
    localCacheFactory := { localCacheMap := [] } }

/-- Experiment handler between two test doubles: `Load` reports that nothing was
installed. -/
def idleExperimentConfigurationHandler : ExperimentConfigurationHandler Unit :=
  { ConfigurationHandler :=
      { Load := fun s => (s, .ok (false, none)),
        Provide := fun s => (s, .ok (none, some "ConfigurationHandler Provide error")) },
    TrafficAllocator :=
      { UpdateConfiguration := fun s _ => (s, .ok (some "UpdateConfiguration error")) } }

/-- Model configuration with the two models `a` (low value) and `b` (high value). -/
def twoModelConfiguration : ModelConfiguration :=
  { ModelDefinitionByIdentifier :=
      [("a", { sampleModelDefinition with Identifier := "a" }),
       ("b", { sampleModelDefinition with Identifier := "b", Type_ := "HighValue" })] }

/-- Model result handler over the sample bucket, with the given model configuration
and an empty cache registry. -/
def sampleModelResultHandler (modelConfiguration : ModelConfiguration) : ModelResultHandler :=
  { sspIdentifier := "ssp", folderPrefix := "s3://bucket", daoFactory := loaderDaoFactory,
    modelConfigurationHandler :=
      { Provide := .ok (some modelConfiguration, none),
        GetAllUniqueFeatureFields := .ok ([], none) },
    localCacheFactory := { localCacheMap := [] }, timeProvider := sampleTimeProvider }

/-- Model configuration with the model `a` alone. -/
def oneModelConfiguration : ModelConfiguration :=
  { ModelDefinitionByIdentifier := [("a", { sampleModelDefinition with Identifier := "a" })] }

/-- The records that were read without an error, in the order read. -/
def readRecords (results : List (Except Error CsvRecord)) : List CsvRecord :=
  results.filterMap (fun result =>
    match result with
    | .ok record => some record
    | .error _ => none)

/-- The first columns of the records that were read without an error. -/
def recordKeys (results : List (Except Error CsvRecord)) : List String :=
  (readRecords results).map (fun record => record.first)

/-- Task whose `Run` fails every time; the state counts the runs. -/
def failingTask : Task Nat :=
  { Run := fun runs => (runs + 1, some "load failed") }

/-- Task of seven attempts with the delays of the tests: 100 ms at least, 1000 ms at
most. -/
def sampleInitializerTask : InitializerTask Nat :=
  { Name := "ModelResultLoader", Task := failingTask, MaximumAttempts := 7,
    MinDelayBeforeAttemptMs := 100, MaxDelayBeforeAttemptMs := 1000 }

/-- Task of three attempts whose least delay is 2^62 ms and whose greatest delay is
the greatest `int64`. -/
def longDelayInitializerTask : InitializerTask Nat :=
  { Name := "ModelResultLoader", Task := failingTask, MaximumAttempts := 3,
    MinDelayBeforeAttemptMs := 4611686018427387904,
    MaxDelayBeforeAttemptMs := 9223372036854775807 }

/-- Model result handler over a bucket in which the result files of the models `a`
and `b` have the same `ETag`. -/
def equalTagModelResultHandler : ModelResultHandler :=
  { sampleModelResultHandler twoModelConfiguration with
    daoFactory :=
      { loaderDaoFactory with
        GetS3Object := fun _ key =>
          if key = "ssp/2024-09-20/00/a.csv" ∨ key = "ssp/2024-09-20/00/b.csv" then
            .ok (some { ETag := some "etag", Body := "rows" }, none)
          else .ok (none, some "failed to get object from S3: NoSuchKey") } }

/-- What the first `count` calls of `Run` return, one after the other from the
state `s` of the task. -/
def runOutcomes {σ : Type} (task : Task σ) : Nat → σ → List (Option Error)
  | 0, _ => []
  | count + 1, s => (task.Run s).2 :: runOutcomes task count (task.Run s).1

/-- The events other than the sleeps. -/
def withoutSleeps (events : List TaskEvent) : List TaskEvent :=
  events.filter (fun event =>
    match event with
    | .Sleep _ => false
    | _ => true)

/-- Task that fails every time and whose number of attempts is the greatest `int`. -/
def endlessInitializerTask : InitializerTask Nat :=
  { Name := "ModelResultLoader", Task := failingTask,
    MaximumAttempts := 9223372036854775807,
    MinDelayBeforeAttemptMs := 100, MaxDelayBeforeAttemptMs := 1000 }

/-- Task whose `Run` fails twice and then succeeds; the state counts the runs. -/
def recoveringTask : Task Nat :=
  { Run := fun runs => (runs + 1, if runs < 2 then some "load failed" else none) }

/-- Task of five attempts, as the service configures its loaders, that succeeds at
the third. -/
def recoveringInitializerTask : InitializerTask Nat :=
  { Name := "ModelResultLoader", Task := recoveringTask, MaximumAttempts := 5,
    MinDelayBeforeAttemptMs := 1000, MaxDelayBeforeAttemptMs := 10000 }

/-- Transformer of the tests that appends the given value. -/
def appendTransformer (value : String) : Transformer := fun modelFeature =>
  .ok { Configuration := modelFeature.Configuration, Values := modelFeature.Values ++ [value] }

/-- Transformer map of the tests: `transformer1` appends `1`, `transformer2`
appends `2`, and `transformer3` fails. -/
def testTransformerMap : GoMap String Transformer :=
  [("transformer1", appendTransformer "1"),
   ("transformer2", appendTransformer "2"),
   ("transformer3", fun _ => .error "transformer3 error")]

/-- Feature with the single value `initial` and the given transformer names. -/
def initialFeature (transformations : List String) : ModelFeature :=
  { Configuration :=
      { Name := "f", Fields := ["$.a"], Transformations := transformations, Mapping := [],
        MappingDefaultValue := "" },
    Values := ["initial"] }

/-- Model configuration with two models that share the field `$.a`: model `a` reads
`$.a` and `$.b` in one feature, model `b` reads `$.a` twice and `$.c`. -/
def sharedFieldConfiguration : ModelConfiguration :=
  { ModelDefinitionByIdentifier :=
      [("a", { sampleModelDefinition with
                Identifier := "a",
                Features := [{ Name := "f", Fields := ["$.a", "$.b"],
                               Transformations := ["Exists"], Mapping := [],
                               MappingDefaultValue := "" }] }),
       ("b", { sampleModelDefinition with
                Identifier := "b",
                Features := [{ Name := "g", Fields := ["$.a", "$.a"],
                               Transformations := ["Exists"], Mapping := [],
                               MappingDefaultValue := "" },
                             { Name := "h", Fields := ["$.c"],
                               Transformations := ["Exists"], Mapping := [],
                               MappingDefaultValue := "" }] })] }

/-- Model configuration handler whose provider returns the given configuration. -/
def providingHandler (modelConfiguration : ModelConfiguration) : ModelConfigurationHandler :=
  { configurationHandler := { Provide := .ok (some modelConfiguration, none) } }

/-- Model configuration handler whose provider fails. -/
def failingHandler : ModelConfigurationHandler :=
  { configurationHandler := { Provide := .ok (none, some "key does not exist in the cache") } }

/-- Model configuration whose only feature names the field `a`, without `$.`. -/
def bareFieldConfiguration : ModelConfiguration :=
  { ModelDefinitionByIdentifier :=
      [("m", { sampleModelDefinition with
                Features := [{ Name := "f", Fields := ["a"], Transformations := ["Exists"],
                               Mapping := [], MappingDefaultValue := "" }] })] }

/-- The sample evaluator over `bareFieldConfiguration`. -/
def bareFieldEvaluator : RequestEvaluator :=
  { sampleEvaluator "T" with
    modelConfigurationHandler := (providingHandler bareFieldConfiguration).asInterface }

/-- The state that `Rand` stores when it finds the state `x`: the three lines
`x ^= x << 21`, `x ^= x >> 35`, `x ^= x << 4` on a `uint64`. -/
def nextSeed (x : Nat) : Nat :=
  let x := x ^^^ ((x <<< 21) % uint64Size)
  let x := x ^^^ (x >>> 35)
  let x := x ^^^ ((x <<< 4) % uint64Size)
  x

/-- The allocator after the given number of calls of `Rand`. -/
def randTimes : Nat → TrafficAllocator → TrafficAllocator
  | 0, t => t
  | calls + 1, t => randTimes calls t.Rand.2

/-- A map of naturals that takes the XOR of two arguments to the XOR of their
images. -/
def XorLinear (f : Nat → Nat) : Prop :=
  ∀ x y : Nat, f (x ^^^ y) = f x ^^^ f y

/-- The XOR of the columns at the positions of the set bits of `y`. -/
def applyColumns (columns : List Nat) (y : Nat) : Nat :=
  (List.range columns.length).foldl
    (fun result i => if y.testBit i then result ^^^ columns.getD i 0 else result) 0

/-- The three values that `Rand` returns next from the state `x`, side by side. -/
def nextOutputs (x : Nat) : Nat :=
  (nextSeed x % 2 ^ 32) ^^^ ((nextSeed (nextSeed x) % 2 ^ 32) <<< 32) ^^^
    ((nextSeed (nextSeed (nextSeed x)) % 2 ^ 32) <<< 64)

/-- Columns of the linear map that takes `nextSeed x ^^^ x` back to the state `x`. -/
def fixedPointColumns : List Nat :=
  [6516704341582471160, 9646561575586873073, 4232945809585568995, 12481724207646011388,
   9377868305785702850, 3839674458059084421, 7679348916118168842, 16439703029986511637,
   1152921504606846992, 2305843009213693984, 4611686018427387968, 9223372036854775936,
   3530963395173941249, 7061926790347882498, 14123853580695764996, 13331926482855919881,
   8217108892002288146, 16434217784004576292, 17952654889473542473, 17458565705237533330,
   15389383238535357477, 11107184592031861067, 3767625110354170518, 7535250220708341036,
   16151505639166856025, 1729457023734513800, 72066939890958353, 144133879781916706,
   288267759563833412, 576535519127666824, 2377909949104652305, 4755819898209304610,
   9511639796418609220, 4107498914301608329, 4828150721025147411, 9656301442050294822,
   4396822205564979533, 5407078778528600987, 12038996467906520631, 12064486008683813717,
   9213191338832017323, 14895420382010109527, 8369322866451303317, 72058143793741841,
   144116287587483682, 288232575174967364, 576465150349934728, 2378050686660116497,
   4756101373320232994, 9512202746640465988, 4108624814745321865, 4830402521912574483,
   9660805043825148966, 4405829409114687821, 5425093185628017563, 12075025282105353783,
   9090154697599241583, 14793743762597125087, 11140743451484698558, 3834742829259845500,
   9449925899823630787, 3983789646134940295, 7967579292269880590, 17016163782289935133]

/-- Columns of the linear map that takes the three values that `Rand` returns next,
laid side by side, back to the state. -/
def outputColumns : List Nat :=
  [0, 0, 0, 0, 0, 0, 0, 0, 0, 0, 0, 0, 0, 0, 0, 0, 0, 0, 0, 0, 0, 0, 0, 0, 0, 0, 0,
   13430239483990237147, 0, 0, 10275650748812523510, 11326807959444713453, 1011620926335785369,
   3982479095638534316, 10724427378052405528, 3712971879806366320, 14035280726208383112,
   12600454894564280974, 12098493005729488220, 6188637556726823672, 0, 0, 0,
   3712971604928459384, 14035281275964197016, 12600455994075908782, 12465490366059862296,
   15887286834228117954, 11329059482216427501, 1234737520534275140, 13685748929535884090,
   18327752284527953286, 15672406609326139237, 1848804136499926357, 12464927416106424600,
   15888412734134993346, 11326807682402676717, 1239241120161514564, 12465725855330729854,
   5973575229690575608, 9223899800164473241, 11473183466385272559, 11220941476642533814,
   14281014728574775080, 52540243199181824, 9360410888084088430, 2927018880786487106,
   3126724041994823365, 838374498105049092, 612021405492239828, 13523127080899616823,
   939698145044498479, 2489361188835485218, 14231506356991894058, 11552730710778011594,
   13474471127635425236, 2923914775885668902, 5627526543972014480, 3992048798170097855,
   10705285911404976446, 38282933294858308, 1088177412716927248, 3846235929244346814,
   3097644653493634279, 617030534492587072, 1016424200397935964, 3991672254486130982,
   1482646554918169101, 39254617068299810, 1088486192482375132, 3846439963133325350,
   12320353831118665686, 620183782479520290, 1011620891976047000, 3982479164358011054,
   10724427240613452060]

/-! ## Facts -/

theorem defaultResponse_text (lib : Library) (hone : lib.formatFloat32 Float32.one = "1") :
    DefaultResponse lib = defaultResponseText := by
  have hfin : (Float32.one.isNaN || Float32.one.isInf) = false := by decide
  simp only [DefaultResponse, buildExtension, jsonMarshalMembers, jsonMarshalValue, sortMembers,
    insertMember, GoMap.set, DefaultFilterRecommendation, DefaultLearning, hone, hfin,
    List.foldl, List.foldr]
  decide

/-- C1: for a nil input, and for an input whose `OpenRtbRequest` is empty and
whose `OpenRtbRequestMap` is nil or empty, `Evaluate` returns `DefaultResponse`:
one slot with `FilterDecision` 1.0 and `Ext` `{"amazontest":{"decision":1}}`,
and top-level `Ext` `{"amazontest":{"learning":0}}` (1.0 being written `1`). -/
theorem evaluate_nil_or_empty_input_returns_default (lib : Library) (b : RequestEvaluator)
    (requestInput : Option BidRequestEvaluatorInput)
    (hempty : ∀ input, requestInput = some input →
      input.OpenRtbRequest = "" ∧ input.OpenRtbRequestMap.length = 0)
    (hone : lib.formatFloat32 Float32.one = "1") :
    b.Evaluate lib requestInput = { Response := DefaultResponse lib } ∧
      (b.Evaluate lib requestInput).Response = defaultResponseText := by
  have key : b.Evaluate lib requestInput = { Response := DefaultResponse lib } := by
    cases requestInput with
    | none => rfl
    | some input =>
      obtain ⟨hreq, hmap⟩ := hempty input rfl
      unfold RequestEvaluator.Evaluate RequestEvaluator.evaluateGuarded
      cases hta : b.trafficAllocator.GetTrafficAllocationContext <;> simp [hreq, hmap]
  exact ⟨key, by rw [key]; exact defaultResponse_text lib hone⟩

theorem evaluate_nil_or_empty_input_returns_default_witness :
    (sampleEvaluator "T").Evaluate sampleLibrary (some ⟨"", []⟩) =
        { Response := DefaultResponse sampleLibrary } ∧
      ((sampleEvaluator "T").Evaluate sampleLibrary (some ⟨"", []⟩)).Response =
        defaultResponseText :=
  evaluate_nil_or_empty_input_returns_default sampleLibrary (sampleEvaluator "T")
    (some ⟨"", []⟩) (by intro input h; cases h; exact ⟨rfl, rfl⟩) (by decide)

@[simp]
theorem setupOpenRtbRequestID_snapshot (b : RequestEvaluator) (context : Context)
    (fvm : GoMap String String) :
    (b.setupOpenRtbRequestID context fvm).TrafficAllocationContext =
      context.TrafficAllocationContext := by
  unfold RequestEvaluator.setupOpenRtbRequestID
  split <;> rfl

/-- Every definition the resolution loop returns was either already collected
or is the configuration entry of one of the identifiers. -/
theorem getModelDefinitionsLoop_mem (m : GoMap String ModelDefinition) :
    ∀ (ids : List String) (acc defs : List ModelDefinition),
      RequestEvaluator.getModelDefinitionsLoop m ids acc = .ok defs →
      ∀ d ∈ defs, d ∈ acc ∨ ∃ id ∈ ids, m.get? id = some d := by
  intro ids
  induction ids with
  | nil =>
    intro acc defs h d hd
    simp only [RequestEvaluator.getModelDefinitionsLoop, Except.ok.injEq] at h
    subst h
    exact Or.inl hd
  | cons id ids ih =>
    intro acc defs h d hd
    unfold RequestEvaluator.getModelDefinitionsLoop at h
    cases hget : m.get? id with
    | none => simp [hget] at h
    | some d0 =>
      simp only [hget] at h
      rcases ih _ _ h d hd with hacc | ⟨id1, hid1, hd1⟩
      · rcases List.mem_append.mp hacc with hacc | hnew
        · exact Or.inl hacc
        · right
          refine ⟨id, List.mem_cons_self _ _, ?_⟩
          rw [List.mem_singleton.mp hnew]
          exact hget
      · exact Or.inr ⟨id1, List.mem_cons_of_mem _ hid1, hd1⟩

/-- When the evaluator returns an error for each of the definitions, the loop
over them keeps no output. -/
theorem evaluateModels_of_failing (b : RequestEvaluator) (context : Context)
    (openRtbRequest : String) (fvm : GoMap String String) :
    ∀ (defs : List ModelDefinition) (outputs : List ModelEvaluatorOutput),
      (∀ d ∈ defs, ∀ input : ModelEvaluatorInput, input.ModelDefinition = d →
        ∃ out err, b.modelEvaluator.Evaluate input = .ok (out, some err)) →
      b.evaluateModels context openRtbRequest fvm defs outputs = .ok outputs := by
  intro defs
  induction defs with
  | nil => intro outputs _; rfl
  | cons d ds ih =>
    intro outputs hfail
    obtain ⟨out, err, hev⟩ := hfail d (List.mem_cons_self _ _)
      { Context := context, OpenRtbRequest := openRtbRequest, ModelDefinition := d,
        FeatureFieldValueMap := fvm } rfl
    unfold RequestEvaluator.evaluateModels
    simp only [hev]
    exact ih outputs (fun d1 hd1 => hfail d1 (List.mem_cons_of_mem _ hd1))

/-- With every resolved model failing, the statements after the field map
either panic or return the default response. -/
theorem evaluateWithFields_of_failing (lib : Library) (b : RequestEvaluator)
    (context : Context) (openRtbRequest : String) (fvm : GoMap String String)
    (hfail : ∀ tac cfg, context.TrafficAllocationContext = some tac →
      b.modelConfigurationHandler.Provide = .ok (some cfg, none) →
      ∀ model ∈ tac.GetModelIdentifiers, ∀ d,
        cfg.ModelDefinitionByIdentifier.get? model = some d →
        ∀ input : ModelEvaluatorInput, input.ModelDefinition = d →
          ∃ out err, b.modelEvaluator.Evaluate input = .ok (out, some err)) :
    b.evaluateWithFields lib context openRtbRequest fvm = .panic ∨
      b.evaluateWithFields lib context openRtbRequest fvm =
        .ok { Response := DefaultResponse lib } := by
  unfold RequestEvaluator.evaluateWithFields RequestEvaluator.getModelDefinitions
  cases hprov : b.modelConfigurationHandler.Provide with
  | panic => simp
  | ok result =>
    obtain ⟨cfgOpt, errOpt⟩ := result
    cases errOpt with
    | some err => simp
    | none =>
      cases cfgOpt with
      | none => simp
      | some cfg =>
        simp only [setupOpenRtbRequestID_snapshot]
        cases htac : context.TrafficAllocationContext with
        | none => simp
        | some tac =>
          simp only
          cases hloop : RequestEvaluator.getModelDefinitionsLoop
              cfg.ModelDefinitionByIdentifier tac.GetModelIdentifiers [] with
          | error err => simp
          | ok defs =>
            have hall : ∀ d ∈ defs, ∀ input : ModelEvaluatorInput, input.ModelDefinition = d →
                ∃ out err, b.modelEvaluator.Evaluate input = .ok (out, some err) := by
              intro d hd input hin
              rcases getModelDefinitionsLoop_mem _ _ _ _ hloop d hd with hnil | ⟨id, hid, hget⟩
              · simp at hnil
              · exact hfail tac cfg htac hprov id hid d hget input hin
            simp [evaluateModels_of_failing b _ _ _ defs [] hall]

/-- C3: if the model evaluator returns an error for every model definition
resolved from the snapshot (which includes a snapshot naming no model),
`Evaluate` returns `DefaultResponse`. -/
theorem evaluate_all_models_fail_returns_default (lib : Library) (b : RequestEvaluator)
    (requestInput : BidRequestEvaluatorInput)
    (hfail : ∀ tac cfg, b.trafficAllocator.GetTrafficAllocationContext = .ok (some tac) →
      b.modelConfigurationHandler.Provide = .ok (some cfg, none) →
      ∀ model ∈ tac.GetModelIdentifiers, ∀ d,
        cfg.ModelDefinitionByIdentifier.get? model = some d →
        ∀ input : ModelEvaluatorInput, input.ModelDefinition = d →
          ∃ out err, b.modelEvaluator.Evaluate input = .ok (out, some err)) :
    b.Evaluate lib (some requestInput) = { Response := DefaultResponse lib } := by
  have hrec : b.evaluateGuarded lib requestInput = .panic ∨
      b.evaluateGuarded lib requestInput = .ok { Response := DefaultResponse lib } →
      b.Evaluate lib (some requestInput) = { Response := DefaultResponse lib } := by
    intro h
    rcases h with h | h <;> simp [RequestEvaluator.Evaluate, h]
  apply hrec
  unfold RequestEvaluator.evaluateGuarded
  cases hta : b.trafficAllocator.GetTrafficAllocationContext with
  | panic => simp
  | ok tacOpt =>
    have hfields : ∀ context : Context, context.TrafficAllocationContext = tacOpt →
        ∀ fvm, b.evaluateWithFields lib context requestInput.OpenRtbRequest fvm = .panic ∨
          b.evaluateWithFields lib context requestInput.OpenRtbRequest fvm =
            .ok { Response := DefaultResponse lib } := by
      intro context hctx fvm
      apply evaluateWithFields_of_failing
      intro tac cfg htac
      rw [hctx] at htac
      rw [htac] at hta
      exact hfail tac cfg hta
    simp only
    split
    · cases b.parse lib requestInput.OpenRtbRequest ["$.id"] with
      | panic => simp
      | ok r =>
        cases r with
        | error e => simp
        | ok m => exact hfields _ rfl m
    · split
      · cases b.addMissingEntriesToMap requestInput.OpenRtbRequestMap with
        | panic => simp
        | ok r =>
          cases r with
          | error e => simp
          | ok m => exact hfields _ rfl m
      · simp

theorem evaluate_all_models_fail_returns_default_witness :
    failingEvaluator.Evaluate sampleLibrary (some ⟨sampleDocument, []⟩) =
      { Response := DefaultResponse sampleLibrary } :=
  evaluate_all_models_fail_returns_default sampleLibrary failingEvaluator ⟨sampleDocument, []⟩
    (fun _ _ _ _ _ _ _ _ _ _ => ⟨none, "model evaluation error", rfl⟩)

/-! ### float32 facts -/

theorem Float32.one_facts :
    Float32.one.isNaN = false ∧ Float32.one.isPosInf = false ∧
      Float32.one.key = 1065353216 ∧ Float32.zero.key = 0 ∧ Float32.zero.isNaN = false := by
  decide

theorem Float32.mathMax_one_ge_one (x : Float32) (hx : x.isNaN = false) :
    (Float32.mathMax x Float32.one).ge Float32.one = true := by
  obtain ⟨h1, h2, h3, h4, h5⟩ := Float32.one_facts
  unfold Float32.mathMax
  split_ifs with ha hb hc hd he
  · decide
  · simp [hx, h1] at hb
  · decide
  · simp only [Float32.eq, h1, h3, h4, h5, hx, Bool.and_eq_true, decide_eq_true_eq] at hc
    omega
  · simp only [Float32.gt, Float32.ge, h1, hx, h3, Bool.and_eq_true, decide_eq_true_eq,
      Bool.not_false, true_and] at he ⊢
    omega
  · decide

/-- The running maximum is never NaN: a NaN value never compares greater. -/
theorem maxScoreLoop_not_nan (models : List String) :
    ∀ (outputs : List ModelEvaluatorOutput) (init : Float32), init.isNaN = false →
      (RequestEvaluator.maxScoreLoop models outputs init).isNaN = false := by
  intro outputs
  induction outputs with
  | nil => intro init h; exact h
  | cons o os ih =>
    intro init h
    unfold RequestEvaluator.maxScoreLoop
    split_ifs with h1 h2
    · apply ih
      simp only [Float32.gt, Bool.and_eq_true, Bool.not_eq_true', decide_eq_true_eq] at h2
      exact h2.1.1
    · exact ih _ h
    · exact ih _ h

/-! ### Shape of an evaluation -/

/-- What a successful aggregation returns. -/
theorem aggregate_ok (b : RequestEvaluator) (context : Context)
    (r : AggregatedModelEvaluationResult)
    (h : b.aggregateModelEvaluationResultsOnMax context = .ok (.ok r)) :
    ∃ tac E models, context.TrafficAllocationContext = some tac ∧
      tac.GetExperimentDefinitionByType ExperimentTypeSoftFilter = .ok E ∧
      tac.modelsByExperiment.get? E.Name = some models ∧
      r.Score = RequestEvaluator.maxScoreLoop models context.ModelEvaluatorOutputs
        (Float32.neg Float32.maxFloat32) ∧
      r.Score.eq (Float32.neg Float32.maxFloat32) = false ∧
      r.TreatmentCodeInInt = tac.GetTreatmentCodeInInt E.Name ∧
      r.ScoreWithTreatment = Float32.mathMax r.Score (Float32.ofInt8 r.TreatmentCodeInInt) ∧
      r.TreatmentCode = tac.GetTreatmentCode E.Name ∧
      r.AggregationType = "max" := by
  unfold RequestEvaluator.aggregateModelEvaluationResultsOnMax at h
  cases htac : context.TrafficAllocationContext with
  | none => simp [htac] at h
  | some tac =>
    simp only [htac] at h
    cases hE : tac.GetExperimentDefinitionByType ExperimentTypeSoftFilter with
    | error e => simp [hE] at h
    | ok E =>
      simp only [hE, TrafficAllocationContext.GetModelsByExperiment] at h
      cases hm : tac.modelsByExperiment.get? E.Name with
      | none => simp [hm] at h
      | some models =>
        simp only [hm] at h
        split_ifs at h with hs
        · simp at h
        · simp only [Outcome.ok.injEq, Except.ok.injEq] at h
          subst h
          exact ⟨tac, E, models, rfl, hE, hm, rfl, by simpa using hs, rfl, rfl, rfl, rfl⟩

/-- Every output the loop over the model definitions collects was returned by
the model evaluator, without an error, for one of the definitions. -/
theorem evaluateModels_mem (b : RequestEvaluator) (context : Context)
    (openRtbRequest : String) (fvm : GoMap String String) :
    ∀ (defs : List ModelDefinition) (acc outputs : List ModelEvaluatorOutput),
      b.evaluateModels context openRtbRequest fvm defs acc = .ok outputs →
      ∀ o ∈ outputs, o ∈ acc ∨ ∃ d ∈ defs, b.modelEvaluator.Evaluate
        { Context := context, OpenRtbRequest := openRtbRequest, ModelDefinition := d,
          FeatureFieldValueMap := fvm } = .ok (some o, none) := by
  intro defs
  induction defs with
  | nil =>
    intro acc outputs h o ho
    simp only [RequestEvaluator.evaluateModels, Outcome.ok.injEq] at h
    subst h
    exact Or.inl ho
  | cons d ds ih =>
    intro acc outputs h o ho
    unfold RequestEvaluator.evaluateModels at h
    cases hev : b.modelEvaluator.Evaluate
        { Context := context, OpenRtbRequest := openRtbRequest, ModelDefinition := d,
          FeatureFieldValueMap := fvm } with
    | panic => simp [hev] at h
    | ok result =>
      obtain ⟨outOpt, errOpt⟩ := result
      cases errOpt with
      | some err =>
        simp only [hev] at h
        rcases ih _ _ h o ho with hacc | ⟨d1, hd1, h1⟩
        · exact Or.inl hacc
        · exact Or.inr ⟨d1, List.mem_cons_of_mem _ hd1, h1⟩
      | none =>
        cases outOpt with
        | none => simp [hev] at h
        | some out =>
          simp only [hev] at h
          rcases ih _ _ h o ho with hacc | ⟨d1, hd1, h1⟩
          · rcases List.mem_append.mp hacc with hacc | hnew
            · exact Or.inl hacc
            · right
              refine ⟨d, List.mem_cons_self _ _, ?_⟩
              rw [List.mem_singleton.mp hnew]
              exact hev
          · exact Or.inr ⟨d1, List.mem_cons_of_mem _ hd1, h1⟩

/-- The response `buildResponse` makes from an aggregated result. -/
theorem buildResponse_some (lib : Library) (context : Context)
    (r : AggregatedModelEvaluationResult)
    (h : context.AggregatedModelEvaluationResult = some r) :
    buildResponse lib context =
      .ok { Slots := [{ FilterDecision := r.ScoreWithTreatment,
                        Ext := buildExtension lib
                          [(ExtensionKeywordDecision, .float32 r.Score)] }],
            Ext := buildExtension lib
              [(ExtensionKeywordLearning, .int r.TreatmentCodeInInt)] } := by
  simp [buildResponse, buildSlots, h]

/-- The statements after the field map end in a panic, in the default
response, or in the response built from a successful aggregation over outputs
that the model evaluator returned for resolved definitions. -/
theorem evaluateWithFields_shape (lib : Library) (b : RequestEvaluator) (context : Context)
    (openRtbRequest : String) (fvm : GoMap String String) :
    b.evaluateWithFields lib context openRtbRequest fvm = .panic ∨
    b.evaluateWithFields lib context openRtbRequest fvm =
      .ok { Response := DefaultResponse lib } ∨
    ∃ (context1 : Context) (defs : List ModelDefinition) (outputs : List ModelEvaluatorOutput)
      (r : AggregatedModelEvaluationResult),
      b.getModelDefinitions (b.setupOpenRtbRequestID context fvm) =
        .ok (context1, .ok defs) ∧
      b.evaluateModels context1 openRtbRequest fvm defs [] = .ok outputs ∧
      outputs ≠ [] ∧
      b.aggregateModelEvaluationResultsOnMax
        { context1 with ModelEvaluatorOutputs := outputs } = .ok (.ok r) ∧
      b.evaluateWithFields lib context openRtbRequest fvm =
        .ok { Response :=
          { Slots := [{ FilterDecision := r.ScoreWithTreatment,
                        Ext := buildExtension lib
                          [(ExtensionKeywordDecision, .float32 r.Score)] }],
            Ext := buildExtension lib
              [(ExtensionKeywordLearning, .int r.TreatmentCodeInInt)] } } := by
  unfold RequestEvaluator.evaluateWithFields
  cases hdefs : b.getModelDefinitions (b.setupOpenRtbRequestID context fvm) with
  | panic => simp [hdefs]
  | ok result =>
    obtain ⟨context1, defsResult⟩ := result
    cases defsResult with
    | error err => simp [hdefs]
    | ok defs =>
      cases houts : b.evaluateModels context1 openRtbRequest fvm defs [] with
      | panic => simp [hdefs, houts]
      | ok outputs =>
        by_cases hlen : outputs.length = 0
        · simp [hdefs, houts, hlen]
        · cases hagg : b.aggregateModelEvaluationResultsOnMax
              { context1 with ModelEvaluatorOutputs := outputs } with
          | panic => simp [hdefs, houts, hlen, hagg]
          | ok aggResult =>
            cases aggResult with
            | error err => simp [hdefs, houts, hlen, hagg]
            | ok r =>
              right; right
              refine ⟨context1, defs, outputs, r, rfl, houts, ?_, hagg, ?_⟩
              · intro hnil
                exact hlen (by simp [hnil])
              · simp [hdefs, houts, hlen, hagg, buildResponse, buildSlots]

/-- A successful `getModelDefinitions` leaves the context as it was and
resolves the identifiers of the snapshot in the provided configuration. -/
theorem getModelDefinitions_ok (b : RequestEvaluator) (context context1 : Context)
    (defs : List ModelDefinition)
    (h : b.getModelDefinitions context = .ok (context1, .ok defs)) :
    context1 = context ∧ ∃ cfg tac,
      b.modelConfigurationHandler.Provide = .ok (some cfg, none) ∧
      context.TrafficAllocationContext = some tac ∧
      RequestEvaluator.getModelDefinitionsLoop cfg.ModelDefinitionByIdentifier
        tac.GetModelIdentifiers [] = .ok defs := by
  unfold RequestEvaluator.getModelDefinitions at h
  cases hprov : b.modelConfigurationHandler.Provide with
  | panic => simp [hprov] at h
  | ok result =>
    obtain ⟨cfgOpt, errOpt⟩ := result
    cases errOpt with
    | some err => simp [hprov] at h
    | none =>
      cases cfgOpt with
      | none => simp [hprov] at h
      | some cfg =>
        cases htac : context.TrafficAllocationContext with
        | none => simp [hprov, htac] at h
        | some tac =>
          simp only [hprov, htac, Outcome.ok.injEq, Prod.mk.injEq] at h
          exact ⟨h.1.symm, cfg, tac, rfl, rfl, h.2⟩

/-- Shape of the result of `Evaluate`: the default response, or the response
built from a successful aggregation over a context that holds the snapshot of
the allocator and outputs the model evaluator returned without error. -/
theorem evaluate_shape (lib : Library) (b : RequestEvaluator)
    (requestInput : Option BidRequestEvaluatorInput) :
    b.Evaluate lib requestInput = { Response := DefaultResponse lib } ∨
    ∃ (tac : TrafficAllocationContext) (context1 : Context)
      (r : AggregatedModelEvaluationResult),
      b.trafficAllocator.GetTrafficAllocationContext = .ok (some tac) ∧
      context1.TrafficAllocationContext = some tac ∧
      (∀ o ∈ context1.ModelEvaluatorOutputs, ∃ input,
        b.modelEvaluator.Evaluate input = .ok (some o, none)) ∧
      b.aggregateModelEvaluationResultsOnMax context1 = .ok (.ok r) ∧
      b.Evaluate lib requestInput =
        { Response :=
          { Slots := [{ FilterDecision := r.ScoreWithTreatment,
                        Ext := buildExtension lib
                          [(ExtensionKeywordDecision, .float32 r.Score)] }],
            Ext := buildExtension lib
              [(ExtensionKeywordLearning, .int r.TreatmentCodeInInt)] } } := by
  cases requestInput with
  | none => exact Or.inl rfl
  | some input =>
    have hfields : ∀ (tacOpt : Option TrafficAllocationContext) (context : Context)
        (fvm : GoMap String String) (res : Outcome BidRequestEvaluatorOutput),
        b.trafficAllocator.GetTrafficAllocationContext = .ok tacOpt →
        context.TrafficAllocationContext = tacOpt →
        b.evaluateWithFields lib context input.OpenRtbRequest fvm = res →
        (res = .panic ∨ res = .ok { Response := DefaultResponse lib }) ∨
        ∃ (tac : TrafficAllocationContext) (context1 : Context)
          (r : AggregatedModelEvaluationResult),
          b.trafficAllocator.GetTrafficAllocationContext = .ok (some tac) ∧
          context1.TrafficAllocationContext = some tac ∧
          (∀ o ∈ context1.ModelEvaluatorOutputs, ∃ input,
            b.modelEvaluator.Evaluate input = .ok (some o, none)) ∧
          b.aggregateModelEvaluationResultsOnMax context1 = .ok (.ok r) ∧
          res =
            .ok { Response :=
              { Slots := [{ FilterDecision := r.ScoreWithTreatment,
                            Ext := buildExtension lib
                              [(ExtensionKeywordDecision, .float32 r.Score)] }],
                Ext := buildExtension lib
                  [(ExtensionKeywordLearning, .int r.TreatmentCodeInInt)] } } := by
      intro tacOpt context fvm res hta hctx hres
      subst hres
      rcases evaluateWithFields_shape lib b context input.OpenRtbRequest fvm with
        h | h | ⟨context1, defs, outputs, r, hdefs, houts, _, hagg, h⟩
      · exact Or.inl (Or.inl h)
      · exact Or.inl (Or.inr h)
      · right
        obtain ⟨hc1, cfg, tac, _, htac, _⟩ := getModelDefinitions_ok b _ _ _ hdefs
        rw [setupOpenRtbRequestID_snapshot, hctx] at htac
        subst htac
        refine ⟨tac, { context1 with ModelEvaluatorOutputs := outputs }, r, hta, ?_, ?_, hagg, h⟩
        · rw [hc1]; simp [hctx]
        · intro o ho
          rcases evaluateModels_mem b _ _ _ _ _ _ houts o ho with hnil | ⟨d, _, hd⟩
          · simp at hnil
          · exact ⟨_, hd⟩
    unfold RequestEvaluator.Evaluate RequestEvaluator.evaluateGuarded
    cases hta : b.trafficAllocator.GetTrafficAllocationContext with
    | panic => exact Or.inl rfl
    | ok tacOpt =>
      simp only
      split_ifs with h1 h2
      · cases b.parse lib input.OpenRtbRequest ["$.id"] with
        | panic => exact Or.inl rfl
        | ok pr =>
          cases pr with
          | error e => exact Or.inl rfl
          | ok m =>
            dsimp only
            generalize hres : RequestEvaluator.evaluateWithFields lib b _ _ m = res
            rcases hfields tacOpt _ m res hta (by rfl) hres with
              (h | h) | ⟨tac, context1, r, ha, hb, hc, hd, h⟩
            · left; rw [h]
            · left; rw [h]
            · right; exact ⟨tac, context1, r, hta ▸ ha, hb, hc, hd, by rw [h]⟩
      · cases b.addMissingEntriesToMap input.OpenRtbRequestMap with
        | panic => exact Or.inl rfl
        | ok pr =>
          cases pr with
          | error e => exact Or.inl rfl
          | ok m =>
            dsimp only
            generalize hres : RequestEvaluator.evaluateWithFields lib b _ _ m = res
            rcases hfields tacOpt _ m res hta (by rfl) hres with
              (h | h) | ⟨tac, context1, r, ha, hb, hc, hd, h⟩
            · left; rw [h]
            · left; rw [h]
            · right; exact ⟨tac, context1, r, hta ▸ ha, hb, hc, hd, by rw [h]⟩
      · exact Or.inl rfl

/-- C4: when the soft-filter experiment of the snapshot is arranged to a
treatment code other than "T", or has no arrangement at all, every slot
`Evaluate` returns has `FilterDecision` at least 1.0, on the aggregated path
as well as on the default path and whatever scores the models produced. -/
theorem evaluate_control_filter_decision_ge_one (lib : Library) (b : RequestEvaluator)
    (requestInput : Option BidRequestEvaluatorInput)
    (hcontrol : ∀ tac E, b.trafficAllocator.GetTrafficAllocationContext = .ok (some tac) →
      tac.GetExperimentDefinitionByType ExperimentTypeSoftFilter = .ok E →
      tac.experimentArrangement.get? E.Name ≠ some TreatmentGroupT) :
    ∀ slot ∈ (b.Evaluate lib requestInput).Response.Slots,
      slot.FilterDecision.ge Float32.one = true := by
  intro slot hslot
  rcases evaluate_shape lib b requestInput with h | ⟨tac, context1, r, hta, hctx, _, hagg, h⟩
  · rw [h] at hslot
    simp only [DefaultResponse, List.mem_singleton] at hslot
    subst hslot
    show DefaultFilterRecommendation.ge Float32.one = true
    decide
  · rw [h] at hslot
    simp only [List.mem_singleton] at hslot
    subst hslot
    obtain ⟨tac1, E, models, htac1, hE, _, hscore, _, hcode, hwith, _, _⟩ :=
      aggregate_ok b context1 r hagg
    rw [hctx] at htac1
    cases htac1
    have hne := hcontrol tac E hta hE
    have hc : r.TreatmentCodeInInt = 1 := by
      rw [hcode]
      unfold TrafficAllocationContext.GetTreatmentCodeInInt
      cases hget : tac.experimentArrangement.get? E.Name with
      | none => simp [TreatmentGroupT]
      | some code =>
        have : code ≠ TreatmentGroupT := by
          intro hEq
          exact hne (by rw [hget, hEq])
        simp [this]
    have hnan : r.Score.isNaN = false := by
      rw [hscore]
      exact maxScoreLoop_not_nan _ _ _ (by decide)
    have hone : Float32.ofInt8 1 = Float32.one := by decide
    show r.ScoreWithTreatment.ge Float32.one = true
    rw [hwith, hc, hone]
    exact Float32.mathMax_one_ge_one _ hnan

theorem evaluate_control_filter_decision_ge_one_witness :
    ((((sampleEvaluator "C").Evaluate sampleLibrary (some ⟨sampleDocument, []⟩)).Response.Slots.getD 0
      ⟨Float32.zero, ""⟩).FilterDecision).ge Float32.one = true :=
  evaluate_control_filter_decision_ge_one sampleLibrary (sampleEvaluator "C") (some ⟨sampleDocument, []⟩)
    (by
      intro tac E htac hE
      cases htac
      cases hE
      decide)
    _ (List.Mem.head _)

/-- C5, as stated, fails when the raw maximum is +Inf: aggregation succeeds
(the slot carries `FilterDecision` +Inf and the top-level `Ext` carries the
treatment integer), yet `json.Marshal` rejects the value, its error is dropped
and the slot `Ext` is the empty string instead of a JSON object. -/
theorem evaluate_infinite_score_slot_ext_empty :
    (infiniteScoreEvaluator.Evaluate sampleLibrary (some ⟨sampleDocument, []⟩)).Response =
      { Slots := [{ FilterDecision := Float32.posInf, Ext := "" }],
        Ext := "\x7b\"amazontest\":\x7b\"learning\":0\x7d\x7d" } := by
  decide

/-- Extension text for a float that is neither NaN nor infinite. -/
theorem buildExtension_float32 (lib : Library) (key : String) (f : Float32)
    (hnan : f.isNaN = false) (hinf : f.isInf = false) :
    buildExtension lib [(key, .float32 f)] =
      "\x7b\"amazontest\":\x7b\"" ++ key ++ "\":" ++ lib.formatFloat32 f ++ "\x7d\x7d" := by
  simp only [buildExtension, jsonMarshalMembers, jsonMarshalValue, sortMembers, insertMember,
    GoMap.set, hnan, hinf, List.foldl, List.foldr, stringsJoin, ExtensionKeywordAmazonTest,
    Bool.or_self, Bool.false_eq_true, if_false]
  simp only [String.append_assoc]
  rfl

/-- Extension text for an integer. -/
theorem buildExtension_int (lib : Library) (key : String) (n : Int) :
    buildExtension lib [(key, .int n)] =
      "\x7b\"amazontest\":\x7b\"" ++ key ++ "\":" ++ toString n ++ "\x7d\x7d" := by
  simp only [buildExtension, jsonMarshalMembers, jsonMarshalValue, sortMembers, insertMember,
    GoMap.set, List.foldl, List.foldr, stringsJoin, ExtensionKeywordAmazonTest]
  simp only [String.append_assoc]
  rfl

/-- The treatment integer of a snapshot is 0 or 1. -/
theorem getTreatmentCodeInInt_zero_or_one (t : TrafficAllocationContext) (name : String) :
    t.GetTreatmentCodeInInt name = 0 ∨ t.GetTreatmentCodeInInt name = 1 := by
  unfold TrafficAllocationContext.GetTreatmentCodeInInt
  split_ifs
  · exact Or.inl rfl
  · exact Or.inr rfl

/-- C5 (amended): whenever the field map is obtained, the model definitions
are resolved, the models are evaluated and aggregation succeeds with a finite
raw maximum score `s` and treatment integer `c`, the response of `Evaluate`
has exactly one slot, whose `FilterDecision` is `max(s, c)` and whose `Ext` is
`{"amazontest":{"decision": s}}` with the unmodified `s`; the top-level `Ext`
is `{"amazontest":{"learning": c}}`, and `c` is 0 or 1. -/
theorem evaluate_response_of_aggregate (lib : Library) (b : RequestEvaluator)
    (requestInput : BidRequestEvaluatorInput) (tacOpt : Option TrafficAllocationContext)
    (fvm : GoMap String String) (context1 : Context) (defs : List ModelDefinition)
    (outputs : List ModelEvaluatorOutput) (r : AggregatedModelEvaluationResult)
    (hta : b.trafficAllocator.GetTrafficAllocationContext = .ok tacOpt)
    (hfvm : (requestInput.OpenRtbRequest ≠ "" ∧
        b.parse lib requestInput.OpenRtbRequest ["$.id"] = .ok (.ok fvm)) ∨
      (requestInput.OpenRtbRequest = "" ∧ requestInput.OpenRtbRequestMap.length > 0 ∧
        b.addMissingEntriesToMap requestInput.OpenRtbRequestMap = .ok (.ok fvm)))
    (hdefs : b.getModelDefinitions
      (b.setupOpenRtbRequestID
        { NewContext with
          RequestId := lib.uuidNew, OpenRtbRequest := requestInput.OpenRtbRequest,
          TrafficAllocationContext := tacOpt } fvm) = .ok (context1, .ok defs))
    (houts : b.evaluateModels context1 requestInput.OpenRtbRequest fvm defs [] = .ok outputs)
    (hagg : b.aggregateModelEvaluationResultsOnMax
      { context1 with ModelEvaluatorOutputs := outputs } = .ok (.ok r))
    (hfin : r.Score.isInf = false) :
    (b.Evaluate lib (some requestInput)).Response =
        { Slots := [{ FilterDecision :=
                        Float32.mathMax r.Score (Float32.ofInt8 r.TreatmentCodeInInt),
                      Ext := "\x7b\"amazontest\":\x7b\"decision\":" ++
                        lib.formatFloat32 r.Score ++ "\x7d\x7d" }],
          Ext := "\x7b\"amazontest\":\x7b\"learning\":" ++
            toString r.TreatmentCodeInInt ++ "\x7d\x7d" } ∧
      (r.TreatmentCodeInInt = 0 ∨ r.TreatmentCodeInInt = 1) := by
  obtain ⟨tac, E, models, _, _, _, hscore, _, hcode, hwith, _, _⟩ :=
    aggregate_ok b _ r hagg
  have hnan : r.Score.isNaN = false := by
    rw [hscore]
    exact maxScoreLoop_not_nan _ _ _ (by decide)
  have hne : outputs.length ≠ 0 := by
    intro hlen
    have hnil : outputs = [] := List.length_eq_zero.mp hlen
    have hsent : r.Score.eq (Float32.neg Float32.maxFloat32) = false := by
      obtain ⟨_, _, _, _, _, _, _, h, _⟩ := aggregate_ok b _ r hagg
      exact h
    rw [hscore, hnil] at hsent
    simp [RequestEvaluator.maxScoreLoop] at hsent
    revert hsent
    decide
  have hfields : b.evaluateWithFields lib
      { NewContext with
        RequestId := lib.uuidNew, OpenRtbRequest := requestInput.OpenRtbRequest,
        TrafficAllocationContext := tacOpt } requestInput.OpenRtbRequest fvm =
      .ok { Response :=
        { Slots := [{ FilterDecision := r.ScoreWithTreatment,
                      Ext := buildExtension lib
                        [(ExtensionKeywordDecision, .float32 r.Score)] }],
          Ext := buildExtension lib
            [(ExtensionKeywordLearning, .int r.TreatmentCodeInInt)] } } := by
    unfold RequestEvaluator.evaluateWithFields
    simp [hdefs, houts, hne, hagg, buildResponse, buildSlots]
  have heval : b.Evaluate lib (some requestInput) =
      { Response :=
        { Slots := [{ FilterDecision := r.ScoreWithTreatment,
                      Ext := buildExtension lib
                        [(ExtensionKeywordDecision, .float32 r.Score)] }],
          Ext := buildExtension lib
            [(ExtensionKeywordLearning, .int r.TreatmentCodeInInt)] } } := by
    unfold RequestEvaluator.Evaluate RequestEvaluator.evaluateGuarded
    rcases hfvm with ⟨hreq, hparse⟩ | ⟨hreq, hmap, hadd⟩
    · simp only [hta, hreq, hparse, ne_eq, not_false_eq_true, if_true]
      rw [hfields]
    · simp only [hta, hreq, hmap, hadd, ne_eq, not_true_eq_false, if_false, if_true]
      rw [hreq] at hfields
      rw [hfields]
  refine ⟨?_, ?_⟩
  · rw [heval, buildExtension_float32 lib _ _ hnan hfin, buildExtension_int, hwith]
    rfl
  · rw [hcode]
    exact getTreatmentCodeInInt_zero_or_one _ _

theorem evaluate_response_of_aggregate_witness :
    ((sampleEvaluator "C").Evaluate sampleLibrary (some ⟨sampleDocument, []⟩)).Response =
      { Slots := [{ FilterDecision := Float32.one,
                    Ext := "\x7b\"amazontest\":\x7b\"decision\":0\x7d\x7d" }],
        Ext := "\x7b\"amazontest\":\x7b\"learning\":1\x7d\x7d" } :=
  (evaluate_response_of_aggregate sampleLibrary (sampleEvaluator "C") ⟨sampleDocument, []⟩
    (some (sampleSnapshot "C")) [("$.a", "v"), ("$.id", "")] _ _ _ _ rfl
    (Or.inl ⟨by decide, rfl⟩) rfl rfl rfl (by decide)).1

/-! ### Scores of the rule-based evaluator -/

/-- The value `Load` stores is 0.0 or 1.0. -/
theorem loadModelResultValue_zero_or_one (modelType : String) :
    loadModelResultValue modelType = Float32.zero ∨
      loadModelResultValue modelType = Float32.one := by
  unfold loadModelResultValue
  simp only [ModelTypeValue, GoMap.get?]
  split_ifs <;> simp

/-- Over a cache filled by `Load`, a successful rule-based evaluation scores
0.0 or 1.0. -/
theorem ruleBased_value_zero_or_one (t : RuleBasedModelEvaluator)
    (hloaded : t.modelResultHandler.localCacheFactory.HoldsLoadedResults)
    (input : ModelEvaluatorInput) (o : ModelEvaluatorOutput)
    (h : t.asInterface.Evaluate input = .ok (some o, none)) :
    o.ModelResult.Value = Float32.zero ∨ o.ModelResult.Value = Float32.one := by
  simp only [RuleBasedModelEvaluator.asInterface, RuleBasedModelEvaluator.Evaluate] at h
  cases hf : t.getFeatures input with
  | error e => simp [hf] at h
  | ok features =>
    simp only [hf] at h
    cases hp : t.modelResultHandler.Provide input.ModelDefinition.Identifier features
        HighValueDefaultScore with
    | error e => simp [hp] at h
    | ok result =>
      simp only [hp, Outcome.ok.injEq, Prod.mk.injEq, Option.some.injEq, and_true] at h
      subst h
      show result.Value = Float32.zero ∨ result.Value = Float32.one
      unfold ModelResultHandler.Provide at hp
      cases hget : t.modelResultHandler.localCacheFactory.GetFromLocalCache
          input.ModelDefinition.Identifier (t.modelResultHandler.BuildKey features) with
      | none =>
        simp only [hget, Except.ok.injEq] at hp
        subst hp
        exact Or.inr rfl
      | some v =>
        cases v with
        | float32 x =>
          simp only [hget, Except.ok.injEq] at hp
          subst hp
          obtain ⟨ty, hty⟩ := hloaded _ _ _ hget
          rw [show ({ Value := x, Key := t.modelResultHandler.BuildKey features } :
            ModelResult).Value = x from rfl, hty]
          exact loadModelResultValue_zero_or_one ty
        | string x => simp [hget] at hp
        | modelConfiguration x => simp [hget] at hp
        | experimentConfiguration x => simp [hget] at hp

/-- With every score 0.0 or 1.0 the running maximum stays among the initial
value, 0.0 and 1.0. -/
theorem maxScoreLoop_zero_or_one (models : List String) :
    ∀ (outputs : List ModelEvaluatorOutput) (init : Float32),
      (∀ o ∈ outputs, o.ModelResult.Value = Float32.zero ∨ o.ModelResult.Value = Float32.one) →
      RequestEvaluator.maxScoreLoop models outputs init = init ∨
      RequestEvaluator.maxScoreLoop models outputs init = Float32.zero ∨
      RequestEvaluator.maxScoreLoop models outputs init = Float32.one := by
  intro outputs
  induction outputs with
  | nil => intro init _; exact Or.inl rfl
  | cons o os ih =>
    intro init hall
    have hos := fun o1 ho1 => hall o1 (List.mem_cons_of_mem _ ho1)
    unfold RequestEvaluator.maxScoreLoop
    split_ifs with h1 h2
    · rcases ih o.ModelResult.Value hos with h | h | h
      · rcases hall o (List.mem_cons_self _ _) with hv | hv
        · exact Or.inr (Or.inl (h.trans hv))
        · exact Or.inr (Or.inr (h.trans hv))
      · exact Or.inr (Or.inl h)
      · exact Or.inr (Or.inr h)
    · exact ih init hos
    · exact ih init hos

/-- C6: with `RuleBasedModelEvaluator` as the model evaluator over caches whose
`float32` values were written by `ModelResultHandler.Load`, and for every
input, every traffic allocator and every model configuration handler, each
`FilterDecision` that `Evaluate` returns lies in the closed interval from 0.0
to 1.0. -/
theorem evaluate_filter_decision_in_unit_interval (lib : Library) (sspIdentifier : String)
    (trafficAllocator : TrafficAllocatorInterface)
    (modelConfigurationHandler : ModelConfigurationHandlerInterface)
    (t : RuleBasedModelEvaluator)
    (requestInput : Option BidRequestEvaluatorInput)
    (hloaded : t.modelResultHandler.localCacheFactory.HoldsLoadedResults) :
    ∀ slot ∈ (RequestEvaluator.Evaluate lib
        { sspIdentifier := sspIdentifier, trafficAllocator := trafficAllocator,
          modelEvaluator := t.asInterface,
          modelConfigurationHandler := modelConfigurationHandler } requestInput).Response.Slots,
      Float32.le Float32.zero slot.FilterDecision = true ∧
        Float32.le slot.FilterDecision Float32.one = true := by
  intro slot hslot
  rcases evaluate_shape lib _ requestInput with h | ⟨tac, context1, r, _, _, houts, hagg, h⟩
  · rw [h] at hslot
    simp only [DefaultResponse, List.mem_singleton] at hslot
    subst hslot
    show Float32.le Float32.zero DefaultFilterRecommendation = true ∧
      Float32.le DefaultFilterRecommendation Float32.one = true
    decide
  · rw [h] at hslot
    simp only [List.mem_singleton] at hslot
    subst hslot
    obtain ⟨_, E, models, _, _, _, hscore, hsent, hcode, hwith, _, _⟩ :=
      aggregate_ok _ context1 r hagg
    have hvals : ∀ o ∈ context1.ModelEvaluatorOutputs,
        o.ModelResult.Value = Float32.zero ∨ o.ModelResult.Value = Float32.one := by
      intro o ho
      obtain ⟨input, hin⟩ := houts o ho
      exact ruleBased_value_zero_or_one t hloaded input o hin
    have hs : r.Score = Float32.zero ∨ r.Score = Float32.one := by
      rcases maxScoreLoop_zero_or_one models _ (Float32.neg Float32.maxFloat32) hvals with
        h0 | h0 | h0
      · rw [hscore, h0] at hsent
        exact absurd hsent (by decide)
      · exact Or.inl (hscore.trans h0)
      · exact Or.inr (hscore.trans h0)
    have hc : r.TreatmentCodeInInt = 0 ∨ r.TreatmentCodeInInt = 1 := by
      rw [hcode]
      exact getTreatmentCodeInInt_zero_or_one _ _
    show Float32.le Float32.zero r.ScoreWithTreatment = true ∧
      Float32.le r.ScoreWithTreatment Float32.one = true
    rw [hwith]
    rcases hs with hs | hs <;> rcases hc with hc | hc <;> rw [hs, hc] <;> decide

theorem evaluate_filter_decision_in_unit_interval_witness :
    Float32.le Float32.zero
        ((((sampleEvaluator "T").Evaluate sampleLibrary (some ⟨sampleDocument, []⟩)).Response.Slots.getD 0
          ⟨Float32.one, ""⟩).FilterDecision) = true ∧
      Float32.le
        ((((sampleEvaluator "T").Evaluate sampleLibrary (some ⟨sampleDocument, []⟩)).Response.Slots.getD 0
          ⟨Float32.one, ""⟩).FilterDecision) Float32.one = true :=
  evaluate_filter_decision_in_unit_interval sampleLibrary "ssp"
    { GetTrafficAllocationContext := .ok (some (sampleSnapshot "T")) }
    sampleModelConfigurationHandler.asInterface sampleRuleBasedModelEvaluator
    (some ⟨sampleDocument, []⟩)
    (by
      intro cacheName key v h
      refine ⟨"LowValue", ?_⟩
      simp only [sampleRuleBasedModelEvaluator, sampleCache,
        LocalCacheFactory.GetFromLocalCache] at h
      by_cases h1 : "Configuration" = cacheName
      · subst h1
        by_cases h2 : "Model" = key
        · subst h2
          simp [GoMap.get?] at h
        · simp [GoMap.get?, h2] at h
      · by_cases h3 : "m" = cacheName
        · subst h3
          by_cases h4 : "1" = key
          · subst h4
            simp [GoMap.get?] at h
            rw [← h]
            rfl
          · simp [GoMap.get?, h4] at h
        · simp [GoMap.get?, h1, h3] at h)
    _ (List.Mem.head _)

/-! ### The running maximum -/

theorem Float32.gt_iff (x y : Float32) :
    x.gt y = true ↔ x.isNaN = false ∧ y.isNaN = false ∧ y.key < x.key := by
  simp [Float32.gt, and_assoc]

theorem countsFor_iff (models : List String) (o : ModelEvaluatorOutput) :
    countsFor models o = true ↔
      (o.Status = ModelEvaluationStatusSuccess ∧ o.ModelDefinition.Identifier ∈ models) := by
  simp [countsFor]

/-- The running maximum never drops below its initial value. -/
theorem maxScoreLoop_ge (models : List String) :
    ∀ (outputs : List ModelEvaluatorOutput) (init : Float32), init.isNaN = false →
      init.key ≤ (RequestEvaluator.maxScoreLoop models outputs init).key := by
  intro outputs
  induction outputs with
  | nil => intro init _; exact le_refl _
  | cons o os ih =>
    intro init hinit
    unfold RequestEvaluator.maxScoreLoop
    split_ifs with h1 h2
    · obtain ⟨hv, _, hlt⟩ := (Float32.gt_iff _ _).mp h2
      have := ih o.ModelResult.Value hv
      omega
    · exact ih init hinit
    · exact ih init hinit

/-- No output that counts exceeds the running maximum. -/
theorem maxScoreLoop_upper (models : List String) :
    ∀ (outputs : List ModelEvaluatorOutput) (init : Float32), init.isNaN = false →
      ∀ o ∈ outputs, countsFor models o = true →
        o.ModelResult.Value.gt (RequestEvaluator.maxScoreLoop models outputs init) = false := by
  intro outputs
  induction outputs with
  | nil => intro init _ o ho; simp at ho
  | cons o1 os ih =>
    intro init hinit o ho hcount
    unfold RequestEvaluator.maxScoreLoop
    rcases List.mem_cons.mp ho with hhead | htail
    · subst hhead
      have hc := (countsFor_iff models o).mp hcount
      rw [if_pos hc]
      split_ifs with h2
      · obtain ⟨hv, _, _⟩ := (Float32.gt_iff _ _).mp h2
        have hge := maxScoreLoop_ge models os o.ModelResult.Value hv
        have hres := maxScoreLoop_not_nan models os o.ModelResult.Value hv
        cases hgt : o.ModelResult.Value.gt
            (RequestEvaluator.maxScoreLoop models os o.ModelResult.Value) with
        | false => rfl
        | true =>
          obtain ⟨_, _, hlt⟩ := (Float32.gt_iff _ _).mp hgt
          omega
      · have hge := maxScoreLoop_ge models os init hinit
        have hres := maxScoreLoop_not_nan models os init hinit
        cases hgt : o.ModelResult.Value.gt (RequestEvaluator.maxScoreLoop models os init) with
        | false => rfl
        | true =>
          obtain ⟨hv, _, hlt⟩ := (Float32.gt_iff _ _).mp hgt
          exfalso
          apply h2
          exact (Float32.gt_iff _ _).mpr ⟨hv, hinit, by omega⟩
    · split_ifs with h1 h2
      · exact ih _ ((Float32.gt_iff _ _).mp h2).1 o htail hcount
      · exact ih init hinit o htail hcount
      · exact ih init hinit o htail hcount

/-- The running maximum is its initial value or the score of an output that
counts. -/
theorem maxScoreLoop_mem (models : List String) :
    ∀ (outputs : List ModelEvaluatorOutput) (init : Float32),
      RequestEvaluator.maxScoreLoop models outputs init = init ∨
      ∃ o ∈ outputs, countsFor models o = true ∧
        RequestEvaluator.maxScoreLoop models outputs init = o.ModelResult.Value := by
  intro outputs
  induction outputs with
  | nil => intro init; exact Or.inl rfl
  | cons o1 os ih =>
    intro init
    unfold RequestEvaluator.maxScoreLoop
    split_ifs with h1 h2
    · right
      rcases ih o1.ModelResult.Value with h | ⟨o, ho, hc, h⟩
      · exact ⟨o1, List.mem_cons_self _ _, (countsFor_iff _ _).mpr h1, h⟩
      · exact ⟨o, List.mem_cons_of_mem _ ho, hc, h⟩
    · rcases ih init with h | ⟨o, ho, hc, h⟩
      · exact Or.inl h
      · exact Or.inr ⟨o, List.mem_cons_of_mem _ ho, hc, h⟩
    · rcases ih init with h | ⟨o, ho, hc, h⟩
      · exact Or.inl h
      · exact Or.inr ⟨o, List.mem_cons_of_mem _ ho, hc, h⟩

/-- Outputs that do not count have no influence on the running maximum. -/
theorem maxScoreLoop_filter (models : List String) :
    ∀ (outputs : List ModelEvaluatorOutput) (init : Float32),
      RequestEvaluator.maxScoreLoop models outputs init =
        RequestEvaluator.maxScoreLoop models (outputs.filter (countsFor models)) init := by
  intro outputs
  induction outputs with
  | nil => intro init; rfl
  | cons o os ih =>
    intro init
    by_cases hc : o.Status = ModelEvaluationStatusSuccess ∧
        o.ModelDefinition.Identifier ∈ models
    · have hcount := (countsFor_iff models o).mpr hc
      rw [List.filter_cons_of_pos hcount]
      unfold RequestEvaluator.maxScoreLoop
      rw [if_pos hc, if_pos hc]
      split_ifs
      · exact ih _
      · exact ih _
    · have hcount : ¬ countsFor models o = true := fun h => hc ((countsFor_iff models o).mp h)
      rw [List.filter_cons_of_neg hcount]
      conv_lhs => unfold RequestEvaluator.maxScoreLoop
      rw [if_neg hc]
      exact ih _

/-- When no output that counts exceeds the initial value, the running maximum
is the initial value. -/
theorem maxScoreLoop_stays (models : List String) (init : Float32) :
    ∀ (outputs : List ModelEvaluatorOutput),
      (∀ o ∈ outputs, countsFor models o = true → o.ModelResult.Value.gt init = false) →
      RequestEvaluator.maxScoreLoop models outputs init = init := by
  intro outputs
  induction outputs with
  | nil => intro _; rfl
  | cons o os ih =>
    intro hall
    have hos := fun o1 ho1 => hall o1 (List.mem_cons_of_mem _ ho1)
    unfold RequestEvaluator.maxScoreLoop
    split_ifs with h1 h2
    · have := hall o (List.mem_cons_self _ _) ((countsFor_iff _ _).mpr h1)
      rw [this] at h2
      exact absurd h2 (by decide)
    · exact ih hos
    · exact ih hos

/-- An output that counts and exceeds the initial value lifts the running
maximum above it. -/
theorem maxScoreLoop_gt (models : List String) (outputs : List ModelEvaluatorOutput)
    (init : Float32) (hinit : init.isNaN = false)
    (hsome : ∃ o ∈ outputs, countsFor models o = true ∧ o.ModelResult.Value.gt init = true) :
    (RequestEvaluator.maxScoreLoop models outputs init).gt init = true := by
  obtain ⟨o, ho, hc, hgt⟩ := hsome
  obtain ⟨hv, _, hlt⟩ := (Float32.gt_iff _ _).mp hgt
  have hres := maxScoreLoop_not_nan models outputs init hinit
  have hup := maxScoreLoop_upper models outputs init hinit o ho hc
  apply (Float32.gt_iff _ _).mpr
  refine ⟨hres, hinit, ?_⟩
  by_contra hnot
  have : o.ModelResult.Value.gt (RequestEvaluator.maxScoreLoop models outputs init) = true :=
    (Float32.gt_iff _ _).mpr ⟨hv, hres, by omega⟩
  rw [hup] at this
  exact absurd this (by decide)

/-- C7, as stated, fails at the sentinel: the snapshot has the soft-filter
experiment `E`, the only output is successful and belongs to a model of `E`,
but its score is `-math.MaxFloat32`, the initial value of the running maximum,
and the aggregation returns an error instead of that score. -/
theorem aggregate_sentinel_score_is_error :
    (sampleSnapshot "T").GetExperimentDefinitionByType ExperimentTypeSoftFilter =
        .ok { Name := "E", Type_ := "soft-filter", Treatments := [⟨"T", 80⟩, ⟨"C", 20⟩],
              StartTimeUTC := 0, EndTimeUTC := 0 } ∧
      (sampleSnapshot "T").GetModelsByExperiment.get? "E" = some ["m"] ∧
      (sampleOutput (Float32.neg Float32.maxFloat32)).Status = ModelEvaluationStatusSuccess ∧
      (sampleOutput (Float32.neg Float32.maxFloat32)).ModelDefinition.Identifier ∈ ["m"] ∧
      (sampleEvaluator "T").aggregateModelEvaluationResultsOnMax
          (sampleContext [sampleOutput (Float32.neg Float32.maxFloat32)]) =
        .ok (.error "no models have been evaluated for the experiment [E]") := by
  refine ⟨rfl, rfl, rfl, ?_, rfl⟩
  decide

/-- The aggregation over the models listed for the soft-filter experiment. -/
theorem aggregate_score_is_maximum_of_models (b : RequestEvaluator) (context : Context)
    (tac : TrafficAllocationContext) (E : ExperimentDefinition) (models : List String)
    (htac : context.TrafficAllocationContext = some tac)
    (hE : tac.GetExperimentDefinitionByType ExperimentTypeSoftFilter = .ok E)
    (hmodels : tac.GetModelsByExperiment.get? E.Name = some models)
    (hsome : ∃ o ∈ context.ModelEvaluatorOutputs,
      (o.Status = ModelEvaluationStatusSuccess ∧ o.ModelDefinition.Identifier ∈ models) ∧
        o.ModelResult.Value.gt (Float32.neg Float32.maxFloat32) = true) :
    ∃ r, b.aggregateModelEvaluationResultsOnMax context = .ok (.ok r) ∧
      (∃ o ∈ context.ModelEvaluatorOutputs,
        (o.Status = ModelEvaluationStatusSuccess ∧ o.ModelDefinition.Identifier ∈ models) ∧
          r.Score = o.ModelResult.Value) ∧
      (∀ o ∈ context.ModelEvaluatorOutputs,
        (o.Status = ModelEvaluationStatusSuccess ∧ o.ModelDefinition.Identifier ∈ models) →
          o.ModelResult.Value.gt r.Score = false) ∧
      r.Score = RequestEvaluator.maxScoreLoop models
        (context.ModelEvaluatorOutputs.filter (countsFor models))
        (Float32.neg Float32.maxFloat32) ∧
      r.ScoreWithTreatment =
        Float32.mathMax r.Score (Float32.ofInt8 (tac.GetTreatmentCodeInInt E.Name)) ∧
      r.AggregationType = "max" := by
  have hinit : (Float32.neg Float32.maxFloat32).isNaN = false := by decide
  have hsome1 : ∃ o ∈ context.ModelEvaluatorOutputs, countsFor models o = true ∧
      o.ModelResult.Value.gt (Float32.neg Float32.maxFloat32) = true := by
    obtain ⟨o, ho, hc, hgt⟩ := hsome
    exact ⟨o, ho, (countsFor_iff _ _).mpr hc, hgt⟩
  have hgt := maxScoreLoop_gt models _ _ hinit hsome1
  have hneq : (RequestEvaluator.maxScoreLoop models context.ModelEvaluatorOutputs
      (Float32.neg Float32.maxFloat32)).eq (Float32.neg Float32.maxFloat32) = false := by
    obtain ⟨h1, h2, h3⟩ := (Float32.gt_iff _ _).mp hgt
    simp only [Float32.eq, h1, h2, Bool.not_false, Bool.true_and, decide_eq_false_iff_not]
    omega
  refine ⟨{ ExperimentName := "DemandDrivenTrafficEvaluatorSoftFilter",
            ExperimentType := "soft-filter",
            TreatmentCode := tac.GetTreatmentCode E.Name,
            TreatmentCodeInInt := tac.GetTreatmentCodeInInt E.Name,
            Score := RequestEvaluator.maxScoreLoop models context.ModelEvaluatorOutputs
              (Float32.neg Float32.maxFloat32),
            ScoreWithTreatment := Float32.mathMax
              (RequestEvaluator.maxScoreLoop models context.ModelEvaluatorOutputs
                (Float32.neg Float32.maxFloat32))
              (Float32.ofInt8 (tac.GetTreatmentCodeInInt E.Name)),
            AggregationType := "max" }, ?_, ?_, ?_, ?_, rfl, rfl⟩
  · unfold RequestEvaluator.aggregateModelEvaluationResultsOnMax
    simp only [htac, hE, hmodels, hneq, Bool.false_eq_true, if_false]
  · rcases maxScoreLoop_mem models context.ModelEvaluatorOutputs
        (Float32.neg Float32.maxFloat32) with h | ⟨o, ho, hc, h⟩
    · rw [h] at hneq
      exact absurd hneq (by decide)
    · exact ⟨o, ho, (countsFor_iff _ _).mp hc, h⟩
  · intro o ho hc
    exact maxScoreLoop_upper models _ _ hinit o ho ((countsFor_iff _ _).mpr hc)
  · exact maxScoreLoop_filter models _ _

/-- C7 (amended): when the snapshot has a soft-filter experiment `E` and at
least one output with status SUCCESS and a model identifier listed in
`modelsByExperiment[E]` has a score greater than `-math.MaxFloat32`, the
aggregation succeeds; its `Score` is the score of such an output and no such
output has a greater score; outputs that are not SUCCESS or whose model is not
in the list of `E` do not influence it; `ScoreWithTreatment` is
`max(Score, GetTreatmentCodeInInt(E))` and `AggregationType` is "max". -/
theorem aggregate_score_is_maximum (b : RequestEvaluator) (context : Context)
    (tac : TrafficAllocationContext) (E : ExperimentDefinition)
    (htac : context.TrafficAllocationContext = some tac)
    (hE : tac.GetExperimentDefinitionByType ExperimentTypeSoftFilter = .ok E)
    (hsome : ∃ o ∈ context.ModelEvaluatorOutputs,
      (o.Status = ModelEvaluationStatusSuccess ∧
        o.ModelDefinition.Identifier ∈ (tac.GetModelsByExperiment.get? E.Name).getD []) ∧
        o.ModelResult.Value.gt (Float32.neg Float32.maxFloat32) = true) :
    ∃ r, b.aggregateModelEvaluationResultsOnMax context = .ok (.ok r) ∧
      (∃ o ∈ context.ModelEvaluatorOutputs,
        (o.Status = ModelEvaluationStatusSuccess ∧
          o.ModelDefinition.Identifier ∈ (tac.GetModelsByExperiment.get? E.Name).getD []) ∧
          r.Score = o.ModelResult.Value) ∧
      (∀ o ∈ context.ModelEvaluatorOutputs,
        (o.Status = ModelEvaluationStatusSuccess ∧
          o.ModelDefinition.Identifier ∈ (tac.GetModelsByExperiment.get? E.Name).getD []) →
          o.ModelResult.Value.gt r.Score = false) ∧
      r.Score = RequestEvaluator.maxScoreLoop ((tac.GetModelsByExperiment.get? E.Name).getD [])
        (context.ModelEvaluatorOutputs.filter
          (countsFor ((tac.GetModelsByExperiment.get? E.Name).getD [])))
        (Float32.neg Float32.maxFloat32) ∧
      r.ScoreWithTreatment =
        Float32.mathMax r.Score (Float32.ofInt8 (tac.GetTreatmentCodeInInt E.Name)) ∧
      r.AggregationType = "max" := by
  cases hm : tac.GetModelsByExperiment.get? E.Name with
  | none =>
    obtain ⟨o, _, ⟨_, hmem⟩, _⟩ := hsome
    rw [hm] at hmem
    simp at hmem
  | some models =>
    rw [hm] at hsome
    exact aggregate_score_is_maximum_of_models b context tac E models htac hE hm hsome

theorem aggregate_score_is_maximum_witness :
    ∃ r, (sampleEvaluator "C").aggregateModelEvaluationResultsOnMax
        (sampleContext [sampleOutput Float32.zero, sampleOutput Float32.one]) = .ok (.ok r) ∧
      (∃ o ∈ (sampleContext [sampleOutput Float32.zero,
          sampleOutput Float32.one]).ModelEvaluatorOutputs,
        (o.Status = ModelEvaluationStatusSuccess ∧ o.ModelDefinition.Identifier ∈ ["m"]) ∧
          r.Score = o.ModelResult.Value) ∧
      (∀ o ∈ (sampleContext [sampleOutput Float32.zero,
          sampleOutput Float32.one]).ModelEvaluatorOutputs,
        (o.Status = ModelEvaluationStatusSuccess ∧ o.ModelDefinition.Identifier ∈ ["m"]) →
          o.ModelResult.Value.gt r.Score = false) ∧
      r.Score = RequestEvaluator.maxScoreLoop ["m"]
        ((sampleContext [sampleOutput Float32.zero,
          sampleOutput Float32.one]).ModelEvaluatorOutputs.filter (countsFor ["m"]))
        (Float32.neg Float32.maxFloat32) ∧
      r.ScoreWithTreatment =
        Float32.mathMax r.Score
          (Float32.ofInt8 ((sampleSnapshot "T").GetTreatmentCodeInInt "E")) ∧
      r.AggregationType = "max" :=
  aggregate_score_is_maximum (sampleEvaluator "C")
    (sampleContext [sampleOutput Float32.zero, sampleOutput Float32.one])
    (sampleSnapshot "T") _ rfl rfl
    ⟨sampleOutput Float32.one, List.Mem.tail _ (List.Mem.head _), ⟨rfl, by decide⟩, by decide⟩

/-- C8, as stated, fails for a score that never compares greater: the snapshot
has the soft-filter experiment `E`, its name is a key of `modelsByExperiment`
and a successful output of a model of `E` exists, but the score is NaN and the
aggregation returns an error. -/
theorem aggregate_nan_score_is_error :
    (∃ e ∈ (sampleSnapshot "T").experimentDefinitionByName,
        e.2.Type_ = ExperimentTypeSoftFilter) ∧
      (sampleSnapshot "T").GetModelsByExperiment.get? "E" = some ["m"] ∧
      (∃ o ∈ (sampleContext [sampleOutput Float32.canonicalNaN]).ModelEvaluatorOutputs,
        o.Status = ModelEvaluationStatusSuccess ∧ o.ModelDefinition.Identifier ∈ ["m"]) ∧
      (sampleEvaluator "T").aggregateModelEvaluationResultsOnMax
          (sampleContext [sampleOutput Float32.canonicalNaN]) =
        .ok (.error "no models have been evaluated for the experiment [E]") := by
  refine ⟨⟨_, List.Mem.head _, rfl⟩, rfl, ⟨_, List.Mem.head _, rfl, ?_⟩, rfl⟩
  decide

/-- The first definition of a type, in terms of the entries of the map. -/
theorem getExperimentDefinitionByType_error_iff (t : TrafficAllocationContext)
    (experimentType : String) :
    (∃ err, t.GetExperimentDefinitionByType experimentType = .error err) ↔
      ∀ e ∈ t.experimentDefinitionByName, e.2.Type_ ≠ experimentType := by
  unfold TrafficAllocationContext.GetExperimentDefinitionByType
  cases hfind : t.experimentDefinitionByName.find?
      (fun e => decide (e.2.Type_ = experimentType)) with
  | none =>
    constructor
    · intro _ e he
      have := List.find?_eq_none.mp hfind e he
      simpa using this
    · intro _
      exact ⟨_, rfl⟩
  | some e =>
    constructor
    · rintro ⟨err, h⟩
      cases h
    · intro hall
      exfalso
      have hmem := List.mem_of_find?_eq_some hfind
      have hp := List.find?_some hfind
      exact hall e hmem (by simpa using hp)

/-- C8 (amended): for a context that holds a snapshot, the aggregation returns
an error, and no result, if and only if the snapshot has no experiment
definition of type "soft-filter", or the name of the soft-filter definition
found is not a key of `modelsByExperiment`, or no output with status SUCCESS
and a model of that experiment has a score greater than `-math.MaxFloat32`;
in every other case it returns a result. -/
theorem aggregate_error_iff (b : RequestEvaluator) (context : Context)
    (tac : TrafficAllocationContext)
    (htac : context.TrafficAllocationContext = some tac) :
    ((∃ err, b.aggregateModelEvaluationResultsOnMax context = .ok (.error err)) ↔
      ((∀ e ∈ tac.experimentDefinitionByName, e.2.Type_ ≠ ExperimentTypeSoftFilter) ∨
        (∃ E, tac.GetExperimentDefinitionByType ExperimentTypeSoftFilter = .ok E ∧
          tac.GetModelsByExperiment.get? E.Name = none) ∨
        (∃ E models, tac.GetExperimentDefinitionByType ExperimentTypeSoftFilter = .ok E ∧
          tac.GetModelsByExperiment.get? E.Name = some models ∧
          ∀ o ∈ context.ModelEvaluatorOutputs,
            (o.Status = ModelEvaluationStatusSuccess ∧
              o.ModelDefinition.Identifier ∈ models) →
            o.ModelResult.Value.gt (Float32.neg Float32.maxFloat32) = false))) ∧
      ((∃ err, b.aggregateModelEvaluationResultsOnMax context = .ok (.error err)) ∨
        ∃ r, b.aggregateModelEvaluationResultsOnMax context = .ok (.ok r)) := by
  have hinit : (Float32.neg Float32.maxFloat32).isNaN = false := by decide
  cases hE : tac.GetExperimentDefinitionByType ExperimentTypeSoftFilter with
  | error err =>
    have hnone := (getExperimentDefinitionByType_error_iff tac _).mp ⟨err, hE⟩
    have hagg : b.aggregateModelEvaluationResultsOnMax context =
        .ok (.error ("error while aggregating model evaluation results on Max due to [" ++
          err ++ "]")) := by
      unfold RequestEvaluator.aggregateModelEvaluationResultsOnMax
      simp only [htac, hE]
    exact ⟨⟨fun _ => Or.inl hnone, fun _ => ⟨_, hagg⟩⟩, Or.inl ⟨_, hagg⟩⟩
  | ok E =>
    have hsome : ¬ ∀ e ∈ tac.experimentDefinitionByName,
        e.2.Type_ ≠ ExperimentTypeSoftFilter := by
      intro hall
      obtain ⟨err, herr⟩ := (getExperimentDefinitionByType_error_iff tac _).mpr hall
      rw [hE] at herr
      cases herr
    cases hm : tac.GetModelsByExperiment.get? E.Name with
    | none =>
      have hagg : b.aggregateModelEvaluationResultsOnMax context =
          .ok (.error ("error while aggregating model evaluation results on Max since no " ++
            "models in the experiment [" ++ E.Name ++ "]")) := by
        unfold RequestEvaluator.aggregateModelEvaluationResultsOnMax
        simp only [htac, hE, hm]
      exact ⟨⟨fun _ => Or.inr (Or.inl ⟨E, rfl, hm⟩), fun _ => ⟨_, hagg⟩⟩, Or.inl ⟨_, hagg⟩⟩
    | some models =>
      by_cases hall : ∀ o ∈ context.ModelEvaluatorOutputs,
          (o.Status = ModelEvaluationStatusSuccess ∧ o.ModelDefinition.Identifier ∈ models) →
          o.ModelResult.Value.gt (Float32.neg Float32.maxFloat32) = false
      · have hstay := maxScoreLoop_stays models (Float32.neg Float32.maxFloat32)
          context.ModelEvaluatorOutputs
          (fun o ho hc => hall o ho ((countsFor_iff _ _).mp hc))
        have heq : (Float32.neg Float32.maxFloat32).eq (Float32.neg Float32.maxFloat32) =
            true := by
          decide
        have hagg : b.aggregateModelEvaluationResultsOnMax context =
            .ok (.error ("no models have been evaluated for the experiment [" ++
              E.Name ++ "]")) := by
          unfold RequestEvaluator.aggregateModelEvaluationResultsOnMax
          simp only [htac, hE, hm, hstay, heq, if_true]
        exact ⟨⟨fun _ => Or.inr (Or.inr ⟨E, models, rfl, hm, hall⟩), fun _ => ⟨_, hagg⟩⟩,
          Or.inl ⟨_, hagg⟩⟩
      · have hex : ∃ o ∈ context.ModelEvaluatorOutputs, countsFor models o = true ∧
            o.ModelResult.Value.gt (Float32.neg Float32.maxFloat32) = true := by
          push_neg at hall
          obtain ⟨o, ho, hc, hgt⟩ := hall
          exact ⟨o, ho, (countsFor_iff _ _).mpr hc, by simpa using hgt⟩
        have hgt := maxScoreLoop_gt models _ _ hinit hex
        have hneq : (RequestEvaluator.maxScoreLoop models context.ModelEvaluatorOutputs
            (Float32.neg Float32.maxFloat32)).eq (Float32.neg Float32.maxFloat32) = false := by
          obtain ⟨h1, h2, h3⟩ := (Float32.gt_iff _ _).mp hgt
          simp only [Float32.eq, h1, h2, Bool.not_false, Bool.true_and,
            decide_eq_false_iff_not]
          omega
        have hagg : ∃ r, b.aggregateModelEvaluationResultsOnMax context = .ok (.ok r) := by
          unfold RequestEvaluator.aggregateModelEvaluationResultsOnMax
          simp only [htac, hE, hm, hneq, Bool.false_eq_true, if_false]
          exact ⟨_, rfl⟩
        refine ⟨⟨?_, ?_⟩, Or.inr hagg⟩
        · rintro ⟨err, herr⟩
          obtain ⟨r, hr⟩ := hagg
          rw [hr] at herr
          cases herr
        · rintro (h | ⟨E1, hE1, hm1⟩ | ⟨E1, models1, hE1, hm1, hall1⟩)
          · exact absurd h hsome
          · cases hE1
            rw [hm] at hm1
            cases hm1
          · cases hE1
            rw [hm] at hm1
            cases hm1
            exact absurd hall1 hall

theorem aggregate_error_iff_witness :
    ∃ err, (sampleEvaluator "T").aggregateModelEvaluationResultsOnMax (sampleContext []) =
      .ok (.error err) :=
  (aggregate_error_iff (sampleEvaluator "T") (sampleContext []) (sampleSnapshot "T") rfl).1.mpr
    (Or.inr (Or.inr ⟨_, ["m"], rfl, rfl, fun o ho => absurd ho (List.not_mem_nil o)⟩))

/-- With a non-empty raw request the map of the input is never read. -/
theorem evaluate_ignores_map_of_raw_request (lib : Library) (b : RequestEvaluator)
    (openRtbRequest : String) (m1 m2 : GoMap String String) (hraw : openRtbRequest ≠ "") :
    b.Evaluate lib (some ⟨openRtbRequest, m1⟩) = b.Evaluate lib (some ⟨openRtbRequest, m2⟩) := by
  unfold RequestEvaluator.Evaluate RequestEvaluator.evaluateGuarded
  simp only [hraw, ne_eq, not_false_eq_true, if_true]

/-- C9 (the code at the failing input): the raw request `{"a":"v"}` comes with
the map `{"$.a": ""}`. Taken from the map, the field is empty, the key is `0`,
the cache misses and the decision is 1.0, which is what the map alone yields.
`Evaluate` parses the raw request instead: the field is `v`, the key is `1`,
the cache holds 0.0 and the decision is 0.0, exactly as for the raw request
alone. -/
theorem evaluate_both_present_parses_raw_request :
    ((sampleEvaluator "T").Evaluate sampleLibrary
        (some ⟨"\x7b\"a\":\"v\"\x7d", [("$.a", "")]⟩)).Response =
      { Slots := [{ FilterDecision := Float32.zero,
                    Ext := "\x7b\"amazontest\":\x7b\"decision\":0\x7d\x7d" }],
        Ext := "\x7b\"amazontest\":\x7b\"learning\":0\x7d\x7d" } ∧
    ((sampleEvaluator "T").Evaluate sampleLibrary
        (some ⟨"\x7b\"a\":\"v\"\x7d", []⟩)).Response =
      { Slots := [{ FilterDecision := Float32.zero,
                    Ext := "\x7b\"amazontest\":\x7b\"decision\":0\x7d\x7d" }],
        Ext := "\x7b\"amazontest\":\x7b\"learning\":0\x7d\x7d" } ∧
    ((sampleEvaluator "T").Evaluate sampleLibrary (some ⟨"", [("$.a", "")]⟩)).Response =
      { Slots := [{ FilterDecision := Float32.one,
                    Ext := "\x7b\"amazontest\":\x7b\"decision\":1\x7d\x7d" }],
        Ext := "\x7b\"amazontest\":\x7b\"learning\":0\x7d\x7d" } := by
  decide

/-! ### Maps -/

theorem GoMap.get?_set {κ ν : Type} [DecidableEq κ] (m : GoMap κ ν) (k k1 : κ) (v : ν) :
    (m.set k v).get? k1 = if k = k1 then some v else m.get? k1 := by
  induction m with
  | nil => simp [GoMap.set, GoMap.get?]
  | cons e rest ih =>
    obtain ⟨k0, v0⟩ := e
    simp only [GoMap.set]
    by_cases h0 : k0 = k
    · subst h0
      simp only [if_true, GoMap.get?]
      by_cases h1 : k0 = k1 <;> simp [h1]
    · simp only [h0, if_false, GoMap.get?, ih]
      by_cases h1 : k0 = k1
      · subst h1
        have : ¬ k = k0 := fun h => h0 h.symm
        simp [this]
      · simp [h1]

theorem GoMap.mem_keys_set {κ ν : Type} [DecidableEq κ] (m : GoMap κ ν) (k k1 : κ) (v : ν) :
    k1 ∈ (m.set k v).keys ↔ k1 = k ∨ k1 ∈ m.keys := by
  induction m with
  | nil => simp [GoMap.set, GoMap.keys]
  | cons e rest ih =>
    obtain ⟨k0, v0⟩ := e
    simp only [GoMap.set]
    by_cases h0 : k0 = k
    · subst h0
      simp [GoMap.keys]
    · simp only [h0, if_false]
      simp only [GoMap.keys, List.map_cons, List.mem_cons] at ih ⊢
      rw [ih]
      tauto

theorem GoMap.mem_of_get? {κ ν : Type} [DecidableEq κ] (m : GoMap κ ν) (k : κ) (v : ν)
    (h : m.get? k = some v) : (k, v) ∈ m := by
  induction m with
  | nil => simp [GoMap.get?] at h
  | cons e rest ih =>
    obtain ⟨k0, v0⟩ := e
    simp only [GoMap.get?] at h
    by_cases h0 : k0 = k
    · subst h0
      simp only [if_true, Option.some.injEq] at h
      subst h
      exact List.mem_cons_self _ _
    · simp only [h0, if_false] at h
      exact List.mem_cons_of_mem _ (ih h)

/-- After the loop of `addMissingEntriesToMap` every listed field carries the
value of the input map, or the empty string. -/
theorem addMissingEntriesLoop_get? (m : GoMap String String) :
    ∀ (fields : List String) (acc : GoMap String String) (f : String),
      (RequestEvaluator.addMissingEntriesLoop m fields acc).get? f =
        if f ∈ fields then some ((m.get? f).getD "") else acc.get? f := by
  intro fields
  induction fields with
  | nil => intro acc f; simp [RequestEvaluator.addMissingEntriesLoop]
  | cons f0 fs ih =>
    intro acc f
    unfold RequestEvaluator.addMissingEntriesLoop
    cases hget : m.get? f0 with
    | none =>
      simp only [ih, GoMap.get?_set]
      by_cases hf : f ∈ fs
      · simp [hf]
      · by_cases h0 : f0 = f
        · subst h0
          simp [hf, hget]
        · have : ¬ f = f0 := fun h => h0 h.symm
          simp [hf, h0, this]
    | some v =>
      simp only [ih, GoMap.get?_set]
      by_cases hf : f ∈ fs
      · simp [hf]
      · by_cases h0 : f0 = f
        · subst h0
          simp [hf, hget]
        · have : ¬ f = f0 := fun h => h0 h.symm
          simp [hf, h0, this]

/-- Every field of every feature of every model of the configuration is among
the unique feature fields. -/
theorem mem_collectUniqueFields (modelConfig : ModelConfiguration) (entry : String × ModelDefinition)
    (feature : FeatureConfiguration) (field : String)
    (hentry : entry ∈ modelConfig.ModelDefinitionByIdentifier)
    (hfeature : feature ∈ entry.2.Features) (hfield : field ∈ feature.Fields) :
    field ∈ (ModelConfigurationHandler.collectUniqueFields modelConfig).keys := by
  have hfields : ∀ (fields : List String) (acc : GoMap String Unit) (f : String),
      f ∈ fields ∨ f ∈ acc.keys →
      f ∈ (fields.foldl (fun u fld => GoMap.set u fld ()) acc).keys := by
    intro fields
    induction fields with
    | nil =>
      intro acc f h
      rcases h with h | h
      · simp at h
      · exact h
    | cons f0 fs ih =>
      intro acc f h
      simp only [List.foldl_cons]
      apply ih
      rcases h with h | h
      · rcases List.mem_cons.mp h with h | h
        · exact Or.inr ((GoMap.mem_keys_set _ _ _ _).mpr (Or.inl h))
        · exact Or.inl h
      · exact Or.inr ((GoMap.mem_keys_set _ _ _ _).mpr (Or.inr h))
  have hfeatures : ∀ (features : List FeatureConfiguration) (acc : GoMap String Unit)
      (f : String),
      (∃ feat ∈ features, f ∈ feat.Fields) ∨ f ∈ acc.keys →
      f ∈ (features.foldl (fun u feat =>
        feat.Fields.foldl (fun u fld => GoMap.set u fld ()) u) acc).keys := by
    intro features
    induction features with
    | nil =>
      intro acc f h
      rcases h with ⟨feat, hfeat, _⟩ | h
      · simp at hfeat
      · exact h
    | cons f0 fs ih =>
      intro acc f h
      simp only [List.foldl_cons]
      apply ih
      rcases h with ⟨feat, hfeat, hf⟩ | h
      · rcases List.mem_cons.mp hfeat with h0 | h0
        · subst h0
          exact Or.inr (hfields _ _ _ (Or.inl hf))
        · exact Or.inl ⟨feat, h0, hf⟩
      · exact Or.inr (hfields _ _ _ (Or.inr h))
  have hmodels : ∀ (entries : List (String × ModelDefinition)) (acc : GoMap String Unit)
      (f : String),
      (∃ e ∈ entries, ∃ feat ∈ e.2.Features, f ∈ feat.Fields) ∨ f ∈ acc.keys →
      f ∈ (entries.foldl (fun u e =>
        e.2.Features.foldl (fun u feat =>
          feat.Fields.foldl (fun u fld => GoMap.set u fld ()) u) u) acc).keys := by
    intro entries
    induction entries with
    | nil =>
      intro acc f h
      rcases h with ⟨e, he, _⟩ | h
      · simp at he
      · exact h
    | cons e0 es ih =>
      intro acc f h
      simp only [List.foldl_cons]
      apply ih
      rcases h with ⟨e, he, feat, hfeat, hf⟩ | h
      · rcases List.mem_cons.mp he with h0 | h0
        · subst h0
          exact Or.inr (hfeatures _ _ _ (Or.inl ⟨feat, hfeat, hf⟩))
        · exact Or.inl ⟨e, h0, feat, hfeat, hf⟩
      · exact Or.inr (hfeatures _ _ _ (Or.inr h))
  unfold ModelConfigurationHandler.collectUniqueFields
  exact hmodels _ _ _ (Or.inl ⟨entry, hentry, feature, hfeature, hfield⟩)

/-! ### Two field maps that agree on the feature fields -/

theorem getFieldsValues_congr (t : RuleBasedModelEvaluator) (vm1 vm2 : GoMap String String) :
    ∀ (fields : List String) (acc : List String),
      (∀ f ∈ fields, vm1.get? f = vm2.get? f) →
      t.getFieldsValues fields vm1 acc = t.getFieldsValues fields vm2 acc := by
  intro fields
  induction fields with
  | nil => intro acc _; rfl
  | cons f fs ih =>
    intro acc h
    unfold RuleBasedModelEvaluator.getFieldsValues
    rw [← h f (List.mem_cons_self _ _)]
    cases vm1.get? f with
    | none => rfl
    | some v => exact ih _ (fun f1 hf1 => h f1 (List.mem_cons_of_mem _ hf1))

theorem getFeaturesLoop_congr (t : RuleBasedModelEvaluator) (vm1 vm2 : GoMap String String) :
    ∀ (features : List FeatureConfiguration) (acc : List ModelFeature),
      (∀ fc ∈ features, ∀ f ∈ fc.Fields, vm1.get? f = vm2.get? f) →
      t.getFeaturesLoop vm1 features acc = t.getFeaturesLoop vm2 features acc := by
  intro features
  induction features with
  | nil => intro acc _; rfl
  | cons fc fcs ih =>
    intro acc h
    unfold RuleBasedModelEvaluator.getFeaturesLoop
    rw [getFieldsValues_congr t vm1 vm2 fc.Fields [] (h fc (List.mem_cons_self _ _))]
    cases t.getFieldsValues fc.Fields vm2 [] with
    | error e => rfl
    | ok values =>
      simp only
      cases Transform { Configuration := fc, Values := values } with
      | error e => rfl
      | ok transformed =>
        exact ih _ (fun fc1 hfc1 => h fc1 (List.mem_cons_of_mem _ hfc1))

/-- The rule-based evaluation of one model reads the field map only at the
fields of the features of the model, and its context only to copy it. -/
theorem ruleBased_evaluate_congr (t : RuleBasedModelEvaluator) (i1 i2 : ModelEvaluatorInput)
    (hdef : i1.ModelDefinition = i2.ModelDefinition)
    (hagree : ∀ fc ∈ i1.ModelDefinition.Features, ∀ f ∈ fc.Fields,
      i1.FeatureFieldValueMap.get? f = i2.FeatureFieldValueMap.get? f) :
    (t.Evaluate i1).2 = (t.Evaluate i2).2 ∧
      outputCore (t.Evaluate i1).1 = outputCore (t.Evaluate i2).1 := by
  unfold RuleBasedModelEvaluator.Evaluate RuleBasedModelEvaluator.getFeatures
  rw [getFeaturesLoop_congr t _ _ _ [] hagree, hdef]
  cases t.getFeaturesLoop i2.FeatureFieldValueMap i2.ModelDefinition.Features [] with
  | error e => exact ⟨rfl, rfl⟩
  | ok features =>
    simp only
    cases t.modelResultHandler.Provide i2.ModelDefinition.Identifier features
        HighValueDefaultScore with
    | error e => exact ⟨rfl, rfl⟩
    | ok result => exact ⟨rfl, rfl⟩

/-- The loop over the model definitions yields the same outputs, up to the
copied context, for two field maps that agree on the fields of the models. -/
theorem evaluateModels_congr (b : RequestEvaluator) (t : RuleBasedModelEvaluator)
    (hb : b.modelEvaluator = t.asInterface) (c1 c2 : Context) (r1 r2 : String)
    (vm1 vm2 : GoMap String String) :
    ∀ (defs : List ModelDefinition) (acc1 acc2 : List ModelEvaluatorOutput),
      acc1.map outputCore = acc2.map outputCore →
      (∀ d ∈ defs, ∀ fc ∈ d.Features, ∀ f ∈ fc.Fields, vm1.get? f = vm2.get? f) →
      ∃ o1 o2, b.evaluateModels c1 r1 vm1 defs acc1 = .ok o1 ∧
        b.evaluateModels c2 r2 vm2 defs acc2 = .ok o2 ∧
        o1.map outputCore = o2.map outputCore := by
  intro defs
  induction defs with
  | nil =>
    intro acc1 acc2 hacc _
    exact ⟨acc1, acc2, rfl, rfl, hacc⟩
  | cons d ds ih =>
    intro acc1 acc2 hacc hagree
    have hds := fun d1 hd1 => hagree d1 (List.mem_cons_of_mem _ hd1)
    obtain ⟨herr, hcore⟩ := ruleBased_evaluate_congr t
      { Context := c1, OpenRtbRequest := r1, ModelDefinition := d, FeatureFieldValueMap := vm1 }
      { Context := c2, OpenRtbRequest := r2, ModelDefinition := d, FeatureFieldValueMap := vm2 }
      rfl (hagree d (List.mem_cons_self _ _))
    unfold RequestEvaluator.evaluateModels
    simp only [hb, RuleBasedModelEvaluator.asInterface]
    rw [herr]
    generalize (t.Evaluate ⟨c2, r2, d, vm2⟩).2 = e2
    cases e2 with
    | some e => exact ih acc1 acc2 hacc hds
    | none =>
      apply ih _ _ _ hds
      simp only [List.map_append, List.map_cons, List.map_nil, hacc, hcore]

theorem maxScoreLoop_congr (models : List String) :
    ∀ (o1 o2 : List ModelEvaluatorOutput) (init : Float32),
      o1.map outputCore = o2.map outputCore →
      RequestEvaluator.maxScoreLoop models o1 init =
        RequestEvaluator.maxScoreLoop models o2 init := by
  intro o1
  induction o1 with
  | nil =>
    intro o2 init h
    cases o2 with
    | nil => rfl
    | cons y ys => simp at h
  | cons x xs ih =>
    intro o2 init h
    cases o2 with
    | nil => simp at h
    | cons y ys =>
      simp only [List.map_cons, List.cons.injEq] at h
      obtain ⟨hxy, hrest⟩ := h
      simp only [outputCore, Prod.mk.injEq] at hxy
      obtain ⟨hs, hr, hd, _⟩ := hxy
      unfold RequestEvaluator.maxScoreLoop
      rw [hs, hr, hd]
      split_ifs
      · exact ih ys _ hrest
      · exact ih ys _ hrest
      · exact ih ys _ hrest

/-- The aggregation reads the snapshot of the context and, of each output,
only the status, the score and the model. -/
theorem aggregate_congr (b : RequestEvaluator) (c1 c2 : Context)
    (hsnapshot : c1.TrafficAllocationContext = c2.TrafficAllocationContext)
    (houtputs : c1.ModelEvaluatorOutputs.map outputCore =
      c2.ModelEvaluatorOutputs.map outputCore) :
    b.aggregateModelEvaluationResultsOnMax c1 = b.aggregateModelEvaluationResultsOnMax c2 := by
  unfold RequestEvaluator.aggregateModelEvaluationResultsOnMax
  simp only [hsnapshot]
  cases c2.TrafficAllocationContext with
  | none => rfl
  | some tac =>
    simp only
    cases tac.GetExperimentDefinitionByType ExperimentTypeSoftFilter with
    | error e => rfl
    | ok E =>
      simp only
      cases tac.GetModelsByExperiment.get? E.Name with
      | none => rfl
      | some models =>
        simp only [maxScoreLoop_congr models _ _ _ houtputs]

/-- The statements after the field map give the same result for two contexts
with the same snapshot and two field maps that agree on every field of every
feature of the provided configuration, when the model evaluator is the
rule-based one. -/
theorem evaluateWithFields_congr (lib : Library) (b : RequestEvaluator)
    (t : RuleBasedModelEvaluator) (hb : b.modelEvaluator = t.asInterface)
    (c1 c2 : Context) (r1 r2 : String) (vm1 vm2 : GoMap String String)
    (hsnapshot : c1.TrafficAllocationContext = c2.TrafficAllocationContext)
    (hagree : ∀ cfg, b.modelConfigurationHandler.Provide = .ok (some cfg, none) →
      ∀ e ∈ cfg.ModelDefinitionByIdentifier, ∀ fc ∈ e.2.Features, ∀ f ∈ fc.Fields,
        vm1.get? f = vm2.get? f) :
    b.evaluateWithFields lib c1 r1 vm1 = b.evaluateWithFields lib c2 r2 vm2 := by
  unfold RequestEvaluator.evaluateWithFields RequestEvaluator.getModelDefinitions
  cases hprov : b.modelConfigurationHandler.Provide with
  | panic => rfl
  | ok result =>
    obtain ⟨cfgOpt, errOpt⟩ := result
    cases errOpt with
    | some err => cases cfgOpt <;> rfl
    | none =>
      cases cfgOpt with
      | none => rfl
      | some cfg =>
        simp only [setupOpenRtbRequestID_snapshot, hsnapshot]
        cases c2.TrafficAllocationContext with
        | none => rfl
        | some tac =>
          simp only
          cases hloop : RequestEvaluator.getModelDefinitionsLoop
              cfg.ModelDefinitionByIdentifier tac.GetModelIdentifiers [] with
          | error err => rfl
          | ok defs =>
            simp only
            have hdefs : ∀ d ∈ defs, ∀ fc ∈ d.Features, ∀ f ∈ fc.Fields,
                vm1.get? f = vm2.get? f := by
              intro d hd fc hfc f hf
              rcases getModelDefinitionsLoop_mem _ _ _ _ hloop d hd with hnil | ⟨id, _, hget⟩
              · simp at hnil
              · exact hagree cfg hprov (id, d) (GoMap.mem_of_get? _ _ _ hget) fc hfc f hf
            obtain ⟨o1, o2, h1, h2, hcore⟩ := evaluateModels_congr b t hb
              (b.setupOpenRtbRequestID c1 vm1) (b.setupOpenRtbRequestID c2 vm2) r1 r2 vm1 vm2
              defs [] [] rfl hdefs
            rw [h1, h2]
            simp only
            have hlen : o1.length = o2.length := by
              have := congrArg List.length hcore
              simpa using this
            rw [hlen]
            split_ifs with hzero
            · rfl
            · have hagg := aggregate_congr b
                { b.setupOpenRtbRequestID c1 vm1 with ModelEvaluatorOutputs := o1 }
                { b.setupOpenRtbRequestID c2 vm2 with ModelEvaluatorOutputs := o2 }
                (by simp [hsnapshot]) hcore
              rw [hagg]
              cases b.aggregateModelEvaluationResultsOnMax
                  { b.setupOpenRtbRequestID c2 vm2 with ModelEvaluatorOutputs := o2 } with
              | panic => rfl
              | ok res =>
                cases res with
                | error e => rfl
                | ok r => simp [buildResponse, buildSlots]

/-- The two input modes agree whenever parsing the raw request succeeds with a
field map that the given map matches on every unique feature field. -/
theorem evaluate_map_agrees_of_parse (lib : Library) (b : RequestEvaluator)
    (t : RuleBasedModelEvaluator) (provider : ConfigurationHandlerInterface ModelConfiguration)
    (s : String) (m pm : GoMap String String)
    (hb : b.modelEvaluator = t.asInterface)
    (hcfg : b.modelConfigurationHandler =
      (ModelConfigurationHandler.mk provider).asInterface)
    (hs : s ≠ "") (hm : m.length > 0)
    (hparse : b.parse lib s ["$.id"] = .ok (.ok pm))
    (hsame : ∀ fields, b.modelConfigurationHandler.GetAllUniqueFeatureFields =
        .ok (fields, none) →
      ∀ f ∈ fields, pm.get? f = some ((m.get? f).getD "")) :
    b.Evaluate lib (some ⟨"", m⟩) = b.Evaluate lib (some ⟨s, []⟩) := by
  have hall : b.modelConfigurationHandler.GetAllUniqueFeatureFields =
      (ModelConfigurationHandler.mk provider).GetAllUniqueFeatureFields := by
    rw [hcfg]; rfl
  have hprovide : b.modelConfigurationHandler.Provide = provider.Provide := by
    rw [hcfg]; rfl
  -- the unique feature fields are available, since parsing succeeded
  obtain ⟨fields, hfields⟩ : ∃ fields,
      b.modelConfigurationHandler.GetAllUniqueFeatureFields = .ok (fields, none) := by
    unfold RequestEvaluator.parse at hparse
    cases hget : b.modelConfigurationHandler.GetAllUniqueFeatureFields with
    | panic => simp [hget] at hparse
    | ok result =>
      obtain ⟨fs, errOpt⟩ := result
      cases errOpt with
      | some err => simp [hget] at hparse
      | none => exact ⟨fs, rfl⟩
  have hkeys : ∀ cfg, b.modelConfigurationHandler.Provide = .ok (some cfg, none) →
      fields = (ModelConfigurationHandler.collectUniqueFields cfg).keys := by
    intro cfg hp
    rw [hprovide] at hp
    rw [hall] at hfields
    simp only [ModelConfigurationHandler.GetAllUniqueFeatureFields, hp, Outcome.ok.injEq,
      Prod.mk.injEq, and_true] at hfields
    exact hfields.symm
  have hadd : b.addMissingEntriesToMap m =
      .ok (.ok (RequestEvaluator.addMissingEntriesLoop m fields [])) := by
    unfold RequestEvaluator.addMissingEntriesToMap
    simp only [hfields]
  have hagree : ∀ cfg, b.modelConfigurationHandler.Provide = .ok (some cfg, none) →
      ∀ e ∈ cfg.ModelDefinitionByIdentifier, ∀ fc ∈ e.2.Features, ∀ f ∈ fc.Fields,
        (RequestEvaluator.addMissingEntriesLoop m fields []).get? f = pm.get? f := by
    intro cfg hp e he fc hfc f hf
    have hmem : f ∈ fields := by
      rw [hkeys cfg hp]
      exact mem_collectUniqueFields cfg e fc f he hfc hf
    rw [addMissingEntriesLoop_get?, if_pos hmem, hsame fields hfields f hmem]
  unfold RequestEvaluator.Evaluate RequestEvaluator.evaluateGuarded
  cases b.trafficAllocator.GetTrafficAllocationContext with
  | panic => rfl
  | ok tacOpt =>
    simp only [hs, hm, hparse, hadd, ne_eq, not_true_eq_false, not_false_eq_true, if_true,
      if_false]
    rw [evaluateWithFields_congr lib b t hb
      { NewContext with
        RequestId := lib.uuidNew, OpenRtbRequest := "", TrafficAllocationContext := tacOpt }
      { NewContext with
        RequestId := lib.uuidNew, OpenRtbRequest := s, TrafficAllocationContext := tacOpt }
      "" s _ pm rfl hagree]

/-- The callbacks of `parse` do not panic when the parser reports only indices
of the given paths. -/
theorem parseCallbacks_ok (paths : List (List String)) :
    ∀ (calls : List (Nat × String)) (acc : GoMap String String),
      (∀ c ∈ calls, c.1 < paths.length) →
      ∃ fieldValueMap, RequestEvaluator.parseCallbacks paths calls acc = .ok fieldValueMap := by
  intro calls
  induction calls with
  | nil => intro acc _; exact ⟨acc, rfl⟩
  | cons c cs ih =>
    intro acc h
    obtain ⟨idx, value⟩ := c
    have hidx : idx < paths.length := h (idx, value) (List.mem_cons_self _ _)
    unfold RequestEvaluator.parseCallbacks
    rw [List.get?_eq_get hidx]
    exact ih _ (fun c1 hc1 => h c1 (List.mem_cons_of_mem _ hc1))

/-- C10: let the model evaluator be `RuleBasedModelEvaluator` and the model
configuration handler be `ModelConfigurationHandler` over one configuration
provider, with one traffic allocator result and one cache, and let the JSON
parser return normally, reporting only indices of the paths it is given. If a
non-empty map `m` gives every unique feature field the value that parsing the
raw request `s` extracts for it (absent in `m` meaning the empty string), then
`Evaluate` on the input with empty raw request and map `m` returns the same
output as `Evaluate` on the input with raw request `s`. -/
theorem evaluate_map_agrees_with_raw_request (lib : Library) (b : RequestEvaluator)
    (t : RuleBasedModelEvaluator) (provider : ConfigurationHandlerInterface ModelConfiguration)
    (s : String) (m : GoMap String String)
    (hb : b.modelEvaluator = t.asInterface)
    (hcfg : b.modelConfigurationHandler =
      (ModelConfigurationHandler.mk provider).asInterface)
    (hs : s ≠ "") (hm : m.length > 0)
    (hlib : ∀ fields, b.modelConfigurationHandler.GetAllUniqueFeatureFields =
        .ok (fields, none) →
      ∃ calls, lib.EachKey s (convertFieldsToPaths (fields ++ ["$.id"])) = .ok calls ∧
        ∀ c ∈ calls, c.1 < (convertFieldsToPaths (fields ++ ["$.id"])).length)
    (hsame : ∀ pm, b.parse lib s ["$.id"] = .ok (.ok pm) →
      ∀ fields, b.modelConfigurationHandler.GetAllUniqueFeatureFields = .ok (fields, none) →
        ∀ f ∈ fields, pm.get? f = some ((m.get? f).getD "")) :
    b.Evaluate lib (some ⟨"", m⟩) = b.Evaluate lib (some ⟨s, []⟩) := by
  cases hget : b.modelConfigurationHandler.GetAllUniqueFeatureFields with
  | panic =>
    unfold RequestEvaluator.Evaluate RequestEvaluator.evaluateGuarded
    cases b.trafficAllocator.GetTrafficAllocationContext with
    | panic => rfl
    | ok tacOpt =>
      simp [hs, hm, RequestEvaluator.parse, RequestEvaluator.addMissingEntriesToMap, hget]
  | ok result =>
    obtain ⟨fields, errOpt⟩ := result
    cases errOpt with
    | some err =>
      unfold RequestEvaluator.Evaluate RequestEvaluator.evaluateGuarded
      cases b.trafficAllocator.GetTrafficAllocationContext with
      | panic => rfl
      | ok tacOpt =>
        simp [hs, hm, RequestEvaluator.parse, RequestEvaluator.addMissingEntriesToMap, hget]
    | none =>
      obtain ⟨calls, hcalls, hrange⟩ := hlib fields hget
      obtain ⟨fieldValueMap, hcb⟩ := parseCallbacks_ok _ calls [] hrange
      have hparse : b.parse lib s ["$.id"] =
          .ok (.ok (RequestEvaluator.parseFillMissing (fields ++ ["$.id"]) fieldValueMap)) := by
        unfold RequestEvaluator.parse
        simp only [hget, hcalls, hcb]
      exact evaluate_map_agrees_of_parse lib b t provider s m _ hb hcfg hs hm hparse
        (hsame _ hparse)

theorem evaluate_map_agrees_with_raw_request_witness :
    (sampleEvaluator "T").Evaluate sampleLibrary (some ⟨"", [("$.a", "v")]⟩) =
      (sampleEvaluator "T").Evaluate sampleLibrary (some ⟨"\x7b\"a\":\"v\"\x7d", []⟩) :=
  evaluate_map_agrees_with_raw_request sampleLibrary (sampleEvaluator "T")
    sampleRuleBasedModelEvaluator
    sampleConfigurationHandler.asInterface
    "\x7b\"a\":\"v\"\x7d" [("$.a", "v")]
    rfl rfl (by decide) (by decide)
    (by
      intro fields h
      have hfs : (Outcome.ok (["$.a"], none) : Outcome (List String × Option Error)) =
          Outcome.ok (fields, none) := h
      cases hfs
      exact ⟨[(0, "v")], rfl, by decide⟩)
    (by
      intro pm hpm fields h f hf
      have hfs : (Outcome.ok (["$.a"], none) : Outcome (List String × Option Error)) =
          Outcome.ok (fields, none) := h
      cases hfs
      have hp : (Outcome.ok (Except.ok [("$.a", "v"), ("$.id", "")]) :
          Outcome (Except Error (GoMap String String))) = Outcome.ok (Except.ok pm) := hpm
      cases hp
      rw [List.mem_singleton.mp hf]
      decide)

/-! ### Transformers -/

theorem existsLoop_eq (values : List String) (transformedValues : List String) :
    values.foldl
      (fun transformedValues value =>
        if value = "" then transformedValues ++ ["0"] else transformedValues ++ ["1"])
      transformedValues
    = transformedValues ++ values.map (fun value => if value = "" then "0" else "1") := by
  induction values generalizing transformedValues with
  | nil => simp
  | cons value rest ih =>
    simp only [List.foldl_cons, List.map_cons]
    rw [ih]
    by_cases h : value = "" <;> simp [h]

theorem applyMappingsLoop_eq (mapping : GoMap String String) (mappingDefaultValue : String)
    (values : List String) (transformedValues : List String) :
    values.foldl
      (fun transformedValues value =>
        match mapping.get? value with
        | some mappedValue => transformedValues ++ [mappedValue]
        | none => transformedValues ++ [mappingDefaultValue])
      transformedValues
    = transformedValues ++ values.map (fun value => (mapping.get? value).getD mappingDefaultValue) := by
  induction values generalizing transformedValues with
  | nil => simp
  | cons value rest ih =>
    simp only [List.foldl_cons, List.map_cons]
    rw [ih]
    cases h : mapping.get? value <;> simp

theorem firstNotEmptyLoop_spec (values : List String) :
    (∃ i : Nat, values[i]? = some (firstNotEmptyLoop values) ∧ firstNotEmptyLoop values ≠ "" ∧
        ∀ j : Nat, j < i → values[j]? = some "") ∨
    (firstNotEmptyLoop values = "" ∧ ∀ value ∈ values, value = "") := by
  induction values with
  | nil => right; simp [firstNotEmptyLoop]
  | cons value rest ih =>
    by_cases h : value = ""
    · subst h
      simp only [firstNotEmptyLoop, ne_eq, not_true_eq_false, if_false]
      rcases ih with ⟨i, hi, hne, hbefore⟩ | ⟨hempty, hall⟩
      · left
        refine ⟨i + 1, by simpa using hi, hne, ?_⟩
        intro j hj
        cases j with
        | zero => simp
        | succ j => simpa using hbefore j (by omega)
      · right
        exact ⟨hempty, by simpa using hall⟩
    · left
      refine ⟨0, by simp [firstNotEmptyLoop, h], by simp [firstNotEmptyLoop, h], ?_⟩
      intro j hj
      omega

/-- C18: for every value vector `ExistsTransformer` returns, without an error and
with the configuration of its input, a vector of the same length whose i-th element
is "0" when the i-th input is the empty string and "1" when it is not; input that is
all empty gives all "0" and input with no empty value gives all "1". -/
theorem existsTransformer_marks_each_value (modelFeature : ModelFeature) :
    ∃ out, ExistsTransformer modelFeature = .ok out ∧
      out.Configuration = modelFeature.Configuration ∧
      out.Values.length = modelFeature.Values.length ∧
      (∀ (i : Nat) (value : String), modelFeature.Values[i]? = some value →
        out.Values[i]? = some (if value = "" then "0" else "1")) ∧
      ((∀ value ∈ modelFeature.Values, value = "") → ∀ mark ∈ out.Values, mark = "0") ∧
      ((∀ value ∈ modelFeature.Values, value ≠ "") → ∀ mark ∈ out.Values, mark = "1") := by
  refine ⟨_, rfl, rfl, ?_, ?_, ?_, ?_⟩
  · simp [existsLoop_eq]
  · intro i value hvalue
    simp [existsLoop_eq, hvalue]
  · intro hall mark hmark
    simp only [existsLoop_eq, List.nil_append, List.mem_map] at hmark
    obtain ⟨value, hvalue, rfl⟩ := hmark
    simp [hall value hvalue]
  · intro hall mark hmark
    simp only [existsLoop_eq, List.nil_append, List.mem_map] at hmark
    obtain ⟨value, hvalue, rfl⟩ := hmark
    simp [hall value hvalue]

theorem existsTransformer_marks_each_value_witness :
    ∃ out, ExistsTransformer sampleMappedFeature = .ok out ∧
      out.Configuration = sampleMappedFeature.Configuration ∧
      out.Values.length = sampleMappedFeature.Values.length ∧
      (∀ (i : Nat) (value : String), sampleMappedFeature.Values[i]? = some value →
        out.Values[i]? = some (if value = "" then "0" else "1")) ∧
      ((∀ value ∈ sampleMappedFeature.Values, value = "") → ∀ mark ∈ out.Values, mark = "0") ∧
      ((∀ value ∈ sampleMappedFeature.Values, value ≠ "") → ∀ mark ∈ out.Values, mark = "1") :=
  existsTransformer_marks_each_value sampleMappedFeature

/-- C19: for every value vector, the empty one included,
`GetFirstNotEmptyTransformer` returns, without an error and with the configuration of
its input, a vector of exactly one element: the first input value in order that is
not empty (every value before it is empty), or the empty string when every input
value is empty or there is none. -/
theorem getFirstNotEmptyTransformer_returns_first_not_empty (modelFeature : ModelFeature) :
    ∃ first,
      GetFirstNotEmptyTransformer modelFeature
        = .ok { Configuration := modelFeature.Configuration, Values := [first] } ∧
      ((∃ i : Nat, modelFeature.Values[i]? = some first ∧ first ≠ "" ∧
          ∀ j : Nat, j < i → modelFeature.Values[j]? = some "") ∨
       (first = "" ∧ ∀ value ∈ modelFeature.Values, value = "")) :=
  ⟨firstNotEmptyLoop modelFeature.Values, rfl, firstNotEmptyLoop_spec modelFeature.Values⟩

theorem getFirstNotEmptyTransformer_returns_first_not_empty_witness :
    ∃ first,
      GetFirstNotEmptyTransformer sampleMappedFeature
        = .ok { Configuration := sampleMappedFeature.Configuration, Values := [first] } ∧
      ((∃ i : Nat, sampleMappedFeature.Values[i]? = some first ∧ first ≠ "" ∧
          ∀ j : Nat, j < i → sampleMappedFeature.Values[j]? = some "") ∨
       (first = "" ∧ ∀ value ∈ sampleMappedFeature.Values, value = "")) :=
  getFirstNotEmptyTransformer_returns_first_not_empty sampleMappedFeature

/-- C20: for every value vector and every feature configuration
`ApplyMappingsTransformer` returns, without an error and with the configuration of
its input, a vector of the same length whose i-th element is `mapping[v_i]` when
`v_i` is a key of the mapping table and `mappingDefaultValue` when it is not; with
an empty table every element is the default value. -/
theorem applyMappingsTransformer_maps_each_value (modelFeature : ModelFeature) :
    ∃ out, ApplyMappingsTransformer modelFeature = .ok out ∧
      out.Configuration = modelFeature.Configuration ∧
      out.Values.length = modelFeature.Values.length ∧
      (∀ (i : Nat) (value : String), modelFeature.Values[i]? = some value →
        (∀ mappedValue, modelFeature.Configuration.Mapping.get? value = some mappedValue →
          out.Values[i]? = some mappedValue) ∧
        (modelFeature.Configuration.Mapping.get? value = none →
          out.Values[i]? = some modelFeature.Configuration.MappingDefaultValue)) ∧
      (modelFeature.Configuration.Mapping = [] →
        ∀ mapped ∈ out.Values, mapped = modelFeature.Configuration.MappingDefaultValue) := by
  refine ⟨_, rfl, rfl, ?_, ?_, ?_⟩
  · simp [applyMappingsLoop_eq]
  · intro i value hvalue
    constructor
    · intro mappedValue hmapped
      simp [applyMappingsLoop_eq, hvalue, hmapped]
    · intro hnone
      simp [applyMappingsLoop_eq, hvalue, hnone]
  · intro hempty mapped hmapped
    simp only [applyMappingsLoop_eq, List.nil_append, List.mem_map] at hmapped
    obtain ⟨value, _, rfl⟩ := hmapped
    simp [hempty, GoMap.get?]

theorem applyMappingsTransformer_maps_each_value_witness :
    ∃ out, ApplyMappingsTransformer sampleMappedFeature = .ok out ∧
      out.Configuration = sampleMappedFeature.Configuration ∧
      out.Values.length = sampleMappedFeature.Values.length ∧
      (∀ (i : Nat) (value : String), sampleMappedFeature.Values[i]? = some value →
        (∀ mappedValue, sampleMappedFeature.Configuration.Mapping.get? value = some mappedValue →
          out.Values[i]? = some mappedValue) ∧
        (sampleMappedFeature.Configuration.Mapping.get? value = none →
          out.Values[i]? = some sampleMappedFeature.Configuration.MappingDefaultValue)) ∧
      (sampleMappedFeature.Configuration.Mapping = [] →
        ∀ mapped ∈ out.Values, mapped = sampleMappedFeature.Configuration.MappingDefaultValue) :=
  applyMappingsTransformer_maps_each_value sampleMappedFeature

/-! ### Reading the snapshot -/

/-- C16: for every snapshot and experiment name `e`, `GetTreatmentCodeInInt(e)` is 0
if and only if the arrangement maps `e` to exactly "T", and is 1 otherwise (another
code, or `e` absent); `GetTreatmentCode(e)` is the arranged code, or the empty string
when `e` is absent. -/
theorem snapshot_treatment_code_of_arrangement (t : TrafficAllocationContext) (e : String) :
    (t.GetTreatmentCodeInInt e = 0 ↔ t.experimentArrangement.get? e = some "T") ∧
    (t.experimentArrangement.get? e ≠ some "T" → t.GetTreatmentCodeInInt e = 1) ∧
    (∀ code, t.experimentArrangement.get? e = some code → t.GetTreatmentCode e = code) ∧
    (t.experimentArrangement.get? e = none → t.GetTreatmentCode e = "") := by
  unfold TrafficAllocationContext.GetTreatmentCodeInInt TrafficAllocationContext.GetTreatmentCode
    TreatmentGroupT
  cases h : t.experimentArrangement.get? e with
  | none => simp
  | some code =>
    by_cases hcode : code = "T"
    · subst hcode
      simp
    · simp [hcode]

theorem snapshot_treatment_code_of_arrangement_witness :
    ((sampleSnapshot "T").GetTreatmentCodeInInt "E" = 0
        ↔ (sampleSnapshot "T").experimentArrangement.get? "E" = some "T") ∧
    ((sampleSnapshot "T").experimentArrangement.get? "E" ≠ some "T"
        → (sampleSnapshot "T").GetTreatmentCodeInInt "E" = 1) ∧
    (∀ code, (sampleSnapshot "T").experimentArrangement.get? "E" = some code
        → (sampleSnapshot "T").GetTreatmentCode "E" = code) ∧
    ((sampleSnapshot "T").experimentArrangement.get? "E" = none
        → (sampleSnapshot "T").GetTreatmentCode "E" = "") :=
  snapshot_treatment_code_of_arrangement (sampleSnapshot "T") "E"

/-! ### Building the snapshot -/

theorem GoMap.get?_of_mem {κ ν : Type} [DecidableEq κ] (m : GoMap κ ν) (k : κ) (v : ν)
    (hkeys : m.keys.Nodup) (h : (k, v) ∈ m) : m.get? k = some v := by
  induction m with
  | nil => simp at h
  | cons e rest ih =>
    obtain ⟨k0, v0⟩ := e
    simp only [GoMap.keys, List.map_cons, List.nodup_cons, List.mem_map, not_exists,
      not_and] at hkeys
    simp only [GoMap.get?]
    rcases List.mem_cons.1 h with h0 | hrest
    · cases h0
      simp
    · have hne : ¬ k0 = k := by
        intro hk
        exact hkeys.1 (k, v) hrest hk.symm
      simp only [hne, if_false]
      exact ih hkeys.2 hrest

theorem GoMap.get?_isSome_iff_mem_keys {κ ν : Type} [DecidableEq κ] (m : GoMap κ ν) (k : κ) :
    (m.get? k).isSome ↔ k ∈ m.keys := by
  induction m with
  | nil => simp [GoMap.get?, GoMap.keys]
  | cons e rest ih =>
    obtain ⟨k0, v0⟩ := e
    simp only [GoMap.get?, GoMap.keys, List.map_cons, List.mem_cons]
    by_cases h0 : k0 = k
    · simp [h0]
    · have : ¬ k = k0 := fun h => h0 h.symm
      simp only [h0, if_false, this, false_or]
      exact ih

theorem totalWeightFold_eq (treatments : List Treatment) (totalWeight : Nat)
    (h : totalWeight < uint32Size) :
    treatments.foldl (fun totalWeight t => (totalWeight + t.Weight) % uint32Size) totalWeight
    = (totalWeight + (treatments.map (fun t => t.Weight)).sum) % uint32Size := by
  induction treatments generalizing totalWeight with
  | nil => simp [Nat.mod_eq_of_lt h]
  | cons t rest ih =>
    simp only [List.foldl_cons, List.map_cons, List.sum_cons]
    rw [ih _ (Nat.mod_lt _ (by decide)), Nat.mod_add_mod, Nat.add_assoc]

/-- The total the code compares with 100 is the sum of the weights modulo 2^32. -/
theorem totalWeightLoop_eq (treatments : List Treatment) :
    totalWeightLoop treatments = (treatments.map (fun t => t.Weight)).sum % uint32Size := by
  unfold totalWeightLoop
  rw [totalWeightFold_eq _ 0 (by decide), Nat.zero_add]

theorem thresholdsLoop_length (treatments : List Treatment) (cumulativeWeight : Nat) :
    (thresholdsLoop cumulativeWeight treatments).length = treatments.length := by
  induction treatments generalizing cumulativeWeight with
  | nil => rfl
  | cons t rest ih => simp [thresholdsLoop, ih]

/-- Without wraparound the i-th threshold is the sum of the weights 0..i. -/
theorem thresholdsLoop_getElem? (treatments : List Treatment) (cumulativeWeight : Nat)
    (h : cumulativeWeight + (treatments.map (fun t => t.Weight)).sum < uint32Size)
    (i : Nat) (hi : i < treatments.length) :
    (thresholdsLoop cumulativeWeight treatments)[i]?
    = some (cumulativeWeight + ((treatments.take (i + 1)).map (fun t => t.Weight)).sum) := by
  induction treatments generalizing cumulativeWeight i with
  | nil => simp at hi
  | cons t rest ih =>
    simp only [List.map_cons, List.sum_cons] at h
    have hlt : cumulativeWeight + t.Weight < uint32Size := by omega
    simp only [thresholdsLoop, Nat.mod_eq_of_lt hlt]
    cases i with
    | zero => simp
    | succ i =>
      simp only [List.length_cons] at hi
      simp only [List.getElem?_cons_succ, List.take_succ_cons, List.map_cons, List.sum_cons]
      rw [ih (cumulativeWeight + t.Weight) (by omega) i (by omega)]
      simp [Nat.add_assoc]

theorem thresholdsLoop_ge (treatments : List Treatment) (cumulativeWeight : Nat)
    (h : cumulativeWeight + (treatments.map (fun t => t.Weight)).sum < uint32Size) :
    ∀ threshold ∈ thresholdsLoop cumulativeWeight treatments, cumulativeWeight ≤ threshold := by
  induction treatments generalizing cumulativeWeight with
  | nil => simp [thresholdsLoop]
  | cons t rest ih =>
    simp only [List.map_cons, List.sum_cons] at h
    have hlt : cumulativeWeight + t.Weight < uint32Size := by omega
    simp only [thresholdsLoop, Nat.mod_eq_of_lt hlt, List.mem_cons]
    rintro threshold (rfl | hrest)
    · omega
    · have := ih (cumulativeWeight + t.Weight) (by omega) threshold hrest
      omega

theorem thresholdsLoop_pairwise (treatments : List Treatment) (cumulativeWeight : Nat)
    (h : cumulativeWeight + (treatments.map (fun t => t.Weight)).sum < uint32Size) :
    List.Pairwise (fun a b => a ≤ b) (thresholdsLoop cumulativeWeight treatments) := by
  induction treatments generalizing cumulativeWeight with
  | nil => simp [thresholdsLoop]
  | cons t rest ih =>
    simp only [List.map_cons, List.sum_cons] at h
    have hlt : cumulativeWeight + t.Weight < uint32Size := by omega
    simp only [thresholdsLoop, Nat.mod_eq_of_lt hlt, List.pairwise_cons]
    exact ⟨thresholdsLoop_ge rest _ (by omega), ih _ (by omega)⟩

theorem thresholdsLoop_getLast? (treatments : List Treatment) (cumulativeWeight : Nat)
    (h : cumulativeWeight + (treatments.map (fun t => t.Weight)).sum < uint32Size)
    (hne : treatments ≠ []) :
    (thresholdsLoop cumulativeWeight treatments).getLast?
    = some (cumulativeWeight + (treatments.map (fun t => t.Weight)).sum) := by
  rw [List.getLast?_eq_getElem?, thresholdsLoop_length,
    thresholdsLoop_getElem? treatments cumulativeWeight h (treatments.length - 1)
      (by cases treatments with
          | nil => exact absurd rfl hne
          | cons t rest => simp)]
  have hlen : treatments.length - 1 + 1 = treatments.length := by
    cases treatments with
    | nil => exact absurd rfl hne
    | cons t rest => simp
  rw [hlen, List.take_length]

theorem GoMap.foldl_set_get?_of_not_mem {ω ν : Type} (g : ω → ν)
    (entries : List (String × ω)) (m : GoMap String ν) (k : String)
    (hk : k ∉ entries.map Prod.fst) :
    (entries.foldl (fun m entry => m.set entry.1 (g entry.2)) m).get? k = m.get? k := by
  induction entries generalizing m with
  | nil => rfl
  | cons entry rest ih =>
    simp only [List.map_cons, List.mem_cons, not_or] at hk
    simp only [List.foldl_cons]
    rw [ih _ hk.2, GoMap.get?_set]
    have : ¬ entry.1 = k := fun h => hk.1 h.symm
    simp [this]

theorem GoMap.foldl_set_get?_of_mem {ω ν : Type} (g : ω → ν)
    (entries : List (String × ω)) (m : GoMap String ν) (k : String) (w : ω)
    (hkeys : (entries.map Prod.fst).Nodup) (hmem : (k, w) ∈ entries) :
    (entries.foldl (fun m entry => m.set entry.1 (g entry.2)) m).get? k = some (g w) := by
  induction entries generalizing m with
  | nil => simp at hmem
  | cons entry rest ih =>
    simp only [List.map_cons, List.nodup_cons] at hkeys
    simp only [List.foldl_cons]
    rcases List.mem_cons.1 hmem with h0 | hrest
    · subst h0
      rw [GoMap.foldl_set_get?_of_not_mem g rest _ k hkeys.1, GoMap.get?_set]
      simp
    · exact ih _ hkeys.2 hrest

theorem GoMap.foldl_set_mem_keys {ω ν : Type} (g : ω → ν)
    (entries : List (String × ω)) (m : GoMap String ν) (k : String) :
    k ∈ (entries.foldl (fun m entry => m.set entry.1 (g entry.2)) m).keys
      ↔ k ∈ m.keys ∨ k ∈ entries.map Prod.fst := by
  induction entries generalizing m with
  | nil => simp
  | cons entry rest ih =>
    simp only [List.foldl_cons, List.map_cons, List.mem_cons]
    rw [ih, GoMap.mem_keys_set]
    tauto

/-- When every wrapped total is 100 the loop runs to its end and sets one threshold
vector per experiment. -/
theorem updateConfigurationLoop_accepts (entries : List (String × ExperimentDefinition))
    (experimentThresholds : GoMap String (List Nat))
    (h : ∀ entry ∈ entries, totalWeightLoop entry.2.Treatments = 100) :
    updateConfigurationLoop experimentThresholds entries
    = (entries.foldl
        (fun m entry => m.set entry.1 (thresholdsLoop 0 entry.2.Treatments))
        experimentThresholds, none) := by
  induction entries generalizing experimentThresholds with
  | nil => rfl
  | cons entry rest ih =>
    obtain ⟨experimentName, experimentDefinition⟩ := entry
    have h0 : totalWeightLoop experimentDefinition.Treatments = 100 :=
      h (experimentName, experimentDefinition) (List.mem_cons_self _ _)
    simp only [updateConfigurationLoop, h0, ne_eq, not_true_eq_false, if_false,
      List.foldl_cons]
    exact ih _ (fun entry hentry => h entry (List.mem_cons_of_mem _ hentry))

/-- When some wrapped total is not 100 the loop returns the error that names the
first such total. -/
theorem updateConfigurationLoop_rejects (entries : List (String × ExperimentDefinition))
    (experimentThresholds : GoMap String (List Nat))
    (h : ∃ entry ∈ entries, totalWeightLoop entry.2.Treatments ≠ 100) :
    ∃ totalWeight : Nat, totalWeight ≠ 100 ∧
      (updateConfigurationLoop experimentThresholds entries).2
        = some ("total weight must be 100, got " ++ toString totalWeight) := by
  induction entries generalizing experimentThresholds with
  | nil =>
    obtain ⟨entry, hentry, _⟩ := h
    simp at hentry
  | cons entry rest ih =>
    obtain ⟨experimentName, experimentDefinition⟩ := entry
    by_cases h0 : totalWeightLoop experimentDefinition.Treatments = 100
    · simp only [updateConfigurationLoop, h0, ne_eq, not_true_eq_false, if_false]
      apply ih
      obtain ⟨entry, hentry, hne⟩ := h
      rcases List.mem_cons.1 hentry with hhead | hrest
      · subst hhead
        exact absurd h0 hne
      · exact ⟨entry, hrest, hne⟩
    · exact ⟨totalWeightLoop experimentDefinition.Treatments, h0, by
        simp [updateConfigurationLoop, h0]⟩

/-- `UpdateConfiguration` returns an error exactly when some experiment has weights
whose sum modulo 2^32 is not 100; the error names that total. -/
theorem updateConfiguration_error_iff_wrapped_total (t : TrafficAllocator)
    (cfg : ExperimentConfiguration) :
    ((t.UpdateConfiguration cfg).2 ≠ none
      ↔ ∃ entry ∈ cfg.ExperimentDefinitionByName,
          (entry.2.Treatments.map (fun t => t.Weight)).sum % uint32Size ≠ 100) ∧
    (∀ err, (t.UpdateConfiguration cfg).2 = some err →
      ∃ totalWeight : Nat, totalWeight ≠ 100 ∧
        err = "total weight must be 100, got " ++ toString totalWeight) := by
  by_cases h : ∃ entry ∈ cfg.ExperimentDefinitionByName,
      totalWeightLoop entry.2.Treatments ≠ 100
  · obtain ⟨totalWeight, hne, herr⟩ := updateConfigurationLoop_rejects _ [] h
    refine ⟨?_, ?_⟩
    · simp only [TrafficAllocator.UpdateConfiguration, herr, ne_eq, reduceCtorEq,
        not_false_eq_true, true_iff]
      simpa only [totalWeightLoop_eq] using h
    · intro err herr1
      simp only [TrafficAllocator.UpdateConfiguration, herr, Option.some.injEq] at herr1
      exact ⟨totalWeight, hne, herr1.symm⟩
  · have hall : ∀ entry ∈ cfg.ExperimentDefinitionByName,
        totalWeightLoop entry.2.Treatments = 100 := by
      intro entry hentry
      by_contra hne
      exact h ⟨entry, hentry, hne⟩
    have hok := updateConfigurationLoop_accepts _ [] hall
    refine ⟨?_, ?_⟩
    · simp only [TrafficAllocator.UpdateConfiguration, hok, ne_eq, not_true_eq_false,
        false_iff]
      simpa only [totalWeightLoop_eq] using h
    · intro err herr1
      simp [TrafficAllocator.UpdateConfiguration, hok] at herr1

/-- Whatever it returns, `UpdateConfiguration` leaves the configuration it was
given in the allocator, and the seed as it was. -/
theorem updateConfiguration_stores_argument (t : TrafficAllocator)
    (cfg : ExperimentConfiguration) :
    (t.UpdateConfiguration cfg).1.experimentConfiguration = some cfg ∧
    (t.UpdateConfiguration cfg).1.seed = t.seed :=
  ⟨rfl, rfl⟩

/-- C13: when every experiment of `cfg` has weights that sum to 100 (a map holds
each experiment name once), `UpdateConfiguration(cfg)` returns no error, the
allocator stores `cfg`, the keys of its threshold map are exactly the experiment
names of `cfg`, and the vector of experiment `e` has at index `i` the sum of the
weights of treatments 0..i; the vector has the length of the treatments list, is
non-decreasing and ends in 100. -/
theorem updateConfiguration_stores_cumulative_thresholds (t : TrafficAllocator)
    (cfg : ExperimentConfiguration)
    (hkeys : cfg.ExperimentDefinitionByName.keys.Nodup)
    (hsum : ∀ entry ∈ cfg.ExperimentDefinitionByName,
      (entry.2.Treatments.map (fun t => t.Weight)).sum = 100) :
    (t.UpdateConfiguration cfg).2 = none ∧
    (t.UpdateConfiguration cfg).1.experimentConfiguration = some cfg ∧
    (∀ e : String, e ∈ (t.UpdateConfiguration cfg).1.experimentThresholds.keys
      ↔ e ∈ cfg.ExperimentDefinitionByName.keys) ∧
    (∀ (e : String) (definition : ExperimentDefinition),
      cfg.ExperimentDefinitionByName.get? e = some definition →
      ∃ thresholds : List Nat,
        (t.UpdateConfiguration cfg).1.experimentThresholds.get? e = some thresholds ∧
        thresholds.length = definition.Treatments.length ∧
        (∀ i : Nat, i < definition.Treatments.length →
          thresholds[i]?
            = some (((definition.Treatments.take (i + 1)).map (fun t => t.Weight)).sum)) ∧
        List.Pairwise (fun a b => a ≤ b) thresholds ∧
        thresholds.getLast? = some 100) := by
  have hall : ∀ entry ∈ cfg.ExperimentDefinitionByName,
      totalWeightLoop entry.2.Treatments = 100 := by
    intro entry hentry
    rw [totalWeightLoop_eq, hsum entry hentry]
    decide
  have hok := updateConfigurationLoop_accepts _ [] hall
  refine ⟨?_, rfl, ?_, ?_⟩
  · simp [TrafficAllocator.UpdateConfiguration, hok]
  · intro e
    simp only [TrafficAllocator.UpdateConfiguration, hok]
    have hiff := GoMap.foldl_set_mem_keys
      (fun definition : ExperimentDefinition => thresholdsLoop 0 definition.Treatments)
      cfg.ExperimentDefinitionByName [] e
    simpa [GoMap.keys] using hiff
  · intro e definition hget
    have hmem := GoMap.mem_of_get? _ _ _ hget
    have hdef := hsum (e, definition) hmem
    simp only at hdef
    have hlt : 0 + (definition.Treatments.map (fun t => t.Weight)).sum < uint32Size := by
      rw [hdef]
      decide
    have hne : definition.Treatments ≠ [] := by
      intro hnil
      rw [hnil] at hdef
      simp at hdef
    refine ⟨thresholdsLoop 0 definition.Treatments, ?_, thresholdsLoop_length _ _, ?_,
      thresholdsLoop_pairwise _ _ hlt, ?_⟩
    · simp only [TrafficAllocator.UpdateConfiguration, hok]
      exact GoMap.foldl_set_get?_of_mem
        (fun definition : ExperimentDefinition => thresholdsLoop 0 definition.Treatments)
        _ [] e definition hkeys hmem
    · intro i hi
      rw [thresholdsLoop_getElem? _ _ hlt i hi, Nat.zero_add]
    · rw [thresholdsLoop_getLast? _ _ hlt hne, Nat.zero_add, hdef]

theorem updateConfiguration_stores_cumulative_thresholds_witness :
    (freshAllocator.UpdateConfiguration sampleExperimentConfiguration).2 = none ∧
    (freshAllocator.UpdateConfiguration sampleExperimentConfiguration).1.experimentConfiguration
      = some sampleExperimentConfiguration ∧
    (∀ e : String,
      e ∈ (freshAllocator.UpdateConfiguration
            sampleExperimentConfiguration).1.experimentThresholds.keys
      ↔ e ∈ sampleExperimentConfiguration.ExperimentDefinitionByName.keys) ∧
    (∀ (e : String) (definition : ExperimentDefinition),
      sampleExperimentConfiguration.ExperimentDefinitionByName.get? e = some definition →
      ∃ thresholds : List Nat,
        (freshAllocator.UpdateConfiguration
            sampleExperimentConfiguration).1.experimentThresholds.get? e = some thresholds ∧
        thresholds.length = definition.Treatments.length ∧
        (∀ i : Nat, i < definition.Treatments.length →
          thresholds[i]?
            = some (((definition.Treatments.take (i + 1)).map (fun t => t.Weight)).sum)) ∧
        List.Pairwise (fun a b => a ≤ b) thresholds ∧
        thresholds.getLast? = some 100) :=
  updateConfiguration_stores_cumulative_thresholds freshAllocator sampleExperimentConfiguration
    (by decide) (by decide)

/-- C11 (the code at the failing input): the only experiment has the weights
4294967295 and 101, whose sum 4294967396 is not 100. The `uint32` total wraps to
100, so `UpdateConfiguration` returns no error and stores the thresholds
4294967295 and 100. -/
theorem updateConfiguration_accepts_wrapped_total :
    (∃ entry ∈ wrappedWeightConfiguration.ExperimentDefinitionByName,
      (entry.2.Treatments.map (fun t => t.Weight)).sum ≠ 100) ∧
    (freshAllocator.UpdateConfiguration wrappedWeightConfiguration).2 = none ∧
    (freshAllocator.UpdateConfiguration wrappedWeightConfiguration).1.experimentThresholds
      = [("exp1", [4294967295, 100])] := by
  decide

/-- C12 (the code at the failing input): an allocator that holds
`sampleExperimentConfiguration` and its thresholds is given a configuration with
weights 60 and 60. The call returns the error, and afterwards the allocator holds
the rejected configuration and an empty threshold map; the next snapshot is built
from the rejected configuration and arranges no experiment. -/
theorem updateConfiguration_rejected_replaces_state :
    configuredAllocator.experimentConfiguration = some sampleExperimentConfiguration ∧
    configuredAllocator.experimentThresholds
      = [("exp1", [30, 80, 100]), ("exp2", [100])] ∧
    (configuredAllocator.UpdateConfiguration invalidWeightConfiguration).2
      = some "total weight must be 100, got 120" ∧
    (configuredAllocator.UpdateConfiguration invalidWeightConfiguration).1.experimentConfiguration
      = some invalidWeightConfiguration ∧
    (configuredAllocator.UpdateConfiguration invalidWeightConfiguration).1.experimentThresholds
      = [] ∧
    (configuredAllocator.UpdateConfiguration
        invalidWeightConfiguration).1.GetTrafficAllocationContext.2
      = .ok (NewTrafficAllocationContext [] invalidWeightConfiguration) := by
  decide

/-! ### Drawing a treatment -/

/-- Once the fuel reaches `j - i` the search no longer depends on it: the loop
`for i < j` ends before the fuel does. -/
theorem searchLoop_fuel (thresholds : List Nat) (r : Nat) :
    ∀ fuel1 fuel2 i j : Nat, j - i ≤ fuel1 → j - i ≤ fuel2 →
      TrafficAllocator.searchLoop thresholds r fuel1 i j
        = TrafficAllocator.searchLoop thresholds r fuel2 i j := by
  have hzero : ∀ fuel i j : Nat, j - i ≤ 0 →
      TrafficAllocator.searchLoop thresholds r fuel i j = .ok i := by
    intro fuel i j h
    have hij : ¬ i < j := by omega
    cases fuel with
    | zero => rfl
    | succ fuel => simp only [TrafficAllocator.searchLoop, hij, if_false]
  intro fuel1
  induction fuel1 with
  | zero =>
    intro fuel2 i j h1 _
    rw [hzero 0 i j h1, hzero fuel2 i j h1]
  | succ fuel1 ih =>
    intro fuel2 i j h1 h2
    cases fuel2 with
    | zero => rw [hzero (fuel1 + 1) i j h2, hzero 0 i j h2]
    | succ fuel2 =>
      simp only [TrafficAllocator.searchLoop]
      by_cases hij : i < j
      · simp only [hij, if_true]
        cases thresholds.get? (i + (j - i) / 2) with
        | none => rfl
        | some threshold =>
          simp only
          by_cases hr : r ≥ threshold
          · simp only [hr, if_true]
            exact ih fuel2 _ _ (by omega) (by omega)
          · simp only [hr, if_false]
            exact ih fuel2 _ _ (by omega) (by omega)
      · simp only [hij, if_false]

/-- The search stays inside `thresholds` and ends between its bounds. -/
theorem searchLoop_in_range (thresholds : List Nat) (r : Nat) :
    ∀ fuel i j : Nat, j - i ≤ fuel → i ≤ j → (i < j → j < thresholds.length) →
      ∃ k : Nat, TrafficAllocator.searchLoop thresholds r fuel i j = .ok k ∧ i ≤ k ∧ k ≤ j := by
  intro fuel
  induction fuel with
  | zero =>
    intro i j _ hle _
    exact ⟨i, rfl, le_refl i, hle⟩
  | succ fuel ih =>
    intro i j hfuel hle hlen
    simp only [TrafficAllocator.searchLoop]
    by_cases hij : i < j
    · have hjlen := hlen hij
      have hhlen : i + (j - i) / 2 < thresholds.length := by omega
      simp only [hij, if_true, List.get?_eq_getElem?, List.getElem?_eq_getElem hhlen]
      by_cases hr : r ≥ thresholds[i + (j - i) / 2]
      · simp only [hr, if_true]
        obtain ⟨k, hk, hik, hkj⟩ :=
          ih (i + (j - i) / 2 + 1) j (by omega) (by omega) (fun _ => hjlen)
        exact ⟨k, hk, by omega, hkj⟩
      · simp only [hr, if_false]
        obtain ⟨k, hk, hik, hkj⟩ :=
          ih i (i + (j - i) / 2) (by omega) (by omega) (fun _ => hhlen)
        exact ⟨k, hk, hik, by omega⟩
    · exact ⟨i, by simp only [hij, if_false], le_refl i, hle⟩

/-- On a vector split at `L` (at most `r` below it, above `r` from it on) the search
returns `L`. -/
theorem searchLoop_finds (thresholds : List Nat) (r L : Nat)
    (hbelow : ∀ k x : Nat, k < L → thresholds[k]? = some x → x ≤ r)
    (habove : ∀ k x : Nat, L ≤ k → thresholds[k]? = some x → r < x) :
    ∀ fuel i j : Nat, j - i ≤ fuel → i ≤ L → L ≤ j → j < thresholds.length →
      TrafficAllocator.searchLoop thresholds r fuel i j = .ok L := by
  intro fuel
  induction fuel with
  | zero =>
    intro i j hfuel hi hj _
    have hiL : i = L := by omega
    rw [← hiL]
    rfl
  | succ fuel ih =>
    intro i j hfuel hi hj hlen
    simp only [TrafficAllocator.searchLoop]
    by_cases hij : i < j
    · have hhlen : i + (j - i) / 2 < thresholds.length := by omega
      simp only [hij, if_true, List.get?_eq_getElem?, List.getElem?_eq_getElem hhlen]
      by_cases hr : r ≥ thresholds[i + (j - i) / 2]
      · simp only [hr, if_true]
        refine ih _ _ (by omega) ?_ hj hlen
        by_contra hcon
        have := habove (i + (j - i) / 2) _ (by omega) (List.getElem?_eq_getElem hhlen)
        omega
      · simp only [hr, if_false]
        refine ih _ _ (by omega) hi ?_ hhlen
        by_contra hcon
        have := hbelow (i + (j - i) / 2) _ (by omega) (List.getElem?_eq_getElem hhlen)
        omega
    · simp only [hij, if_false]
      congr 1
      omega

/-- A non-decreasing vector whose last element exceeds `r` splits at the least
index whose element exceeds `r`. -/
theorem least_threshold_index (thresholds : List Nat) (r : Nat)
    (hsorted : List.Pairwise (fun a b => a ≤ b) thresholds)
    (hlast : ∃ x : Nat, thresholds.getLast? = some x ∧ r < x) :
    ∃ L : Nat, L < thresholds.length ∧
      (∀ k x : Nat, k < L → thresholds[k]? = some x → x ≤ r) ∧
      (∀ k x : Nat, L ≤ k → thresholds[k]? = some x → r < x) := by
  induction thresholds with
  | nil =>
    obtain ⟨x, hx, _⟩ := hlast
    simp at hx
  | cons a rest ih =>
    rw [List.pairwise_cons] at hsorted
    by_cases ha : r < a
    · refine ⟨0, by simp, fun k x hk => by omega, ?_⟩
      intro k x _ hx
      cases k with
      | zero =>
        simp only [List.getElem?_cons_zero, Option.some.injEq] at hx
        omega
      | succ k =>
        simp only [List.getElem?_cons_succ] at hx
        have := hsorted.1 x (List.mem_iff_getElem?.2 ⟨k, hx⟩)
        omega
    · have hrest : rest ≠ [] := by
        intro hnil
        subst hnil
        obtain ⟨x, hx, hrx⟩ := hlast
        simp only [List.getLast?_singleton, Option.some.injEq] at hx
        omega
      obtain ⟨x, hx, hrx⟩ := hlast
      have hx1 : rest.getLast? = some x := by
        cases rest with
        | nil => exact absurd rfl hrest
        | cons b rest1 => simpa [List.getLast?_cons_cons] using hx
      obtain ⟨L, hL, hbelow, habove⟩ := ih hsorted.2 ⟨x, hx1, hrx⟩
      refine ⟨L + 1, by simpa using hL, ?_, ?_⟩
      · intro k y hk hy
        cases k with
        | zero =>
          simp only [List.getElem?_cons_zero, Option.some.injEq] at hy
          omega
        | succ k =>
          simp only [List.getElem?_cons_succ] at hy
          exact hbelow k y (by omega) hy
      · intro k y hk hy
        cases k with
        | zero => omega
        | succ k =>
          simp only [List.getElem?_cons_succ] at hy
          exact habove k y (by omega) hy

/-- Thresholds that hold the sums of the weights 0..i are the vector
`UpdateConfiguration` computes. -/
theorem thresholds_eq_thresholdsLoop (treatments : List Treatment) (thresholds : List Nat)
    (hsum : (treatments.map (fun t => t.Weight)).sum < uint32Size)
    (hlen : thresholds.length = treatments.length)
    (hcum : ∀ i : Nat, i < treatments.length →
      thresholds[i]? = some (((treatments.take (i + 1)).map (fun t => t.Weight)).sum)) :
    thresholds = thresholdsLoop 0 treatments := by
  apply List.ext_getElem?
  intro i
  by_cases hi : i < treatments.length
  · rw [hcum i hi, thresholdsLoop_getElem? treatments 0 (by omega) i hi, Nat.zero_add]
  · rw [List.getElem?_eq_none (by omega), List.getElem?_eq_none]
    rw [thresholdsLoop_length]
    omega

/-- C14: for every treatments list whose weights sum to 100 (such a list is not
empty), with thresholds that hold at index `i` the sum of the weights 0..i,
`GetTreatmentCode` returns without an error and without reading outside either
slice the code of `treatments[i]`, where `i` is the least index with
`r < thresholds[i]` and `r` is the value of `Rand()` modulo 100. -/
theorem getTreatmentCode_selects_least_threshold (t : TrafficAllocator)
    (treatments : List Treatment) (thresholds : List Nat)
    (hsum : (treatments.map (fun t => t.Weight)).sum = 100)
    (hlen : thresholds.length = treatments.length)
    (hcum : ∀ i : Nat, i < treatments.length →
      thresholds[i]? = some (((treatments.take (i + 1)).map (fun t => t.Weight)).sum)) :
    ∃ (i : Nat) (treatment : Treatment) (threshold : Nat),
      treatments[i]? = some treatment ∧
      thresholds[i]? = some threshold ∧
      t.Rand.1 % 100 < threshold ∧
      (∀ k x : Nat, k < i → thresholds[k]? = some x → x ≤ t.Rand.1 % 100) ∧
      t.GetTreatmentCode thresholds treatments
        = (t.Rand.2, .ok (treatment.TreatmentCode, none)) := by
  have hlt : 0 + (treatments.map (fun t => t.Weight)).sum < uint32Size := by
    rw [hsum]
    decide
  have hne : treatments ≠ [] := by
    intro hnil
    rw [hnil] at hsum
    simp at hsum
  have hthr := thresholds_eq_thresholdsLoop treatments thresholds (by omega) hlen hcum
  have hsorted : List.Pairwise (fun a b => a ≤ b) thresholds := by
    rw [hthr]
    exact thresholdsLoop_pairwise _ _ hlt
  have hlast : thresholds.getLast? = some 100 := by
    rw [hthr, thresholdsLoop_getLast? _ _ hlt hne, Nat.zero_add, hsum]
  have hr : t.Rand.1 % 100 < 100 := Nat.mod_lt _ (by decide)
  obtain ⟨L, hL, hbelow, habove⟩ :=
    least_threshold_index thresholds (t.Rand.1 % 100) hsorted ⟨100, hlast, hr⟩
  have hLt : L < treatments.length := by omega
  refine ⟨L, treatments[L], thresholds[L], List.getElem?_eq_getElem hLt,
    List.getElem?_eq_getElem hL, habove L _ (le_refl L) (List.getElem?_eq_getElem hL),
    hbelow, ?_⟩
  have hsearch := searchLoop_finds thresholds (t.Rand.1 % 100) L hbelow habove
    thresholds.length 0 (thresholds.length - 1) (by omega) (by omega) (by omega) (by omega)
  have hlen0 : ¬ treatments.length = 0 := by omega
  simp only [TrafficAllocator.GetTreatmentCode, hlen0, if_false, hsearch,
    List.get?_eq_getElem?, List.getElem?_eq_getElem hLt]

theorem getTreatmentCode_selects_least_threshold_witness :
    ∃ (i : Nat) (treatment : Treatment) (threshold : Nat),
      [(⟨"T", 30⟩ : Treatment), ⟨"C", 50⟩, ⟨"B", 20⟩][i]? = some treatment ∧
      [30, 80, 100][i]? = some threshold ∧
      freshAllocator.Rand.1 % 100 < threshold ∧
      (∀ k x : Nat, k < i → [30, 80, 100][k]? = some x → x ≤ freshAllocator.Rand.1 % 100) ∧
      freshAllocator.GetTreatmentCode [30, 80, 100] [⟨"T", 30⟩, ⟨"C", 50⟩, ⟨"B", 20⟩]
        = (freshAllocator.Rand.2, .ok (treatment.TreatmentCode, none)) :=
  getTreatmentCode_selects_least_threshold freshAllocator
    [⟨"T", 30⟩, ⟨"C", 50⟩, ⟨"B", 20⟩] [30, 80, 100] (by decide) (by decide) (by decide)

/-! ### Building the arrangement -/

/-- With no treatments `GetTreatmentCode` returns its error and draws nothing. -/
theorem getTreatmentCode_no_treatments (t : TrafficAllocator) (thresholds : List Nat) :
    t.GetTreatmentCode thresholds [] = (t, .ok ("", some "no treatments configured")) := by
  simp [TrafficAllocator.GetTreatmentCode]

/-- With treatments, and thresholds no longer than them, `GetTreatmentCode` returns
the code of one of the treatments. -/
theorem getTreatmentCode_of_short_thresholds (t : TrafficAllocator) (thresholds : List Nat)
    (treatments : List Treatment) (hne : treatments ≠ [])
    (hlen : thresholds.length ≤ treatments.length) :
    ∃ treatment ∈ treatments,
      t.GetTreatmentCode thresholds treatments
        = (t.Rand.2, .ok (treatment.TreatmentCode, none)) := by
  have hpos : 0 < treatments.length := List.length_pos.2 hne
  obtain ⟨k, hk, _, hkj⟩ := searchLoop_in_range thresholds (t.Rand.1 % 100)
    thresholds.length 0 (thresholds.length - 1) (by omega) (by omega) (by omega)
  have hkt : k < treatments.length := by omega
  have hlen0 : ¬ treatments.length = 0 := by omega
  refine ⟨treatments[k], List.getElem_mem _, ?_⟩
  simp only [TrafficAllocator.GetTreatmentCode, hlen0, if_false, hk,
    List.get?_eq_getElem?, List.getElem?_eq_getElem hkt]

theorem rand_keeps_configuration (t : TrafficAllocator) :
    t.Rand.2.experimentConfiguration = t.experimentConfiguration ∧
    t.Rand.2.experimentThresholds = t.experimentThresholds :=
  ⟨rfl, rfl⟩

/-- The loop of `GetTrafficAllocationContext` ends without a panic when no threshold
vector is longer than its treatments list. It leaves the entries of other
experiments as they were, arranges each experiment that has thresholds and
treatments to the code of one of its treatments, and leaves the entry of any other
experiment as it was. -/
theorem arrangementLoop_spec (entries : List (String × ExperimentDefinition)) :
    ∀ (t : TrafficAllocator) (experimentArrangement : GoMap String String),
      (entries.map Prod.fst).Nodup →
      (∀ entry ∈ entries, ∀ thresholds : List Nat,
        t.experimentThresholds.get? entry.1 = some thresholds →
        thresholds.length ≤ entry.2.Treatments.length) →
      ∃ arranged : GoMap String String,
        (TrafficAllocator.arrangementLoop t experimentArrangement entries).2 = .ok arranged ∧
        (∀ e : String, e ∉ entries.map Prod.fst →
          arranged.get? e = experimentArrangement.get? e) ∧
        (∀ entry ∈ entries,
          ((t.experimentThresholds.get? entry.1).isSome ∧ entry.2.Treatments ≠ [] →
            ∃ treatment ∈ entry.2.Treatments,
              arranged.get? entry.1 = some treatment.TreatmentCode) ∧
          (¬ ((t.experimentThresholds.get? entry.1).isSome ∧ entry.2.Treatments ≠ []) →
            arranged.get? entry.1 = experimentArrangement.get? entry.1)) := by
  induction entries with
  | nil =>
    intro t experimentArrangement _ _
    exact ⟨experimentArrangement, rfl, fun _ _ => rfl, by simp⟩
  | cons entry rest ih =>
    intro t experimentArrangement hkeys hlen
    obtain ⟨experimentName, experimentDef⟩ := entry
    simp only [List.map_cons, List.nodup_cons] at hkeys
    have hlenRest : ∀ entry ∈ rest, ∀ thresholds : List Nat,
        t.experimentThresholds.get? entry.1 = some thresholds →
        thresholds.length ≤ entry.2.Treatments.length :=
      fun entry hentry => hlen entry (List.mem_cons_of_mem _ hentry)
    -- what the rest of the loop does, from an allocator with the same thresholds
    have step : ∀ (t1 : TrafficAllocator) (arrangement1 : GoMap String String),
        t1.experimentThresholds = t.experimentThresholds →
        (TrafficAllocator.arrangementLoop t experimentArrangement
            ((experimentName, experimentDef) :: rest)).2
          = (TrafficAllocator.arrangementLoop t1 arrangement1 rest).2 →
        (∀ e : String, ¬ e = experimentName →
          arrangement1.get? e = experimentArrangement.get? e) →
        (((t.experimentThresholds.get? experimentName).isSome ∧ experimentDef.Treatments ≠ [] →
            ∃ treatment ∈ experimentDef.Treatments,
              arrangement1.get? experimentName = some treatment.TreatmentCode) ∧
          (¬ ((t.experimentThresholds.get? experimentName).isSome
                ∧ experimentDef.Treatments ≠ []) →
            arrangement1.get? experimentName = experimentArrangement.get? experimentName)) →
        ∃ arranged : GoMap String String,
          (TrafficAllocator.arrangementLoop t experimentArrangement
              ((experimentName, experimentDef) :: rest)).2 = .ok arranged ∧
          (∀ e : String, e ∉ (experimentName :: rest.map Prod.fst) →
            arranged.get? e = experimentArrangement.get? e) ∧
          (∀ entry ∈ (experimentName, experimentDef) :: rest,
            ((t.experimentThresholds.get? entry.1).isSome ∧ entry.2.Treatments ≠ [] →
              ∃ treatment ∈ entry.2.Treatments,
                arranged.get? entry.1 = some treatment.TreatmentCode) ∧
            (¬ ((t.experimentThresholds.get? entry.1).isSome ∧ entry.2.Treatments ≠ []) →
              arranged.get? entry.1 = experimentArrangement.get? entry.1)) := by
      intro t1 arrangement1 hthr hloop hother hhead
      obtain ⟨arranged, harranged, hout, hin⟩ :=
        ih t1 arrangement1 hkeys.2 (by rw [hthr]; exact hlenRest)
      refine ⟨arranged, by rw [hloop, harranged], ?_, ?_⟩
      · intro e he
        simp only [List.mem_cons, not_or] at he
        rw [hout e he.2, hother e he.1]
      · intro entry hentry
        rcases List.mem_cons.1 hentry with h0 | hrest
        · subst h0
          simp only
          rw [hout experimentName hkeys.1]
          exact hhead
        · have hne : ¬ entry.1 = experimentName := by
            intro heq
            apply hkeys.1
            rw [← heq]
            exact List.mem_map_of_mem Prod.fst hrest
          have := hin entry hrest
          rw [hthr, hother entry.1 hne] at this
          exact this
    cases hget : t.experimentThresholds.get? experimentName with
    | none =>
      refine step t experimentArrangement rfl ?_ (fun _ _ => rfl) ?_
      · simp only [TrafficAllocator.arrangementLoop, hget]
      · simp [hget]
    | some thresholds =>
      by_cases hempty : experimentDef.Treatments = []
      · refine step t experimentArrangement rfl ?_ (fun _ _ => rfl) ?_
        · simp only [TrafficAllocator.arrangementLoop, hget, hempty,
            getTreatmentCode_no_treatments]
        · simp [hempty]
      · obtain ⟨treatment, htreatment, hcode⟩ :=
          getTreatmentCode_of_short_thresholds t thresholds experimentDef.Treatments hempty
            (hlen (experimentName, experimentDef) (List.mem_cons_self _ _) thresholds hget)
        refine step t.Rand.2 (experimentArrangement.set experimentName treatment.TreatmentCode)
          rfl ?_ ?_ ?_
        · simp only [TrafficAllocator.arrangementLoop, hget, hcode]
        · intro e he
          rw [GoMap.get?_set]
          have : ¬ experimentName = e := fun h => he h.symm
          simp [this]
        · refine ⟨fun _ => ⟨treatment, htreatment, ?_⟩, fun hnot => ?_⟩
          · rw [GoMap.get?_set]
            simp
          · exact absurd ⟨by simp [hget], hempty⟩ hnot

/-- C15 (amended): for every allocator that stores a configuration (a map holds
each experiment name once) and in which each threshold vector is no longer than
its experiment's treatments list, `GetTrafficAllocationContext` returns a snapshot
of the stored configuration; its arrangement has an entry for experiment `e`
exactly when `e` is in the stored configuration, has a threshold vector in the
allocator and has a non-empty treatments list, and the value of each entry is the
treatment code of one of the treatments of `e`. -/
theorem getTrafficAllocationContext_arranges_configured_experiments (t : TrafficAllocator)
    (cfg : ExperimentConfiguration)
    (hcfg : t.experimentConfiguration = some cfg)
    (hkeys : cfg.ExperimentDefinitionByName.keys.Nodup)
    (hlen : ∀ (e : String) (definition : ExperimentDefinition) (thresholds : List Nat),
      cfg.ExperimentDefinitionByName.get? e = some definition →
      t.experimentThresholds.get? e = some thresholds →
      thresholds.length ≤ definition.Treatments.length) :
    ∃ snapshot : TrafficAllocationContext,
      t.GetTrafficAllocationContext.2 = .ok snapshot ∧
      snapshot.experimentDefinitionByName = cfg.ExperimentDefinitionByName ∧
      snapshot.modelToExperiment = cfg.ModelToExperiment ∧
      (∀ e : String, (snapshot.experimentArrangement.get? e).isSome
        ↔ ∃ definition : ExperimentDefinition,
            cfg.ExperimentDefinitionByName.get? e = some definition ∧
            (t.experimentThresholds.get? e).isSome ∧ definition.Treatments ≠ []) ∧
      (∀ e code : String, snapshot.experimentArrangement.get? e = some code →
        ∃ (definition : ExperimentDefinition) (treatment : Treatment),
          cfg.ExperimentDefinitionByName.get? e = some definition ∧
          treatment ∈ definition.Treatments ∧ treatment.TreatmentCode = code) := by
  obtain ⟨arranged, harranged, hout, hin⟩ :=
    arrangementLoop_spec cfg.ExperimentDefinitionByName t [] hkeys
      (fun entry hentry thresholds hthr =>
        hlen entry.1 entry.2 thresholds (GoMap.get?_of_mem _ _ _ hkeys hentry) hthr)
  have hentry : ∀ e : String,
      (arranged.get? e = none ∧
        ¬ ∃ definition : ExperimentDefinition,
            cfg.ExperimentDefinitionByName.get? e = some definition ∧
            (t.experimentThresholds.get? e).isSome ∧ definition.Treatments ≠ []) ∨
      (∃ (definition : ExperimentDefinition) (treatment : Treatment),
          cfg.ExperimentDefinitionByName.get? e = some definition ∧
          (t.experimentThresholds.get? e).isSome ∧ definition.Treatments ≠ [] ∧
          treatment ∈ definition.Treatments ∧
          arranged.get? e = some treatment.TreatmentCode) := by
    intro e
    cases hdef : cfg.ExperimentDefinitionByName.get? e with
    | none =>
      left
      refine ⟨?_, by simp⟩
      rw [hout e]
      · rfl
      · intro hmem
        have := (GoMap.get?_isSome_iff_mem_keys cfg.ExperimentDefinitionByName e).2 hmem
        simp [hdef] at this
    | some definition =>
      have hmem := GoMap.mem_of_get? _ _ _ hdef
      have hboth := hin (e, definition) hmem
      simp only at hboth
      by_cases hcond : (t.experimentThresholds.get? e).isSome ∧ definition.Treatments ≠ []
      · right
        obtain ⟨treatment, htreatment, hcode⟩ := hboth.1 hcond
        exact ⟨definition, treatment, rfl, hcond.1, hcond.2, htreatment, hcode⟩
      · left
        refine ⟨?_, ?_⟩
        · rw [hboth.2 hcond]
          rfl
        · rintro ⟨definition1, hdef1, hcond1⟩
          cases hdef1
          exact hcond hcond1
  refine ⟨NewTrafficAllocationContext arranged cfg, ?_, rfl, rfl, ?_, ?_⟩
  · simp only [TrafficAllocator.GetTrafficAllocationContext, hcfg, harranged]
  · intro e
    show (arranged.get? e).isSome ↔ _
    rcases hentry e with ⟨hnone, hnot⟩ | ⟨definition, treatment, hdef, hthr, hne, _, hcode⟩
    · simp only [hnone, Option.isSome_none, Bool.false_eq_true, false_iff]
      exact hnot
    · simp only [hcode, Option.isSome_some, true_iff]
      exact ⟨definition, hdef, hthr, hne⟩
  · intro e code hcode
    have hcode1 : arranged.get? e = some code := hcode
    rcases hentry e with ⟨hnone, _⟩ | ⟨definition, treatment, hdef, _, _, hmem, hcode2⟩
    · rw [hnone] at hcode1
      cases hcode1
    · rw [hcode2] at hcode1
      exact ⟨definition, treatment, hdef, hmem, Option.some.inj hcode1⟩

theorem getTrafficAllocationContext_arranges_configured_experiments_witness :
    ∃ snapshot : TrafficAllocationContext,
      configuredAllocator.GetTrafficAllocationContext.2 = .ok snapshot ∧
      snapshot.experimentDefinitionByName
        = sampleExperimentConfiguration.ExperimentDefinitionByName ∧
      snapshot.modelToExperiment = sampleExperimentConfiguration.ModelToExperiment ∧
      (∀ e : String, (snapshot.experimentArrangement.get? e).isSome
        ↔ ∃ definition : ExperimentDefinition,
            sampleExperimentConfiguration.ExperimentDefinitionByName.get? e = some definition ∧
            (configuredAllocator.experimentThresholds.get? e).isSome ∧
            definition.Treatments ≠ []) ∧
      (∀ e code : String, snapshot.experimentArrangement.get? e = some code →
        ∃ (definition : ExperimentDefinition) (treatment : Treatment),
          sampleExperimentConfiguration.ExperimentDefinitionByName.get? e = some definition ∧
          treatment ∈ definition.Treatments ∧ treatment.TreatmentCode = code) :=
  getTrafficAllocationContext_arranges_configured_experiments configuredAllocator
    sampleExperimentConfiguration (by decide) (by decide)
    (fun e definition thresholds hdef hthr => by
      have hall : ∀ entry ∈ sampleExperimentConfiguration.ExperimentDefinitionByName,
          ((configuredAllocator.experimentThresholds.get? entry.1).getD []).length
            ≤ entry.2.Treatments.length := by decide
      have hentry := hall (e, definition) (GoMap.mem_of_get? _ _ _ hdef)
      simp only [hthr, Option.getD_some] at hentry
      exact hentry)

/-- C15, as stated, fails for an allocator not yet configured: the allocator that
`NewTrafficAllocator` returns stores no configuration and has no threshold vector,
so no vector is longer than a treatments list; `GetTrafficAllocationContext` reads
the experiments of the nil configuration and panics instead of returning a
snapshot. -/
theorem getTrafficAllocationContext_fresh_allocator_panics :
    freshAllocator.experimentConfiguration = none ∧
    freshAllocator.experimentThresholds = [] ∧
    freshAllocator.GetTrafficAllocationContext.2 = .panic := by
  decide

/-- The snapshot the configured sample allocator returns: the first value drawn is
1825784141, so `r` is 41, which lies between the first two thresholds of `exp1`. -/
theorem getTrafficAllocationContext_sample :
    configuredAllocator.seed = 1700000000123456789 ∧
    configuredAllocator.Rand.1 = 1825784141 ∧
    configuredAllocator.GetTrafficAllocationContext.2
      = .ok (NewTrafficAllocationContext [("exp1", "C"), ("exp2", "A")]
          sampleExperimentConfiguration) := by
  decide

/-! ### Pairs of values -/

theorem concatenateLoop_eq (originalValues : List String) (indices : List Nat)
    (transformedValues : List String) :
    indices.foldl
      (fun transformedValues i =>
        let first := originalValues.getD (i * 2) ""
        let second := originalValues.getD (i * 2 + 1) ""
        if first ≠ "" ∧ second ≠ "" then transformedValues ++ [first ++ "x" ++ second]
        else transformedValues)
      transformedValues
    = transformedValues ++ indices.filterMap (fun i =>
        if originalValues.getD (i * 2) "" ≠ "" ∧ originalValues.getD (i * 2 + 1) "" ≠ "" then
          some (originalValues.getD (i * 2) "" ++ "x" ++ originalValues.getD (i * 2 + 1) "")
        else none) := by
  induction indices generalizing transformedValues with
  | nil => simp
  | cons i rest ih =>
    simp only [List.foldl_cons, List.filterMap_cons]
    rw [ih]
    by_cases h : originalValues.getD (i * 2) "" ≠ "" ∧ originalValues.getD (i * 2 + 1) "" ≠ ""
    · simp only [if_pos h, List.append_assoc, List.singleton_append]
    · simp only [if_neg h]

/-- C21: for every value vector `v`, `ConcatenateByPairTransformer` returns, without
an error and with the configuration of its input, the strings `v[2i] + "x" + v[2i+1]`
in the order of `i` from 0 to `len(v)/2 - 1`, for exactly those `i` where `v[2i]` and
`v[2i+1]` are both non-empty (both indices lie inside `v`); the output has at most
`len(v)/2` elements, is empty when every value is empty or there is none, and an
unpaired last element changes nothing. -/
theorem concatenateByPairTransformer_joins_pairs (modelFeature : ModelFeature)
    (last : String) :
    ∃ out, ConcatenateByPairTransformer modelFeature = .ok out ∧
      out.Configuration = modelFeature.Configuration ∧
      out.Values = (List.range (modelFeature.Values.length / 2)).filterMap (fun i =>
        if modelFeature.Values.getD (i * 2) "" ≠ "" ∧
            modelFeature.Values.getD (i * 2 + 1) "" ≠ "" then
          some (modelFeature.Values.getD (i * 2) "" ++ "x" ++
            modelFeature.Values.getD (i * 2 + 1) "")
        else none) ∧
      (∀ i : Nat, i < modelFeature.Values.length / 2 →
        i * 2 + 1 < modelFeature.Values.length) ∧
      out.Values.length ≤ modelFeature.Values.length / 2 ∧
      ((∀ value ∈ modelFeature.Values, value = "") → out.Values = []) ∧
      (modelFeature.Values.length % 2 = 0 →
        ConcatenateByPairTransformer
          { Configuration := modelFeature.Configuration,
            Values := modelFeature.Values ++ [last] } = .ok out) := by
  refine ⟨_, rfl, rfl, ?_, ?_, ?_, ?_, ?_⟩
  · simp only [concatenateLoop_eq, List.nil_append]
  · intro i hi
    omega
  · simp only [concatenateLoop_eq, List.nil_append]
    exact le_trans (List.length_filterMap_le _ _) (by simp)
  · intro hall
    simp only [concatenateLoop_eq, List.nil_append]
    rw [List.filterMap_eq_nil_iff]
    intro i _
    have hfirst : modelFeature.Values.getD (i * 2) "" = "" := by
      rw [List.getD_eq_getElem?_getD]
      cases hget : modelFeature.Values[i * 2]? with
      | none => rfl
      | some value => exact hall value (List.mem_iff_getElem?.2 ⟨_, hget⟩)
    rw [hfirst]
    simp
  · intro heven
    simp only [ConcatenateByPairTransformer, concatenateLoop_eq, List.nil_append,
      List.length_append, List.length_singleton]
    have hhalf : (modelFeature.Values.length + 1) / 2 = modelFeature.Values.length / 2 := by
      omega
    rw [hhalf]
    congr 2
    apply List.filterMap_congr
    intro i hi
    have hi1 : i < modelFeature.Values.length / 2 := List.mem_range.1 hi
    have h0 : (modelFeature.Values ++ [last]).getD (i * 2) ""
        = modelFeature.Values.getD (i * 2) "" :=
      List.getD_append _ _ _ _ (by omega)
    have h1 : (modelFeature.Values ++ [last]).getD (i * 2 + 1) ""
        = modelFeature.Values.getD (i * 2 + 1) "" :=
      List.getD_append _ _ _ _ (by omega)
    rw [h0, h1]

theorem concatenateByPairTransformer_joins_pairs_witness :
    ∃ out,
      ConcatenateByPairTransformer
        { Configuration := sampleMappedFeature.Configuration,
          Values := ["a", "1", "", "2", "c", "3"] } = .ok out ∧
      out.Values = ["ax1", "cx3"] :=
  (concatenateByPairTransformer_joins_pairs
    { Configuration := sampleMappedFeature.Configuration,
      Values := ["a", "1", "", "2", "c", "3"] } "odd").imp
    (fun _ h => ⟨h.1, by rw [h.2.2.1]; decide⟩)

/-! ### Errors of the rule-based evaluator -/

theorem getFieldsValues_error_of_missing (t : RuleBasedModelEvaluator) (fields : List String)
    (valueMap : GoMap String String) (fieldsValues : List String)
    (h : ∃ field ∈ fields, valueMap.get? field = none) :
    ∃ err, t.getFieldsValues fields valueMap fieldsValues = .error err := by
  induction fields generalizing fieldsValues with
  | nil =>
    obtain ⟨field, hfield, _⟩ := h
    simp at hfield
  | cons field rest ih =>
    cases hget : valueMap.get? field with
    | none =>
      simp only [RuleBasedModelEvaluator.getFieldsValues, hget]
      exact ⟨_, rfl⟩
    | some fieldValue =>
      simp only [RuleBasedModelEvaluator.getFieldsValues, hget]
      apply ih
      obtain ⟨field1, hfield1, hnone⟩ := h
      rcases List.mem_cons.1 hfield1 with hhead | hrest
      · subst hhead
        rw [hget] at hnone
        cases hnone
      · exact ⟨field1, hrest, hnone⟩

theorem getFieldsValues_ok_of_present (t : RuleBasedModelEvaluator) (fields : List String)
    (valueMap : GoMap String String) (fieldsValues : List String)
    (h : ∀ field ∈ fields, valueMap.get? field ≠ none) :
    ∃ values, t.getFieldsValues fields valueMap fieldsValues = .ok values := by
  induction fields generalizing fieldsValues with
  | nil => exact ⟨fieldsValues, rfl⟩
  | cons field rest ih =>
    cases hget : valueMap.get? field with
    | none => exact absurd hget (h field (List.mem_cons_self _ _))
    | some fieldValue =>
      simp only [RuleBasedModelEvaluator.getFieldsValues, hget]
      exact ih _ (fun field1 hfield1 => h field1 (List.mem_cons_of_mem _ hfield1))

/-- The registered transformer names are the four of `TransformerMap`. -/
theorem transformerMap_get?_eq_none_iff (name : String) :
    TransformerMap.get? name = none
      ↔ name ∉ ["Exists", "GetFirstNotEmpty", "ApplyMappings", "ConcatenateByPair"] := by
  simp only [TransformerMap, GoMap.get?, List.mem_cons, List.mem_singleton, List.mem_nil_iff,
    or_false, not_or]
  by_cases h1 : "Exists" = name
  · simp [h1.symm]
  · by_cases h2 : "GetFirstNotEmpty" = name
    · simp [h2.symm]
    · by_cases h3 : "ApplyMappings" = name
      · simp [h3.symm]
      · by_cases h4 : "ConcatenateByPair" = name
        · simp [h4.symm]
        · simp only [h1, h2, h3, h4, if_false, true_iff]
          exact ⟨fun h => h1 h.symm, fun h => h2 h.symm, fun h => h3 h.symm,
            fun h => h4 h.symm⟩

/-- None of the four registered transformers returns an error. -/
theorem transformerMap_never_fails (name : String) (transformer : Transformer)
    (h : TransformerMap.get? name = some transformer) (feature : ModelFeature) :
    ∃ out, transformer feature = .ok out := by
  simp only [TransformerMap, GoMap.get?] at h
  split_ifs at h
  all_goals (cases h; exact ⟨_, rfl⟩)

theorem resolveTransformers_error_of_unknown (names : List String)
    (transformers : List Transformer)
    (h : ∃ name ∈ names, TransformerMap.get? name = none) :
    ∃ err, resolveTransformers names transformers = .error err := by
  induction names generalizing transformers with
  | nil =>
    obtain ⟨name, hname, _⟩ := h
    simp at hname
  | cons name rest ih =>
    cases hget : TransformerMap.get? name with
    | none =>
      simp only [resolveTransformers, hget]
      exact ⟨_, rfl⟩
    | some transformer =>
      simp only [resolveTransformers, hget]
      apply ih
      obtain ⟨name1, hname1, hnone⟩ := h
      rcases List.mem_cons.1 hname1 with hhead | hrest
      · subst hhead
        rw [hget] at hnone
        cases hnone
      · exact ⟨name1, hrest, hnone⟩

theorem resolveTransformers_ok_of_known (names : List String)
    (transformers : List Transformer)
    (h : ∀ name ∈ names, TransformerMap.get? name ≠ none)
    (hacc : ∀ transformer ∈ transformers, ∀ feature, ∃ out, transformer feature = .ok out) :
    ∃ resolved, resolveTransformers names transformers = .ok resolved ∧
      ∀ transformer ∈ resolved, ∀ feature, ∃ out, transformer feature = .ok out := by
  induction names generalizing transformers with
  | nil => exact ⟨transformers, rfl, hacc⟩
  | cons name rest ih =>
    cases hget : TransformerMap.get? name with
    | none => exact absurd hget (h name (List.mem_cons_self _ _))
    | some transformer =>
      simp only [resolveTransformers, hget]
      refine ih _ (fun name1 hname1 => h name1 (List.mem_cons_of_mem _ hname1)) ?_
      intro transformer1 hmem feature
      rcases List.mem_append.1 hmem with hold | hnew
      · exact hacc transformer1 hold feature
      · simp only [List.mem_singleton] at hnew
        subst hnew
        exact transformerMap_never_fails name _ hget feature

theorem runTransformers_ok (transformers : List Transformer) (feature : ModelFeature)
    (h : ∀ transformer ∈ transformers, ∀ feature, ∃ out, transformer feature = .ok out) :
    ∃ out, runTransformers transformers feature = .ok out := by
  induction transformers generalizing feature with
  | nil => exact ⟨feature, rfl⟩
  | cons transformer rest ih =>
    obtain ⟨next, hnext⟩ := h transformer (List.mem_cons_self _ _) feature
    simp only [runTransformers, hnext]
    exact ih next (fun transformer1 hmem => h transformer1 (List.mem_cons_of_mem _ hmem))

/-- `Transform` fails exactly when the feature names a transformer that is not
registered, at whatever position of its list. -/
theorem transform_error_iff (feature : ModelFeature) :
    (∃ err, Transform feature = .error err)
      ↔ ∃ name ∈ feature.Configuration.Transformations, TransformerMap.get? name = none := by
  constructor
  · rintro ⟨err, herr⟩
    by_contra hnone
    have hknown : ∀ name ∈ feature.Configuration.Transformations,
        TransformerMap.get? name ≠ none := by
      intro name hname hget
      exact hnone ⟨name, hname, hget⟩
    obtain ⟨resolved, hresolved, htotal⟩ :=
      resolveTransformers_ok_of_known _ [] hknown (by simp)
    obtain ⟨out, hout⟩ := runTransformers_ok resolved feature htotal
    simp only [Transform, hresolved, hout] at herr
    cases herr
  · intro h
    obtain ⟨err, herr⟩ := resolveTransformers_error_of_unknown _ [] h
    exact ⟨err, by simp only [Transform, herr]⟩

/-- The loop of `getFeatures` fails exactly when one of the features names a field
that the map does not hold or a transformer that is not registered. -/
theorem getFeaturesLoop_error_iff (t : RuleBasedModelEvaluator)
    (featureFieldValueMap : GoMap String String)
    (featureConfigurations : List FeatureConfiguration) (features : List ModelFeature) :
    (∃ err, RuleBasedModelEvaluator.getFeaturesLoop t featureFieldValueMap
        featureConfigurations features = .error err)
      ↔ ∃ featureConfiguration ∈ featureConfigurations,
          (∃ field ∈ featureConfiguration.Fields, featureFieldValueMap.get? field = none) ∨
          (∃ name ∈ featureConfiguration.Transformations, TransformerMap.get? name = none) := by
  induction featureConfigurations generalizing features with
  | nil =>
    simp [RuleBasedModelEvaluator.getFeaturesLoop]
  | cons featureConfiguration rest ih =>
    by_cases hfield : ∃ field ∈ featureConfiguration.Fields,
        featureFieldValueMap.get? field = none
    · obtain ⟨err, herr⟩ := getFieldsValues_error_of_missing t _ featureFieldValueMap [] hfield
      constructor
      · intro _
        exact ⟨featureConfiguration, List.mem_cons_self _ _, Or.inl hfield⟩
      · intro _
        simp only [RuleBasedModelEvaluator.getFeaturesLoop, herr]
        exact ⟨_, rfl⟩
    · have hpresent : ∀ field ∈ featureConfiguration.Fields,
          featureFieldValueMap.get? field ≠ none := by
        intro field hmem hget
        exact hfield ⟨field, hmem, hget⟩
      obtain ⟨values, hvalues⟩ :=
        getFieldsValues_ok_of_present t _ featureFieldValueMap [] hpresent
      by_cases hname : ∃ name ∈ featureConfiguration.Transformations,
          TransformerMap.get? name = none
      · obtain ⟨err, herr⟩ :=
          (transform_error_iff { Configuration := featureConfiguration, Values := values }).2
            hname
        constructor
        · intro _
          exact ⟨featureConfiguration, List.mem_cons_self _ _, Or.inr hname⟩
        · intro _
          simp only [RuleBasedModelEvaluator.getFeaturesLoop, hvalues, herr]
          exact ⟨_, rfl⟩
      · have hok : ∃ transformed,
            Transform { Configuration := featureConfiguration, Values := values }
              = .ok transformed := by
          cases htr : Transform { Configuration := featureConfiguration, Values := values } with
          | ok transformed => exact ⟨transformed, rfl⟩
          | error err =>
            exact absurd ((transform_error_iff
              { Configuration := featureConfiguration, Values := values }).1 ⟨err, htr⟩) hname
        obtain ⟨transformed, htransformed⟩ := hok
        simp only [RuleBasedModelEvaluator.getFeaturesLoop, hvalues, htransformed]
        rw [ih]
        constructor
        · rintro ⟨featureConfiguration1, hmem, hcause⟩
          exact ⟨featureConfiguration1, List.mem_cons_of_mem _ hmem, hcause⟩
        · rintro ⟨featureConfiguration1, hmem, hcause⟩
          rcases List.mem_cons.1 hmem with hhead | hrest
          · subst hhead
            rcases hcause with hcause | hcause
            · exact absurd hcause hfield
            · exact absurd hcause hname
          · exact ⟨featureConfiguration1, hrest, hcause⟩

/-- C22: `RuleBasedModelEvaluator.Evaluate` returns an error, together with an
output of status `ERROR`, if and only if (a) some field path named by a feature of
the model is not a key of the field map (a key that holds the empty string is
one), or (b) some feature names, anywhere in its list, a transformer other than
`Exists`, `GetFirstNotEmpty`, `ApplyMappings` and `ConcatenateByPair`, or (c) the
features are obtained and `Provide` of the result handler fails; otherwise it
returns status `SUCCESS` and no error. -/
theorem ruleBased_evaluate_error_iff (t : RuleBasedModelEvaluator)
    (input : ModelEvaluatorInput) :
    ((t.Evaluate input).2 ≠ none ↔
      (∃ featureConfiguration ∈ input.ModelDefinition.Features,
        ∃ field ∈ featureConfiguration.Fields, input.FeatureFieldValueMap.get? field = none) ∨
      (∃ featureConfiguration ∈ input.ModelDefinition.Features,
        ∃ name ∈ featureConfiguration.Transformations,
          name ∉ ["Exists", "GetFirstNotEmpty", "ApplyMappings", "ConcatenateByPair"]) ∨
      (∃ modelFeatures err, t.getFeatures input = .ok modelFeatures ∧
        t.modelResultHandler.Provide input.ModelDefinition.Identifier modelFeatures
          HighValueDefaultScore = .error err)) ∧
    ((t.Evaluate input).2 ≠ none → (t.Evaluate input).1.Status = ModelEvaluationStatusError) ∧
    ((t.Evaluate input).2 = none →
      (t.Evaluate input).1.Status = ModelEvaluationStatusSuccess) := by
  have hfeatures := getFeaturesLoop_error_iff t input.FeatureFieldValueMap
    input.ModelDefinition.Features []
  simp only [transformerMap_get?_eq_none_iff] at hfeatures
  cases hget : t.getFeatures input with
  | error err =>
    have hcause := hfeatures.1 ⟨err, hget⟩
    refine ⟨?_, ?_, ?_⟩
    · simp only [RuleBasedModelEvaluator.Evaluate, hget, ne_eq, reduceCtorEq,
        not_false_eq_true, true_iff]
      obtain ⟨featureConfiguration, hmem, hfield | hname⟩ := hcause
      · exact Or.inl ⟨featureConfiguration, hmem, hfield⟩
      · exact Or.inr (Or.inl ⟨featureConfiguration, hmem, hname⟩)
    · intro _
      simp only [RuleBasedModelEvaluator.Evaluate, hget]
    · intro hnone
      simp [RuleBasedModelEvaluator.Evaluate, hget] at hnone
  | ok modelFeatures =>
    have hno : ¬ ∃ featureConfiguration ∈ input.ModelDefinition.Features,
        (∃ field ∈ featureConfiguration.Fields, input.FeatureFieldValueMap.get? field = none) ∨
        (∃ name ∈ featureConfiguration.Transformations,
          name ∉ ["Exists", "GetFirstNotEmpty", "ApplyMappings", "ConcatenateByPair"]) := by
      intro hcause
      obtain ⟨err, herr⟩ := hfeatures.2 hcause
      have herr1 : t.getFeatures input = .error err := herr
      rw [hget] at herr1
      cases herr1
    cases hprovide : t.modelResultHandler.Provide input.ModelDefinition.Identifier
        modelFeatures HighValueDefaultScore with
    | error err =>
      refine ⟨?_, ?_, ?_⟩
      · simp only [RuleBasedModelEvaluator.Evaluate, hget, hprovide, ne_eq, reduceCtorEq,
          not_false_eq_true, true_iff]
        exact Or.inr (Or.inr ⟨modelFeatures, err, rfl, hprovide⟩)
      · intro _
        simp only [RuleBasedModelEvaluator.Evaluate, hget, hprovide]
      · intro hnone
        simp [RuleBasedModelEvaluator.Evaluate, hget, hprovide] at hnone
    | ok modelResult =>
      refine ⟨?_, ?_, ?_⟩
      · simp only [RuleBasedModelEvaluator.Evaluate, hget, hprovide, ne_eq,
          not_true_eq_false, false_iff, not_or]
        refine ⟨?_, ?_, ?_⟩
        · rintro ⟨featureConfiguration, hmem, hfield⟩
          exact hno ⟨featureConfiguration, hmem, Or.inl hfield⟩
        · rintro ⟨featureConfiguration, hmem, hname⟩
          exact hno ⟨featureConfiguration, hmem, Or.inr hname⟩
        · rintro ⟨modelFeatures1, err, hfeat, herr⟩
          cases hfeat
          rw [hprovide] at herr
          cases herr
      · intro hsome
        simp [RuleBasedModelEvaluator.Evaluate, hget, hprovide] at hsome
      · intro _
        simp only [RuleBasedModelEvaluator.Evaluate, hget, hprovide]

theorem ruleBased_evaluate_error_iff_witness :
    (sampleRuleBasedModelEvaluator.Evaluate sampleInputMissingField).1.Status
      = ModelEvaluationStatusError :=
  (ruleBased_evaluate_error_iff sampleRuleBasedModelEvaluator sampleInputMissingField).2.1
    (by decide)

/-! ### Keys and results -/

theorem buildKeyLoop_eq (modelFeatures : List ModelFeature) (allValues : List String) :
    modelFeatures.foldl (fun allValues feature => allValues ++ feature.Values) allValues
    = allValues ++ (modelFeatures.map (fun feature => feature.Values)).flatten := by
  induction modelFeatures generalizing allValues with
  | nil => simp
  | cons feature rest ih =>
    simp only [List.foldl_cons, List.map_cons, List.flatten_cons]
    rw [ih, List.append_assoc]

theorem intercalate_go_eq (sep : String) (values : List String) (acc : String) :
    String.intercalate.go acc sep values
    = match values with
      | [] => acc
      | value :: rest => acc ++ sep ++ stringsJoin sep (value :: rest) := by
  induction values generalizing acc with
  | nil => rfl
  | cons value rest ih =>
    simp only [String.intercalate.go]
    rw [ih]
    cases rest with
    | nil => rfl
    | cons next rest1 =>
      simp only [stringsJoin, String.append_assoc]

/-- The model of `strings.Join` is the library's `String.intercalate`. -/
theorem stringsJoin_eq_intercalate (sep : String) (values : List String) :
    stringsJoin sep values = String.intercalate sep values := by
  cases values with
  | nil => rfl
  | cons value rest =>
    simp only [String.intercalate]
    rw [intercalate_go_eq]
    cases rest with
    | nil => rfl
    | cons next rest1 => simp only [stringsJoin, String.append_assoc]

/-- C23: for every list of model features `BuildKey` returns the values of all
features, in feature order and within a feature in value order, joined by "|";
so two feature lists with the same flattened value sequence get the same key, a
feature without values contributes nothing, not even a separator, and the lists
`[["a"],[]]` and `[[],["a"]]` both get the key `a`. -/
theorem buildKey_joins_flattened_values (t : ModelResultHandler)
    (modelFeatures : List ModelFeature) :
    t.BuildKey modelFeatures
      = String.intercalate "|" (modelFeatures.map (fun feature => feature.Values)).flatten ∧
    (∀ others : List ModelFeature,
      (others.map (fun feature => feature.Values)).flatten
        = (modelFeatures.map (fun feature => feature.Values)).flatten →
      t.BuildKey others = t.BuildKey modelFeatures) ∧
    (∀ (after : List ModelFeature) (configuration : FeatureConfiguration),
      t.BuildKey (modelFeatures ++ { Configuration := configuration, Values := [] } :: after)
        = t.BuildKey (modelFeatures ++ after)) ∧
    (∀ first second : FeatureConfiguration,
      t.BuildKey [{ Configuration := first, Values := ["a"] },
                  { Configuration := second, Values := [] }] = "a" ∧
      t.BuildKey [{ Configuration := first, Values := [] },
                  { Configuration := second, Values := ["a"] }] = "a") := by
  have hkey : ∀ features : List ModelFeature,
      t.BuildKey features
        = stringsJoin "|" (features.map (fun feature => feature.Values)).flatten := by
    intro features
    simp only [ModelResultHandler.BuildKey, KeyDelimiter, buildKeyLoop_eq, List.nil_append]
  refine ⟨?_, ?_, ?_, ?_⟩
  · rw [hkey, stringsJoin_eq_intercalate]
  · intro others hsame
    rw [hkey, hkey, hsame]
  · intro after configuration
    rw [hkey, hkey]
    simp
  · intro first second
    rw [hkey, hkey]
    exact ⟨rfl, rfl⟩

theorem buildKey_joins_flattened_values_witness :
    sampleRuleBasedModelEvaluator.modelResultHandler.BuildKey
        [{ Configuration := sampleMappedFeature.Configuration, Values := ["1", "0"] },
         { Configuration := sampleMappedFeature.Configuration, Values := [] },
         { Configuration := sampleMappedFeature.Configuration, Values := ["mobile"] }]
      = "1|0|mobile" :=
  ((buildKey_joins_flattened_values sampleRuleBasedModelEvaluator.modelResultHandler
    [{ Configuration := sampleMappedFeature.Configuration, Values := ["1", "0"] },
     { Configuration := sampleMappedFeature.Configuration, Values := [] },
     { Configuration := sampleMappedFeature.Configuration, Values := ["mobile"] }]).1).trans
    (by decide)

/-- C24: whenever `ModelResultHandler.Provide` returns a result its `Key` is
`BuildKey(features)`; the `Value` is the `float32` cached under the model and that
key when there is one and the given default when the key is absent, and a cached
entry that is not a `float32` gives an error and no result. The rule-based
evaluator passes the default 1.0, so once the features are obtained a cache miss
evaluates to status `SUCCESS` with value 1.0 and no error. -/
theorem provide_reads_cache_or_default (e : RuleBasedModelEvaluator) (modelIdentifier : String)
    (features : List ModelFeature) (defaultValue : Float32) (input : ModelEvaluatorInput) :
    (∀ result, e.modelResultHandler.Provide modelIdentifier features defaultValue = .ok result →
      result.Key = e.modelResultHandler.BuildKey features) ∧
    (∀ value : Float32,
      e.modelResultHandler.localCacheFactory.GetFromLocalCache modelIdentifier
          (e.modelResultHandler.BuildKey features) = some (.float32 value) →
      e.modelResultHandler.Provide modelIdentifier features defaultValue
        = .ok { Value := value, Key := e.modelResultHandler.BuildKey features }) ∧
    (e.modelResultHandler.localCacheFactory.GetFromLocalCache modelIdentifier
          (e.modelResultHandler.BuildKey features) = none →
      e.modelResultHandler.Provide modelIdentifier features defaultValue
        = .ok { Value := defaultValue, Key := e.modelResultHandler.BuildKey features }) ∧
    (∀ cached : CacheValue,
      e.modelResultHandler.localCacheFactory.GetFromLocalCache modelIdentifier
          (e.modelResultHandler.BuildKey features) = some cached →
      (∀ value : Float32, cached ≠ .float32 value) →
      ∃ err, e.modelResultHandler.Provide modelIdentifier features defaultValue = .error err) ∧
    HighValueDefaultScore = Float32.one ∧
    (∀ modelFeatures : List ModelFeature, e.getFeatures input = .ok modelFeatures →
      e.modelResultHandler.localCacheFactory.GetFromLocalCache input.ModelDefinition.Identifier
          (e.modelResultHandler.BuildKey modelFeatures) = none →
      (e.Evaluate input).2 = none ∧
      (e.Evaluate input).1.Status = ModelEvaluationStatusSuccess ∧
      (e.Evaluate input).1.ModelResult
        = { Value := Float32.one, Key := e.modelResultHandler.BuildKey modelFeatures }) := by
  refine ⟨?_, ?_, ?_, ?_, rfl, ?_⟩
  · intro result hresult
    simp only [ModelResultHandler.Provide] at hresult
    split at hresult
    · cases hresult
      rfl
    · cases hresult
      rfl
    · cases hresult
  · intro value hget
    simp only [ModelResultHandler.Provide, hget]
  · intro hget
    simp only [ModelResultHandler.Provide, hget]
  · intro cached hget hnot
    simp only [ModelResultHandler.Provide, hget]
    cases cached with
    | float32 value => exact absurd rfl (hnot value)
    | string s => exact ⟨_, rfl⟩
    | modelConfiguration c => exact ⟨_, rfl⟩
    | experimentConfiguration c => exact ⟨_, rfl⟩
  · intro modelFeatures hfeatures hget
    simp [RuleBasedModelEvaluator.Evaluate, hfeatures, ModelResultHandler.Provide, hget,
      HighValueDefaultScore]

theorem provide_reads_cache_or_default_witness :
    (sampleRuleBasedModelEvaluator.Evaluate sampleInputCacheMiss).2 = none ∧
    (sampleRuleBasedModelEvaluator.Evaluate sampleInputCacheMiss).1.Status
      = ModelEvaluationStatusSuccess ∧
    (sampleRuleBasedModelEvaluator.Evaluate sampleInputCacheMiss).1.ModelResult
      = { Value := Float32.one,
          Key := sampleRuleBasedModelEvaluator.modelResultHandler.BuildKey
            [{ Configuration := sampleModelDefinition.Features.getD 0 sampleMappedFeature.Configuration,
               Values := ["0"] }] } :=
  (provide_reads_cache_or_default sampleRuleBasedModelEvaluator "m" [] Float32.one
    sampleInputCacheMiss).2.2.2.2.2 _ (by rfl) (by decide)

/-! ### The cache as a store -/

theorem LocalCacheFactory.getFromLocalCache_eq_item? (t : LocalCacheFactory)
    (cacheName key : String) :
    t.GetFromLocalCache cacheName key
      = (t.item? cacheName key).map (fun item => item.Value) := by
  unfold LocalCacheFactory.GetFromLocalCache LocalCacheFactory.item?
  cases t.localCacheMap.get? cacheName with
  | none => rfl
  | some cache =>
    cases hitem : cache.get? key <;> simp [hitem]

/-- What a cache holds after `SetWithTTL`: the new item under the key that was set,
when the call returned true, and what it held before everywhere else. -/
theorem LocalCacheFactory.item?_setWithTTL (lib : Library) (t : LocalCacheFactory)
    (cacheName key : String) (value : CacheValue) (ttl : Duration)
    (cacheName1 key1 : String) :
    (t.SetWithTTL lib cacheName key value ttl).1.item? cacheName1 key1
      = if (t.SetWithTTL lib cacheName key value ttl).2 = true ∧ cacheName = cacheName1 ∧
            key = key1 then
          some { Value := value, TTL := ttl }
        else t.item? cacheName1 key1 := by
  unfold LocalCacheFactory.SetWithTTL
  by_cases hneg : ttl < 0
  · simp [hneg]
  · by_cases hset : lib.cacheSet cacheName key = true
    · simp only [hneg, if_false, hset, if_true, true_and, LocalCacheFactory.item?,
        GoMap.get?_set]
      by_cases hc : cacheName = cacheName1
      · subst hc
        simp only [if_true, true_and, GoMap.get?_set]
        by_cases hk : key = key1
        · simp [hk]
        · simp only [hk, if_false]
          cases t.localCacheMap.get? cacheName with
          | none => simp [GoMap.get?]
          | some cache => simp
      · simp [hc]
    · simp [hneg, hset]

theorem LocalCacheFactory.setWithTTL_result (lib : Library) (t : LocalCacheFactory)
    (cacheName key : String) (value : CacheValue) (ttl : Duration) :
    (t.SetWithTTL lib cacheName key value ttl).2
      = (decide (0 ≤ ttl) && lib.cacheSet cacheName key) := by
  unfold LocalCacheFactory.SetWithTTL
  by_cases hneg : ttl < 0
  · have : ¬ 0 ≤ ttl := not_le.mpr hneg
    simp [hneg, this]
  · have : 0 ≤ ttl := not_lt.mp hneg
    by_cases hset : lib.cacheSet cacheName key = true <;> simp [hneg, this, hset]

theorem LocalCacheFactory.setWithTTL_of_refused (lib : Library) (t : LocalCacheFactory)
    (cacheName key : String) (value : CacheValue) (ttl : Duration)
    (h : (t.SetWithTTL lib cacheName key value ttl).2 = false) :
    (t.SetWithTTL lib cacheName key value ttl).1 = t := by
  unfold LocalCacheFactory.SetWithTTL at h ⊢
  by_cases hneg : ttl < 0
  · simp [hneg]
  · by_cases hset : lib.cacheSet cacheName key = true
    · simp [hneg, hset] at h
    · simp [hneg, hset]

/-- The fingerprint check on a registry: stale unless the key holds the string. -/
theorem LocalCacheFactory.shouldRefresh_eq (lib : Library) (t : LocalCacheFactory)
    (k f : String) :
    t.ShouldRefresh lib k f
      = if t.GetFromLocalCache CacheNameFileIdentifier k = some (.string f) then (t, false)
        else
          ((t.SetWithTTL lib CacheNameFileIdentifier k (.string f)
              (if k = CacheKeyModelResultFileIdentifier then defaultTTL else 0)).1, true) := by
  unfold LocalCacheFactory.ShouldRefresh
  cases hget : t.GetFromLocalCache CacheNameFileIdentifier k with
  | none =>
    by_cases hk : k = CacheKeyModelResultFileIdentifier
    · simp [hk, LocalCacheFactory.PutToLocalCache]
    · simp [hk, LocalCacheFactory.PutToLocalCacheWithTTL, wrapInt64]
  | some cached =>
    by_cases hsame : cached = .string f
    · simp [hsame]
    · by_cases hk : k = CacheKeyModelResultFileIdentifier
      · simp [hk, hsame, LocalCacheFactory.PutToLocalCache]
      · simp [hk, hsame, LocalCacheFactory.PutToLocalCacheWithTTL, wrapInt64]

/-- C25: with the `FileIdentifier` cache a key-value store (it takes the item set
under `k`), `ShouldRefresh(k, f)` returns true if and only if the store holds
nothing under `k` or holds something other than `f`. When it returns true the store
afterwards holds `f` under `k`, with the default time to live when `k` is
`ModelResultFileIdentifier` and with none otherwise, and every other key of every
cache holds what it held; when it returns false the registry is unchanged. An
immediately repeated `ShouldRefresh(k, f)` returns false and changes nothing. -/
theorem shouldRefresh_installs_fingerprint (lib : Library) (t : LocalCacheFactory)
    (k f : String) (hstore : lib.cacheSet CacheNameFileIdentifier k = true) :
    ((t.ShouldRefresh lib k f).2 = true ↔
      (t.GetFromLocalCache CacheNameFileIdentifier k = none ∨
        ∃ cached, t.GetFromLocalCache CacheNameFileIdentifier k = some cached ∧
          cached ≠ .string f)) ∧
    ((t.ShouldRefresh lib k f).2 = true →
      (t.ShouldRefresh lib k f).1.item? CacheNameFileIdentifier k
        = some { Value := .string f,
                 TTL := if k = CacheKeyModelResultFileIdentifier then defaultTTL else 0 } ∧
      ∀ cacheName key : String, ¬ (cacheName = CacheNameFileIdentifier ∧ key = k) →
        (t.ShouldRefresh lib k f).1.item? cacheName key = t.item? cacheName key) ∧
    ((t.ShouldRefresh lib k f).2 = false → (t.ShouldRefresh lib k f).1 = t) ∧
    (t.ShouldRefresh lib k f).1.ShouldRefresh lib k f = ((t.ShouldRefresh lib k f).1, false) := by
  have httl : (0 : Int) ≤ (if k = CacheKeyModelResultFileIdentifier then defaultTTL else 0) := by
    by_cases hk : k = CacheKeyModelResultFileIdentifier <;> simp [hk, defaultTTL]
  have hput : (t.SetWithTTL lib CacheNameFileIdentifier k (.string f)
      (if k = CacheKeyModelResultFileIdentifier then defaultTTL else 0)).2 = true := by
    rw [LocalCacheFactory.setWithTTL_result]
    simp [httl, hstore]
  have hafter : (t.SetWithTTL lib CacheNameFileIdentifier k (.string f)
      (if k = CacheKeyModelResultFileIdentifier then defaultTTL else 0)).1.GetFromLocalCache
        CacheNameFileIdentifier k = some (.string f) := by
    rw [LocalCacheFactory.getFromLocalCache_eq_item?, LocalCacheFactory.item?_setWithTTL]
    simp [hput]
  by_cases hget : t.GetFromLocalCache CacheNameFileIdentifier k = some (.string f)
  · have heq : t.ShouldRefresh lib k f = (t, false) := by
      rw [LocalCacheFactory.shouldRefresh_eq]
      simp [hget]
    rw [heq]
    refine ⟨?_, ?_, ?_, ?_⟩
    · simp [hget]
    · intro h
      cases h
    · intro _
      rfl
    · exact heq
  · have heq : t.ShouldRefresh lib k f
        = ((t.SetWithTTL lib CacheNameFileIdentifier k (.string f)
            (if k = CacheKeyModelResultFileIdentifier then defaultTTL else 0)).1, true) := by
      rw [LocalCacheFactory.shouldRefresh_eq]
      simp [hget]
    rw [heq]
    refine ⟨?_, ?_, ?_, ?_⟩
    · simp only [true_iff]
      cases hcached : t.GetFromLocalCache CacheNameFileIdentifier k with
      | none => exact Or.inl rfl
      | some cached =>
        refine Or.inr ⟨cached, rfl, ?_⟩
        intro hsame
        rw [hcached, hsame] at hget
        exact hget rfl
    · intro _
      refine ⟨?_, ?_⟩
      · rw [LocalCacheFactory.item?_setWithTTL]
        simp [hput]
      · intro cacheName key hother
        rw [LocalCacheFactory.item?_setWithTTL]
        have : ¬ (CacheNameFileIdentifier = cacheName ∧ k = key) := by
          rintro ⟨hc, hk⟩
          exact hother ⟨hc.symm, hk.symm⟩
        simp only [hput, true_and, this, if_false]
    · intro h
      cases h
    · rw [LocalCacheFactory.shouldRefresh_eq]
      simp [hafter]

theorem shouldRefresh_installs_fingerprint_witness :
    (sampleCache.ShouldRefresh sampleLibrary CacheKeyModelResultFileIdentifier "etag1").2 = true ∧
    (sampleCache.ShouldRefresh sampleLibrary CacheKeyModelResultFileIdentifier
        "etag1").1.item? CacheNameFileIdentifier CacheKeyModelResultFileIdentifier
      = some { Value := .string "etag1", TTL := 4200000000000 } ∧
    (sampleCache.ShouldRefresh sampleLibrary CacheKeyModelResultFileIdentifier
        "etag1").1.ShouldRefresh sampleLibrary CacheKeyModelResultFileIdentifier "etag1"
      = ((sampleCache.ShouldRefresh sampleLibrary CacheKeyModelResultFileIdentifier "etag1").1,
          false) :=
  have h := shouldRefresh_installs_fingerprint sampleLibrary sampleCache
    CacheKeyModelResultFileIdentifier "etag1" (by decide)
  ⟨by decide, (h.2.1 (by decide)).1, h.2.2.2⟩

/-! ### Loading a configuration -/

theorem LocalCacheFactory.shouldRefreshLocal_eq (lib : Library) (t : LocalCacheFactory)
    (k : String) (filePointer : File) :
    t.ShouldRefreshLocal lib k filePointer
      = match filePointer.ModTime with
        | .error _ => (t, false)
        | .ok fileIdentifier => t.ShouldRefresh lib k fileIdentifier := by
  unfold LocalCacheFactory.ShouldRefreshLocal LocalCacheFactory.ShouldRefresh
  cases filePointer.ModTime with
  | error err => rfl
  | ok fileIdentifier => rfl

/-- After `ShouldRefresh(k, f)` on a store that takes the item, `k` holds `f`. -/
theorem LocalCacheFactory.shouldRefresh_holds (lib : Library) (t : LocalCacheFactory)
    (k f : String) (hstore : lib.cacheSet CacheNameFileIdentifier k = true) :
    (t.ShouldRefresh lib k f).1.GetFromLocalCache CacheNameFileIdentifier k
      = some (.string f) := by
  rw [LocalCacheFactory.shouldRefresh_eq]
  by_cases hget : t.GetFromLocalCache CacheNameFileIdentifier k = some (.string f)
  · simp [hget]
  · have httl : (0 : Int) ≤
        (if k = CacheKeyModelResultFileIdentifier then defaultTTL else 0) := by
      by_cases hk : k = CacheKeyModelResultFileIdentifier <;> simp [hk, defaultTTL]
    simp only [hget, if_false]
    rw [LocalCacheFactory.getFromLocalCache_eq_item?, LocalCacheFactory.item?_setWithTTL,
      LocalCacheFactory.setWithTTL_result]
    simp [httl, hstore]

/-- On a registry in which `k` holds `f`, `ShouldRefresh(k, f)` returns false and
changes nothing. -/
theorem LocalCacheFactory.shouldRefresh_of_holds (lib : Library) (t : LocalCacheFactory)
    (k f : String)
    (hget : t.GetFromLocalCache CacheNameFileIdentifier k = some (.string f)) :
    t.ShouldRefresh lib k f = (t, false) := by
  rw [LocalCacheFactory.shouldRefresh_eq]
  simp [hget]

/-- The second half of `Load` writes to the cache `Configuration` only. -/
theorem ConfigurationHandler.install_receiver {T : Type} [CacheTyped T] (lib : Library)
    (t : ConfigurationHandler T) (calls : List Call) (jsonData : String)
    (err : Option Error) :
    ∃ cache : LocalCacheFactory,
      (ConfigurationHandler.install lib t calls jsonData err).receiver
        = { t with localCacheFactory := cache } ∧
      ∀ key : String, cache.GetFromLocalCache CacheNameFileIdentifier key
        = t.localCacheFactory.GetFromLocalCache CacheNameFileIdentifier key := by
  unfold ConfigurationHandler.install
  cases err with
  | some err => exact ⟨t.localCacheFactory, rfl, fun _ => rfl⟩
  | none =>
    cases hparse : (CacheTyped.unmarshal lib jsonData : Except Error T) with
    | error err => exact ⟨t.localCacheFactory, rfl, fun _ => rfl⟩
    | ok config =>
      refine ⟨(t.localCacheFactory.PutToLocalCacheWithTTL lib CacheNameConfiguration
        t.dataCacheKey (@CacheTyped.box T _ config) 0).1, ?_, ?_⟩
      · simp only
        split <;> rfl
      · intro key
        rw [LocalCacheFactory.getFromLocalCache_eq_item?,
          LocalCacheFactory.getFromLocalCache_eq_item?]
        unfold LocalCacheFactory.PutToLocalCacheWithTTL
        rw [LocalCacheFactory.item?_setWithTTL]
        have hne : ¬ CacheNameConfiguration = CacheNameFileIdentifier := by decide
        simp [hne]

/-- A load whose source is fetched leaves the fingerprint of the source in the
store, whatever the load returns. -/
theorem ConfigurationHandler.load_receiver_s3 {T : Type} [CacheTyped T] (lib : Library)
    (t : ConfigurationHandler T) (getObjectOutput : GetObjectOutput) (eTag : String)
    (hstore : lib.cacheSet CacheNameFileIdentifier t.fileIdentifierCacheKey = true)
    (hs3 : stringsHasPrefix t.folderPrefix S3Prefix = true)
    (hfetch : t.daoFactory.GetS3Object (stringsTrimPrefix t.folderPrefix S3Prefix)
        t.buildConfigurationFileName = .ok (some getObjectOutput, none))
    (hetag : getObjectOutput.ETag = some eTag) :
    ∃ cache : LocalCacheFactory,
      (t.Load lib).receiver = { t with localCacheFactory := cache } ∧
      cache.GetFromLocalCache CacheNameFileIdentifier t.fileIdentifierCacheKey
        = some (.string eTag) := by
  have hholds := LocalCacheFactory.shouldRefresh_holds lib t.localCacheFactory
    t.fileIdentifierCacheKey eTag hstore
  simp only [ConfigurationHandler.Load, hs3, if_true, hfetch, hetag]
  cases hrefresh : (t.localCacheFactory.ShouldRefresh lib t.fileIdentifierCacheKey eTag).2 with
  | false => exact ⟨_, rfl, hholds⟩
  | true =>
    simp only [if_true]
    cases hread : t.daoFactory.ReadContent getObjectOutput.Body with
    | panic => exact ⟨_, rfl, hholds⟩
    | ok read =>
      obtain ⟨jsonData, err⟩ := read
      obtain ⟨cache, hreceiver, hcache⟩ := @ConfigurationHandler.install_receiver T _ lib
        { t with localCacheFactory :=
            (t.localCacheFactory.ShouldRefresh lib t.fileIdentifierCacheKey eTag).1 }
        ([Call.GetS3Object (stringsTrimPrefix t.folderPrefix S3Prefix)
            t.buildConfigurationFileName] ++
          [.ShouldRefresh t.fileIdentifierCacheKey eTag] ++
          [.ReadContent getObjectOutput.Body]) jsonData err
      refine ⟨cache, ?_, ?_⟩
      · simp only
        rw [hreceiver]
      · rw [hcache]
        exact hholds

theorem ConfigurationHandler.load_receiver_local {T : Type} [CacheTyped T] (lib : Library)
    (t : ConfigurationHandler T) (filePointer : File)
    (hstore : lib.cacheSet CacheNameFileIdentifier t.fileIdentifierCacheKey = true)
    (hlocal : stringsHasPrefix t.folderPrefix S3Prefix = false)
    (hopen : lib.osOpen (lib.filepathJoin t.folderPrefix t.buildConfigurationFileName)
        = .ok filePointer) :
    ∃ cache : LocalCacheFactory,
      (t.Load lib).receiver = { t with localCacheFactory := cache } ∧
      ∀ modTime : String, filePointer.ModTime = .ok modTime →
        cache.GetFromLocalCache CacheNameFileIdentifier t.fileIdentifierCacheKey
          = some (.string modTime) := by
  have hlocal1 : ¬ stringsHasPrefix t.folderPrefix S3Prefix = true := by simp [hlocal]
  simp only [ConfigurationHandler.Load, hlocal1, if_false, hopen]
  rw [LocalCacheFactory.shouldRefreshLocal_eq]
  cases hstat : filePointer.ModTime with
  | error err =>
    refine ⟨t.localCacheFactory, ?_, ?_⟩
    · simp
    · intro modTime hmod
      cases hmod
  | ok modTime =>
    have hholds := LocalCacheFactory.shouldRefresh_holds lib t.localCacheFactory
      t.fileIdentifierCacheKey modTime hstore
    simp only
    cases hrefresh :
        (t.localCacheFactory.ShouldRefresh lib t.fileIdentifierCacheKey modTime).2 with
    | false =>
      refine ⟨_, rfl, ?_⟩
      intro modTime1 hmod
      cases hmod
      exact hholds
    | true =>
      simp only [if_true]
      cases hread : t.daoFactory.GetDataFromLocal filePointer with
      | panic =>
        refine ⟨_, rfl, ?_⟩
        intro modTime1 hmod
        cases hmod
        exact hholds
      | ok read =>
        obtain ⟨jsonData, err⟩ := read
        obtain ⟨cache, hreceiver, hcache⟩ := @ConfigurationHandler.install_receiver T _ lib
          { t with localCacheFactory :=
              (t.localCacheFactory.ShouldRefresh lib t.fileIdentifierCacheKey modTime).1 }
          ([Call.Open (lib.filepathJoin t.folderPrefix t.buildConfigurationFileName)] ++
            [.ShouldRefreshLocal t.fileIdentifierCacheKey filePointer.Name] ++
            [.GetDataFromLocal filePointer.Name]) jsonData err
        refine ⟨cache, ?_, ?_⟩
        · exact hreceiver
        · intro modTime1 hmod
          cases hmod
          rw [hcache]
          exact hholds

/-- A load that finds the fingerprint of its source in the store stops after the
fingerprint check. -/
theorem ConfigurationHandler.load_of_holds_s3 {T : Type} [CacheTyped T] (lib : Library)
    (t : ConfigurationHandler T) (getObjectOutput : GetObjectOutput) (eTag : String)
    (hs3 : stringsHasPrefix t.folderPrefix S3Prefix = true)
    (hfetch : t.daoFactory.GetS3Object (stringsTrimPrefix t.folderPrefix S3Prefix)
        t.buildConfigurationFileName = .ok (some getObjectOutput, none))
    (hetag : getObjectOutput.ETag = some eTag)
    (hholds : t.localCacheFactory.GetFromLocalCache CacheNameFileIdentifier
        t.fileIdentifierCacheKey = some (.string eTag)) :
    (t.Load lib).receiver = t ∧
    (t.Load lib).calls
      = [.GetS3Object (stringsTrimPrefix t.folderPrefix S3Prefix) t.buildConfigurationFileName,
         .ShouldRefresh t.fileIdentifierCacheKey eTag] ∧
    (t.Load lib).result = .ok (false, none) := by
  simp only [ConfigurationHandler.Load, hs3, if_true, hfetch, hetag,
    LocalCacheFactory.shouldRefresh_of_holds lib _ _ _ hholds]
  simp

theorem ConfigurationHandler.load_of_holds_local {T : Type} [CacheTyped T] (lib : Library)
    (t : ConfigurationHandler T) (filePointer : File)
    (hlocal : stringsHasPrefix t.folderPrefix S3Prefix = false)
    (hopen : lib.osOpen (lib.filepathJoin t.folderPrefix t.buildConfigurationFileName)
        = .ok filePointer)
    (hholds : ∀ modTime : String, filePointer.ModTime = .ok modTime →
      t.localCacheFactory.GetFromLocalCache CacheNameFileIdentifier
        t.fileIdentifierCacheKey = some (.string modTime)) :
    (t.Load lib).receiver = t ∧
    (t.Load lib).calls
      = [.Open (lib.filepathJoin t.folderPrefix t.buildConfigurationFileName),
         .ShouldRefreshLocal t.fileIdentifierCacheKey filePointer.Name] ∧
    (t.Load lib).result = .ok (false, none) := by
  have hlocal1 : ¬ stringsHasPrefix t.folderPrefix S3Prefix = true := by simp [hlocal]
  simp only [ConfigurationHandler.Load, hlocal1, if_false, hopen]
  rw [LocalCacheFactory.shouldRefreshLocal_eq]
  cases hstat : filePointer.ModTime with
  | error err => simp
  | ok modTime =>
    simp only [LocalCacheFactory.shouldRefresh_of_holds lib _ _ _ (hholds modTime hstat)]
    simp

/-- C26: let two consecutive `ConfigurationHandler.Load` calls observe the same
source, fetched from S3 with an `ETag` or opened as a local file, and let the
`FileIdentifier` cache be a store (it takes the fingerprint). Then the second call
returns `(false, nil)`; it makes only the fetch (or open) and the fingerprint check,
so it neither reads the body, parses JSON nor writes a cache, and the handler and
what `Provide` returns are as the first call left them. -/
theorem load_twice_skips_second {T : Type} [CacheTyped T] (lib : Library)
    (t : ConfigurationHandler T)
    (hstore : lib.cacheSet CacheNameFileIdentifier t.fileIdentifierCacheKey = true)
    (hsource :
      (stringsHasPrefix t.folderPrefix S3Prefix = true ∧
        ∃ (getObjectOutput : GetObjectOutput) (eTag : String),
          t.daoFactory.GetS3Object (stringsTrimPrefix t.folderPrefix S3Prefix)
            t.buildConfigurationFileName = .ok (some getObjectOutput, none) ∧
          getObjectOutput.ETag = some eTag) ∨
      (stringsHasPrefix t.folderPrefix S3Prefix = false ∧
        ∃ filePointer : File,
          lib.osOpen (lib.filepathJoin t.folderPrefix t.buildConfigurationFileName)
            = .ok filePointer)) :
    ((t.Load lib).receiver.Load lib).result = .ok (false, none) ∧
    ((t.Load lib).receiver.Load lib).receiver = (t.Load lib).receiver ∧
    ((t.Load lib).receiver.Load lib).receiver.Provide = (t.Load lib).receiver.Provide ∧
    ((∃ eTag : String, ((t.Load lib).receiver.Load lib).calls
        = [.GetS3Object (stringsTrimPrefix t.folderPrefix S3Prefix)
             t.buildConfigurationFileName,
           .ShouldRefresh t.fileIdentifierCacheKey eTag]) ∨
     (∃ name : String, ((t.Load lib).receiver.Load lib).calls
        = [.Open (lib.filepathJoin t.folderPrefix t.buildConfigurationFileName),
           .ShouldRefreshLocal t.fileIdentifierCacheKey name])) := by
  rcases hsource with ⟨hs3, getObjectOutput, eTag, hfetch, hetag⟩ | ⟨hlocal, filePointer, hopen⟩
  · obtain ⟨cache, hreceiver, hholds⟩ :=
      ConfigurationHandler.load_receiver_s3 lib t getObjectOutput eTag hstore hs3 hfetch hetag
    rw [hreceiver]
    obtain ⟨hsame, hcalls, hresult⟩ := @ConfigurationHandler.load_of_holds_s3 T _ lib
      { t with localCacheFactory := cache } getObjectOutput eTag hs3 hfetch hetag hholds
    exact ⟨hresult, hsame, by rw [hsame], Or.inl ⟨eTag, hcalls⟩⟩
  · obtain ⟨cache, hreceiver, hholds⟩ :=
      ConfigurationHandler.load_receiver_local lib t filePointer hstore hlocal hopen
    rw [hreceiver]
    obtain ⟨hsame, hcalls, hresult⟩ := @ConfigurationHandler.load_of_holds_local T _ lib
      { t with localCacheFactory := cache } filePointer hlocal hopen hholds
    exact ⟨hresult, hsame, by rw [hsame], Or.inr ⟨filePointer.Name, hcalls⟩⟩

theorem load_twice_skips_second_witness :
    ((sampleS3ConfigurationHandler.Load loaderLibrary).receiver.Load loaderLibrary).result
      = .ok (false, none) ∧
    (sampleS3ConfigurationHandler.Load loaderLibrary).result = .ok (true, none) :=
  ⟨(load_twice_skips_second loaderLibrary sampleS3ConfigurationHandler (by decide)
      (Or.inl ⟨by decide, { ETag := some "etag-model", Body := "model" }, "etag-model",
        by decide, rfl⟩)).1,
    by decide⟩

/-! ### Loading the experiment configuration -/

/-- C27: `ExperimentConfigurationHandler.Load` calls `UpdateConfiguration` only when
the underlying `Load` returned `(true, nil)` and `Provide` returned no error; it
returns `(true, nil)` exactly when the underlying `Load` installed, `Provide`
succeeded and `UpdateConfiguration` succeeded; when the underlying `Load` returned
`(false, nil)` it returns `(false, nil)` and has called neither `Provide` nor
`UpdateConfiguration`; and when one of the three steps returns an error it returns
false with that error wrapped, having called nothing after the failing step. -/
theorem experimentLoad_runs_steps_in_order {σ : Type} (t : ExperimentConfigurationHandler σ)
    (s : σ) :
    (∀ config : Option ExperimentConfiguration,
      Call.UpdateConfiguration config ∈ (t.Load s).calls →
        (t.ConfigurationHandler.Load s).2 = .ok (true, none) ∧
        (t.ConfigurationHandler.Provide (t.ConfigurationHandler.Load s).1).2
          = .ok (config, none)) ∧
    ((t.Load s).result = .ok (true, none) ↔
      (t.ConfigurationHandler.Load s).2 = .ok (true, none) ∧
      ∃ config : Option ExperimentConfiguration,
        (t.ConfigurationHandler.Provide (t.ConfigurationHandler.Load s).1).2
          = .ok (config, none) ∧
        (t.TrafficAllocator.UpdateConfiguration
          (t.ConfigurationHandler.Provide (t.ConfigurationHandler.Load s).1).1 config).2
          = .ok none) ∧
    ((t.ConfigurationHandler.Load s).2 = .ok (false, none) →
      (t.Load s).result = .ok (false, none) ∧ (t.Load s).calls = [.Load] ∧
      (t.Load s).receiver = (t.ConfigurationHandler.Load s).1) ∧
    (∀ (installed : Bool) (err : Error),
      (t.ConfigurationHandler.Load s).2 = .ok (installed, some err) →
      (t.Load s).result
        = .ok (false, some ("failed to load experiment configuration: " ++ err)) ∧
      (t.Load s).calls = [.Load]) ∧
    (∀ (config : Option ExperimentConfiguration) (err : Error),
      (t.ConfigurationHandler.Load s).2 = .ok (true, none) →
      (t.ConfigurationHandler.Provide (t.ConfigurationHandler.Load s).1).2
        = .ok (config, some err) →
      (t.Load s).result
        = .ok (false, some ("failed to provide experiment configuration: " ++ err)) ∧
      (t.Load s).calls = [.Load, .Provide]) ∧
    (∀ (config : Option ExperimentConfiguration) (err : Error),
      (t.ConfigurationHandler.Load s).2 = .ok (true, none) →
      (t.ConfigurationHandler.Provide (t.ConfigurationHandler.Load s).1).2
        = .ok (config, none) →
      (t.TrafficAllocator.UpdateConfiguration
        (t.ConfigurationHandler.Provide (t.ConfigurationHandler.Load s).1).1 config).2
        = .ok (some err) →
      (t.Load s).result
        = .ok (false, some ("failed to update traffic allocator configuration: " ++ err)) ∧
      (t.Load s).calls = [.Load, .Provide, .UpdateConfiguration config]) := by
  unfold ExperimentConfigurationHandler.Load
  cases hload : (t.ConfigurationHandler.Load s).2 with
  | panic => simp [hload]
  | ok loaded =>
    obtain ⟨installed, loadErr⟩ := loaded
    cases loadErr with
    | some err => simp [hload]
    | none =>
      cases installed with
      | false => simp [hload]
      | true =>
        cases hprovide :
            (t.ConfigurationHandler.Provide (t.ConfigurationHandler.Load s).1).2 with
        | panic => simp [hload, hprovide]
        | ok provided =>
          obtain ⟨config, provideErr⟩ := provided
          cases provideErr with
          | some err => simp [hload, hprovide]
          | none =>
            cases hupdate : (t.TrafficAllocator.UpdateConfiguration
                (t.ConfigurationHandler.Provide (t.ConfigurationHandler.Load s).1).1
                config).2 with
            | panic =>
              simp [hload, hprovide, hupdate]
              intro config1 err hc hu
              subst hc
              rw [hupdate] at hu
              cases hu
            | ok updateErr =>
              cases updateErr with
              | some err =>
                simp [hload, hprovide, hupdate]
                intro config1 err1 hc hu
                subst hc
                rw [hupdate] at hu
                cases hu
                exact ⟨rfl, rfl⟩
              | none =>
                simp [hload, hprovide, hupdate]
                intro config1 err hc hu
                subst hc
                rw [hupdate] at hu
                cases hu

theorem experimentLoad_runs_steps_in_order_witness :
    (idleExperimentConfigurationHandler.Load ()).result = .ok (false, none) ∧
    (idleExperimentConfigurationHandler.Load ()).calls = [.Load] :=
  ⟨((experimentLoad_runs_steps_in_order idleExperimentConfigurationHandler ()).2.2.1 rfl).1,
   ((experimentLoad_runs_steps_in_order idleExperimentConfigurationHandler ()).2.2.1 rfl).2.1⟩

/-! ### Loading the model results -/

/-- C28 (the code at the failing input): the configuration has the two models `a`
and `b`, whose result files have the fingerprints `etag-a` and `etag-b`, and
nothing changes between two loads. All files share the key
`ModelResultFileIdentifier`: the first load leaves `etag-b` under it, so the second
load finds the file of `a` stale, then the file of `b`, and for both models reads
the body, clears the namespace and puts the rows again. With the model `a` alone
the second load makes the fetch and the fingerprint check and nothing else. -/
theorem load_twice_reloads_every_model :
    ((sampleModelResultHandler twoModelConfiguration).Load loaderLibrary "ssp").result
      = .ok none ∧
    ((sampleModelResultHandler twoModelConfiguration).Load loaderLibrary
        "ssp").receiver.localCacheFactory.GetFromLocalCache CacheNameFileIdentifier
        CacheKeyModelResultFileIdentifier = some (.string "etag-b") ∧
    (((sampleModelResultHandler twoModelConfiguration).Load loaderLibrary
        "ssp").receiver.Load loaderLibrary "ssp").calls
      = [.Provide,
         .Now, .GetS3Object "bucket" "ssp/2024-09-20/00/a.csv",
         .ShouldRefresh "ModelResultFileIdentifier" "etag-a", .ReadContent "rows",
         .ClearLocalCache "a",
         .PutToLocalCache "a" "1" (.float32 Float32.zero),
         .PutToLocalCache "a" "1|x" (.float32 Float32.zero),
         .PutToLocalCache "a" "0" (.float32 Float32.zero),
         .Now, .GetS3Object "bucket" "ssp/2024-09-20/00/b.csv",
         .ShouldRefresh "ModelResultFileIdentifier" "etag-b", .ReadContent "rows",
         .ClearLocalCache "b",
         .PutToLocalCache "b" "1" (.float32 Float32.one),
         .PutToLocalCache "b" "1|x" (.float32 Float32.one),
         .PutToLocalCache "b" "0" (.float32 Float32.one)] ∧
    (((sampleModelResultHandler oneModelConfiguration).Load loaderLibrary
        "ssp").receiver.Load loaderLibrary "ssp").calls
      = [.Provide,
         .Now, .GetS3Object "bucket" "ssp/2024-09-20/00/a.csv",
         .ShouldRefresh "ModelResultFileIdentifier" "etag-a"] := by
  decide

/-- The shared key at work in a first load: when the result files of the models `a`
and `b` have the same `ETag`, the file of `b` is taken for one already loaded, its
body is not read, and the cache of `b` holds no row afterwards. -/
theorem load_skips_model_with_equal_fingerprint :
    (equalTagModelResultHandler.Load loaderLibrary "ssp").result = .ok none ∧
    (equalTagModelResultHandler.Load loaderLibrary "ssp").calls
      = [.Provide,
         .Now, .GetS3Object "bucket" "ssp/2024-09-20/00/a.csv",
         .ShouldRefresh "ModelResultFileIdentifier" "etag", .ReadContent "rows",
         .ClearLocalCache "a",
         .PutToLocalCache "a" "1" (.float32 Float32.zero),
         .PutToLocalCache "a" "1|x" (.float32 Float32.zero),
         .PutToLocalCache "a" "0" (.float32 Float32.zero),
         .Now, .GetS3Object "bucket" "ssp/2024-09-20/00/b.csv",
         .ShouldRefresh "ModelResultFileIdentifier" "etag"] ∧
    (equalTagModelResultHandler.Load loaderLibrary
        "ssp").receiver.localCacheFactory.GetFromLocalCache "b" "1" = none := by
  decide

theorem mem_readRecords (results : List (Except Error CsvRecord)) (record : CsvRecord) :
    record ∈ readRecords results ↔ .ok record ∈ results := by
  induction results with
  | nil => simp [readRecords]
  | cons result rest ih =>
    cases result with
    | error err =>
      simp only [readRecords, List.filterMap_cons, List.mem_cons, reduceCtorEq, false_or]
      exact ih
    | ok first =>
      simp only [readRecords, List.filterMap_cons, List.mem_cons, Except.ok.injEq]
      rw [show List.filterMap _ rest = readRecords rest from rfl, ih]

/-- A key is a record key exactly when some record read without an error has it
in its first column. -/
theorem mem_recordKeys (results : List (Except Error CsvRecord)) (key : String) :
    key ∈ recordKeys results ↔ ∃ record, .ok record ∈ results ∧ record.first = key := by
  unfold recordKeys
  simp only [List.mem_map, mem_readRecords]

/-- A task whose least delay is 2^62 ms and whose greatest delay is the greatest
`int64`: the product `2*currentDelay` before the third attempt is -2^63, so the
third delay is -9223372036854775808, where the lesser of twice the second delay
and the greatest delay is 9223372036854775807. -/
theorem submitTask_third_delay_wraps :
    (submitTask sampleLibrary 4 0 longDelayInitializerTask 0).events
      = [.Sleep 0, .Run, .Sleep 4611686018427387904, .Run,
         .Sleep (-9223372036854775808), .Run,
         .Send (some ("number of retries exceeded maxAttempts [3] for task " ++
           "ModelResultLoader due to error: load failed"))] ∧
    calculateDelay sampleLibrary 3 4611686018427387904 4611686018427387904
        9223372036854775807 = -9223372036854775808 ∧
    min (2 * 4611686018427387904) (9223372036854775807 : Int) = 9223372036854775807 ∧
    expectedDelay longDelayInitializerTask.MinDelayBeforeAttemptMs
        longDelayInitializerTask.MaxDelayBeforeAttemptMs 3 = 9223372036854775807 := by
  decide

/-- An integer that an `int64` holds is the `int64` of its low 64 bits. -/
theorem wrapInt64_of_inRange (n : Int) (hlow : -9223372036854775808 ≤ n)
    (hhigh : n < 9223372036854775808) : wrapInt64 n = n := by
  unfold wrapInt64
  omega

/-- A natural number below 2^53 is converted to `float64` without rounding. -/
theorem float64OfInt64_exact (n : Int) (hlow : 0 ≤ n) (hhigh : n < 9007199254740992) :
    float64OfInt64 n = n := by
  have hm : n.natAbs < 9007199254740992 := by omega
  have hneg : ¬ n < 0 := by omega
  have hexcess : excessBits 11 n.natAbs = 0 := by
    simp only [excessBits, hm, if_true]
  simp only [float64OfInt64, hexcess, pow_zero, Nat.div_one, Nat.mod_one, Nat.mul_zero,
    Nat.mul_one, hneg, if_false]
  have hcond : ¬ (1 < 0 ∨ (0 = 1 ∧ n.natAbs % 2 = 1)) := by omega
  rw [if_neg hcond]
  omega

/-- A delay of at most 9223372036854 ms is slept as that many milliseconds: the
product with 1000000 ns does not wrap. -/
theorem sleepDuration_exact (delay : Int) (hlow : 0 ≤ delay)
    (hhigh : delay ≤ 9223372036854) : sleepDuration delay = delay * 1000000 := by
  unfold sleepDuration
  exact wrapInt64_of_inRange _ (by omega) (by omega)

/-- The delays of the retry schedule lie between 0 and the bound of the least and
the greatest delay. -/
theorem expectedDelay_bounds (minDelay maxDelay bound : Int)
    (hmin : 0 ≤ minDelay ∧ minDelay ≤ bound) (hmax : 0 ≤ maxDelay ∧ maxDelay ≤ bound)
    (attempt : Nat) :
    0 ≤ expectedDelay minDelay maxDelay attempt ∧
      expectedDelay minDelay maxDelay attempt ≤ bound := by
  induction attempt using Nat.strong_induction_on with
  | _ attempt ih =>
    match attempt with
    | 0 => exact ⟨le_refl _, le_trans hmin.1 hmin.2⟩
    | 1 => exact ⟨le_refl _, le_trans hmin.1 hmin.2⟩
    | 2 => exact hmin
    | attempt + 3 =>
      have hprev := ih (attempt + 2) (by omega)
      simp only [expectedDelay]
      refine ⟨le_min (by omega) hmax.1, le_trans (min_le_right _ _) hmax.2⟩

/-- With the least and the greatest delay between 0 and 9223372036854 ms,
`calculateDelay` maps the delay of the retry schedule before one attempt to the
delay before the next. -/
theorem calculateDelay_expectedDelay (lib : Library) (minDelay maxDelay : Int)
    (hmin : 0 ≤ minDelay ∧ minDelay ≤ 9223372036854)
    (hmax : 0 ≤ maxDelay ∧ maxDelay ≤ 9223372036854) (attempt : Nat) :
    calculateDelay lib ((attempt : Int) + 1) (expectedDelay minDelay maxDelay attempt)
        minDelay maxDelay
      = expectedDelay minDelay maxDelay (attempt + 1) := by
  match attempt with
  | 0 => simp [calculateDelay, expectedDelay]
  | 1 => simp [calculateDelay, expectedDelay]
  | attempt + 2 =>
    have hprev := expectedDelay_bounds minDelay maxDelay 9223372036854 hmin hmax (attempt + 2)
    have h1 : ¬ (((attempt + 2 : Nat) : Int) + 1 = 1) := by omega
    have h2 : ¬ (((attempt + 2 : Nat) : Int) + 1 = 2) := by omega
    simp only [calculateDelay, h1, h2, if_false]
    rw [wrapInt64_of_inRange _ (by omega) (by omega),
      float64OfInt64_exact _ (by omega) (by omega),
      float64OfInt64_exact _ hmax.1 (by omega)]
    have hvalue : mathMin (2 * expectedDelay minDelay maxDelay (attempt + 2)) maxDelay
        = min (2 * expectedDelay minDelay maxDelay (attempt + 2)) maxDelay := by
      unfold mathMin
      by_cases h : 2 * expectedDelay minDelay maxDelay (attempt + 2) < maxDelay
      · rw [if_pos h, min_eq_left (le_of_lt h)]
      · rw [if_neg h, min_eq_right (not_lt.mp h)]
    rw [hvalue]
    have hrange : -9223372036854775808 ≤
          min (2 * expectedDelay minDelay maxDelay (attempt + 2)) maxDelay ∧
        min (2 * expectedDelay minDelay maxDelay (attempt + 2)) maxDelay
          < 9223372036854775808 :=
      ⟨le_trans (by omega) (le_min (show (0 : Int) ≤ _ by omega) hmax.1),
        lt_of_le_of_lt (min_le_right _ _) (by omega)⟩
    simp only [int64OfFloat64, hrange, and_self, if_true]
    rfl

/-- The retry schedule of the tests: with 100 ms at least and 1000 ms at most the
delays are 0, 100, 200, 400, 800 and then 1000 for every later attempt. -/
theorem expectedDelay_of_tests (attempt : Nat) :
    expectedDelay 100 1000 (attempt + 1) = [0, 100, 200, 400, 800].getD attempt 1000 := by
  have hlate : ∀ k : Nat, expectedDelay 100 1000 (k + 6) = 1000 := by
    intro k
    induction k with
    | zero => decide
    | succ k ih =>
      show min (2 * expectedDelay 100 1000 (k + 6)) 1000 = 1000
      rw [ih]
      decide
  match attempt with
  | 0 => decide
  | 1 => decide
  | 2 => decide
  | 3 => decide
  | 4 => decide
  | attempt + 5 =>
    rw [hlate attempt]
    simp

/-- Events of the loop of `submitTask` from the head of an iteration at which the
counter and the delay are those of the retry schedule: some number of failed
attempts, each after the delay of the schedule, and then at most one send. -/
theorem submitLoop_events {σ : Type} (lib : Library) (task : InitializerTask σ)
    (hmin : 0 ≤ task.MinDelayBeforeAttemptMs ∧ task.MinDelayBeforeAttemptMs ≤ 9223372036854)
    (hmax : 0 ≤ task.MaxDelayBeforeAttemptMs ∧ task.MaxDelayBeforeAttemptMs ≤ 9223372036854)
    (fuel : Nat) :
    ∀ (attempt : Nat) (err : Option Error) (s : σ), attempt + fuel ≤ 9223372036854775807 →
      ∃ (attempts : Nat) (tail : List TaskEvent),
        (submitLoop lib task fuel (attempt : Int)
            (expectedDelay task.MinDelayBeforeAttemptMs task.MaxDelayBeforeAttemptMs attempt)
            err s).events
          = expectedEvents task.MinDelayBeforeAttemptMs task.MaxDelayBeforeAttemptMs
              (attempt + 1) attempts ++ tail ∧
        attempts ≤ fuel ∧ (tail = [] ∨ ∃ result, tail = [.Send result]) := by
  induction fuel with
  | zero =>
    intro attempt err s _
    exact ⟨0, [], rfl, le_refl _, Or.inl rfl⟩
  | succ fuel ih =>
    intro attempt err s hfuel
    have hwrap : wrapInt64 ((attempt : Int) + 1) = ((attempt + 1 : Nat) : Int) := by
      rw [wrapInt64_of_inRange _ (by omega) (by omega)]
      rfl
    simp only [submitLoop, hwrap]
    by_cases hover : ((attempt + 1 : Nat) : Int) > task.MaximumAttempts
    · rw [if_pos hover]
      exact ⟨0, _, rfl, Nat.zero_le _, Or.inr ⟨_, rfl⟩⟩
    · rw [if_neg hover]
      have hdelay := calculateDelay_expectedDelay lib task.MinDelayBeforeAttemptMs
        task.MaxDelayBeforeAttemptMs hmin hmax attempt
      have hcast : ((attempt + 1 : Nat) : Int) = (attempt : Int) + 1 := rfl
      rw [hcast, hdelay]
      cases hran : (task.Task.Run s).2 with
      | none =>
        exact ⟨1, [.Send none], rfl, by omega, Or.inr ⟨_, rfl⟩⟩
      | some failure =>
        obtain ⟨attempts, tail, hevents, hle, htail⟩ :=
          ih (attempt + 1) (some failure) (task.Task.Run s).1 (by omega)
        refine ⟨attempts + 1, tail, ?_, by omega, htail⟩
        simp only []
        rw [← hcast, hevents]
        rfl

/-- C30: for a task whose least and greatest delay lie between 0 and 9223372036854
ms, the greatest number of milliseconds a `time.Duration` holds, the events of
`submitTask` during its first 2^63 - 1 iterations are attempts 1, 2, 3, ... each
after a sleep of the delay of the retry schedule (0, then the least delay, then the
lesser of twice the delay before and the greatest delay), followed by at most one
send; every such delay is slept as that many milliseconds; and with 100 ms at least
and 1000 ms at most the delays are 0, 100, 200, 400, 800 and 1000 from the sixth
attempt on. -/
theorem submitTask_delays_follow_schedule {σ : Type} (lib : Library)
    (task : InitializerTask σ) (s : σ) (started : Int) (fuel : Nat)
    (hfuel : fuel ≤ 9223372036854775807)
    (hmin : 0 ≤ task.MinDelayBeforeAttemptMs ∧ task.MinDelayBeforeAttemptMs ≤ 9223372036854)
    (hmax : 0 ≤ task.MaxDelayBeforeAttemptMs ∧ task.MaxDelayBeforeAttemptMs ≤ 9223372036854) :
    (∃ (attempts : Nat) (tail : List TaskEvent),
      (submitTask lib fuel started task s).events
        = expectedEvents task.MinDelayBeforeAttemptMs task.MaxDelayBeforeAttemptMs 1 attempts
            ++ tail ∧
      attempts ≤ fuel ∧ (tail = [] ∨ ∃ result, tail = [.Send result])) ∧
    (∀ attempt : Nat,
      sleepDuration
          (expectedDelay task.MinDelayBeforeAttemptMs task.MaxDelayBeforeAttemptMs attempt)
        = expectedDelay task.MinDelayBeforeAttemptMs task.MaxDelayBeforeAttemptMs attempt
            * 1000000) ∧
    (task.MinDelayBeforeAttemptMs = 100 → task.MaxDelayBeforeAttemptMs = 1000 →
      ∀ attempt : Nat,
        expectedDelay task.MinDelayBeforeAttemptMs task.MaxDelayBeforeAttemptMs (attempt + 1)
          = [0, 100, 200, 400, 800].getD attempt 1000) := by
  refine ⟨?_, ?_, ?_⟩
  · exact submitLoop_events lib task hmin hmax fuel 0 none s (by omega)
  · intro attempt
    have hbounds := expectedDelay_bounds task.MinDelayBeforeAttemptMs
      task.MaxDelayBeforeAttemptMs 9223372036854 hmin hmax attempt
    exact sleepDuration_exact _ hbounds.1 hbounds.2
  · intro h100 h1000 attempt
    rw [h100, h1000]
    exact expectedDelay_of_tests attempt

/-- The task of the tests, which fails seven times: the attempts follow sleeps of 0,
100, 200, 400, 800, 1000 and 1000 ms, and one error is sent. -/
theorem submitTask_delays_follow_schedule_witness :
    (0 ≤ sampleInitializerTask.MinDelayBeforeAttemptMs ∧
      sampleInitializerTask.MinDelayBeforeAttemptMs ≤ 9223372036854) ∧
    (0 ≤ sampleInitializerTask.MaxDelayBeforeAttemptMs ∧
      sampleInitializerTask.MaxDelayBeforeAttemptMs ≤ 9223372036854) ∧
    (submitTask sampleLibrary 8 0 sampleInitializerTask 0).events
      = [.Sleep 0, .Run, .Sleep 100, .Run, .Sleep 200, .Run, .Sleep 400, .Run,
         .Sleep 800, .Run, .Sleep 1000, .Run, .Sleep 1000, .Run,
         .Send (some ("number of retries exceeded maxAttempts [7] for task " ++
           "ModelResultLoader due to error: load failed"))] ∧
    expectedEvents 100 1000 1 7
      = [.Sleep 0, .Run, .Sleep 100, .Run, .Sleep 200, .Run, .Sleep 400, .Run,
         .Sleep 800, .Run, .Sleep 1000, .Run, .Sleep 1000, .Run] ∧
    (∀ attempt : Nat,
      sleepDuration (expectedDelay sampleInitializerTask.MinDelayBeforeAttemptMs
          sampleInitializerTask.MaxDelayBeforeAttemptMs attempt)
        = expectedDelay sampleInitializerTask.MinDelayBeforeAttemptMs
            sampleInitializerTask.MaxDelayBeforeAttemptMs attempt * 1000000) :=
  ⟨by decide, by decide, by decide, by decide,
    (submitTask_delays_follow_schedule sampleLibrary sampleInitializerTask 0 0 8 (by decide)
      (by decide) (by decide)).2.1⟩

/-! ### Attempts of a task -/

/-- The low 64 bits of an integer are an `int64`. -/
theorem wrapInt64_range (n : Int) :
    -9223372036854775808 ≤ wrapInt64 n ∧ wrapInt64 n ≤ 9223372036854775807 := by
  unfold wrapInt64
  omega

/-- With the greatest `int` as the number of attempts the test
`attemptCount > maxAttempts` never holds: while `Run` fails the loop of `submitTask`
goes on, whatever the counter, and sends nothing. -/
theorem submitLoop_endless (lib : Library) (fuel : Nat) :
    ∀ (attemptCount delay : Int) (err : Option Error) (s : Nat),
      (submitLoop lib endlessInitializerTask fuel attemptCount delay err s).returned = false ∧
      withoutSleeps (submitLoop lib endlessInitializerTask fuel attemptCount delay err s).events
        = List.replicate fuel .Run := by
  induction fuel with
  | zero =>
    intro attemptCount delay err s
    exact ⟨rfl, rfl⟩
  | succ fuel ih =>
    intro attemptCount delay err s
    have hrange := (wrapInt64_range (attemptCount + 1)).2
    have hnot : ¬ wrapInt64 (attemptCount + 1) > endlessInitializerTask.MaximumAttempts := by
      show ¬ wrapInt64 (attemptCount + 1) > 9223372036854775807
      omega
    have hrun : (endlessInitializerTask.Task.Run s).2 = some "load failed" := rfl
    simp only [submitLoop, if_neg hnot, hrun]
    obtain ⟨hreturned, hevents⟩ := ih (wrapInt64 (attemptCount + 1))
      (calculateDelay lib (wrapInt64 (attemptCount + 1)) delay
        endlessInitializerTask.MinDelayBeforeAttemptMs
        endlessInitializerTask.MaxDelayBeforeAttemptMs)
      (some "load failed") (endlessInitializerTask.Task.Run s).1
    refine ⟨hreturned, ?_⟩
    simp only [withoutSleeps, List.filter_cons, List.replicate_succ] at hevents ⊢
    simp only [if_true, Bool.false_eq_true, if_false]
    rw [hevents]

/-- C31 (the code at the failing input): with the greatest `int` as
`MaximumAttempts` and a `Run` that fails every time, the counter wraps before it
can exceed the maximum: after any number of iterations of its loop `submitTask`
has not returned, has invoked `Run` once in each iteration, so more than
`MaximumAttempts` times in the end, and has sent no result. -/
theorem submitTask_never_returns_at_greatest_maximum :
    endlessInitializerTask.MaximumAttempts = 9223372036854775807 ∧
    ∀ fuel : Nat,
      (submitTask sampleLibrary fuel 0 endlessInitializerTask 0).returned = false ∧
      withoutSleeps (submitTask sampleLibrary fuel 0 endlessInitializerTask 0).events
        = List.replicate fuel .Run :=
  ⟨rfl, fun fuel => submitLoop_endless sampleLibrary fuel 0 0 none 0⟩

/-- The loop of `submitTask` from the head of an iteration with `remaining`
attempts left, the counter short of the greatest `int`: it returns within
`remaining + 1` iterations, having invoked `Run` until the first nil or
`remaining` times, and having sent one result at the end. -/
theorem submitLoop_attempts {σ : Type} (lib : Library) (task : InitializerTask σ)
    (hmax : task.MaximumAttempts < 9223372036854775807) (remaining : Nat) :
    ∀ (fuel : Nat) (attemptCount delay : Int) (err : Option Error) (s : σ),
      (task.MaximumAttempts - attemptCount).toNat = remaining →
      0 ≤ attemptCount → attemptCount < 9223372036854775807 → remaining + 1 ≤ fuel →
      (submitLoop lib task fuel attemptCount delay err s).returned = true ∧
      ∃ (runs : Nat) (result : Option Error),
        withoutSleeps (submitLoop lib task fuel attemptCount delay err s).events
          = List.replicate runs .Run ++ [.Send result] ∧
        runs ≤ remaining ∧
        (∀ i : Nat, i + 1 < runs →
          ∃ failure, (runOutcomes task.Task remaining s)[i]? = some (some failure)) ∧
        (result = none →
          0 < runs ∧ (runOutcomes task.Task remaining s)[runs - 1]? = some none) ∧
        (result ≠ none →
          runs = remaining ∧ ∀ i : Nat, i < remaining →
            ∃ failure, (runOutcomes task.Task remaining s)[i]? = some (some failure)) := by
  induction remaining with
  | zero =>
    intro fuel attemptCount delay err s hleft hlow hhigh hfuel
    obtain ⟨fuel, rfl⟩ : ∃ k, fuel = k + 1 := ⟨fuel - 1, by omega⟩
    have hwrap : wrapInt64 (attemptCount + 1) = attemptCount + 1 :=
      wrapInt64_of_inRange _ (by omega) (by omega)
    have hover : attemptCount + 1 > task.MaximumAttempts := by omega
    simp only [submitLoop, hwrap, if_pos hover]
    refine ⟨trivial, 0, _, rfl, le_refl _, ?_, ?_, ?_⟩
    · intro i hi
      omega
    · intro h
      cases h
    · intro _
      exact ⟨rfl, fun i hi => by omega⟩
  | succ remaining ih =>
    intro fuel attemptCount delay err s hleft hlow hhigh hfuel
    obtain ⟨fuel, rfl⟩ : ∃ k, fuel = k + 1 := ⟨fuel - 1, by omega⟩
    have hwrap : wrapInt64 (attemptCount + 1) = attemptCount + 1 :=
      wrapInt64_of_inRange _ (by omega) (by omega)
    have hover : ¬ attemptCount + 1 > task.MaximumAttempts := by omega
    simp only [submitLoop, hwrap, if_neg hover]
    cases hran : (task.Task.Run s).2 with
    | none =>
      refine ⟨rfl, 1, none, rfl, by omega, ?_, ?_, ?_⟩
      · intro i hi
        omega
      · intro _
        refine ⟨by omega, ?_⟩
        simp only [runOutcomes, hran, Nat.sub_self, List.getElem?_cons_zero]
      · intro h
        exact absurd rfl h
    | some failure =>
      obtain ⟨hreturned, runs, result, hevents, hle, hbefore, hnil, herror⟩ :=
        ih fuel (attemptCount + 1)
          (calculateDelay lib (attemptCount + 1) delay task.MinDelayBeforeAttemptMs
            task.MaxDelayBeforeAttemptMs)
          (some failure) (task.Task.Run s).1 (by omega) (by omega) (by omega) (by omega)
      refine ⟨hreturned, runs + 1, result, ?_, by omega, ?_, ?_, ?_⟩
      · simp only [withoutSleeps, List.filter_cons, List.replicate_succ, List.cons_append]
          at hevents ⊢
        simp only [if_true, Bool.false_eq_true, if_false]
        rw [hevents]
      · intro i hi
        cases i with
        | zero =>
          exact ⟨failure, by simp only [runOutcomes, hran, List.getElem?_cons_zero]⟩
        | succ i =>
          obtain ⟨failure1, hfailure1⟩ := hbefore i (by omega)
          exact ⟨failure1, by simp only [runOutcomes, List.getElem?_cons_succ, hfailure1]⟩
      · intro hresult
        obtain ⟨hpos, hlast⟩ := hnil hresult
        refine ⟨by omega, ?_⟩
        obtain ⟨k, rfl⟩ : ∃ k, runs = k + 1 := ⟨runs - 1, by omega⟩
        simp only [Nat.add_sub_cancel] at hlast ⊢
        simp only [runOutcomes, List.getElem?_cons_succ, hlast]
      · intro hresult
        obtain ⟨hruns, hall⟩ := herror hresult
        refine ⟨by omega, ?_⟩
        intro i hi
        cases i with
        | zero =>
          exact ⟨failure, by simp only [runOutcomes, hran, List.getElem?_cons_zero]⟩
        | succ i =>
          obtain ⟨failure1, hfailure1⟩ := hall i (by omega)
          exact ⟨failure1, by simp only [runOutcomes, List.getElem?_cons_succ, hfailure1]⟩

/-- C31: for a task whose `MaximumAttempts` is `n`, below the greatest `int`, and
for every sequence of `Run` outcomes, `submitTask` returns within `n + 1`
iterations of its loop (one when `n ≤ 0`). Up to its return it has invoked `Run`
at most `n` times, every invocation but the last having failed, and has then sent
exactly one result: nil after a `Run` that returned nil, and an error if and only
if each of the first `n` invocations fails, in which case `Run` was invoked `n`
times; for `n ≤ 0` it invokes `Run` never and sends an error. -/
theorem submitTask_attempts_bounded {σ : Type} (lib : Library) (task : InitializerTask σ)
    (s : σ) (started : Int) (fuel : Nat)
    (hmax : task.MaximumAttempts < 9223372036854775807)
    (hfuel : task.MaximumAttempts.toNat + 1 ≤ fuel) :
    (submitTask lib fuel started task s).returned = true ∧
    ∃ (runs : Nat) (result : Option Error),
      withoutSleeps (submitTask lib fuel started task s).events
        = List.replicate runs .Run ++ [.Send result] ∧
      runs ≤ task.MaximumAttempts.toNat ∧
      (∀ i : Nat, i + 1 < runs →
        ∃ failure,
          (runOutcomes task.Task task.MaximumAttempts.toNat s)[i]? = some (some failure)) ∧
      (result = none →
        0 < runs ∧
        (runOutcomes task.Task task.MaximumAttempts.toNat s)[runs - 1]? = some none) ∧
      (result ≠ none ↔
        ∀ i : Nat, i < task.MaximumAttempts.toNat →
          ∃ failure,
            (runOutcomes task.Task task.MaximumAttempts.toNat s)[i]? = some (some failure)) ∧
      (result ≠ none → runs = task.MaximumAttempts.toNat) ∧
      (task.MaximumAttempts ≤ 0 → runs = 0 ∧ result ≠ none) := by
  obtain ⟨hreturned, runs, result, hevents, hle, hbefore, hnil, herror⟩ :=
    submitLoop_attempts lib task hmax task.MaximumAttempts.toNat fuel 0 0 none s
      (by omega) (le_refl _) (by omega) hfuel
  refine ⟨hreturned, runs, result, hevents, hle, hbefore, hnil, ?_, ?_, ?_⟩
  · constructor
    · intro hresult
      exact (herror hresult).2
    · intro hall hresult
      obtain ⟨hpos, hlast⟩ := hnil hresult
      obtain ⟨failure, hfailure⟩ := hall (runs - 1) (by omega)
      rw [hlast] at hfailure
      cases hfailure
  · intro hresult
    exact (herror hresult).1
  · intro hnone
    have hzero : task.MaximumAttempts.toNat = 0 := by omega
    have hruns : runs = 0 := by omega
    refine ⟨hruns, ?_⟩
    intro hresult
    obtain ⟨hpos, _⟩ := hnil hresult
    omega

/-- A task of five attempts whose `Run` fails twice and then returns nil: three
invocations, then nil is sent; and the task of seven attempts whose `Run` fails
every time: seven invocations, then an error is sent. -/
theorem submitTask_attempts_bounded_witness :
    recoveringInitializerTask.MaximumAttempts < 9223372036854775807 ∧
    recoveringInitializerTask.MaximumAttempts.toNat + 1 ≤ 6 ∧
    (submitTask sampleLibrary 6 0 recoveringInitializerTask 0).returned = true ∧
    (submitTask sampleLibrary 6 0 recoveringInitializerTask 0).events
      = [.Sleep 0, .Run, .Sleep 1000, .Run, .Sleep 2000, .Run, .Send none] ∧
    withoutSleeps (submitTask sampleLibrary 8 0 sampleInitializerTask 0).events
      = List.replicate 7 .Run ++
          [.Send (some ("number of retries exceeded maxAttempts [7] for task " ++
            "ModelResultLoader due to error: load failed"))] :=
  ⟨by decide, by decide,
    (submitTask_attempts_bounded sampleLibrary recoveringInitializerTask 0 0 6 (by decide)
      (by decide)).1,
    by decide, by decide⟩

/-! ### Chains of transformers -/

theorem resolveTransformers_eq_resolveTransformersIn (names : List String)
    (transformers : List Transformer) :
    resolveTransformers names transformers
      = resolveTransformersIn TransformerMap names transformers := by
  induction names generalizing transformers with
  | nil => rfl
  | cons name rest ih =>
    simp only [resolveTransformers, resolveTransformersIn]
    cases TransformerMap.get? name with
    | none => rfl
    | some transformer => exact ih _

/-- `Transform` is `TransformIn` at the map the package starts with. -/
theorem transform_eq_transformIn (feature : ModelFeature) :
    Transform feature = TransformIn TransformerMap feature := by
  simp only [Transform, TransformIn, resolveTransformers_eq_resolveTransformersIn]

/-- With every name registered, the first loop of `Transform` appends the named
transformers in the order of the names. -/
theorem resolveTransformersIn_of_registered (transformerMap : GoMap String Transformer)
    (names : List String) (transformers : List Transformer)
    (hregistered : ∀ name ∈ names, transformerMap.get? name ≠ none) :
    ∃ named : List Transformer,
      resolveTransformersIn transformerMap names transformers = .ok (transformers ++ named) ∧
      names.map transformerMap.get? = named.map some := by
  induction names generalizing transformers with
  | nil => exact ⟨[], by simp [resolveTransformersIn], rfl⟩
  | cons name rest ih =>
    cases hget : transformerMap.get? name with
    | none => exact absurd hget (hregistered name (List.mem_cons_self _ _))
    | some transformer =>
      obtain ⟨named, hnamed, hmap⟩ := ih (transformers ++ [transformer])
        (fun name1 hname1 => hregistered name1 (List.mem_cons_of_mem _ hname1))
      refine ⟨transformer :: named, ?_, ?_⟩
      · simp only [resolveTransformersIn, hget, hnamed, List.append_assoc, List.singleton_append]
      · simp only [List.map_cons, hget, hmap]

/-- The second loop of `Transform` is the chain of the transformers: each is applied
to what the one before returned, and the first error ends the chain. -/
theorem runTransformers_eq_chain (transformers : List Transformer) (feature : ModelFeature) :
    runTransformers transformers feature
      = match transformers.foldl (fun result transformer => result.bind transformer)
          (Except.ok feature) with
        | .ok out => .ok out
        | .error err =>
          .error ("transformer fail to transform the feature due to error " ++ err) := by
  have herror : ∀ (rest : List Transformer) (err : Error),
      rest.foldl (fun result transformer => result.bind transformer)
        (Except.error err : Except Error ModelFeature) = .error err := by
    intro rest err
    induction rest with
    | nil => rfl
    | cons transformer rest ih => exact ih
  induction transformers generalizing feature with
  | nil => rfl
  | cons transformer rest ih =>
    simp only [runTransformers, List.foldl_cons]
    cases hstep : transformer feature with
    | error err =>
      have hbind : (Except.ok feature : Except Error ModelFeature).bind transformer
          = .error err := hstep
      rw [hbind, herror]
    | ok next =>
      have hbind : (Except.ok feature : Except Error ModelFeature).bind transformer
          = .ok next := hstep
      rw [hbind]
      exact ih next

/-- C32: let every transformer name of a feature be registered in `TransformerMap`
(whatever map the variable holds). Then `Transform` runs the named transformers in
the order of the list, the first on the input feature and each later one on the
whole feature the one before returned: when all succeed it returns the last output,
and when one returns an error it returns an error that carries that error and no
feature, without running the later ones. With no names it returns the input
feature unchanged. -/
theorem transform_chains_named_transformers (transformerMap : GoMap String Transformer)
    (feature : ModelFeature)
    (hregistered : ∀ name ∈ feature.Configuration.Transformations,
      transformerMap.get? name ≠ none) :
    (∃ named : List Transformer,
      feature.Configuration.Transformations.map transformerMap.get? = named.map some ∧
      (∀ out : ModelFeature,
        named.foldl (fun result transformer => result.bind transformer) (Except.ok feature)
          = .ok out →
        TransformIn transformerMap feature = .ok out) ∧
      (∀ err : Error,
        named.foldl (fun result transformer => result.bind transformer) (Except.ok feature)
          = .error err →
        TransformIn transformerMap feature
          = .error ("transformer fail to transform the feature due to error " ++ err))) ∧
    (feature.Configuration.Transformations = [] →
      TransformIn transformerMap feature = .ok feature) ∧
    Transform feature = TransformIn TransformerMap feature := by
  obtain ⟨named, hnamed, hmap⟩ := resolveTransformersIn_of_registered transformerMap
    feature.Configuration.Transformations [] hregistered
  rw [List.nil_append] at hnamed
  have hrun : TransformIn transformerMap feature = runTransformers named feature := by
    simp only [TransformIn, hnamed]
  refine ⟨⟨named, hmap, ?_, ?_⟩, ?_, transform_eq_transformIn feature⟩
  · intro out hout
    rw [hrun, runTransformers_eq_chain, hout]
  · intro err herr
    rw [hrun, runTransformers_eq_chain, herr]
  · intro hempty
    simp only [TransformIn, hempty, resolveTransformersIn, runTransformers]

/-- The transformer map of the tests: `transformer1` and then `transformer2` turn
the values `[initial]` into `[initial, 1, 2]`; with the failing `transformer3`
between them the error of `transformer3` is returned; and with no names the
feature comes back as it was. -/
theorem transform_chains_named_transformers_witness :
    (∀ name ∈ (initialFeature ["transformer1", "transformer2"]).Configuration.Transformations,
      testTransformerMap.get? name ≠ none) ∧
    TransformIn testTransformerMap (initialFeature ["transformer1", "transformer2"])
      = .ok { Configuration := (initialFeature ["transformer1", "transformer2"]).Configuration,
              Values := ["initial", "1", "2"] } ∧
    TransformIn testTransformerMap
        (initialFeature ["transformer1", "transformer3", "transformer2"])
      = .error ("transformer fail to transform the feature due to error transformer3 error") ∧
    TransformIn testTransformerMap (initialFeature []) = .ok (initialFeature []) :=
  ⟨by
      intro name hname
      simp only [initialFeature, List.mem_cons, List.mem_singleton, List.not_mem_nil,
        or_false] at hname
      rcases hname with h | h <;> subst h <;> simp [testTransformerMap, GoMap.get?],
    rfl, rfl,
    (transform_chains_named_transformers testTransformerMap (initialFeature [])
      (by intro name hname; simp [initialFeature] at hname)).2.1 rfl⟩

/-! ### The unique feature fields -/

theorem GoMap.keys_set_nodup {κ ν : Type} [DecidableEq κ] (m : GoMap κ ν) (k : κ) (v : ν)
    (h : m.keys.Nodup) : (m.set k v).keys.Nodup := by
  induction m with
  | nil => simp [GoMap.set, GoMap.keys]
  | cons e rest ih =>
    obtain ⟨k0, v0⟩ := e
    simp only [GoMap.keys, List.map_cons, List.nodup_cons] at h
    simp only [GoMap.set]
    by_cases h0 : k0 = k
    · simp only [h0, if_true, GoMap.keys, List.map_cons, List.nodup_cons]
      rw [← h0]
      exact h
    · simp only [h0, if_false, GoMap.keys, List.map_cons, List.nodup_cons]
      refine ⟨?_, ih h.2⟩
      intro hmem
      have hmem1 : k0 ∈ (GoMap.set rest k v).keys := hmem
      rw [GoMap.mem_keys_set] at hmem1
      rcases hmem1 with h1 | h1
      · exact h0 h1
      · exact h.1 h1

/-- Innermost loop of `GetAllUniqueFeatureFields`: the set gains the fields of one
feature and keeps one entry for each key. -/
theorem uniqueFields_of_fields (fields : List String) :
    ∀ acc : GoMap String Unit, acc.keys.Nodup →
      (fields.foldl (fun uniqueFields field => GoMap.set uniqueFields field ()) acc).keys.Nodup ∧
      ∀ f : String,
        f ∈ (fields.foldl (fun uniqueFields field => GoMap.set uniqueFields field ()) acc).keys
          ↔ f ∈ acc.keys ∨ f ∈ fields := by
  induction fields with
  | nil =>
    intro acc hacc
    exact ⟨hacc, fun f => by simp⟩
  | cons field rest ih =>
    intro acc hacc
    obtain ⟨hnodup, hmem⟩ := ih (GoMap.set acc field ()) (GoMap.keys_set_nodup acc field () hacc)
    refine ⟨hnodup, ?_⟩
    intro f
    simp only [List.foldl_cons]
    rw [hmem f, GoMap.mem_keys_set, List.mem_cons]
    constructor
    · rintro ((h | h) | h)
      · exact Or.inr (Or.inl h)
      · exact Or.inl h
      · exact Or.inr (Or.inr h)
    · rintro (h | h | h)
      · exact Or.inl (Or.inr h)
      · exact Or.inl (Or.inl h)
      · exact Or.inr h

/-- Middle loop of `GetAllUniqueFeatureFields`, over the features of one model. -/
theorem uniqueFields_of_features (features : List FeatureConfiguration) :
    ∀ acc : GoMap String Unit, acc.keys.Nodup →
      (features.foldl (fun uniqueFields feature =>
        feature.Fields.foldl (fun uniqueFields field => GoMap.set uniqueFields field ())
          uniqueFields) acc).keys.Nodup ∧
      ∀ f : String,
        f ∈ (features.foldl (fun uniqueFields feature =>
          feature.Fields.foldl (fun uniqueFields field => GoMap.set uniqueFields field ())
            uniqueFields) acc).keys
          ↔ f ∈ acc.keys ∨ ∃ feature ∈ features, f ∈ feature.Fields := by
  induction features with
  | nil =>
    intro acc hacc
    exact ⟨hacc, fun f => by simp⟩
  | cons feature rest ih =>
    intro acc hacc
    obtain ⟨hnodup0, hmem0⟩ := uniqueFields_of_fields feature.Fields acc hacc
    obtain ⟨hnodup, hmem⟩ := ih _ hnodup0
    refine ⟨hnodup, ?_⟩
    intro f
    simp only [List.foldl_cons]
    rw [hmem f, hmem0 f]
    constructor
    · rintro ((h | h) | ⟨feature1, hfeature1, h⟩)
      · exact Or.inl h
      · exact Or.inr ⟨feature, List.mem_cons_self _ _, h⟩
      · exact Or.inr ⟨feature1, List.mem_cons_of_mem _ hfeature1, h⟩
    · rintro (h | ⟨feature1, hfeature1, h⟩)
      · exact Or.inl (Or.inl h)
      · rcases List.mem_cons.1 hfeature1 with h1 | h1
        · subst h1
          exact Or.inl (Or.inr h)
        · exact Or.inr ⟨feature1, h1, h⟩

/-- Outer loop of `GetAllUniqueFeatureFields`, over the models. -/
theorem uniqueFields_of_models (entries : List (String × ModelDefinition)) :
    ∀ acc : GoMap String Unit, acc.keys.Nodup →
      (entries.foldl (fun uniqueFields entry =>
        entry.2.Features.foldl (fun uniqueFields feature =>
          feature.Fields.foldl (fun uniqueFields field => GoMap.set uniqueFields field ())
            uniqueFields) uniqueFields) acc).keys.Nodup ∧
      ∀ f : String,
        f ∈ (entries.foldl (fun uniqueFields entry =>
          entry.2.Features.foldl (fun uniqueFields feature =>
            feature.Fields.foldl (fun uniqueFields field => GoMap.set uniqueFields field ())
              uniqueFields) uniqueFields) acc).keys
          ↔ f ∈ acc.keys ∨
            ∃ entry ∈ entries, ∃ feature ∈ entry.2.Features, f ∈ feature.Fields := by
  induction entries with
  | nil =>
    intro acc hacc
    exact ⟨hacc, fun f => by simp⟩
  | cons entry rest ih =>
    intro acc hacc
    obtain ⟨hnodup0, hmem0⟩ := uniqueFields_of_features entry.2.Features acc hacc
    obtain ⟨hnodup, hmem⟩ := ih _ hnodup0
    refine ⟨hnodup, ?_⟩
    intro f
    simp only [List.foldl_cons]
    rw [hmem f, hmem0 f]
    constructor
    · rintro ((h | h) | ⟨entry1, hentry1, h⟩)
      · exact Or.inl h
      · exact Or.inr ⟨entry, List.mem_cons_self _ _, h⟩
      · exact Or.inr ⟨entry1, List.mem_cons_of_mem _ hentry1, h⟩
    · rintro (h | ⟨entry1, hentry1, h⟩)
      · exact Or.inl (Or.inl h)
      · rcases List.mem_cons.1 hentry1 with h1 | h1
        · subst h1
          exact Or.inl (Or.inr h)
        · exact Or.inr ⟨entry1, h1, h⟩

/-- The keys of the set of unique fields: no key twice, and exactly the fields of
the features of the models. -/
theorem collectUniqueFields_keys (modelConfig : ModelConfiguration) :
    (ModelConfigurationHandler.collectUniqueFields modelConfig).keys.Nodup ∧
    ∀ f : String,
      f ∈ (ModelConfigurationHandler.collectUniqueFields modelConfig).keys
        ↔ ∃ entry ∈ modelConfig.ModelDefinitionByIdentifier,
            ∃ feature ∈ entry.2.Features, f ∈ feature.Fields := by
  obtain ⟨hnodup, hmem⟩ :=
    uniqueFields_of_models modelConfig.ModelDefinitionByIdentifier [] List.nodup_nil
  refine ⟨hnodup, ?_⟩
  intro f
  have h := hmem f
  simp only [GoMap.keys, List.map_nil, List.not_mem_nil, false_or] at h
  exact h

/-- C34: when `Provide` returns the model configuration,
`GetAllUniqueFeatureFields` returns, without an error, a list that holds no field
twice and holds a field path exactly when it occurs in some feature of some model
of that configuration; when `Provide` returns an error it returns an error that
wraps it and an empty (nil) list. -/
theorem getAllUniqueFeatureFields_lists_each_field_once (t : ModelConfigurationHandler) :
    (∀ modelConfig : ModelConfiguration,
      t.Provide = .ok (some modelConfig, none) →
      ∃ fields : List String,
        t.GetAllUniqueFeatureFields = .ok (fields, none) ∧
        fields.Nodup ∧
        (∀ f : String, f ∈ fields
          ↔ ∃ entry ∈ modelConfig.ModelDefinitionByIdentifier,
              ∃ feature ∈ entry.2.Features, f ∈ feature.Fields) ∧
        (∀ f : String, fields.count f
          = if ∃ entry ∈ modelConfig.ModelDefinitionByIdentifier,
                ∃ feature ∈ entry.2.Features, f ∈ feature.Fields then 1 else 0)) ∧
    (∀ (modelConfig : Option ModelConfiguration) (err : Error),
      t.Provide = .ok (modelConfig, some err) →
      t.GetAllUniqueFeatureFields
        = .ok ([], some ("error getting ModelDefinition from local cache [Configuration] " ++
            "with Key [ModelConfiguration]: " ++ err))) := by
  constructor
  · intro modelConfig hprovide
    have hprovide1 : t.configurationHandler.Provide = .ok (some modelConfig, none) := hprovide
    obtain ⟨hnodup, hmem⟩ := collectUniqueFields_keys modelConfig
    refine ⟨_, by simp only [ModelConfigurationHandler.GetAllUniqueFeatureFields, hprovide1],
      hnodup, hmem, ?_⟩
    intro f
    by_cases hf : ∃ entry ∈ modelConfig.ModelDefinitionByIdentifier,
        ∃ feature ∈ entry.2.Features, f ∈ feature.Fields
    · rw [if_pos hf]
      exact List.count_eq_one_of_mem hnodup ((hmem f).2 hf)
    · rw [if_neg hf]
      exact List.count_eq_zero_of_not_mem (fun h => hf ((hmem f).1 h))
  · intro modelConfig err hprovide
    have hprovide1 : t.configurationHandler.Provide = .ok (modelConfig, some err) := hprovide
    simp only [ModelConfigurationHandler.GetAllUniqueFeatureFields, hprovide1]

/-- Two models that share the field `$.a`, one of them naming it twice: the list is
`$.a`, `$.b`, `$.c`; and a provider that fails gives the error and no list. -/
theorem getAllUniqueFeatureFields_lists_each_field_once_witness :
    (providingHandler sharedFieldConfiguration).GetAllUniqueFeatureFields
      = .ok (["$.a", "$.b", "$.c"], none) ∧
    failingHandler.GetAllUniqueFeatureFields
      = .ok ([], some ("error getting ModelDefinition from local cache [Configuration] " ++
          "with Key [ModelConfiguration]: key does not exist in the cache")) :=
  ⟨by decide,
    (getAllUniqueFeatureFields_lists_each_field_once failingHandler).2 none
      "key does not exist in the cache" rfl⟩

/-! ### Every feature field has an entry -/

/-- The second loop of `parse` keeps every entry and gives the empty string to the
listed fields that had none. -/
theorem parseFillMissing_get? (fields : List String) :
    ∀ (fieldValueMap : GoMap String String) (f : String),
      (RequestEvaluator.parseFillMissing fields fieldValueMap).get? f
        = match fieldValueMap.get? f with
          | some value => some value
          | none => if f ∈ fields then some "" else none := by
  induction fields with
  | nil =>
    intro fieldValueMap f
    cases hf : fieldValueMap.get? f <;> simp [RequestEvaluator.parseFillMissing, hf]
  | cons field rest ih =>
    intro fieldValueMap f
    unfold RequestEvaluator.parseFillMissing
    cases hfield : fieldValueMap.get? field with
    | some value =>
      simp only [ih]
      cases hf : fieldValueMap.get? f with
      | some value1 => rfl
      | none =>
        have hne : ¬ f = field := by
          intro h
          rw [h, hfield] at hf
          cases hf
        simp only [List.mem_cons, hne, false_or]
    | none =>
      simp only [ih, GoMap.get?_set]
      by_cases h0 : field = f
      · subst h0
        simp [hfield]
      · have hne : ¬ f = field := fun h => h0 h.symm
        simp only [h0, if_false, List.mem_cons, hne, false_or]

/-- The callbacks of `parse` leave alone every key that no reported path converts
to. -/
theorem parseCallbacks_get?_of_not_reported (paths : List (List String)) (key : String) :
    ∀ (invocations : List (Nat × String)) (acc fieldValueMap : GoMap String String),
      RequestEvaluator.parseCallbacks paths invocations acc = .ok fieldValueMap →
      (∀ invocation ∈ invocations, ∀ path : List String,
        paths.get? invocation.1 = some path → convertPathsToField path ≠ key) →
      fieldValueMap.get? key = acc.get? key := by
  intro invocations
  induction invocations with
  | nil =>
    intro acc fieldValueMap hrun _
    simp only [RequestEvaluator.parseCallbacks, Outcome.ok.injEq] at hrun
    rw [hrun]
  | cons invocation rest ih =>
    intro acc fieldValueMap hrun hnot
    obtain ⟨idx, value⟩ := invocation
    unfold RequestEvaluator.parseCallbacks at hrun
    cases hpath : paths.get? idx with
    | none =>
      simp only [hpath] at hrun
      cases hrun
    | some path =>
      simp only [hpath] at hrun
      rw [ih _ _ hrun (fun invocation1 h1 => hnot invocation1 (List.mem_cons_of_mem _ h1)),
        GoMap.get?_set]
      have hne := hnot (idx, value) (List.mem_cons_self _ _) path hpath
      simp only [hne, if_false]

/-- C33: let the evaluator read its model configuration through
`ModelConfigurationHandler` over a provider that returns the configuration. Then
(1) a map that `parse` returns has an entry for every field path of every feature
of every model, holding the empty string when the parser reported no path that
converts to the field, and `parse` does return a map when the parser returns
normally with indices of the paths it was given; (2) `addMissingEntriesToMap`
returns a map with an entry for every such field path, holding the value of the
supplied map, or the empty string when the supplied map has none; (3) hence on
either map `getFieldsValues` returns the values of the fields of every feature of
every model of the configuration, and no error. -/
theorem field_maps_cover_feature_fields (lib : Library) (b : RequestEvaluator)
    (t : RuleBasedModelEvaluator)
    (provider : ConfigurationHandlerInterface ModelConfiguration)
    (modelConfig : ModelConfiguration)
    (openRtbRequest : String) (externalFields : List String)
    (openRtbRequestMap : GoMap String String)
    (hhandler : b.modelConfigurationHandler
      = (ModelConfigurationHandler.mk provider).asInterface)
    (hprovide : provider.Provide = .ok (some modelConfig, none)) :
    (∀ parsed : GoMap String String,
      b.parse lib openRtbRequest externalFields = .ok (.ok parsed) →
      ∀ entry ∈ modelConfig.ModelDefinitionByIdentifier,
        ∀ feature ∈ entry.2.Features,
          (∀ field ∈ feature.Fields,
            (∃ value, parsed.get? field = some value) ∧
            ((∀ invocations : List (Nat × String),
                lib.EachKey openRtbRequest
                    (convertFieldsToPaths
                      ((ModelConfigurationHandler.collectUniqueFields modelConfig).keys ++
                        externalFields)) = .ok invocations →
                ∀ invocation ∈ invocations, ∀ path : List String,
                  (convertFieldsToPaths
                    ((ModelConfigurationHandler.collectUniqueFields modelConfig).keys ++
                      externalFields)).get? invocation.1 = some path →
                  convertPathsToField path ≠ field) →
              parsed.get? field = some "")) ∧
          ∃ values, t.getFieldsValues feature.Fields parsed [] = .ok values) ∧
    ((∃ invocations : List (Nat × String),
        lib.EachKey openRtbRequest
            (convertFieldsToPaths
              ((ModelConfigurationHandler.collectUniqueFields modelConfig).keys ++
                externalFields)) = .ok invocations ∧
        ∀ invocation ∈ invocations,
          invocation.1 < (convertFieldsToPaths
            ((ModelConfigurationHandler.collectUniqueFields modelConfig).keys ++
              externalFields)).length) →
      ∃ parsed, b.parse lib openRtbRequest externalFields = .ok (.ok parsed)) ∧
    (∃ augmented : GoMap String String,
      b.addMissingEntriesToMap openRtbRequestMap = .ok (.ok augmented) ∧
      ∀ entry ∈ modelConfig.ModelDefinitionByIdentifier,
        ∀ feature ∈ entry.2.Features,
          (∀ field ∈ feature.Fields,
            augmented.get? field = some ((openRtbRequestMap.get? field).getD "")) ∧
          ∃ values, t.getFieldsValues feature.Fields augmented [] = .ok values) := by
  have hfields : b.modelConfigurationHandler.GetAllUniqueFeatureFields
      = .ok ((ModelConfigurationHandler.collectUniqueFields modelConfig).keys, none) := by
    rw [hhandler]
    show (ModelConfigurationHandler.mk provider).GetAllUniqueFeatureFields = _
    simp only [ModelConfigurationHandler.GetAllUniqueFeatureFields, hprovide]
  refine ⟨?_, ?_, ?_⟩
  · intro parsed hparse entry hentry feature hfeature
    simp only [RequestEvaluator.parse, hfields] at hparse
    cases heach : lib.EachKey openRtbRequest
        (convertFieldsToPaths
          ((ModelConfigurationHandler.collectUniqueFields modelConfig).keys ++
            externalFields)) with
    | panic =>
      simp only [heach] at hparse
      cases hparse
    | ok invocations =>
      simp only [heach] at hparse
      cases hcallbacks : RequestEvaluator.parseCallbacks
          (convertFieldsToPaths
            ((ModelConfigurationHandler.collectUniqueFields modelConfig).keys ++
              externalFields)) invocations [] with
      | panic =>
        simp only [hcallbacks] at hparse
        cases hparse
      | ok fieldValueMap =>
        simp only [hcallbacks, Outcome.ok.injEq, Except.ok.injEq] at hparse
        have hentries : ∀ field ∈ feature.Fields,
            (∃ value, parsed.get? field = some value) ∧
            ((∀ invocations1 : List (Nat × String),
                Outcome.ok invocations = Outcome.ok invocations1 →
                ∀ invocation ∈ invocations1, ∀ path : List String,
                  (convertFieldsToPaths
                    ((ModelConfigurationHandler.collectUniqueFields modelConfig).keys ++
                      externalFields)).get? invocation.1 = some path →
                  convertPathsToField path ≠ field) →
              parsed.get? field = some "") := by
          intro field hfield
          have hmem : field ∈ (ModelConfigurationHandler.collectUniqueFields modelConfig).keys ++
              externalFields :=
            List.mem_append_left _
              (mem_collectUniqueFields modelConfig entry feature field hentry hfeature hfield)
          have hget := parseFillMissing_get?
            ((ModelConfigurationHandler.collectUniqueFields modelConfig).keys ++ externalFields)
            fieldValueMap field
          rw [hparse] at hget
          constructor
          · cases hvalue : fieldValueMap.get? field with
            | some value =>
              rw [hvalue] at hget
              exact ⟨value, hget⟩
            | none =>
              rw [hvalue] at hget
              simp only [hmem, if_true] at hget
              exact ⟨"", hget⟩
          · intro habsent
            have hkept := parseCallbacks_get?_of_not_reported _ field invocations []
              fieldValueMap hcallbacks (habsent invocations rfl)
            have hnone : fieldValueMap.get? field = none := by
              rw [hkept]
              rfl
            rw [hnone] at hget
            simp only [hmem, if_true] at hget
            exact hget
        refine ⟨hentries, ?_⟩
        exact getFieldsValues_ok_of_present t feature.Fields parsed []
          (fun field hfield hnone => by
            obtain ⟨value, hvalue⟩ := (hentries field hfield).1
            rw [hvalue] at hnone
            cases hnone)
  · rintro ⟨invocations, heach, hrange⟩
    obtain ⟨fieldValueMap, hcallbacks⟩ := parseCallbacks_ok _ invocations [] hrange
    refine ⟨RequestEvaluator.parseFillMissing
      ((ModelConfigurationHandler.collectUniqueFields modelConfig).keys ++ externalFields)
      fieldValueMap, ?_⟩
    simp only [RequestEvaluator.parse, hfields, heach, hcallbacks]
  · refine ⟨RequestEvaluator.addMissingEntriesLoop openRtbRequestMap
      (ModelConfigurationHandler.collectUniqueFields modelConfig).keys [],
      by simp only [RequestEvaluator.addMissingEntriesToMap, hfields], ?_⟩
    intro entry hentry feature hfeature
    have hentries : ∀ field ∈ feature.Fields,
        (RequestEvaluator.addMissingEntriesLoop openRtbRequestMap
          (ModelConfigurationHandler.collectUniqueFields modelConfig).keys []).get? field
          = some ((openRtbRequestMap.get? field).getD "") := by
      intro field hfield
      rw [addMissingEntriesLoop_get?]
      simp only [mem_collectUniqueFields modelConfig entry feature field hentry hfeature hfield,
        if_true]
    refine ⟨hentries, ?_⟩
    exact getFieldsValues_ok_of_present t feature.Fields _ []
      (fun field hfield hnone => by
        rw [hentries field hfield] at hnone
        cases hnone)

/-- The sample evaluator, whose only feature reads `$.a`: a supplied map without
`$.a` is augmented to the map that holds the empty string under `$.a`, and the raw
request is parsed to a map that holds `$.a` and `$.id`. -/
theorem field_maps_cover_feature_fields_witness :
    (sampleEvaluator "T").modelConfigurationHandler
      = (ModelConfigurationHandler.mk sampleConfigurationHandler.asInterface).asInterface ∧
    sampleConfigurationHandler.asInterface.Provide = .ok (some sampleModelConfiguration, none) ∧
    (sampleEvaluator "T").addMissingEntriesToMap [("$.x", "1")] = .ok (.ok [("$.a", "")]) ∧
    (sampleEvaluator "T").parse sampleLibrary "\x7b\"a\":\"v\"\x7d" ["$.id"]
      = .ok (.ok [("$.a", "v"), ("$.id", "")]) ∧
    (∃ augmented : GoMap String String,
      (sampleEvaluator "T").addMissingEntriesToMap [("$.x", "1")] = .ok (.ok augmented) ∧
      ∀ entry ∈ sampleModelConfiguration.ModelDefinitionByIdentifier,
        ∀ feature ∈ entry.2.Features,
          (∀ field ∈ feature.Fields,
            augmented.get? field
              = some ((GoMap.get? [("$.x", "1")] field).getD "")) ∧
          ∃ values, sampleRuleBasedModelEvaluator.getFieldsValues feature.Fields augmented []
            = .ok values) :=
  ⟨rfl, rfl, rfl, rfl,
    (field_maps_cover_feature_fields sampleLibrary (sampleEvaluator "T")
      sampleRuleBasedModelEvaluator sampleConfigurationHandler.asInterface
      sampleModelConfiguration "\x7b\"a\":\"v\"\x7d" ["$.id"] [("$.x", "1")] rfl rfl).2.2⟩

/-! ### Definitions of the models of the snapshot -/

/-- With every identifier configured, the loop of `getModelDefinitions` appends the
configured definitions in the order of the identifiers. -/
theorem getModelDefinitionsLoop_of_configured (m : GoMap String ModelDefinition)
    (ids : List String) :
    ∀ acc : List ModelDefinition, (∀ id ∈ ids, m.get? id ≠ none) →
      ∃ defs : List ModelDefinition,
        RequestEvaluator.getModelDefinitionsLoop m ids acc = .ok (acc ++ defs) ∧
        ids.map m.get? = defs.map some := by
  induction ids with
  | nil =>
    intro acc _
    exact ⟨[], by simp [RequestEvaluator.getModelDefinitionsLoop], rfl⟩
  | cons id rest ih =>
    intro acc hall
    cases hget : m.get? id with
    | none => exact absurd hget (hall id (List.mem_cons_self _ _))
    | some definition =>
      obtain ⟨defs, hdefs, hmap⟩ := ih (acc ++ [definition])
        (fun id1 hid1 => hall id1 (List.mem_cons_of_mem _ hid1))
      refine ⟨definition :: defs, ?_, ?_⟩
      · simp only [RequestEvaluator.getModelDefinitionsLoop, hget, hdefs, List.append_assoc,
          List.singleton_append]
      · simp only [List.map_cons, hget, hmap]

/-- With an identifier that is not configured, the loop of `getModelDefinitions`
returns an error. -/
theorem getModelDefinitionsLoop_of_missing (m : GoMap String ModelDefinition)
    (ids : List String) :
    ∀ acc : List ModelDefinition, (∃ id ∈ ids, m.get? id = none) →
      ∃ err, RequestEvaluator.getModelDefinitionsLoop m ids acc = .error err := by
  induction ids with
  | nil =>
    rintro acc ⟨id, hid, _⟩
    simp at hid
  | cons id rest ih =>
    rintro acc ⟨id1, hid1, hnone⟩
    cases hget : m.get? id with
    | none =>
      simp only [RequestEvaluator.getModelDefinitionsLoop, hget]
      exact ⟨_, rfl⟩
    | some definition =>
      simp only [RequestEvaluator.getModelDefinitionsLoop, hget]
      rcases List.mem_cons.1 hid1 with h | h
      · rw [h, hget] at hnone
        cases hnone
      · exact ih _ ⟨id1, h, hnone⟩

/-- C35: on a context that holds a snapshot, `getModelDefinitions` returns an error,
and no definitions, if and only if `Provide` returns an error or some identifier
that `GetModelIdentifiers` of the snapshot returns has no entry in
`ModelDefinitionByIdentifier`; when the configuration is provided and every
identifier has an entry it returns, with the context unchanged, one definition for
each identifier, in the order of the identifiers, each the configured definition
of its identifier. -/
theorem getModelDefinitions_error_iff (b : RequestEvaluator) (context : Context)
    (snapshot : TrafficAllocationContext)
    (hsnapshot : context.TrafficAllocationContext = some snapshot) :
    ((∃ context1 err, b.getModelDefinitions context = .ok (context1, .error err))
      ↔ (∃ modelConfig err, b.modelConfigurationHandler.Provide = .ok (modelConfig, some err)) ∨
        ∃ modelConfig : ModelConfiguration,
          b.modelConfigurationHandler.Provide = .ok (some modelConfig, none) ∧
          ∃ id ∈ snapshot.GetModelIdentifiers,
            modelConfig.ModelDefinitionByIdentifier.get? id = none) ∧
    (∀ modelConfig : ModelConfiguration,
      b.modelConfigurationHandler.Provide = .ok (some modelConfig, none) →
      (∀ id ∈ snapshot.GetModelIdentifiers,
        modelConfig.ModelDefinitionByIdentifier.get? id ≠ none) →
      ∃ defs : List ModelDefinition,
        b.getModelDefinitions context = .ok (context, .ok defs) ∧
        defs.length = snapshot.GetModelIdentifiers.length ∧
        snapshot.GetModelIdentifiers.map modelConfig.ModelDefinitionByIdentifier.get?
          = defs.map some) := by
  constructor
  · constructor
    · rintro ⟨context1, err, hresult⟩
      unfold RequestEvaluator.getModelDefinitions at hresult
      cases hprovide : b.modelConfigurationHandler.Provide with
      | panic =>
        simp only [hprovide] at hresult
        cases hresult
      | ok provided =>
        obtain ⟨modelConfig, provideError⟩ := provided
        cases provideError with
        | some err1 => exact Or.inl ⟨modelConfig, err1, rfl⟩
        | none =>
          cases modelConfig with
          | none =>
            simp only [hprovide] at hresult
            cases hresult
          | some modelConfig =>
            simp only [hprovide, hsnapshot, Outcome.ok.injEq, Prod.mk.injEq] at hresult
            refine Or.inr ⟨modelConfig, rfl, ?_⟩
            by_contra hnone
            obtain ⟨defs, hdefs, _⟩ := getModelDefinitionsLoop_of_configured
              modelConfig.ModelDefinitionByIdentifier snapshot.GetModelIdentifiers []
              (fun id hid hget => hnone ⟨id, hid, hget⟩)
            rw [hdefs] at hresult
            cases hresult.2
    · rintro (⟨modelConfig, err, hprovide⟩ | ⟨modelConfig, hprovide, hmissing⟩)
      · refine ⟨context.AddError ("error while providing model configuration: " ++ err),
          "error while providing model configuration: " ++ err, ?_⟩
        simp only [RequestEvaluator.getModelDefinitions, hprovide]
      · obtain ⟨err, herr⟩ := getModelDefinitionsLoop_of_missing
          modelConfig.ModelDefinitionByIdentifier snapshot.GetModelIdentifiers [] hmissing
        exact ⟨context, err,
          by simp only [RequestEvaluator.getModelDefinitions, hprovide, hsnapshot, herr]⟩
  · intro modelConfig hprovide hall
    obtain ⟨defs, hdefs, hmap⟩ := getModelDefinitionsLoop_of_configured
      modelConfig.ModelDefinitionByIdentifier snapshot.GetModelIdentifiers [] hall
    rw [List.nil_append] at hdefs
    refine ⟨defs, by simp only [RequestEvaluator.getModelDefinitions, hprovide, hsnapshot, hdefs],
      ?_, hmap⟩
    have hlen := congrArg List.length hmap
    simp only [List.length_map] at hlen
    exact hlen.symm

/-- The sample evaluator on the sample context: the snapshot names the model `m`,
which is configured, and its definition is returned. -/
theorem getModelDefinitions_error_iff_witness :
    (sampleContext []).TrafficAllocationContext = some (sampleSnapshot "T") ∧
    (sampleEvaluator "T").getModelDefinitions (sampleContext [])
      = .ok (sampleContext [], .ok [sampleModelDefinition]) ∧
    ∃ defs : List ModelDefinition,
      (sampleEvaluator "T").getModelDefinitions (sampleContext [])
        = .ok (sampleContext [], .ok defs) ∧
      defs.length = (sampleSnapshot "T").GetModelIdentifiers.length ∧
      (sampleSnapshot "T").GetModelIdentifiers.map
          sampleModelConfiguration.ModelDefinitionByIdentifier.get?
        = defs.map some :=
  ⟨rfl, rfl,
    (getModelDefinitions_error_iff (sampleEvaluator "T") (sampleContext [])
      (sampleSnapshot "T") rfl).2 sampleModelConfiguration rfl (by decide)⟩

/-! ### Shares of the treatments -/

/-- Number of the naturals below `n` that lie in an interval. -/
theorem countP_range_interval (a b : Nat) (hab : a ≤ b) (n : Nat) :
    (List.range n).countP (fun r => decide (a ≤ r ∧ r < b)) = min b n - min a n := by
  induction n with
  | zero => simp
  | succ n ih =>
    rw [List.range_succ, List.countP_append, ih]
    by_cases h : a ≤ n ∧ n < b
    · have hone : List.countP (fun r => decide (a ≤ r ∧ r < b)) [n] = 1 := by
        simp [List.countP_cons, h]
      rw [hone]
      omega
    · have hzero : List.countP (fun r => decide (a ≤ r ∧ r < b)) [n] = 0 := by
        simp only [List.countP_cons, List.countP_nil, h, decide_False, Bool.false_eq_true,
          if_false]
      rw [hzero]
      omega

/-- The weights up to an index and the weight at it. -/
theorem cumulativeWeight_succ (treatments : List Treatment) (i : Nat) (treatment : Treatment)
    (h : treatments[i]? = some treatment) :
    ((treatments.take (i + 1)).map (fun t => t.Weight)).sum
      = ((treatments.take i).map (fun t => t.Weight)).sum + treatment.Weight := by
  rw [List.take_succ, h]
  simp

/-- The weights up to an index are part of all the weights. -/
theorem cumulativeWeight_le_total (treatments : List Treatment) (i : Nat) :
    ((treatments.take i).map (fun t => t.Weight)).sum
      ≤ (treatments.map (fun t => t.Weight)).sum := by
  have h : (treatments.map (fun t => t.Weight)).sum
      = ((treatments.take i).map (fun t => t.Weight)).sum
        + ((treatments.drop i).map (fun t => t.Weight)).sum := by
    rw [← List.sum_append, ← List.map_append, List.take_append_drop]
  omega

/-- With weights that sum to 100, the binary search of `GetTreatmentCode` over the
cumulative thresholds stops at index `i` exactly for the residues from the sum
of the weights before `i` up to, and not including, the threshold at `i`. -/
theorem searchLoop_eq_iff (treatments : List Treatment)
    (hsum : (treatments.map (fun t => t.Weight)).sum = 100) (r : Nat) (hr : r < 100)
    (i : Nat) (hi : i < treatments.length) :
    TrafficAllocator.searchLoop (thresholdsLoop 0 treatments) r
        (thresholdsLoop 0 treatments).length 0 ((thresholdsLoop 0 treatments).length - 1)
      = .ok i
      ↔ ((treatments.take i).map (fun t => t.Weight)).sum ≤ r ∧
        r < ((treatments.take (i + 1)).map (fun t => t.Weight)).sum := by
  have hlt : 0 + (treatments.map (fun t => t.Weight)).sum < uint32Size := by
    rw [hsum]
    decide
  have hne : treatments ≠ [] := by
    intro hnil
    rw [hnil] at hi
    simp at hi
  have hlen := thresholdsLoop_length treatments 0
  have hthreshold : ∀ k : Nat, k < treatments.length →
      (thresholdsLoop 0 treatments)[k]?
        = some (((treatments.take (k + 1)).map (fun t => t.Weight)).sum) := by
    intro k hk
    rw [thresholdsLoop_getElem? treatments 0 hlt k hk, Nat.zero_add]
  have hsorted := thresholdsLoop_pairwise treatments 0 hlt
  have hlast : (thresholdsLoop 0 treatments).getLast? = some 100 := by
    rw [thresholdsLoop_getLast? _ _ hlt hne, Nat.zero_add, hsum]
  obtain ⟨L, hL, hbelow, habove⟩ :=
    least_threshold_index (thresholdsLoop 0 treatments) r hsorted ⟨100, hlast, hr⟩
  have hsearch := searchLoop_finds (thresholdsLoop 0 treatments) r L hbelow habove
    (thresholdsLoop 0 treatments).length 0 ((thresholdsLoop 0 treatments).length - 1)
    (by omega) (by omega) (by omega) (by omega)
  rw [hsearch]
  constructor
  · intro hok
    have hLi : L = i := by
      cases hok
      rfl
    subst hLi
    refine ⟨?_, habove L _ (le_refl L) (hthreshold L hi)⟩
    cases L with
    | zero => simp
    | succ k => exact hbelow k _ (by omega) (hthreshold k (by omega))
  · rintro ⟨hlow, hhigh⟩
    have hLi : L = i := by
      rcases Nat.lt_trichotomy L i with h | h | h
      · exfalso
        obtain ⟨k, rfl⟩ : ∃ k, i = k + 1 := ⟨i - 1, by omega⟩
        have := habove k _ (by omega) (hthreshold k (by omega))
        omega
      · exact h
      · exfalso
        have := hbelow i _ h (hthreshold i hi)
        omega
    rw [hLi]

/-- C36: let the weights of a treatments list sum to 100 and let the thresholds be
their cumulative sums, as `UpdateConfiguration` stores them. Then for every index
`i` the number of residues `r` in [0, 100) at which the binary search of
`GetTreatmentCode` stops at `i` is the weight of treatment `i`; a treatment of
weight 0 is selected for no residue and a treatment of weight 100 for every
residue; and `GetTreatmentCode` returns the code of the treatment at the index the
search stops at for the residue of its draw. -/
theorem getTreatmentCode_selects_by_weight (treatments : List Treatment)
    (hsum : (treatments.map (fun t => t.Weight)).sum = 100) :
    (∀ (i : Nat) (treatment : Treatment), treatments[i]? = some treatment →
      ((List.range 100).filter (fun r =>
          decide (TrafficAllocator.searchLoop (thresholdsLoop 0 treatments) r
            (thresholdsLoop 0 treatments).length 0 ((thresholdsLoop 0 treatments).length - 1)
            = .ok i))).length = treatment.Weight ∧
      (treatment.Weight = 0 → ∀ r : Nat, r < 100 →
        TrafficAllocator.searchLoop (thresholdsLoop 0 treatments) r
          (thresholdsLoop 0 treatments).length 0 ((thresholdsLoop 0 treatments).length - 1)
          ≠ .ok i) ∧
      (treatment.Weight = 100 → ∀ r : Nat, r < 100 →
        TrafficAllocator.searchLoop (thresholdsLoop 0 treatments) r
          (thresholdsLoop 0 treatments).length 0 ((thresholdsLoop 0 treatments).length - 1)
          = .ok i)) ∧
    (∀ t : TrafficAllocator, ∃ (i : Nat) (treatment : Treatment),
      TrafficAllocator.searchLoop (thresholdsLoop 0 treatments) (t.Rand.1 % 100)
          (thresholdsLoop 0 treatments).length 0 ((thresholdsLoop 0 treatments).length - 1)
        = .ok i ∧
      treatments[i]? = some treatment ∧
      t.GetTreatmentCode (thresholdsLoop 0 treatments) treatments
        = (t.Rand.2, .ok (treatment.TreatmentCode, none))) := by
  constructor
  · intro i treatment htreatment
    have hi : i < treatments.length := by
      by_contra hge
      rw [List.getElem?_eq_none (by omega)] at htreatment
      cases htreatment
    have hstep := cumulativeWeight_succ treatments i treatment htreatment
    have htotal := cumulativeWeight_le_total treatments (i + 1)
    rw [hsum] at htotal
    refine ⟨?_, ?_, ?_⟩
    · have hfilter : (List.range 100).filter (fun r =>
            decide (TrafficAllocator.searchLoop (thresholdsLoop 0 treatments) r
              (thresholdsLoop 0 treatments).length 0
              ((thresholdsLoop 0 treatments).length - 1) = .ok i))
          = (List.range 100).filter (fun r =>
            decide (((treatments.take i).map (fun t => t.Weight)).sum ≤ r ∧
              r < ((treatments.take (i + 1)).map (fun t => t.Weight)).sum)) := by
        apply List.filter_congr
        intro r hmem
        have hr : r < 100 := List.mem_range.1 hmem
        simp only [searchLoop_eq_iff treatments hsum r hr i hi]
      rw [hfilter, ← List.countP_eq_length_filter,
        countP_range_interval _ _ (by omega) 100]
      omega
    · intro hzero r hr hsel
      have h := (searchLoop_eq_iff treatments hsum r hr i hi).1 hsel
      omega
    · intro hfull r hr
      exact (searchLoop_eq_iff treatments hsum r hr i hi).2 (by omega)
  · intro t
    have hlen := thresholdsLoop_length treatments 0
    have hlt : 0 + (treatments.map (fun t => t.Weight)).sum < uint32Size := by
      rw [hsum]
      decide
    have hne : treatments ≠ [] := by
      intro hnil
      rw [hnil] at hsum
      simp at hsum
    have hpos : 0 < treatments.length := List.length_pos.2 hne
    have hr : t.Rand.1 % 100 < 100 := Nat.mod_lt _ (by decide)
    have hlast : (thresholdsLoop 0 treatments).getLast? = some 100 := by
      rw [thresholdsLoop_getLast? _ _ hlt hne, Nat.zero_add, hsum]
    obtain ⟨L, hL, hbelow, habove⟩ :=
      least_threshold_index (thresholdsLoop 0 treatments) (t.Rand.1 % 100)
        (thresholdsLoop_pairwise treatments 0 hlt) ⟨100, hlast, hr⟩
    have hsearch := searchLoop_finds (thresholdsLoop 0 treatments) (t.Rand.1 % 100) L hbelow
      habove (thresholdsLoop 0 treatments).length 0 ((thresholdsLoop 0 treatments).length - 1)
      (by omega) (by omega) (by omega) (by omega)
    have hLt : L < treatments.length := by omega
    have hlen0 : ¬ treatments.length = 0 := by omega
    refine ⟨L, treatments[L], hsearch, List.getElem?_eq_getElem hLt, ?_⟩
    simp only [TrafficAllocator.GetTreatmentCode, hlen0, if_false, hsearch,
      List.get?_eq_getElem?, List.getElem?_eq_getElem hLt]

/-- The treatments `T` 30, `C` 50, `B` 20 and `Z` 0: of the 100 residues 30 select
`T`, 50 select `C`, 20 select `B` and none selects `Z`. -/
theorem getTreatmentCode_selects_by_weight_witness :
    ([(⟨"T", 30⟩ : Treatment), ⟨"C", 50⟩, ⟨"Z", 0⟩, ⟨"B", 20⟩].map (fun t => t.Weight)).sum
      = 100 ∧
    thresholdsLoop 0 [⟨"T", 30⟩, ⟨"C", 50⟩, ⟨"Z", 0⟩, ⟨"B", 20⟩] = [30, 80, 80, 100] ∧
    ((List.range 100).filter (fun r =>
        decide (TrafficAllocator.searchLoop
          (thresholdsLoop 0 [⟨"T", 30⟩, ⟨"C", 50⟩, ⟨"Z", 0⟩, ⟨"B", 20⟩]) r
          (thresholdsLoop 0 [⟨"T", 30⟩, ⟨"C", 50⟩, ⟨"Z", 0⟩, ⟨"B", 20⟩]).length 0
          ((thresholdsLoop 0 [⟨"T", 30⟩, ⟨"C", 50⟩, ⟨"Z", 0⟩, ⟨"B", 20⟩]).length - 1)
          = .ok 1))).length = 50 :=
  ⟨by decide, by decide,
    ((getTreatmentCode_selects_by_weight [⟨"T", 30⟩, ⟨"C", 50⟩, ⟨"Z", 0⟩, ⟨"B", 20⟩]
      (by decide)).1 1 ⟨"C", 50⟩ rfl).1⟩

/-! ### The arrangement after an accepted update -/

/-- C37: after a call `UpdateConfiguration(cfg)` that returns nil, every experiment
of `cfg` has at least one treatment and a threshold vector as long as its
treatments list; the next `GetTrafficAllocationContext` returns a snapshot without
reading outside a slice, and the keys of its arrangement are exactly the
experiment names of `cfg`, each holding the code of one of the treatments of its
experiment. -/
theorem updateConfiguration_accepted_arranges_every_experiment (t : TrafficAllocator)
    (cfg : ExperimentConfiguration)
    (hkeys : cfg.ExperimentDefinitionByName.keys.Nodup)
    (hnil : (t.UpdateConfiguration cfg).2 = none) :
    (∀ (e : String) (definition : ExperimentDefinition),
      cfg.ExperimentDefinitionByName.get? e = some definition →
      definition.Treatments ≠ [] ∧
      ∃ thresholds : List Nat,
        (t.UpdateConfiguration cfg).1.experimentThresholds.get? e = some thresholds ∧
        thresholds.length = definition.Treatments.length) ∧
    ∃ snapshot : TrafficAllocationContext,
      (t.UpdateConfiguration cfg).1.GetTrafficAllocationContext.2 = .ok snapshot ∧
      (∀ e : String, e ∈ snapshot.experimentArrangement.keys
        ↔ e ∈ cfg.ExperimentDefinitionByName.keys) ∧
      (∀ e code : String, snapshot.experimentArrangement.get? e = some code →
        ∃ (definition : ExperimentDefinition) (treatment : Treatment),
          cfg.ExperimentDefinitionByName.get? e = some definition ∧
          treatment ∈ definition.Treatments ∧ treatment.TreatmentCode = code) := by
  have hall : ∀ entry ∈ cfg.ExperimentDefinitionByName,
      totalWeightLoop entry.2.Treatments = 100 := by
    intro entry hentry
    by_contra hne
    have herr := (updateConfiguration_error_iff_wrapped_total t cfg).1.2
      ⟨entry, hentry, by rw [← totalWeightLoop_eq]; exact hne⟩
    exact herr hnil
  have hok := updateConfigurationLoop_accepts cfg.ExperimentDefinitionByName [] hall
  have hstored : ∀ (e : String) (definition : ExperimentDefinition),
      cfg.ExperimentDefinitionByName.get? e = some definition →
      definition.Treatments ≠ [] ∧
      (t.UpdateConfiguration cfg).1.experimentThresholds.get? e
        = some (thresholdsLoop 0 definition.Treatments) := by
    intro e definition hget
    have hmem := GoMap.mem_of_get? _ _ _ hget
    have htotal := hall (e, definition) hmem
    refine ⟨?_, ?_⟩
    · intro hempty
      simp only [hempty] at htotal
      revert htotal
      decide
    · simp only [TrafficAllocator.UpdateConfiguration, hok]
      exact GoMap.foldl_set_get?_of_mem
        (fun definition : ExperimentDefinition => thresholdsLoop 0 definition.Treatments)
        _ [] e definition hkeys hmem
  refine ⟨?_, ?_⟩
  · intro e definition hget
    obtain ⟨hne, hthresholds⟩ := hstored e definition hget
    exact ⟨hne, _, hthresholds, thresholdsLoop_length _ _⟩
  · obtain ⟨arranged, harranged, hout, hin⟩ :=
      arrangementLoop_spec cfg.ExperimentDefinitionByName (t.UpdateConfiguration cfg).1 []
        hkeys
        (fun entry hentry thresholds hthresholds => by
          rw [(hstored entry.1 entry.2 (GoMap.get?_of_mem _ _ _ hkeys hentry)).2]
            at hthresholds
          cases hthresholds
          rw [thresholdsLoop_length])
    have harrangedEntry : ∀ (e : String) (definition : ExperimentDefinition),
        cfg.ExperimentDefinitionByName.get? e = some definition →
        ∃ treatment ∈ definition.Treatments,
          arranged.get? e = some treatment.TreatmentCode := by
      intro e definition hget
      obtain ⟨hne, hthresholds⟩ := hstored e definition hget
      exact (hin (e, definition) (GoMap.mem_of_get? _ _ _ hget)).1
        ⟨by rw [hthresholds]; rfl, hne⟩
    have hconfigured : ∀ e : String, (arranged.get? e).isSome →
        ∃ definition, cfg.ExperimentDefinitionByName.get? e = some definition := by
      intro e hsome
      cases hget : cfg.ExperimentDefinitionByName.get? e with
      | some definition => exact ⟨definition, rfl⟩
      | none =>
        have hnot : e ∉ cfg.ExperimentDefinitionByName.map Prod.fst := by
          intro hmem
          have hkey := (GoMap.get?_isSome_iff_mem_keys cfg.ExperimentDefinitionByName e).2 hmem
          rw [hget] at hkey
          cases hkey
        rw [hout e hnot] at hsome
        cases hsome
    refine ⟨NewTrafficAllocationContext arranged cfg, ?_, ?_, ?_⟩
    · have hcfg : (t.UpdateConfiguration cfg).1.experimentConfiguration = some cfg := rfl
      simp only [TrafficAllocator.GetTrafficAllocationContext, hcfg, harranged]
    · intro e
      show e ∈ GoMap.keys arranged ↔ _
      rw [← GoMap.get?_isSome_iff_mem_keys, ← GoMap.get?_isSome_iff_mem_keys]
      constructor
      · intro hsome
        obtain ⟨definition, hget⟩ := hconfigured e hsome
        rw [hget]
        rfl
      · intro hsome
        cases hget : cfg.ExperimentDefinitionByName.get? e with
        | none =>
          rw [hget] at hsome
          cases hsome
        | some definition =>
          obtain ⟨treatment, _, hcode⟩ := harrangedEntry e definition hget
          rw [hcode]
          rfl
    · intro e code hcode
      have hcode1 : arranged.get? e = some code := hcode
      obtain ⟨definition, hget⟩ := hconfigured e (by rw [hcode1]; rfl)
      obtain ⟨treatment, hmem, hcode2⟩ := harrangedEntry e definition hget
      rw [hcode2] at hcode1
      exact ⟨definition, treatment, hget, hmem, Option.some.inj hcode1⟩

/-- The sample configuration, accepted by a fresh allocator: the arrangement of the
next snapshot has the keys `exp1` and `exp2`. The configuration whose weights
4294967295 and 101 a `uint32` sums to 100 is accepted as well. -/
theorem updateConfiguration_accepted_arranges_every_experiment_witness :
    sampleExperimentConfiguration.ExperimentDefinitionByName.keys.Nodup ∧
    (freshAllocator.UpdateConfiguration sampleExperimentConfiguration).2 = none ∧
    (∃ snapshot : TrafficAllocationContext,
      (freshAllocator.UpdateConfiguration
          sampleExperimentConfiguration).1.GetTrafficAllocationContext.2 = .ok snapshot ∧
      (∀ e : String, e ∈ snapshot.experimentArrangement.keys
        ↔ e ∈ sampleExperimentConfiguration.ExperimentDefinitionByName.keys) ∧
      (∀ e code : String, snapshot.experimentArrangement.get? e = some code →
        ∃ (definition : ExperimentDefinition) (treatment : Treatment),
          sampleExperimentConfiguration.ExperimentDefinitionByName.get? e = some definition ∧
          treatment ∈ definition.Treatments ∧ treatment.TreatmentCode = code)) ∧
    (freshAllocator.UpdateConfiguration wrappedWeightConfiguration).2 = none :=
  ⟨by decide, by decide,
    (updateConfiguration_accepted_arranges_every_experiment freshAllocator
      sampleExperimentConfiguration (by decide) (by decide)).2,
    by decide⟩

/-! ### A load that fails after the fingerprint check -/

/-- The fingerprint check writes to the cache `FileIdentifier` only. -/
theorem LocalCacheFactory.shouldRefresh_keeps_configuration (lib : Library)
    (t : LocalCacheFactory) (k f key : String) :
    (t.ShouldRefresh lib k f).1.GetFromLocalCache CacheNameConfiguration key
      = t.GetFromLocalCache CacheNameConfiguration key := by
  rw [LocalCacheFactory.shouldRefresh_eq]
  by_cases hget : t.GetFromLocalCache CacheNameFileIdentifier k = some (.string f)
  · simp only [hget, if_true]
  · simp only [hget, if_false]
    rw [LocalCacheFactory.getFromLocalCache_eq_item?,
      LocalCacheFactory.getFromLocalCache_eq_item?, LocalCacheFactory.item?_setWithTTL]
    have hne : ¬ CacheNameFileIdentifier = CacheNameConfiguration := by decide
    simp [hne]

/-- A fingerprint check that asks for a refresh found another fingerprint, or none. -/
theorem LocalCacheFactory.stale_of_shouldRefresh (lib : Library) (t : LocalCacheFactory)
    (k f : String) (h : (t.ShouldRefresh lib k f).2 = true) :
    t.GetFromLocalCache CacheNameFileIdentifier k ≠ some (.string f) := by
  intro hget
  rw [LocalCacheFactory.shouldRefresh_of_holds lib t k f hget] at h
  cases h

/-- The second half of `Load` when the bytes are not read, are not parsed, or the
cache `Configuration` does not take the configuration: false and an error are
returned, and the handler is as it was. -/
theorem ConfigurationHandler.install_of_failure {T : Type} [CacheTyped T] (lib : Library)
    (t : ConfigurationHandler T) (calls : List Call) (jsonData : String)
    (err : Option Error)
    (hfailure : (∃ readError, err = some readError) ∨
      (err = none ∧
        ∃ parseError, (CacheTyped.unmarshal lib jsonData : Except Error T) = .error parseError) ∨
      (err = none ∧
        (∃ config, (CacheTyped.unmarshal lib jsonData : Except Error T) = .ok config) ∧
        lib.cacheSet CacheNameConfiguration t.dataCacheKey = false)) :
    (∃ loadError,
      (ConfigurationHandler.install lib t calls jsonData err).result
        = .ok (false, some loadError)) ∧
    (ConfigurationHandler.install lib t calls jsonData err).receiver = t := by
  rcases hfailure with ⟨readError, hread⟩ | ⟨hread, parseError, hparse⟩ |
    ⟨hread, ⟨config, hparse⟩, hrefused⟩
  · subst hread
    exact ⟨⟨_, rfl⟩, rfl⟩
  · subst hread
    simp only [ConfigurationHandler.install, hparse]
    exact ⟨⟨_, rfl⟩, trivial⟩
  · subst hread
    have hput : (t.localCacheFactory.PutToLocalCacheWithTTL lib CacheNameConfiguration
        t.dataCacheKey (@CacheTyped.box T _ config) 0).2 = false := by
      unfold LocalCacheFactory.PutToLocalCacheWithTTL
      rw [LocalCacheFactory.setWithTTL_result, hrefused]
      simp
    have hsame : (t.localCacheFactory.PutToLocalCacheWithTTL lib CacheNameConfiguration
        t.dataCacheKey (@CacheTyped.box T _ config) 0).1 = t.localCacheFactory := by
      unfold LocalCacheFactory.PutToLocalCacheWithTTL at hput ⊢
      exact LocalCacheFactory.setWithTTL_of_refused lib _ _ _ _ _ hput
    simp only [ConfigurationHandler.install, hparse, hput, hsame, Bool.false_eq_true, if_false]
    exact ⟨⟨_, rfl⟩, trivial⟩

/-- C39: let the `FileIdentifier` cache be a store (it takes the fingerprint), and
let a `ConfigurationHandler.Load` fetch its source from S3 with an `ETag`, or open
it as a local file with a modification time, find the fingerprint stale, and then
fail to read the body, to parse the JSON, or to write the cache `Configuration`.
Then that call returns false and an error; afterwards the store holds the new
fingerprint, which it did not hold before, and `Provide` returns what it returned
before; and a following `Load` that observes the same source returns
`(false, nil)` after the fetch (or open) and the fingerprint check alone, leaving
the handler as it was: the configuration of that source is not installed. -/
theorem load_failure_keeps_fingerprint {T : Type} [CacheTyped T] (lib : Library)
    (t : ConfigurationHandler T)
    (hstore : lib.cacheSet CacheNameFileIdentifier t.fileIdentifierCacheKey = true)
    (hfailed :
      (stringsHasPrefix t.folderPrefix S3Prefix = true ∧
        ∃ (getObjectOutput : GetObjectOutput) (fingerprint jsonData : String)
          (err : Option Error),
          t.daoFactory.GetS3Object (stringsTrimPrefix t.folderPrefix S3Prefix)
            t.buildConfigurationFileName = .ok (some getObjectOutput, none) ∧
          getObjectOutput.ETag = some fingerprint ∧
          (t.localCacheFactory.ShouldRefresh lib t.fileIdentifierCacheKey fingerprint).2
            = true ∧
          t.daoFactory.ReadContent getObjectOutput.Body = .ok (jsonData, err) ∧
          ((∃ readError, err = some readError) ∨
            (err = none ∧
              ∃ parseError,
                (CacheTyped.unmarshal lib jsonData : Except Error T) = .error parseError) ∨
            (err = none ∧
              (∃ config, (CacheTyped.unmarshal lib jsonData : Except Error T) = .ok config) ∧
              lib.cacheSet CacheNameConfiguration t.dataCacheKey = false))) ∨
      (stringsHasPrefix t.folderPrefix S3Prefix = false ∧
        ∃ (filePointer : File) (fingerprint jsonData : String) (err : Option Error),
          lib.osOpen (lib.filepathJoin t.folderPrefix t.buildConfigurationFileName)
            = .ok filePointer ∧
          filePointer.ModTime = .ok fingerprint ∧
          (t.localCacheFactory.ShouldRefresh lib t.fileIdentifierCacheKey fingerprint).2
            = true ∧
          t.daoFactory.GetDataFromLocal filePointer = .ok (jsonData, err) ∧
          ((∃ readError, err = some readError) ∨
            (err = none ∧
              ∃ parseError,
                (CacheTyped.unmarshal lib jsonData : Except Error T) = .error parseError) ∨
            (err = none ∧
              (∃ config, (CacheTyped.unmarshal lib jsonData : Except Error T) = .ok config) ∧
              lib.cacheSet CacheNameConfiguration t.dataCacheKey = false)))) :
    ∃ (fingerprint : String) (loadError : Error),
      (t.Load lib).result = .ok (false, some loadError) ∧
      t.localCacheFactory.GetFromLocalCache CacheNameFileIdentifier t.fileIdentifierCacheKey
        ≠ some (.string fingerprint) ∧
      (t.Load lib).receiver.localCacheFactory.GetFromLocalCache CacheNameFileIdentifier
          t.fileIdentifierCacheKey = some (.string fingerprint) ∧
      (t.Load lib).receiver.Provide = t.Provide ∧
      ((t.Load lib).receiver.Load lib).result = .ok (false, none) ∧
      ((t.Load lib).receiver.Load lib).receiver = (t.Load lib).receiver ∧
      (((t.Load lib).receiver.Load lib).calls
          = [.GetS3Object (stringsTrimPrefix t.folderPrefix S3Prefix)
               t.buildConfigurationFileName,
             .ShouldRefresh t.fileIdentifierCacheKey fingerprint] ∨
        ∃ name : String, ((t.Load lib).receiver.Load lib).calls
          = [.Open (lib.filepathJoin t.folderPrefix t.buildConfigurationFileName),
             .ShouldRefreshLocal t.fileIdentifierCacheKey name]) := by
  rcases hfailed with
    ⟨hs3, getObjectOutput, fingerprint, jsonData, err, hfetch, hetag, hstale, hread, hfailure⟩ |
    ⟨hlocal, filePointer, fingerprint, jsonData, err, hopen, hstat, hstale, hread, hfailure⟩
  · have hload : t.Load lib
        = ConfigurationHandler.install lib
            { t with localCacheFactory :=
                (t.localCacheFactory.ShouldRefresh lib t.fileIdentifierCacheKey fingerprint).1 }
            ([Call.GetS3Object (stringsTrimPrefix t.folderPrefix S3Prefix)
                t.buildConfigurationFileName] ++
              [.ShouldRefresh t.fileIdentifierCacheKey fingerprint] ++
              [.ReadContent getObjectOutput.Body])
            jsonData err := by
      simp only [ConfigurationHandler.Load, hs3, if_true, hfetch, hetag, hstale, hread]
    obtain ⟨⟨loadError, hresult⟩, hreceiver⟩ := @ConfigurationHandler.install_of_failure T _ lib
      { t with localCacheFactory :=
          (t.localCacheFactory.ShouldRefresh lib t.fileIdentifierCacheKey fingerprint).1 }
      ([Call.GetS3Object (stringsTrimPrefix t.folderPrefix S3Prefix)
          t.buildConfigurationFileName] ++
        [.ShouldRefresh t.fileIdentifierCacheKey fingerprint] ++
        [.ReadContent getObjectOutput.Body])
      jsonData err hfailure
    rw [← hload] at hresult hreceiver
    have hholds := LocalCacheFactory.shouldRefresh_holds lib t.localCacheFactory
      t.fileIdentifierCacheKey fingerprint hstore
    obtain ⟨hsame, hcalls, hsecond⟩ := @ConfigurationHandler.load_of_holds_s3 T _ lib
      { t with localCacheFactory :=
          (t.localCacheFactory.ShouldRefresh lib t.fileIdentifierCacheKey fingerprint).1 }
      getObjectOutput fingerprint hs3 hfetch hetag hholds
    rw [hreceiver]
    refine ⟨fingerprint, loadError, hresult,
      LocalCacheFactory.stale_of_shouldRefresh lib _ _ _ hstale, hholds, ?_, hsecond, hsame,
      Or.inl hcalls⟩
    simp only [ConfigurationHandler.Provide,
      LocalCacheFactory.shouldRefresh_keeps_configuration]
  · have hload : t.Load lib
        = ConfigurationHandler.install lib
            { t with localCacheFactory :=
                (t.localCacheFactory.ShouldRefresh lib t.fileIdentifierCacheKey fingerprint).1 }
            ([Call.Open (lib.filepathJoin t.folderPrefix t.buildConfigurationFileName)] ++
              [.ShouldRefreshLocal t.fileIdentifierCacheKey filePointer.Name] ++
              [.GetDataFromLocal filePointer.Name])
            jsonData err := by
      simp only [ConfigurationHandler.Load, hlocal, Bool.false_eq_true, if_false, hopen,
        LocalCacheFactory.shouldRefreshLocal_eq, hstat, hstale, if_true, hread]
    obtain ⟨⟨loadError, hresult⟩, hreceiver⟩ := @ConfigurationHandler.install_of_failure T _ lib
      { t with localCacheFactory :=
          (t.localCacheFactory.ShouldRefresh lib t.fileIdentifierCacheKey fingerprint).1 }
      ([Call.Open (lib.filepathJoin t.folderPrefix t.buildConfigurationFileName)] ++
        [.ShouldRefreshLocal t.fileIdentifierCacheKey filePointer.Name] ++
        [.GetDataFromLocal filePointer.Name])
      jsonData err hfailure
    rw [← hload] at hresult hreceiver
    have hholds := LocalCacheFactory.shouldRefresh_holds lib t.localCacheFactory
      t.fileIdentifierCacheKey fingerprint hstore
    obtain ⟨hsame, hcalls, hsecond⟩ := @ConfigurationHandler.load_of_holds_local T _ lib
      { t with localCacheFactory :=
          (t.localCacheFactory.ShouldRefresh lib t.fileIdentifierCacheKey fingerprint).1 }
      filePointer hlocal hopen
      (fun modTime hmod => by
        rw [hstat] at hmod
        cases hmod
        exact hholds)
    rw [hreceiver]
    refine ⟨fingerprint, loadError, hresult,
      LocalCacheFactory.stale_of_shouldRefresh lib _ _ _ hstale, hholds, ?_, hsecond, hsame,
      Or.inr ⟨filePointer.Name, hcalls⟩⟩
    simp only [ConfigurationHandler.Provide,
      LocalCacheFactory.shouldRefresh_keeps_configuration]

/-- The sample handler over the bucket with a parser that rejects the body: the
first load returns the parse error and leaves `etag-model` in the store; the
second returns `(false, nil)`. -/
theorem load_failure_keeps_fingerprint_witness :
    sampleLibrary.cacheSet CacheNameFileIdentifier
        sampleS3ConfigurationHandler.fileIdentifierCacheKey = true ∧
    (sampleS3ConfigurationHandler.Load sampleLibrary).result
      = .ok (false, some "error unmarshaling JSON: unexpected end of JSON input") ∧
    (sampleS3ConfigurationHandler.Load sampleLibrary).receiver.localCacheFactory.GetFromLocalCache
        CacheNameFileIdentifier CacheKeyModelConfigurationFileIdentifier
      = some (.string "etag-model") ∧
    ((sampleS3ConfigurationHandler.Load sampleLibrary).receiver.Load sampleLibrary).result
      = .ok (false, none) ∧
    ∃ (fingerprint : String) (loadError : Error),
      (sampleS3ConfigurationHandler.Load sampleLibrary).result
        = .ok (false, some loadError) ∧
      sampleS3ConfigurationHandler.localCacheFactory.GetFromLocalCache CacheNameFileIdentifier
          sampleS3ConfigurationHandler.fileIdentifierCacheKey ≠ some (.string fingerprint) ∧
      (sampleS3ConfigurationHandler.Load sampleLibrary).receiver.localCacheFactory.GetFromLocalCache
          CacheNameFileIdentifier sampleS3ConfigurationHandler.fileIdentifierCacheKey
        = some (.string fingerprint) :=
  ⟨by decide, by decide, by decide, by decide,
    (load_failure_keeps_fingerprint sampleLibrary sampleS3ConfigurationHandler (by decide)
      (Or.inl ⟨by decide, { ETag := some "etag-model", Body := "model" }, "etag-model", "model",
        none, by decide, rfl, by decide, by rfl,
        Or.inr (Or.inl ⟨rfl, "unexpected end of JSON input", rfl⟩)⟩)).imp
      (fun _ h => h.imp (fun _ h1 => ⟨h1.1, h1.2.1, h1.2.2.1⟩))⟩

/-! ### Field strings and their paths -/

theorem splitDots_ne_nil (s : List Char) : splitDots s ≠ [] := by
  cases s with
  | nil => simp [splitDots]
  | cons c rest =>
    by_cases hc : c = '.'
    · simp [splitDots, hc]
    · simp only [splitDots, hc, if_false]
      cases splitDots rest <;> simp

/-- Joining the pieces of a split with dots gives the text back. -/
theorem joinDots_splitDots (s : List Char) : joinDots (splitDots s) = s := by
  induction s with
  | nil => rfl
  | cons c rest ih =>
    cases hsplit : splitDots rest with
    | nil => exact absurd hsplit (splitDots_ne_nil rest)
    | cons piece pieces =>
      rw [hsplit] at ih
      by_cases hc : c = '.'
      · subst hc
        simp only [splitDots, if_true, hsplit, joinDots, List.nil_append, ih]
      · simp only [splitDots, hc, if_false, hsplit]
        cases pieces with
        | nil =>
          simp only [joinDots] at ih ⊢
          rw [ih]
        | cons next others =>
          simp only [joinDots, List.cons_append] at ih ⊢
          rw [ih]

/-- The text with a dot before every bracket does not begin with a bracket. -/
theorem dotBeforeBracket_head (s rest : List Char) :
    dotBeforeBracket s ≠ '[' :: rest := by
  cases s with
  | nil =>
    intro h
    cases h
  | cons c tail =>
    by_cases hc : c = '['
    · simp only [dotBeforeBracket, hc, if_true]
      intro h
      cases h
    · simp only [dotBeforeBracket, hc, if_false]
      intro h
      injection h with h1 _
      exact hc h1

theorem dropDotBeforeBracket_cons (c d : Char) (tail : List Char) (hd : d ≠ '[') :
    dropDotBeforeBracket (c :: d :: tail) = c :: dropDotBeforeBracket (d :: tail) := by
  rw [dropDotBeforeBracket]
  intro r _ h
  injection h with h1 _
  exact hd h1

theorem dropDotBeforeBracket_singleton (c : Char) :
    dropDotBeforeBracket [c] = [c] := by
  rw [dropDotBeforeBracket]
  · rfl
  · intro r _ h
    cases h

/-- Dropping the dot before every bracket undoes putting one there. -/
theorem dropDotBeforeBracket_dotBeforeBracket (s : List Char) :
    dropDotBeforeBracket (dotBeforeBracket s) = s := by
  induction s with
  | nil => rfl
  | cons c rest ih =>
    by_cases hc : c = '['
    · simp only [dotBeforeBracket, hc, if_true, dropDotBeforeBracket, ih]
    · simp only [dotBeforeBracket, hc, if_false]
      cases hrest : dotBeforeBracket rest with
      | nil =>
        rw [hrest] at ih
        rw [dropDotBeforeBracket_singleton, ← ih]
        rfl
      | cons d tail =>
        have hd : d ≠ '[' := by
          intro hd
          subst hd
          exact dotBeforeBracket_head rest tail hrest
        rw [hrest] at ih
        rw [dropDotBeforeBracket_cons c d tail hd, ih]

/-- A string that begins with `$.` is `$.` followed by the rest. -/
theorem toList_of_hasDollarDot (f : String) (h : stringsHasPrefix f "$." = true) :
    f.toList = '$' :: '.' :: trimDollarDot f.toList := by
  unfold stringsHasPrefix at h
  have hpattern : "$.".toList = ['$', '.'] := rfl
  rw [hpattern] at h
  cases hf : f.toList with
  | nil =>
    rw [hf] at h
    cases h
  | cons c rest =>
    rw [hf] at h
    by_cases hc : c = '$'
    · subst hc
      cases rest with
      | nil =>
        simp [hasPrefix] at h
      | cons d tail =>
        by_cases hd : d = '.'
        · subst hd
          rfl
        · simp [hasPrefix, hd] at h
    · simp [hasPrefix, hc] at h

/-- A string that does not begin with `$.` is left alone by the trim. -/
theorem trimDollarDot_of_not_hasDollarDot (f : String) (h : stringsHasPrefix f "$." = false) :
    trimDollarDot f.toList = f.toList := by
  unfold stringsHasPrefix at h
  have hpattern : "$.".toList = ['$', '.'] := rfl
  rw [hpattern] at h
  cases hf : f.toList with
  | nil => rfl
  | cons c rest =>
    rw [hf] at h
    cases rest with
    | nil =>
      unfold trimDollarDot
      split
      · rename_i heq
        cases heq
      · rfl
    | cons d tail =>
      unfold trimDollarDot
      split
      · rename_i heq
        injection heq with h1 h2
        injection h2 with h3 _
        subst h1
        subst h3
        simp [hasPrefix] at h
      · rfl

/-- `convertPathsToField` on the path that `convertFieldsToPaths` gives a field: the
field after `$.` is trimmed from its start, with `$.` in front. -/
theorem convertPathsToField_of_field (f : String) :
    (convertFieldsToPaths [f]).map convertPathsToField
      = ["$." ++ String.mk (trimDollarDot f.toList)] := by
  simp only [convertFieldsToPaths, List.map_cons, List.map_nil, convertPathsToField,
    List.map_map]
  have hid : (String.toList ∘ String.mk) = (id : List Char → List Char) := by
    funext cs
    rfl
  rw [hid, List.map_id, joinDots_splitDots, dropDotBeforeBracket_dotBeforeBracket]

/-- Every key that `convertPathsToField` builds begins with `$.`. -/
theorem hasDollarDot_convertPathsToField (path : List String) :
    stringsHasPrefix (convertPathsToField path) "$." = true := by
  unfold stringsHasPrefix convertPathsToField
  have hlist : ("$." ++
      String.mk (dropDotBeforeBracket (joinDots (List.map String.toList path)))).toList
      = '$' :: '.' :: dropDotBeforeBracket (joinDots (List.map String.toList path)) := by
    show (_ ++ _ : String).data = _
    rw [String.data_append]
    rfl
  rw [hlist]
  have hpattern : "$.".toList = ['$', '.'] := rfl
  rw [hpattern]
  simp [hasPrefix]

/-- The callbacks of `parse` leave under a key to which a reported path converts a
value that the parser reported for such a path. -/
theorem parseCallbacks_get?_of_reported (paths : List (List String)) (key : String) :
    ∀ (invocations : List (Nat × String)) (acc fieldValueMap : GoMap String String),
      RequestEvaluator.parseCallbacks paths invocations acc = .ok fieldValueMap →
      (∃ invocation ∈ invocations, ∃ path : List String,
        paths.get? invocation.1 = some path ∧ convertPathsToField path = key) →
      ∃ invocation ∈ invocations, ∃ path : List String,
        paths.get? invocation.1 = some path ∧ convertPathsToField path = key ∧
        fieldValueMap.get? key = some invocation.2 := by
  intro invocations
  induction invocations with
  | nil =>
    rintro acc fieldValueMap _ ⟨invocation, hmem, _⟩
    simp at hmem
  | cons invocation rest ih =>
    intro acc fieldValueMap hrun hreported
    obtain ⟨idx, value⟩ := invocation
    unfold RequestEvaluator.parseCallbacks at hrun
    cases hpath : paths.get? idx with
    | none =>
      simp only [hpath] at hrun
      cases hrun
    | some path =>
      simp only [hpath] at hrun
      by_cases hlater : ∃ invocation ∈ rest, ∃ path1 : List String,
          paths.get? invocation.1 = some path1 ∧ convertPathsToField path1 = key
      · obtain ⟨invocation1, hmem1, path1, hpath1, hkey1, hget1⟩ := ih _ _ hrun hlater
        exact ⟨invocation1, List.mem_cons_of_mem _ hmem1, path1, hpath1, hkey1, hget1⟩
      · have hkept := parseCallbacks_get?_of_not_reported paths key rest _ fieldValueMap hrun
          (fun invocation1 hmem1 path1 hpath1 hkey1 =>
            hlater ⟨invocation1, hmem1, path1, hpath1, hkey1⟩)
        obtain ⟨invocation0, hmem0, path0, hpath0, hkey0⟩ := hreported
        rcases List.mem_cons.1 hmem0 with hhead | htail
        · subst hhead
          simp only at hpath0
          rw [hpath] at hpath0
          cases hpath0
          refine ⟨(idx, value), List.mem_cons_self _ _, path, hpath, hkey0, ?_⟩
          rw [hkept, GoMap.get?_set, hkey0]
          simp
        · exact absurd ⟨invocation0, htail, path0, hpath0, hkey0⟩ hlater

/-- C40: for a field string `f` that begins with `$.`, `convertPathsToField` applied
to the path that `convertFieldsToPaths` gives `f` returns `f`, as for
`$.imp[0].video.w`, whose path is `imp`, `[0]`, `video`, `w`; for an `f` that does
not begin with `$.` it returns `$.` followed by `f`, which is not `f`. So when such
an `f` is among the fields that `parse` looks up, the map `parse` returns holds the
empty string under `f`, whatever the document, and what the parser extracted for
the path of `f` is held under `$.` followed by `f`. -/
theorem convertPathsToField_of_convertFieldsToPaths (f : String) :
    (stringsHasPrefix f "$." = true →
      (convertFieldsToPaths [f]).map convertPathsToField = [f]) ∧
    (stringsHasPrefix f "$." = false →
      (convertFieldsToPaths [f]).map convertPathsToField = ["$." ++ f] ∧ "$." ++ f ≠ f) ∧
    (convertFieldsToPaths ["$.imp[0].video.w"] = [["imp", "[0]", "video", "w"]] ∧
      convertPathsToField ["imp", "[0]", "video", "w"] = "$.imp[0].video.w") ∧
    (∀ (lib : Library) (b : RequestEvaluator) (openRtbRequest : String)
      (externalFields uniqueFeatureFields : List String) (parsed : GoMap String String),
      stringsHasPrefix f "$." = false →
      b.modelConfigurationHandler.GetAllUniqueFeatureFields = .ok (uniqueFeatureFields, none) →
      f ∈ uniqueFeatureFields ++ externalFields →
      b.parse lib openRtbRequest externalFields = .ok (.ok parsed) →
      parsed.get? f = some "" ∧
      ∀ invocations : List (Nat × String),
        lib.EachKey openRtbRequest
            (convertFieldsToPaths (uniqueFeatureFields ++ externalFields)) = .ok invocations →
        (∃ invocation ∈ invocations, ∃ path : List String,
          (convertFieldsToPaths (uniqueFeatureFields ++ externalFields)).get? invocation.1
            = some path ∧
          convertPathsToField path = "$." ++ f) →
        ∃ invocation ∈ invocations, parsed.get? ("$." ++ f) = some invocation.2) := by
  refine ⟨?_, ?_, ⟨by decide, by decide⟩, ?_⟩
  · intro hstarts
    rw [convertPathsToField_of_field]
    have hlist := toList_of_hasDollarDot f hstarts
    have hsame : "$." ++ String.mk (trimDollarDot f.toList) = f := by
      apply String.ext
      rw [String.data_append]
      have hdata : f.data = '$' :: '.' :: trimDollarDot f.toList := hlist
      rw [hdata]
      rfl
    rw [hsame]
  · intro hnone
    rw [convertPathsToField_of_field, trimDollarDot_of_not_hasDollarDot f hnone]
    refine ⟨rfl, ?_⟩
    intro hsame
    have hlen := congrArg String.length hsame
    rw [String.length_append] at hlen
    have htwo : "$.".length = 2 := rfl
    omega
  · intro lib b openRtbRequest externalFields uniqueFeatureFields parsed hnone hfields hmem
      hparse
    have hkey : ∀ path : List String, convertPathsToField path ≠ f := by
      intro path hsame
      have hhas := hasDollarDot_convertPathsToField path
      rw [hsame, hnone] at hhas
      cases hhas
    simp only [RequestEvaluator.parse, hfields] at hparse
    cases heach : lib.EachKey openRtbRequest
        (convertFieldsToPaths (uniqueFeatureFields ++ externalFields)) with
    | panic =>
      simp only [heach] at hparse
      cases hparse
    | ok invocations =>
      simp only [heach] at hparse
      cases hcallbacks : RequestEvaluator.parseCallbacks
          (convertFieldsToPaths (uniqueFeatureFields ++ externalFields)) invocations [] with
      | panic =>
        simp only [hcallbacks] at hparse
        cases hparse
      | ok fieldValueMap =>
        simp only [hcallbacks, Outcome.ok.injEq, Except.ok.injEq] at hparse
        constructor
        · have hkept := parseCallbacks_get?_of_not_reported _ f invocations [] fieldValueMap
            hcallbacks (fun invocation _ path _ => hkey path)
          have hget := parseFillMissing_get? (uniqueFeatureFields ++ externalFields)
            fieldValueMap f
          rw [hparse] at hget
          have hempty : fieldValueMap.get? f = none := by
            rw [hkept]
            rfl
          rw [hempty] at hget
          simp only [hmem, if_true] at hget
          exact hget
        · intro invocations1 hsame hreported
          cases hsame
          obtain ⟨invocation, hmem1, path, _, _, hvalue⟩ :=
            parseCallbacks_get?_of_reported _ ("$." ++ f) invocations [] fieldValueMap
              hcallbacks hreported
          refine ⟨invocation, hmem1, ?_⟩
          have hget := parseFillMissing_get? (uniqueFeatureFields ++ externalFields)
            fieldValueMap ("$." ++ f)
          rw [hparse, hvalue] at hget
          exact hget

/-- The field `a`: its path converts to `$.a`, so the value `v` that the parser
reports for the path is held under `$.a` and the field `a` is held empty. -/
theorem convertPathsToField_of_convertFieldsToPaths_witness :
    stringsHasPrefix "a" "$." = false ∧
    ((convertFieldsToPaths ["a"]).map convertPathsToField = ["$." ++ "a"] ∧
      "$." ++ "a" ≠ "a") ∧
    bareFieldEvaluator.parse sampleLibrary "\x7b\"a\":\"v\"\x7d" ["$.id"]
      = .ok (.ok [("$.a", "v"), ("a", ""), ("$.id", "")]) :=
  ⟨by decide, (convertPathsToField_of_convertFieldsToPaths "a").2.1 (by decide), by rfl⟩

/-! ### The state of the generator -/

theorem uint64Size_eq : uint64Size = 2 ^ 64 := by decide

theorem xor_xor_xor_comm (a b c d : Nat) :
    (a ^^^ b) ^^^ (c ^^^ d) = (a ^^^ c) ^^^ (b ^^^ d) := by
  apply Nat.eq_of_testBit_eq
  intro i
  simp only [Nat.testBit_xor]
  cases a.testBit i <;> cases b.testBit i <;> cases c.testBit i <;> cases d.testBit i <;> rfl

theorem shiftLeft_xor (x y k : Nat) : (x ^^^ y) <<< k = x <<< k ^^^ y <<< k := by
  apply Nat.eq_of_testBit_eq
  intro i
  simp only [Nat.testBit_shiftLeft, Nat.testBit_xor]
  cases decide (i ≥ k) <;> simp

theorem shiftRight_xor (x y k : Nat) : (x ^^^ y) >>> k = x >>> k ^^^ y >>> k := by
  apply Nat.eq_of_testBit_eq
  intro i
  simp only [Nat.testBit_shiftRight, Nat.testBit_xor]

theorem xor_mod_two_pow (x y n : Nat) : (x ^^^ y) % 2 ^ n = x % 2 ^ n ^^^ y % 2 ^ n := by
  apply Nat.eq_of_testBit_eq
  intro i
  simp only [Nat.testBit_mod_two_pow, Nat.testBit_xor]
  cases decide (i < n) <;> simp

theorem XorLinear.zero {f : Nat → Nat} (hf : XorLinear f) : f 0 = 0 := by
  have h := hf 0 0
  rw [Nat.xor_self, Nat.xor_self] at h
  exact h

theorem XorLinear.comp {f g : Nat → Nat} (hf : XorLinear f) (hg : XorLinear g) :
    XorLinear (fun x => g (f x)) := by
  intro x y
  show g (f (x ^^^ y)) = g (f x) ^^^ g (f y)
  rw [hf, hg]

theorem XorLinear.xor {f g : Nat → Nat} (hf : XorLinear f) (hg : XorLinear g) :
    XorLinear (fun x => f x ^^^ g x) := by
  intro x y
  show f (x ^^^ y) ^^^ g (x ^^^ y) = (f x ^^^ g x) ^^^ (f y ^^^ g y)
  rw [hf, hg, xor_xor_xor_comm]

theorem xorLinear_id : XorLinear (fun x => x) := fun _ _ => rfl

theorem xorLinear_shiftLeft_mod (k n : Nat) : XorLinear (fun x => (x <<< k) % 2 ^ n) := by
  intro x y
  show ((x ^^^ y) <<< k) % 2 ^ n = _
  rw [shiftLeft_xor, xor_mod_two_pow]

theorem xorLinear_shiftLeft (k : Nat) : XorLinear (fun x => x <<< k) :=
  fun x y => shiftLeft_xor x y k

theorem xorLinear_shiftRight (k : Nat) : XorLinear (fun x => x >>> k) :=
  fun x y => shiftRight_xor x y k

theorem xorLinear_mod (n : Nat) : XorLinear (fun x => x % 2 ^ n) :=
  fun x y => xor_mod_two_pow x y n

theorem xorLinear_nextSeed : XorLinear nextSeed := by
  have h1 : XorLinear (fun x => x ^^^ ((x <<< 21) % 2 ^ 64)) :=
    xorLinear_id.xor (xorLinear_shiftLeft_mod 21 64)
  have h2 : XorLinear (fun x => x ^^^ (x >>> 35)) :=
    xorLinear_id.xor (xorLinear_shiftRight 35)
  have h3 : XorLinear (fun x => x ^^^ ((x <<< 4) % 2 ^ 64)) :=
    xorLinear_id.xor (xorLinear_shiftLeft_mod 4 64)
  have h := (h1.comp h2).comp h3
  intro x y
  have hxy := h x y
  simp only [nextSeed, uint64Size_eq]
  exact hxy

theorem applyColumns_fold_xor (columns : List Nat) (indices : List Nat) (x y a b : Nat) :
    indices.foldl
        (fun result i => if (x ^^^ y).testBit i then result ^^^ columns.getD i 0 else result)
        (a ^^^ b)
      = indices.foldl
          (fun result i => if x.testBit i then result ^^^ columns.getD i 0 else result) a
        ^^^ indices.foldl
          (fun result i => if y.testBit i then result ^^^ columns.getD i 0 else result) b := by
  induction indices generalizing a b with
  | nil => rfl
  | cons i rest ih =>
    simp only [List.foldl_cons, Nat.testBit_xor]
    cases hx : x.testBit i <;> cases hy : y.testBit i
    · simpa using ih a b
    · have h := ih a (b ^^^ columns.getD i 0)
      rw [← Nat.xor_assoc] at h
      simpa using h
    · have h := ih (a ^^^ columns.getD i 0) b
      have hswap : a ^^^ columns.getD i 0 ^^^ b = a ^^^ b ^^^ columns.getD i 0 := by
        rw [Nat.xor_assoc, Nat.xor_comm (columns.getD i 0) b, ← Nat.xor_assoc]
      rw [hswap] at h
      simpa using h
    · have h := ih (a ^^^ columns.getD i 0) (b ^^^ columns.getD i 0)
      have hcancel : a ^^^ columns.getD i 0 ^^^ (b ^^^ columns.getD i 0) = a ^^^ b := by
        rw [xor_xor_xor_comm, Nat.xor_self, Nat.xor_zero]
      rw [hcancel] at h
      simpa using h

theorem xorLinear_applyColumns (columns : List Nat) : XorLinear (applyColumns columns) := by
  intro x y
  have h := applyColumns_fold_xor columns (List.range columns.length) x y 0 0
  rw [Nat.xor_self] at h
  exact h

/-- Two linear maps that agree on the powers of two below 2^n agree below 2^n. -/
theorem XorLinear.eq_of_basis {f g : Nat → Nat} (hf : XorLinear f) (hg : XorLinear g)
    (n : Nat) (hbasis : ∀ i : Nat, i < n → f (2 ^ i) = g (2 ^ i)) :
    ∀ x : Nat, x < 2 ^ n → f x = g x := by
  induction n with
  | zero =>
    intro x hx
    have hzero : x = 0 := by
      simp at hx
      exact hx
    rw [hzero, hf.zero, hg.zero]
  | succ n ih =>
    intro x hx
    have hlow : x % 2 ^ n < 2 ^ n := Nat.mod_lt _ (Nat.two_pow_pos n)
    have hsplit : x = x % 2 ^ n ^^^ (if x.testBit n then 2 ^ n else 0) := by
      apply Nat.eq_of_testBit_eq
      intro i
      rw [Nat.testBit_xor, Nat.testBit_mod_two_pow]
      by_cases hi : i < n
      · have hne : ¬ n = i := by omega
        cases hbit : x.testBit n <;> simp [hi, Nat.testBit_two_pow, hne]
      · by_cases hin : i = n
        · subst hin
          cases hbit : x.testBit i <;> simp [Nat.testBit_two_pow]
        · have hhigh : x.testBit i = false := by
            apply Nat.testBit_lt_two_pow
            calc x < 2 ^ (n + 1) := hx
              _ ≤ 2 ^ i := Nat.pow_le_pow_right (by decide) (by omega)
          have hne : ¬ n = i := fun h => hin h.symm
          cases hbit : x.testBit n <;> simp [hi, hhigh, Nat.testBit_two_pow, hne]
    rw [hsplit, hf, hg, ih (fun i hi => hbasis i (by omega)) _ hlow]
    cases x.testBit n
    · simp only [Bool.false_eq_true, if_false, hf.zero, hg.zero]
    · simp only [if_true, hbasis n (by omega)]

set_option maxRecDepth 100000 in
theorem fixedPoint_basis :
    ∀ i : Nat, i < 64 → applyColumns fixedPointColumns (nextSeed (2 ^ i) ^^^ 2 ^ i) = 2 ^ i := by
  decide


/-- A state and its left shift, XORed, determine the state. -/
theorem leftShiftXor_injective (k : Nat) (hk : 0 < k) (n x y : Nat)
    (h : x ^^^ ((x <<< k) % 2 ^ n) = y ^^^ ((y <<< k) % 2 ^ n)) : x = y := by
  apply Nat.eq_of_testBit_eq
  intro i
  induction i using Nat.strong_induction_on with
  | _ i ih =>
    have hbit := congrArg (fun z => z.testBit i) h
    simp only [Nat.testBit_xor, Nat.testBit_mod_two_pow, Nat.testBit_shiftLeft] at hbit
    have hcancel : ∀ a b c : Bool, (a ^^ c) = (b ^^ c) → a = b := by decide
    by_cases hik : i ≥ k
    · have hprev := ih (i - k) (by omega)
      rw [hprev] at hbit
      exact hcancel _ _ _ hbit
    · simp only [hik, decide_False, Bool.false_and, Bool.and_false, Bool.xor_false] at hbit
      exact hbit

/-- A state below 2^n and its right shift, XORed, determine the state. -/
theorem rightShiftXor_injective (k : Nat) (hk : 0 < k) (n x y : Nat)
    (hx : x < 2 ^ n) (hy : y < 2 ^ n)
    (h : x ^^^ (x >>> k) = y ^^^ (y >>> k)) : x = y := by
  have hbits : ∀ m i : Nat, n ≤ i + m → x.testBit i = y.testBit i := by
    intro m
    induction m with
    | zero =>
      intro i hi
      have hpow : 2 ^ n ≤ 2 ^ i := Nat.pow_le_pow_right (by decide) (by omega)
      rw [Nat.testBit_lt_two_pow (lt_of_lt_of_le hx hpow),
        Nat.testBit_lt_two_pow (lt_of_lt_of_le hy hpow)]
    | succ m ih =>
      intro i hi
      have hbit := congrArg (fun z => z.testBit i) h
      simp only [Nat.testBit_xor, Nat.testBit_shiftRight] at hbit
      have hcancel : ∀ a b c : Bool, (a ^^ c) = (b ^^ c) → a = b := by decide
      have hnext := ih (k + i) (by omega)
      rw [hnext] at hbit
      exact hcancel _ _ _ hbit
  apply Nat.eq_of_testBit_eq
  intro i
  exact hbits n i (by omega)

theorem leftShiftXor_lt (k x : Nat) (hx : x < 2 ^ 64) :
    x ^^^ ((x <<< k) % 2 ^ 64) < 2 ^ 64 :=
  Nat.xor_lt_two_pow hx (Nat.mod_lt _ (Nat.two_pow_pos 64))

theorem rightShiftXor_lt (k x : Nat) (hx : x < 2 ^ 64) : x ^^^ (x >>> k) < 2 ^ 64 := by
  apply Nat.xor_lt_two_pow hx
  rw [Nat.shiftRight_eq_div_pow]
  exact lt_of_le_of_lt (Nat.div_le_self _ _) hx

theorem nextSeed_lt (x : Nat) (hx : x < uint64Size) : nextSeed x < uint64Size := by
  rw [uint64Size_eq] at hx ⊢
  simp only [nextSeed, uint64Size_eq]
  exact leftShiftXor_lt 4 _ (rightShiftXor_lt 35 _ (leftShiftXor_lt 21 x hx))

theorem nextSeed_injective (x y : Nat) (hx : x < uint64Size) (hy : y < uint64Size)
    (h : nextSeed x = nextSeed y) : x = y := by
  rw [uint64Size_eq] at hx hy
  simp only [nextSeed, uint64Size_eq] at h
  have h3 := leftShiftXor_injective 4 (by decide) 64 _ _ h
  have h2 := rightShiftXor_injective 35 (by decide) 64 _ _
    (leftShiftXor_lt 21 x hx) (leftShiftXor_lt 21 y hy) h3
  exact leftShiftXor_injective 21 (by decide) 64 _ _ h2

theorem nextSeed_fixedPoint (x : Nat) (hx : x < uint64Size) (h : nextSeed x = x) : x = 0 := by
  rw [uint64Size_eq] at hx
  have hlinear : XorLinear (fun x => applyColumns fixedPointColumns (nextSeed x ^^^ x)) :=
    (xorLinear_nextSeed.xor xorLinear_id).comp (xorLinear_applyColumns fixedPointColumns)
  have hrecover := hlinear.eq_of_basis xorLinear_id 64 fixedPoint_basis x hx
  simp only [h, Nat.xor_self] at hrecover
  rw [← hrecover]
  decide

set_option maxRecDepth 100000 in
theorem outputs_basis :
    ∀ i : Nat, i < 64 → applyColumns outputColumns (nextOutputs (2 ^ i)) = 2 ^ i := by
  decide

theorem xorLinear_nextOutputs : XorLinear nextOutputs := by
  intro x y
  have h1 := xorLinear_nextSeed x y
  have h2 := xorLinear_nextSeed (nextSeed x) (nextSeed y)
  have h3 := xorLinear_nextSeed (nextSeed (nextSeed x)) (nextSeed (nextSeed y))
  unfold nextOutputs
  rw [h1, h2, h3, xor_mod_two_pow, xor_mod_two_pow, xor_mod_two_pow, shiftLeft_xor,
    shiftLeft_xor]
  apply Nat.eq_of_testBit_eq
  intro i
  simp only [Nat.testBit_xor]
  generalize (nextSeed x % 2 ^ 32).testBit i = a1
  generalize (nextSeed y % 2 ^ 32).testBit i = b1
  generalize ((nextSeed (nextSeed x) % 2 ^ 32) <<< 32).testBit i = a2
  generalize ((nextSeed (nextSeed y) % 2 ^ 32) <<< 32).testBit i = b2
  generalize ((nextSeed (nextSeed (nextSeed x)) % 2 ^ 32) <<< 64).testBit i = a3
  generalize ((nextSeed (nextSeed (nextSeed y)) % 2 ^ 32) <<< 64).testBit i = b3
  cases a1 <;> cases b1 <;> cases a2 <;> cases b2 <;> cases a3 <;> cases b3 <;> rfl

theorem zero_of_three_zero_outputs (x : Nat) (hx : x < uint64Size)
    (h1 : nextSeed x % 2 ^ 32 = 0) (h2 : nextSeed (nextSeed x) % 2 ^ 32 = 0)
    (h3 : nextSeed (nextSeed (nextSeed x)) % 2 ^ 32 = 0) : x = 0 := by
  rw [uint64Size_eq] at hx
  have hlinear : XorLinear (fun x => applyColumns outputColumns (nextOutputs x)) := by
    intro a b
    show applyColumns outputColumns (nextOutputs (a ^^^ b)) = _
    rw [xorLinear_nextOutputs, xorLinear_applyColumns]
  have hrecover := hlinear.eq_of_basis xorLinear_id 64 outputs_basis x hx
  simp only [nextOutputs, h1, h2, h3] at hrecover
  rw [← hrecover]
  decide


/-- `Rand` stores `nextSeed` of the seed and returns its low 32 bits. -/
theorem rand_eq_nextSeed (t : TrafficAllocator) :
    t.Rand.2.seed = nextSeed t.seed ∧ t.Rand.1 = nextSeed t.seed % 2 ^ 32 := by
  refine ⟨rfl, ?_⟩
  show (nextSeed t.seed &&& 4294967295) % uint32Size = nextSeed t.seed % 2 ^ 32
  have hmask : (4294967295 : Nat) = 2 ^ 32 - 1 := by decide
  have hsize : uint32Size = 2 ^ 32 := by decide
  rw [hmask, Nat.and_pow_two_sub_one_eq_mod, hsize, Nat.mod_mod]

theorem randTimes_seed_ne_zero (calls : Nat) :
    ∀ t : TrafficAllocator, t.seed < uint64Size → t.seed ≠ 0 →
      (randTimes calls t).seed ≠ 0 ∧ (randTimes calls t).seed < uint64Size := by
  induction calls with
  | zero =>
    intro t hlt hne
    exact ⟨hne, hlt⟩
  | succ calls ih =>
    intro t hlt hne
    apply ih t.Rand.2
    · exact nextSeed_lt t.seed hlt
    · intro hzero
      have hzero1 : nextSeed t.seed = nextSeed 0 := by
        rw [show nextSeed 0 = 0 by decide]
        exact hzero
      exact hne (nextSeed_injective t.seed 0 hlt (by decide) hzero1)

/-- C38: for an allocator whose seed is a `uint64`, `Rand` stores the state that the
three shifts give and returns its low 32 bits. The update is injective on the
64-bit states, and it maps a non-zero state to a non-zero state, so an allocator
whose seed is non-zero has a non-zero seed after any number of calls. The all-zero
state is a fixed point at which `Rand` returns 0 and stays; it is the only fixed
point of the update, and the only state from which `Rand` returns 0 on the next
three calls, hence on every call. -/
theorem rand_state_update_is_injective (t : TrafficAllocator) (hseed : t.seed < uint64Size) :
    (t.Rand.2.seed
        = (fun x => x ^^^ ((x <<< 4) % uint64Size))
            ((fun x => x ^^^ (x >>> 35)) ((fun x => x ^^^ ((x <<< 21) % uint64Size)) t.seed)) ∧
      t.Rand.2.seed < uint64Size ∧
      t.Rand.1 = t.Rand.2.seed % 2 ^ 32) ∧
    (∀ u : TrafficAllocator, u.seed < uint64Size → u.Rand.2.seed = t.Rand.2.seed →
      u.seed = t.seed) ∧
    (t.seed ≠ 0 → t.Rand.2.seed ≠ 0 ∧ ∀ calls : Nat, (randTimes calls t).seed ≠ 0) ∧
    (t.seed = 0 → t.Rand.1 = 0 ∧ t.Rand.2 = t) ∧
    (t.Rand.2.seed = t.seed → t.seed = 0) ∧
    (t.Rand.1 = 0 → t.Rand.2.Rand.1 = 0 → t.Rand.2.Rand.2.Rand.1 = 0 → t.seed = 0) := by
  obtain ⟨hnext, hlow⟩ := rand_eq_nextSeed t
  refine ⟨⟨rfl, ?_, ?_⟩, ?_, ?_, ?_, ?_, ?_⟩
  · rw [hnext]
    exact nextSeed_lt t.seed hseed
  · rw [hlow, hnext]
  · intro u hu hsame
    rw [(rand_eq_nextSeed u).1, hnext] at hsame
    exact nextSeed_injective u.seed t.seed hu hseed hsame
  · intro hne
    refine ⟨(randTimes_seed_ne_zero 1 t hseed hne).1,
      fun calls => (randTimes_seed_ne_zero calls t hseed hne).1⟩
  · intro hzero
    have hstate : nextSeed 0 = 0 := by decide
    refine ⟨?_, ?_⟩
    · rw [hlow, hzero, hstate]
      rfl
    · have hsame : t.Rand.2.seed = t.seed := by rw [hnext, hzero, hstate]
      have hfields : t.Rand.2
          = { experimentConfiguration := t.experimentConfiguration,
              experimentThresholds := t.experimentThresholds,
              seed := t.Rand.2.seed } := rfl
      rw [hfields, hsame]
  · intro hfixed
    rw [hnext] at hfixed
    exact nextSeed_fixedPoint t.seed hseed hfixed
  · intro h1 h2 h3
    have hnext2 := rand_eq_nextSeed t.Rand.2
    have hnext3 := rand_eq_nextSeed t.Rand.2.Rand.2
    rw [hlow] at h1
    rw [hnext2.2, hnext] at h2
    rw [hnext3.2, hnext2.1, hnext] at h3
    exact zero_of_three_zero_outputs t.seed hseed h1 h2 h3

/-- The allocator made when the clock reads 1700000000 s and 123456789 ns: its seed
is not zero, the first call of `Rand` returns 1825784141, the low 32 bits of the
state 960085029689704781 that it stores, and the seed is not zero after a thousand
calls. -/
theorem rand_state_update_is_injective_witness :
    freshAllocator.seed < uint64Size ∧
    (freshAllocator.seed = 1700000000123456789 ∧
      freshAllocator.Rand.2.seed = 960085029689704781 ∧
      freshAllocator.Rand.1 = 1825784141) ∧
    freshAllocator.Rand.1 = freshAllocator.Rand.2.seed % 2 ^ 32 ∧
    (randTimes 1000 freshAllocator).seed ≠ 0 :=
  ⟨by decide, by decide,
    (rand_state_update_is_injective freshAllocator (by decide)).1.2.2,
    ((rand_state_update_is_injective freshAllocator (by decide)).2.2.1 (by decide)).2 1000⟩

end DynamicTrafficEngine
